import Mathlib

/-!
# Grasp analysis core of the OpenRAVE grasper plugin

A shallow embedding of `plugins/grasper/grasper.h` and of the class
`IdealController` of `plugins/basecontrollers/basecontrollers.h`.  The scalar
type `dReal` (and `double`) is modelled by an arbitrary linearly ordered
field `K`: the definitions are executable over `ℚ` and the analytic
statements are proved over `ℝ`.  Rounding of machine floats is outside the
model.  A method that changes the object it is called on is a function from
the state before the call to its result and the state after it.
-/

namespace Grasper

/-- Modelled from the spec: the `Vector` class of the OpenRAVE core, whose
declaration is not part of the plugin sources.  Section 3 of the
specification describes it as a triple of reals with addition, subtraction,
scalar multiply, dot, cross, 3-norm and normalization. -/
structure Vec3 (K : Type) where
  x : K
  y : K
  z : K
deriving DecidableEq, Repr

namespace Vec3

variable {K : Type} [LinearOrderedField K]

/-- Component-wise sum, `operator+` of the vector class. -/
def add (a b : Vec3 K) : Vec3 K := ⟨a.x + b.x, a.y + b.y, a.z + b.z⟩

/-- Component-wise difference, `operator-` of the vector class. -/
def sub (a b : Vec3 K) : Vec3 K := ⟨a.x - b.x, a.y - b.y, a.z - b.z⟩

/-- Unary minus of the vector class. -/
def neg (a : Vec3 K) : Vec3 K := ⟨-a.x, -a.y, -a.z⟩

/-- Scalar multiple, `operator*` with a scalar. -/
def smul (s : K) (a : Vec3 K) : Vec3 K := ⟨s * a.x, s * a.y, s * a.z⟩

/-- Dot product of the three spatial components, `dot3`. -/
def dot3 (a b : Vec3 K) : K := a.x * b.x + a.y * b.y + a.z * b.z

/-- Cross product, `cross`. -/
def cross (a b : Vec3 K) : Vec3 K :=
  ⟨a.y * b.z - a.z * b.y, a.z * b.x - a.x * b.z, a.x * b.y - a.y * b.x⟩

/-- Squared 3-norm, `lengthsqr3`. -/
def lengthsqr3 (a : Vec3 K) : K := a.x * a.x + a.y * a.y + a.z * a.z

/-- Normalization `normalize3`, scaling by the inverse of the 3-norm; the
square root is the library routine `RaveSqrt`, passed as `sqrt`. -/
def normalize3 (sqrt : K → K) (a : Vec3 K) : Vec3 K := smul (1 / sqrt (lengthsqr3 a)) a

end Vec3

variable {K : Type} [LinearOrderedField K]

/-! ## Stable-contact admissibility (`_GetStableContacts`, lines 861-866) -/

/-- The Coulomb-cone test of `_GetStableContacts`:
`fsin2 = norm.cross(deltaxyz).lengthsqr3()`, `fcos = norm.dot3(deltaxyz)`,
`bstable = fcos > 0 && fsin2 <= fcos*fcos*mu*mu`. -/
def bstable (norm deltaxyz : Vec3 K) (mu : K) : Bool :=
  let fsin2 := (norm.cross deltaxyz).lengthsqr3
  let fcos := norm.dot3 deltaxyz
  decide (fcos > 0) && decide (fsin2 ≤ fcos * fcos * mu * mu)

/-! ## Data model -/

/-- The record `CollisionReport::CONTACT`: contact position, contact normal
and penetration depth. -/
structure CONTACT (K : Type) where
  pos : Vec3 K
  norm : Vec3 K
  depth : K
deriving DecidableEq, Repr

/-- The record `GRASPANALYSIS`; its constructor sets both fields to zero. -/
structure GRASPANALYSIS (K : Type) where
  mindist : K
  volume : K
deriving DecidableEq, Repr

/-- The exceptions the analysis code raises: the `openrave_exception`s thrown
by `_AnalyzeContacts3D` and `_ComputeConvexHull`, and the `std::out_of_range`
of a failed `vector::at`. -/
inductive GraspError where
  | needSevenWrenches
  | qhullFailed (exitcode : Int)
  | outOfRange
deriving DecidableEq, Repr

/-- Modelled from the spec: the scalar and rotation routines of the OpenRAVE
core that the plugin calls and whose code is not part of the plugin sources
(`RaveSqrt`, `RaveSin`, `RaveCos`, `RaveAtan2`, the constant `PI`,
`quatRotateDirection` and `matrixFromQuat`, the latter returning the twelve
entries `m[0..11]` of a `TransformMatrix`). -/
structure RaveLib (K : Type) where
  RaveSqrt : K → K
  RaveSin : K → K
  RaveCos : K → K
  RaveAtan2 : K → K → K
  PI : K
  quatRotateDirection : Vec3 K → Vec3 K → K × K × K × K
  matrixFromQuat : K × K × K × K → List K

/-! ## Convex-hull service (`_ComputeConvexHull`, lines 934-1020) -/

/-- One facet of the hull as the kernel reports it (`facetT`): the point ids
of `facet->vertices` and the array `facet->normal` (each `none` when the
pointer is null), and `facet->offset`. -/
structure Facet (K : Type) where
  vertices : Option (List Nat)
  normal : Option (List K)
  offset : K

/-- Outcome of `qh_new_qhull`: its exit code, the facet list `qh facet_list`
and the volume `qh totvol`. -/
structure QhullResult (K : Type) where
  exitcode : Int
  facets : List (Facet K)
  totvol : K

/-- The facet loop of `_ComputeConvexHull`, plane part: every facet with a
normal appends `normal[0..dim)` and then `offset` to `vconvexplanes`. -/
def rawPlanes (dim : Nat) (facets : List (Facet K)) : List K :=
  facets.foldl
    (fun acc f =>
      match f.normal with
      | some nrm => acc ++ (List.range dim).map (fun i => nrm.getD i 0) ++ [f.offset]
      | none => acc)
    []

/-- The facet loop of `_ComputeConvexHull`, face part: `vconvexfaces` starts
as `[0]`; every facet with a vertex set appends its vertex count followed by
its point ids and increments the leading face count. -/
def rawFaces (facets : List (Facet K)) : List Nat :=
  facets.foldl
    (fun acc f =>
      match f.vertices with
      | some vs => (acc.set 0 (acc.getD 0 0 + 1)) ++ (vs.length :: vs)
      | none => acc)
    [0]

/-- Number of iterations of `for (i = 0; i < size; i += stride)`. -/
def forCount (size stride : Nat) : Nat := (size + stride - 1) / stride

/-- The mean point `vmean` of `_ComputeConvexHull`: for every coordinate `j`
the sum of `vpoints[i+j]` over `i = 0, dim, 2 dim, ... < size`, multiplied by
`fipoints = 1/(size/dim)`. -/
def vmeanOf (dim : Nat) (vpoints : List K) : List K :=
  let fipoints : K := 1 / ((vpoints.length / dim : Nat) : K)
  (List.range dim).map fun j =>
    (List.range (forCount vpoints.length dim)).foldl
      (fun acc t => acc + vpoints.getD (t * dim + j) 0) 0 * fipoints

/-- The value `meandist` of one plane block: `sum_j block[j] * vmean[j]` over
`j < dim`, plus the offset `block[dim]`. -/
def meandistOf (dim : Nat) (vmean block : List K) : K :=
  (List.range dim).foldl (fun acc j => acc + block.getD j 0 * vmean.getD j 0) 0
    + block.getD dim 0

/-- The body of the orientation loop of `_ComputeConvexHull` on the block
`vconvexplanes[i .. i+dim]` of one plane: when `meandist > 0` the `dim`
normal entries of the block are negated; the offset entry is left as it is. -/
def flipBlock (dim : Nat) (vmean block : List K) : List K :=
  if meandistOf dim vmean block > 0 then
    (block.take dim).map (fun v => -v) ++ block.drop dim
  else block

/-- The orientation loop of `_ComputeConvexHull`
(`for (i = 0; i < vconvexplanes.size(); i += dim+1)`): the argument is the
part of `vconvexplanes` from index `i` on, and every iteration rewrites the
block of `dim+1` entries that starts there. -/
def flipPlanes (dim : Nat) (vmean : List K) : List K → List K
  | [] => []
  | a :: l =>
    flipBlock dim vmean ((a :: l).take (dim + 1))
      ++ flipPlanes dim vmean ((a :: l).drop (dim + 1))
termination_by l => l.length
decreasing_by simp_wf; omega

/-- The function `_ComputeConvexHull`.  `qhull dim numpoints points` is the
external kernel `qh_new_qhull`; `wantfaces` tells whether the caller passed a
non-null `vconvexfaces`.  The result is the returned volume together with
the final `vconvexplanes` and, when requested, `vconvexfaces`. -/
def _ComputeConvexHull (qhull : Nat → Nat → List K → QhullResult K)
    (vpoints : List K) (wantfaces : Bool) (dim : Nat) :
    Except GraspError (K × List K × Option (List Nat)) :=
  let r := qhull dim (vpoints.length / dim) vpoints
  if r.exitcode ≠ 0 then .error (.qhullFailed r.exitcode)
  else
    let vconvexfaces := if wantfaces then some (rawFaces r.facets) else none
    let vconvexplanes := rawPlanes dim r.facets
    .ok (r.totvol, flipPlanes dim (vmeanOf dim vpoints) vconvexplanes, vconvexfaces)

/-! ## Force-closure analysis (`_AnalyzeContacts3D`, lines 872-929) -/

/-- The point cloud of `_AnalyzeContacts3D`: six reals per contact, the
normal followed by `pos.cross(norm)`. -/
def wrenchPoints (contacts : List (CONTACT K)) : List K :=
  contacts.foldl
    (fun acc c =>
      let v := c.pos.cross c.norm
      acc ++ [c.norm.x, c.norm.y, c.norm.z, v.x, v.y, v.z])
    []

/-- The facet loop of `_AnalyzeContacts3D`
(`for (i = 0; i < vconvexplanes.size(); i += 7)`), started at index `i` with
the running minimum `mindist`.  `none` is the early `return analysis`, taken
when the offset at `i+6` is positive or smaller than `1e-15` in absolute
value; `some d` is the minimum handed to `analysis.mindist`. -/
def mindistLoop (vconvexplanes : List K) (i : Nat) (mindist : K) :
    Except GraspError (Option K) :=
  if i < vconvexplanes.length then
    match vconvexplanes[i + 6]? with
    | none => .error .outOfRange
    | some b =>
      if b > 0 ∨ |b| < 1 / 10 ^ 15 then .ok none
      else mindistLoop vconvexplanes (i + 7) (min mindist (-b))
  else .ok (some mindist)
termination_by vconvexplanes.length - i
decreasing_by simp_wf; omega

/-- The overload `_AnalyzeContacts3D(contacts)`. -/
def _AnalyzeContacts3D (qhull : Nat → Nat → List K → QhullResult K)
    (contacts : List (CONTACT K)) : Except GraspError (GRASPANALYSIS K) :=
  if contacts.length < 7 then .error .needSevenWrenches
  else
    match _ComputeConvexHull qhull (wrenchPoints contacts) false 6 with
    | .error e => .error e
    | .ok (volume, vconvexplanes, _) =>
      match mindistLoop vconvexplanes 0 (10 ^ 30) with
      | .error e => .error e
      | .ok none => .ok ⟨0, volume⟩
      | .ok (some mindist) => .ok ⟨mindist, volume⟩

/-- The table `vsincos` of `_AnalyzeContacts3D`: entry `k` holds the sine and
cosine of the angle `fang` reached after `k` additions of `fdeltaang`. -/
def vsincos (lib : RaveLib K) (Nconepoints : Nat) : List (K × K) :=
  let fdeltaang : K := 2 * lib.PI / (Nconepoints : K)
  ((List.range Nconepoints).foldl
    (fun (st : List (K × K) × K) _ =>
      (st.1 ++ [(lib.RaveSin st.2, lib.RaveCos st.2)], st.2 + fdeltaang))
    ([], 0)).1

/-- The cone discretization of `_AnalyzeContacts3D`: for every contact the
frame `torient`, its first two columns `right` and `up`, and one new contact
per entry of `vsincos`. -/
def newcontacts (lib : RaveLib K) (contacts : List (CONTACT K)) (mu : K)
    (Nconepoints : Nat) : List (CONTACT K) :=
  contacts.foldl
    (fun acc c =>
      let torient := lib.matrixFromQuat (lib.quatRotateDirection ⟨0, 0, 1⟩ c.norm)
      let right : Vec3 K := ⟨torient.getD 0 0, torient.getD 4 0, torient.getD 8 0⟩
      let up : Vec3 K := ⟨torient.getD 1 0, torient.getD 5 0, torient.getD 9 0⟩
      acc ++ (vsincos lib Nconepoints).map fun sc =>
        ⟨c.pos,
         Vec3.normalize3 lib.RaveSqrt
           ((c.norm.add (Vec3.smul (mu * sc.1) right)).add (Vec3.smul (mu * sc.2) up)),
         0⟩)
    []

/-- The overload `_AnalyzeContacts3D(contacts, mu, Nconepoints)`.  The count
`Nconepoints` is a natural number; the only caller passes 8. -/
def _AnalyzeContacts3D_mu (lib : RaveLib K) (qhull : Nat → Nat → List K → QhullResult K)
    (contacts : List (CONTACT K)) (mu : K) (Nconepoints : Nat) :
    Except GraspError (GRASPANALYSIS K) :=
  if mu = 0 then _AnalyzeContacts3D qhull contacts
  else _AnalyzeContacts3D qhull (newcontacts lib contacts mu Nconepoints)

/-! ## Face triangulation of the `ConvexHull` command (lines 466-524) -/

/-- The bounds-checked read `v.at(i)`, which throws `std::out_of_range`. -/
def vecAt {α : Type} (v : List α) (i : Nat) : Except GraspError α :=
  match v[i]? with
  | some a => .ok a
  | none => .error .outOfRange

/-- The comparator `sort_pair_first`: `left.first < right.first`. -/
def sort_pair_first (left right : K × Nat) : Bool := decide (left.1 < right.1)

/-- Modelled from the spec: the library routine `std::sort` called with the
comparator `sort_pair_first`, whose code is not part of the plugin sources.
It may return any rearrangement of its input in which no later element
compares less than an earlier one; equal keys may come in any order. -/
def IsStdSort (sortFn : List (K × Nat) → List (K × Nat)) : Prop :=
  ∀ l, (sortFn l).Perm l ∧
    (sortFn l).Pairwise fun a b => sort_pair_first b a = false

/-- The point `vpoints[pointindex*dim + j]`, `j = 0,1,2`, for `dim = 3`. -/
def point3 (vpoints : List K) (pointindex : Nat) : Vec3 K :=
  ⟨vpoints.getD (pointindex * 3 + 0) 0, vpoints.getD (pointindex * 3 + 1) 0,
    vpoints.getD (pointindex * 3 + 2) 0⟩

/-- The first `n` iterations of the loop that accumulates `meanpoint` over
the vertices `vconvexfaces->at(faceindex+i+1)` of one face. -/
def sumPoints (vpoints : List K) (vconvexfaces : List Nat) (faceindex : Nat) :
    Nat → Except GraspError (Vec3 K)
  | 0 => .ok ⟨0, 0, 0⟩
  | n + 1 =>
    match sumPoints vpoints vconvexfaces faceindex n with
    | .error e => .error e
    | .ok acc =>
      match vecAt vconvexfaces (faceindex + n + 1) with
      | .error e => .error e
      | .ok pointindex => .ok (acc.add (point3 vpoints pointindex))

/-- The angle assigned to a vertex: `atan2(sinang, cosang)` with
`sinang = plane · (point0 x point1)` and `cosang = point0 · point1`, moved
into `[0, 2 PI)` by adding `2*PI` when negative. -/
def angleOf (lib : RaveLib K) (plane point0 point1 : Vec3 K) : K :=
  let sinang := plane.x * (point0.y * point1.z - point0.z * point1.y)
    + plane.y * (point0.z * point1.x - point0.x * point1.z)
    + plane.z * (point0.x * point1.y - point0.y * point1.x)
  let cosang := point0.x * point1.x + point0.y * point1.y + point0.z * point1.z
  let a := lib.RaveAtan2 sinang cosang
  if a < 0 then a + 2 * lib.PI else a

/-- The first `n` entries of the array `angles` of one face: entry 0 is
`(0, 0)`, entry `i ≥ 1` is the angle of vertex `i` paired with `i`. -/
def anglesLoop (lib : RaveLib K) (vpoints : List K) (vconvexfaces : List Nat)
    (faceindex : Nat) (plane meanpoint point0 : Vec3 K) :
    Nat → Except GraspError (List (K × Nat))
  | 0 => .ok []
  | n + 1 =>
    match anglesLoop lib vpoints vconvexfaces faceindex plane meanpoint point0 n with
    | .error e => .error e
    | .ok angles =>
      if n = 0 then .ok (angles ++ [(0, 0)])
      else
        match vecAt vconvexfaces (faceindex + n + 1) with
        | .error e => .error e
        | .ok pointindex =>
          let point1 := (point3 vpoints pointindex).sub meanpoint
          .ok (angles ++ [(angleOf lib plane point0 point1, n)])

/-- The first `n` iterations (`i = 2, ..., n+1`) of the loop that writes the
fan triangles `(angles[0], angles[i-1], angles[i])` of one face. -/
def emitLoop (vconvexfaces : List Nat) (faceindex : Nat) (angles : List (K × Nat)) :
    Nat → Except GraspError (List Nat)
  | 0 => .ok []
  | n + 1 =>
    match emitLoop vconvexfaces faceindex angles n with
    | .error e => .error e
    | .ok out =>
      match vecAt vconvexfaces (faceindex + 1 + (angles.getD 0 (0, 0)).2),
        vecAt vconvexfaces (faceindex + 1 + (angles.getD (n + 1) (0, 0)).2),
        vecAt vconvexfaces (faceindex + 1 + (angles.getD (n + 2) (0, 0)).2) with
      | .ok a, .ok b, .ok c => .ok (out ++ [a, b, c])
      | .error e, _, _ => .error e
      | _, .error e, _ => .error e
      | _, _, .error e => .error e

/-- The body of the triangulation loop for the face stored at `faceindex`
whose plane is stored at `planeindex`: mean point, reference vector
`point0`, the angles, their sort and the fan triangles. -/
def triangulateFace (lib : RaveLib K) (sortFn : List (K × Nat) → List (K × Nat))
    (vpoints vconvexplanes : List K) (vconvexfaces : List Nat)
    (faceindex planeindex numpoints : Nat) : Except GraspError (List Nat) :=
  match sumPoints vpoints vconvexfaces faceindex numpoints with
  | .error e => .error e
  | .ok sum =>
    match vecAt vconvexfaces (faceindex + 1) with
    | .error e => .error e
    | .ok pointindex0 =>
      let meanpoint : Vec3 K :=
        ⟨sum.x / (numpoints : K), sum.y / (numpoints : K), sum.z / (numpoints : K)⟩
      let point0 := (point3 vpoints pointindex0).sub meanpoint
      let plane : Vec3 K :=
        ⟨vconvexplanes.getD (planeindex + 0) 0, vconvexplanes.getD (planeindex + 1) 0,
          vconvexplanes.getD (planeindex + 2) 0⟩
      match anglesLoop lib vpoints vconvexfaces faceindex plane meanpoint point0 numpoints with
      | .error e => .error e
      | .ok angles =>
        let sorted := sortFn angles
        emitLoop vconvexfaces faceindex sorted (sorted.length - 2)

/-- The loop that counts the triangles:
`numtriangles += vconvexfaces->at(faceindex)-2; faceindex += vconvexfaces->at(faceindex)+1`. -/
def numtrianglesLoop (vconvexfaces : List Nat) (faceindex : Nat) (numtriangles : Int) : Int :=
  if h : faceindex < vconvexfaces.length then
    numtrianglesLoop vconvexfaces (faceindex + vconvexfaces[faceindex] + 1)
      (numtriangles + (vconvexfaces[faceindex] : Int) - 2)
  else numtriangles
termination_by vconvexfaces.length - faceindex
decreasing_by simp_wf; omega

/-- The loop over the faces that writes the triangles, started at
`faceindex` and `planeindex` with the ids `out` already written. -/
def trianglesLoop (lib : RaveLib K) (sortFn : List (K × Nat) → List (K × Nat))
    (vpoints vconvexplanes : List K) (vconvexfaces : List Nat)
    (faceindex planeindex : Nat) (out : List Nat) : Except GraspError (List Nat) :=
  if h : faceindex < vconvexfaces.length then
    match triangulateFace lib sortFn vpoints vconvexplanes vconvexfaces faceindex planeindex
        vconvexfaces[faceindex] with
    | .error e => .error e
    | .ok tris =>
      trianglesLoop lib sortFn vpoints vconvexplanes vconvexfaces
        (faceindex + vconvexfaces[faceindex] + 1) (planeindex + (3 + 1)) (out ++ tris)
  else .ok out
termination_by vconvexfaces.length - faceindex
decreasing_by simp_wf; omega

/-- The triangles section of the `ConvexHull` command for `dim = 3`: the
count `numtriangles` followed by the vertex ids of the triangles. -/
def ConvexHull_triangles (lib : RaveLib K) (sortFn : List (K × Nat) → List (K × Nat))
    (vpoints vconvexplanes : List K) (vconvexfaces : List Nat) :
    Except GraspError (Int × List Nat) :=
  match trianglesLoop lib sortFn vpoints vconvexplanes vconvexfaces 1 0 [] with
  | .error e => .error e
  | .ok tris => .ok (numtrianglesLoop vconvexfaces 1 0, tris)

/-! ## Sphere triangulation (`GenerateSphereTriangulation`, lines 591-689) -/

/-- The record `KinBody::Link::TRIMESH`: vertices and triangle indices, three
per triangle.  Indices are natural numbers: the overflow of the machine `int`
at `2^31` vertices is outside the model. -/
structure TRIMESH (K : Type) where
  vertices : List (Vec3 K)
  indices : List Nat

/-- The constant `GTS_M_ICOSAHEDRON_X`. -/
def GTS_M_ICOSAHEDRON_X : K := 850650808352039932181540497063011072240401406 / 10 ^ 45

/-- The constant `GTS_M_ICOSAHEDRON_Y`. -/
def GTS_M_ICOSAHEDRON_Y : K := 525731112119133606025669084847876607285497935 / 10 ^ 45

/-- The constant `GTS_M_ICOSAHEDRON_Z`. -/
def GTS_M_ICOSAHEDRON_Z : K := 0

/-- The twelve vertices pushed to `temp.vertices`. -/
def icosahedronVertices : List (Vec3 K) :=
  [⟨GTS_M_ICOSAHEDRON_Z, GTS_M_ICOSAHEDRON_X, -GTS_M_ICOSAHEDRON_Y⟩,
   ⟨GTS_M_ICOSAHEDRON_X, GTS_M_ICOSAHEDRON_Y, GTS_M_ICOSAHEDRON_Z⟩,
   ⟨GTS_M_ICOSAHEDRON_Y, GTS_M_ICOSAHEDRON_Z, -GTS_M_ICOSAHEDRON_X⟩,
   ⟨GTS_M_ICOSAHEDRON_Y, GTS_M_ICOSAHEDRON_Z, GTS_M_ICOSAHEDRON_X⟩,
   ⟨GTS_M_ICOSAHEDRON_X, -GTS_M_ICOSAHEDRON_Y, GTS_M_ICOSAHEDRON_Z⟩,
   ⟨GTS_M_ICOSAHEDRON_Z, GTS_M_ICOSAHEDRON_X, GTS_M_ICOSAHEDRON_Y⟩,
   ⟨-GTS_M_ICOSAHEDRON_Y, GTS_M_ICOSAHEDRON_Z, GTS_M_ICOSAHEDRON_X⟩,
   ⟨GTS_M_ICOSAHEDRON_Z, -GTS_M_ICOSAHEDRON_X, -GTS_M_ICOSAHEDRON_Y⟩,
   ⟨-GTS_M_ICOSAHEDRON_X, GTS_M_ICOSAHEDRON_Y, GTS_M_ICOSAHEDRON_Z⟩,
   ⟨-GTS_M_ICOSAHEDRON_Y, GTS_M_ICOSAHEDRON_Z, -GTS_M_ICOSAHEDRON_X⟩,
   ⟨-GTS_M_ICOSAHEDRON_X, -GTS_M_ICOSAHEDRON_Y, GTS_M_ICOSAHEDRON_Z⟩,
   ⟨GTS_M_ICOSAHEDRON_Z, -GTS_M_ICOSAHEDRON_X, GTS_M_ICOSAHEDRON_Y⟩]

/-- The array `indices[nindices]` of the twenty triangles. -/
def icosahedronIndices : List Nat :=
  [0, 1, 2, 1, 3, 4, 3, 5, 6, 2, 4, 7, 5, 6, 8, 2, 7, 9, 0, 5, 8, 7, 9, 10, 0, 1, 5,
   7, 10, 11, 1, 3, 5, 6, 10, 11, 3, 6, 11, 9, 10, 8, 3, 4, 11, 6, 8, 10, 4, 7, 11,
   1, 2, 4, 0, 8, 9, 0, 2, 9]

/-- The unchecked read `vertices[i]`; outside the array it yields the zero
vector. -/
def vertexAt (vertices : List (Vec3 K)) (i : Nat) : Vec3 K := vertices.getD i ⟨0, 0, 0⟩

/-- The loop "make sure oriented CCW": for every triple of indices, the first
two are swapped when `v[0].dot3((v[1]-v[0]).cross(v[2]-v[0])) < 0`. -/
def orientCCW (vertices : List (Vec3 K)) : List Nat → List Nat
  | a :: b :: c :: rest =>
    (if (vertexAt vertices a).dot3
          (((vertexAt vertices b).sub (vertexAt vertices a)).cross
            ((vertexAt vertices c).sub (vertexAt vertices a))) < 0
      then [b, a, c] else [a, b, c]) ++ orientCCW vertices rest
  | _ => []

/-- The state of one subdivision pass: `pnew->vertices`, `pnew->indices` and
the map `mapnewinds`.  The 64-bit key `(a << 32) | b` of two 32-bit indices
is the ordered pair `(a, b)`, and `(key << 32) | (key >> 32)` is the pair
`(b, a)`; the map is an association list read from its newest entry. -/
structure SubdivState (K : Type) where
  vertices : List (Vec3 K)
  indices : List Nat
  mapnewinds : List ((Nat × Nat) × Nat)

/-- The body of the loop over `j`: the index `inds[j]` of the midpoint of the
edge from index `a` to index `b`.  When the key is not in the map, both
orderings are mapped to the index of a new vertex, the normalized sum of the
two end points in `pcur->vertices`. -/
def midpointIndex (sqrt : K → K) (pcur : List (Vec3 K)) (st : SubdivState K) (a b : Nat) :
    SubdivState K × Nat :=
  match st.mapnewinds.lookup (a, b) with
  | some i => (st, i)
  | none =>
    ({ vertices := st.vertices ++
         [Vec3.normalize3 sqrt ((vertexAt pcur a).add (vertexAt pcur b))],
       indices := st.indices,
       mapnewinds := ((a, b), st.vertices.length) :: ((b, a), st.vertices.length)
         :: st.mapnewinds },
     st.vertices.length)

/-- The body of the loop over the triangles of `pcur`: three midpoint
indices and the twelve indices of the four new triangles. -/
def subdivideTriangle (sqrt : K → K) (pcur : List (Vec3 K)) (st : SubdivState K)
    (a b c : Nat) : SubdivState K :=
  let r0 := midpointIndex sqrt pcur st a b
  let r1 := midpointIndex sqrt pcur r0.1 b c
  let r2 := midpointIndex sqrt pcur r1.1 c a
  { vertices := r2.1.vertices,
    indices := r2.1.indices ++
      [a, r0.2, r2.2, r0.2, b, r1.2, r2.2, r0.2, r1.2, r2.2, r1.2, c],
    mapnewinds := r2.1.mapnewinds }

/-- The loop `for (i = 0; i < pcur->indices.size(); i += 3)` over the
remaining indices of `pcur`. -/
def subdivideLoop (sqrt : K → K) (pcur : List (Vec3 K)) :
    List Nat → SubdivState K → SubdivState K
  | a :: b :: c :: rest, st => subdivideLoop sqrt pcur rest (subdivideTriangle sqrt pcur st a b c)
  | _, st => st

/-- One pass of the `while (levels-- > 0)` loop: `pnew` starts with the
vertices of `pcur`, no indices and an empty map. -/
def subdivide (sqrt : K → K) (pcur : TRIMESH K) : TRIMESH K :=
  let st := subdivideLoop sqrt pcur.vertices pcur.indices
    { vertices := pcur.vertices, indices := [], mapnewinds := [] }
  { vertices := st.vertices, indices := st.indices }

/-- The icosahedron `temp` after the orientation loop. -/
def icosahedron : TRIMESH K :=
  { vertices := (icosahedronVertices : List (Vec3 K)),
    indices := orientCCW (icosahedronVertices : List (Vec3 K)) icosahedronIndices }

/-- The function `GenerateSphereTriangulation`: the loop `while (levels-- > 0)`
runs `levels` times for a positive `levels` and not at all otherwise. -/
def GenerateSphereTriangulation (sqrt : K → K) (levels : Int) : TRIMESH K :=
  (subdivide sqrt)^[levels.toNat] icosahedron

/-! ## Ideal controller (`basecontrollers.h`, class `IdealController`) -/

/-- The exceptions and fatal stops of the controller code: the
`openrave_exception`s with codes `ORE_InvalidArguments` and
`ORE_CommandNotSupported`, the `std::out_of_range` of a failed `vector::at`,
and the failed assertion of `shared_ptr::operator->` on a null `_probot`. -/
inductive ControllerError where
  | invalidArguments
  | commandNotSupported
  | outOfRange
  | nullPointer
deriving DecidableEq, Repr

/-- The record `Trajectory::TPOINT`, of which the controller reads the joint
values `q` and the base transform `trans`. -/
structure TPOINT (K T : Type) where
  q : List K
  trans : T

/-- Modelled from the spec: the trajectory interface `TrajectoryBase` of the
OpenRAVE core, whose code is not part of the plugin sources.  Section 3 of
the specification describes it as a time-parameterized sequence queried by
sampling at a given time; the controller calls `GetDOF`, `GetTotalDuration`
and `SampleTrajectory(time, tp)`, the latter giving `none` when it returns
`false`. -/
structure Trajectory (K T : Type) where
  GetDOF : Int
  GetTotalDuration : K
  SampleTrajectory : K → Option (TPOINT K T)

/-- Modelled from the spec: the operations of the robot (`RobotBase`) and of
the log stream (`ofstream`) that the controller calls and whose code is not
part of the plugin sources.  `R` is the state of the robot, `F` the state of
the log stream.  `GetLinkVelocity` is `GetLinks().at(0)->GetVelocity`, `none`
when the robot has no link; `SetDOFValues` is the call with the limit check
enabled; `good` is `!!flog`; `writeTrajectory` is the output of the
trajectory header with the command id followed by `_ptraj->Write`. -/
structure ControllerLib (K T R F : Type) where
  GetDOFValues : R → List K
  GetDOFVelocities : R → List K
  GetLinkVelocity : R → Option (Vec3 K × Vec3 K)
  GetTransform : R → T
  GetDOFLimits : R → List K × List K
  SetDOFValues : R → List K → R
  SetDOFValuesT : R → List K → T → R
  SetDOFVelocities : R → List K → Vec3 K → Vec3 K → R
  SetTransform : R → T → R
  good : F → Bool
  writeTrajectory : F → Int → Trajectory K T → F

/-- The data members of `IdealController`.  The robot `_probot` points to is
kept inside the record (`none` for a null pointer). -/
structure IdealController (K T R F : Type) where
  _probot : Option R
  _fSpeed : K
  _ptraj : Option (Trajectory K T)
  fTime : K
  _vecdesired : List K
  _tdesired : T
  _dofindices : List Int
  _vlower : List K
  _vupper : List K
  _nControlTransformation : Int
  flog : F
  cmdid : Int
  _bPause : Bool
  _bIsDone : Bool

/-- The loop `FOREACH(it,_dofindices)` of `_SetDOFValues`, entered with the
counter `i`: `curvalues.at(*it) = values.at(i++); curvel.at(*it) = 0`. -/
def assignLoop (values : List K) :
    List Int → Nat → List K → List K → Except ControllerError (List K × List K)
  | [], _, curvalues, curvel => .ok (curvalues, curvel)
  | it :: rest, i, curvalues, curvel =>
    match values[i]? with
    | none => .error .outOfRange
    | some v =>
      if 0 ≤ it ∧ it.toNat < curvalues.length ∧ it.toNat < curvel.length then
        assignLoop values rest (i + 1) (curvalues.set it.toNat v) (curvel.set it.toNat 0)
      else .error .outOfRange

/-- The function `_CheckLimits`: `curvalues.at(i)` is read for every
`i < _vlower.size()`; the comparisons with the limits only decide whether a
warning is logged. -/
def _CheckLimits (_vlower curvalues : List K) : Except ControllerError Unit :=
  if (List.range _vlower.length).all (fun i => decide (i < curvalues.length)) then .ok ()
  else .error .outOfRange

/-- The overload `_SetDOFValues(values)`: the result is the robot after
`SetDOFValues` and `SetDOFVelocities`. -/
def _SetDOFValues {T R F : Type} (lib : ControllerLib K T R F) (values : List K)
    (c : IdealController K T R F) : Except ControllerError R :=
  match c._probot with
  | none => .error .nullPointer
  | some robot =>
    match lib.GetLinkVelocity robot with
    | none => .error .outOfRange
    | some (linearvel, angularvel) =>
      match assignLoop values c._dofindices 0 (lib.GetDOFValues robot)
          (lib.GetDOFVelocities robot) with
      | .error e => .error e
      | .ok (curvalues, curvel) =>
        match _CheckLimits c._vlower curvalues with
        | .error e => .error e
        | .ok _ =>
          .ok (lib.SetDOFVelocities (lib.SetDOFValues robot curvalues) curvel linearvel
            angularvel)

/-- The overload `_SetDOFValues(values, t)`. -/
def _SetDOFValuesT {T R F : Type} (lib : ControllerLib K T R F) (values : List K) (t : T)
    (c : IdealController K T R F) : Except ControllerError R :=
  match c._probot with
  | none => .error .nullPointer
  | some robot =>
    match assignLoop values c._dofindices 0 (lib.GetDOFValues robot)
        (lib.GetDOFVelocities robot) with
    | .error e => .error e
    | .ok (curvalues, curvel) =>
      match _CheckLimits c._vlower curvalues with
      | .error e => .error e
      | .ok _ =>
        .ok (lib.SetDOFVelocities (lib.SetDOFValuesT robot curvalues t) curvel ⟨0, 0, 0⟩
          ⟨0, 0, 0⟩)

/-- The method `SetDesired(values, trans)`: what the call returns or raises,
and the controller it leaves behind.  `trans` is `none` for a null pointer. -/
def SetDesired {T R F : Type} (lib : ControllerLib K T R F) (values : List K)
    (trans : Option T) (c : IdealController K T R F) :
    Except ControllerError Bool × IdealController K T R F :=
  if values.length ≠ c._dofindices.length then (.error .invalidArguments, c)
  else
    let c1 := { c with fTime := 0, _ptraj := none }
    if c1._bPause = false then
      match c1._probot with
      | none => (.error .nullPointer, c1)
      | some robot =>
        let c2 := { c1 with _vecdesired := values }
        if c2._nControlTransformation ≠ (0 : Int) then
          let c3 := { c2 with _tdesired := match trans with
                                           | some t => t
                                           | none => lib.GetTransform robot }
          match _SetDOFValuesT lib c3._vecdesired c3._tdesired c3 with
          | .error e => (.error e, c3)
          | .ok r => (.ok true, { c3 with _probot := some r, _bIsDone := false })
        else
          match _SetDOFValues lib c2._vecdesired c2 with
          | .error e => (.error e, c2)
          | .ok r => (.ok true, { c2 with _probot := some r, _bIsDone := false })
    else (.ok true, c1)

/-- The method `SetPath(ptraj)`; `ptraj` is `none` for a null pointer.  The
cast `(int)_dofindices.size()` is the length itself. -/
def SetPath {T R F : Type} (lib : ControllerLib K T R F) (ptraj : Option (Trajectory K T))
    (c : IdealController K T R F) : Except ControllerError Bool × IdealController K T R F :=
  if c._bPause then (.ok false, { c with _ptraj := none, _bIsDone := true })
  else
    match ptraj with
    | some t =>
      if t.GetDOF ≠ (c._dofindices.length : Int) then (.error .invalidArguments, c)
      else
        let c1 := { c with _ptraj := some t, fTime := 0, _bIsDone := false, _vecdesired := [] }
        if lib.good c1.flog then
          (.ok true,
            { c1 with cmdid := c1.cmdid + 1,
                      flog := lib.writeTrajectory c1.flog (c1.cmdid + 1) t })
        else (.ok true, c1)
    | none => (.ok true, { c with _ptraj := none, fTime := 0, _bIsDone := true, _vecdesired := [] })

/-- The first part of `SimulationStep`, for a controller that is not paused:
the branch `if( !!_ptraj )`.  The flag of the result tells whether the
method returned inside the branch (a failed `SampleTrajectory`). -/
def SimulationStep_traj {T R F : Type} (lib : ControllerLib K T R F) (fTimeElapsed : K)
    (c : IdealController K T R F) : Except ControllerError Bool × IdealController K T R F :=
  match c._ptraj with
  | none => (.ok false, c)
  | some traj =>
    match traj.SampleTrajectory c.fTime with
    | none => (.ok true, c)
    | some tp =>
      let moved : Except ControllerError (Option R) :=
        if tp.q.length > 0 then
          if c._nControlTransformation ≠ 0 then (_SetDOFValuesT lib tp.q tp.trans c).map some
          else (_SetDOFValues lib tp.q c).map some
        else if c._nControlTransformation ≠ 0 then
          match c._probot with
          | none => .error .nullPointer
          | some robot => .ok (some (lib.SetTransform robot tp.trans))
        else .ok c._probot
      match moved with
      | .error e => (.error e, c)
      | .ok r =>
        let c1 := { c with _probot := r }
        let c2 :=
          if c1.fTime > traj.GetTotalDuration then
            { c1 with fTime := traj.GetTotalDuration, _bIsDone := true }
          else c1
        (.ok false, { c2 with fTime := c2.fTime + c2._fSpeed * fTimeElapsed })

/-- The last part of `SimulationStep`: the branch
`if( _vecdesired.size() > 0 )`. -/
def SimulationStep_desired {T R F : Type} (lib : ControllerLib K T R F)
    (c : IdealController K T R F) : Except ControllerError Unit × IdealController K T R F :=
  if c._vecdesired.length > 0 then
    let moved :=
      if c._nControlTransformation ≠ 0 then _SetDOFValuesT lib c._vecdesired c._tdesired c
      else _SetDOFValues lib c._vecdesired c
    match moved with
    | .error e => (.error e, c)
    | .ok r => (.ok (), { c with _probot := some r, _bIsDone := true })
  else (.ok (), c)

/-- The method `SimulationStep(fTimeElapsed)`. -/
def SimulationStep {T R F : Type} (lib : ControllerLib K T R F) (fTimeElapsed : K)
    (c : IdealController K T R F) : Except ControllerError Unit × IdealController K T R F :=
  if c._bPause then (.ok (), c)
  else
    match SimulationStep_traj lib fTimeElapsed c with
    | (.error e, c1) => (.error e, c1)
    | (.ok true, c1) => (.ok (), c1)
    | (.ok false, c1) => SimulationStep_desired lib c1

/-! ## Stable-contact filter (`_GetStableContacts`, lines 797-870) -/

/-- The fatal stops of the filter: the failed `BOOST_ASSERT(mu>0)` and the
`std::out_of_range` of a failed `vector::at`. -/
inductive FilterError where
  | assertion
  | outOfRange
deriving DecidableEq, Repr

/-- Modelled from the spec: a manipulator of the robot, whose class is not
part of the plugin sources.  Section 4.6 of the specification names its
gripper-joint indices and its stored `ClosingDirection`; `GetBase` is its
base link.  `L` is the type of link handles. -/
structure Manipulator (K L : Type) where
  GetGripperIndices : List Nat
  GetClosingDirection : List K
  GetBase : L

/-- Modelled from the spec: the queries of the robot and of the environment
that the filter calls and whose code is not part of the plugin sources.
`CheckCollisionRobot` is `GetEnv()->CheckCollision(_robot)`;
`CheckCollisionLink l` is `GetEnv()->CheckCollision(l, _report)`, `none`
when it returns `false` and otherwise `_report->plink1` with the contacts
of the report; `CalculateJacobian index pos` is the row-major array `J`. -/
structure FilterEnv (K L : Type) where
  CheckCollisionRobot : Bool
  GetDOF : Nat
  GetManipulators : List (Manipulator K L)
  GetActiveManipulator : Option (Manipulator K L)
  GetLinks : List L
  GetIndex : L → Int
  CheckCollisionLink : L → Option (L × List (CONTACT K))
  CalculateJacobian : Int → Vec3 K → List K

/-- The loop over the gripper indices of one manipulator, entered with the
iterator `itclosing` at offset `i` of `ClosingDirection`:
`closingdir.at(*itgripper) = *itclosing++`.  The iterator is meant to stay
inside `ClosingDirection`; past its end the model reads 0. -/
def closingLoop (ClosingDirection : List K) :
    List Nat → Nat → List K → Except FilterError (List K)
  | [], _, closingdir => .ok closingdir
  | itgripper :: rest, i, closingdir =>
    if itgripper < closingdir.length then
      closingLoop ClosingDirection rest (i + 1)
        (closingdir.set itgripper (ClosingDirection.getD i 0))
    else .error .outOfRange

/-- The loop `FOREACH(itmanip,_robot->GetManipulators())` that fills
`closingdir`. -/
def manipLoop {L : Type} :
    List (Manipulator K L) → List K → Except FilterError (List K)
  | [], closingdir => .ok closingdir
  | itmanip :: rest, closingdir =>
    match closingLoop itmanip.GetClosingDirection itmanip.GetGripperIndices 0 closingdir with
    | .error e => .error e
    | .ok closingdir1 => manipLoop rest closingdir1

/-- The closing-direction vector of the filter (lines 808-814): `GetDOF()`
zeros, overwritten by the manipulators in turn. -/
def closingdirOf {L : Type} (env : FilterEnv K L) : Except FilterError (List K) :=
  manipLoop env.GetManipulators (List.replicate env.GetDOF 0)

/-- The value of `deltaxyz[j]` after the first `n` iterations of
`for(k = 0; k < GetDOF(); k++) deltaxyz[j] += J.at(j*GetDOF() + k)*closingdir[k]`,
started from zero. -/
def jacobianRow (J closingdir : List K) (DOF j : Nat) : Nat → Except FilterError K
  | 0 => .ok 0
  | k + 1 =>
    match jacobianRow J closingdir DOF j k with
    | .error e => .error e
    | .ok acc =>
      match J[j * DOF + k]? with
      | none => .error .outOfRange
      | some v => .ok (acc + v * closingdir.getD k 0)

/-- The test `*itlink == GetLinks().at(0) || (!!GetActiveManipulator() &&
*itlink == GetActiveManipulator()->GetBase())`. -/
def isBaseLink {L : Type} [DecidableEq L] (env : FilterEnv K L) (link : L) : Bool :=
  decide (env.GetLinks[0]? = some link) ||
    (match env.GetActiveManipulator with
     | some m => decide (link = m.GetBase)
     | none => false)

/-- The closing velocity `deltaxyz` of a contact at `pos` on `link`, as it
enters the admissibility test (lines 825-850): the direction on a base link
and the product of the Jacobian with `closingdir` otherwise, replaced by the
direction when its squared length is below `1e-7`, and normalized. -/
def deltaxyzOf {L : Type} [DecidableEq L] (lib : RaveLib K) (env : FilterEnv K L)
    (closingdir : List K) (direction : Vec3 K) (link : L) (pos : Vec3 K) :
    Except FilterError (Vec3 K) :=
  let raw : Except FilterError (Vec3 K) :=
    if isBaseLink env link then .ok direction
    else
      let J := env.CalculateJacobian (env.GetIndex link) pos
      match jacobianRow J closingdir env.GetDOF 0 env.GetDOF,
        jacobianRow J closingdir env.GetDOF 1 env.GetDOF,
        jacobianRow J closingdir env.GetDOF 2 env.GetDOF with
      | .ok x, .ok y, .ok z => .ok ⟨x, y, z⟩
      | .error e, _, _ => .error e
      | _, .error e, _ => .error e
      | _, _, .error e => .error e
  match raw with
  | .error e => .error e
  | .ok deltaxyz =>
    .ok (Vec3.normalize3 lib.RaveSqrt
      (if deltaxyz.lengthsqr3 < 1 / 10 ^ 7 then direction else deltaxyz))

/-- The loop `FOREACH(itcontact, _report->contacts)` for one link: the normal
is negated when `_report->plink1` is not the link, and the contact is
appended with the index of the link when `bstable` holds. -/
def contactLoop {L : Type} [DecidableEq L] (lib : RaveLib K) (env : FilterEnv K L)
    (closingdir : List K) (direction : Vec3 K) (mu : K) (link plink1 : L) :
    List (CONTACT K) → List (CONTACT K × Int) → Except FilterError (List (CONTACT K × Int))
  | [], contacts => .ok contacts
  | itcontact :: rest, contacts =>
    let c : CONTACT K :=
      if plink1 ≠ link then { itcontact with norm := itcontact.norm.neg } else itcontact
    match deltaxyzOf lib env closingdir direction link c.pos with
    | .error e => .error e
    | .ok deltaxyz =>
      contactLoop lib env closingdir direction mu link plink1 rest
        (if bstable c.norm deltaxyz mu then contacts ++ [(c, env.GetIndex link)] else contacts)

/-- The loop `FOREACHC(itlink,_robot->GetLinks())`. -/
def linkLoop {L : Type} [DecidableEq L] (lib : RaveLib K) (env : FilterEnv K L)
    (closingdir : List K) (direction : Vec3 K) (mu : K) :
    List L → List (CONTACT K × Int) → Except FilterError (List (CONTACT K × Int))
  | [], contacts => .ok contacts
  | itlink :: rest, contacts =>
    match env.CheckCollisionLink itlink with
    | none => linkLoop lib env closingdir direction mu rest contacts
    | some (plink1, reported) =>
      match contactLoop lib env closingdir direction mu itlink plink1 reported contacts with
      | .error e => .error e
      | .ok contacts1 => linkLoop lib env closingdir direction mu rest contacts1

/-- The function `_GetStableContacts`: the list `contacts` after the call.
`BOOST_ASSERT(mu>0)` stops the run when `mu` is not positive. -/
def _GetStableContacts {L : Type} [DecidableEq L] (lib : RaveLib K) (env : FilterEnv K L)
    (contacts : List (CONTACT K × Int)) (direction : Vec3 K) (mu : K) :
    Except FilterError (List (CONTACT K × Int)) :=
  if ¬ mu > 0 then .error .assertion
  else if env.CheckCollisionRobot = false then .ok contacts
  else
    match closingdirOf env with
    | .error e => .error e
    | .ok closingdir => linkLoop lib env closingdir direction mu env.GetLinks contacts

/-! ## Force-closure output of the `Grasp` command (lines 287-299) -/

/-- The force-closure part of the `Grasp` command: `analysis` starts as the
zero record, `_AnalyzeContacts3D(c, friction, 8)` is called on the contacts
without their link indices inside a `try` block whose handler catches
`openrave_exception` (a `std::out_of_range` is not one and goes on to the
caller), and the result is the analysis written to the output. -/
def Grasp_forceclosure (lib : RaveLib K) (qhull : Nat → Nat → List K → QhullResult K)
    (contacts : List (CONTACT K × Int)) (friction : K) : Except GraspError (GRASPANALYSIS K) :=
  let analysis : GRASPANALYSIS K := ⟨0, 0⟩
  match _AnalyzeContacts3D_mu lib qhull (contacts.map fun c => c.1) friction 8 with
  | .ok a => .ok a
  | .error .outOfRange => .error .outOfRange
  | .error _ => .ok analysis

/-! ## Command surface (`Grasp`, `ComputeDistanceMap`, `GetStableContacts`, `ConvexHull`) -/

/-- Modelled from the spec: the input stream `std::istream` a command reads,
whose code is not part of the plugin sources.  Section 6 of the
specification describes the input as a whitespace-tokenized keyword stream:
the model keeps the tokens not yet extracted and the fail flag that
`operator!` tests.  An extraction takes one whole token.  Blanks after the
last token are not represented, so `eof()` holds exactly when no token is
left. -/
structure IStream where
  tokens : List String
  failbit : Bool
deriving DecidableEq, Repr

/-- Modelled from the spec: the conversions behind the formatted extractions
`sinput >> bool`, `sinput >> int` and `sinput >> dReal`, whose code is not
part of the plugin sources; `none` is a token the extraction rejects. -/
structure StreamLib (K : Type) where
  toBool : String → Option Bool
  toInt : String → Option Int
  toReal : String → Option K

/-- Modelled from the spec: the lookups of the environment that the `Grasp`
and `ComputeDistanceMap` parsers call, `GetKinBody(name)` and
`GetBodyFromEnvironmentId(id)`; `B` is the type of body handles and `none` is
the null handle. -/
structure EnvLib (B : Type) where
  GetKinBody : String → Option B
  GetBodyFromEnvironmentId : Int → Option B

/-- The member `sinput.eof()`. -/
def IStream.eof (s : IStream) : Bool := s.tokens.isEmpty

/-- One extraction `sinput >> x` with the conversion `conv`; `old` is the
value `x` holds before.  On a stream that has failed, on an empty stream and
on a rejected token the fail flag is set and `x` keeps its value. -/
def extract {α : Type} (conv : String → Option α) (old : α) (s : IStream) : α × IStream :=
  if s.failbit then (old, s)
  else
    match s.tokens with
    | [] => (old, { s with failbit := true })
    | t :: ts =>
      match conv t with
      | some v => (v, { tokens := ts, failbit := false })
      | none => (old, { s with failbit := true })

/-- The call `std::transform(cmd.begin(), cmd.end(), cmd.begin(), ::tolower)`. -/
def tolower (cmd : String) : String := ⟨cmd.data.map Char.toLower⟩

/-- The exceptions and fatal stops of the command code: the
`std::length_error` of `vector::resize` with a negative count, the stop of
`_ComputeConvexHull` on a dimension that is not positive (a division by zero
for `dim = 0`, a vector of negative size otherwise), the exceptions of the
analysis code, and the stops of the stable-contact filter. -/
inductive CommandError where
  | lengthError
  | invalidDimension
  | analysis (e : GraspError)
  | filter (e : FilterError)
deriving DecidableEq, Repr

/-- What the keyword chain of a parser does with one keyword: the final
`else` (warning and `break`), a keyword branch that ran and left the options
`st` and the stream `s`, or a keyword branch that raised. -/
inductive KeywordResult (σ : Type) where
  | unrecognized
  | handled (st : σ) (s : IStream)
  | raised (e : CommandError)

/-- How a parser loop ends: it is left by its condition or by a `break` with
the options `st`, it executes `return false`, or it raises. -/
inductive ParseResult (σ : Type) where
  | parsed (st : σ)
  | failed
  | raised (e : CommandError)

/-- The loop all four commands share,
`while(!sinput.eof()) { sinput >> cmd; if( !sinput ) break; tolower(cmd);
<keyword chain>; if( !sinput ) return false; }`, with the keyword chain
`keyword`.  The first argument bounds the number of iterations; the
commands pass the number of tokens, which no run exceeds. -/
def commandLoop {σ : Type} (keyword : String → σ → IStream → KeywordResult σ) :
    Nat → σ → IStream → ParseResult σ
  | fuel, st, s =>
    if s.eof then .parsed st
    else
      match fuel with
      | 0 => .failed
      | fuel + 1 =>
        let r := extract some "" s
        if r.2.failbit then .parsed st
        else
          match keyword (tolower r.1) st r.2 with
          | .unrecognized => .parsed st
          | .raised e => .raised e
          | .handled st1 s1 =>
            if s1.failbit then .failed else commandLoop keyword fuel st1 s1

/-- One item written to the output stream `sout`: a real, an integer, or the
end of a line. -/
inductive Out (K : Type) where
  | real (x : K)
  | int (n : Int)
  | endl
deriving DecidableEq, Repr

/-- The local variables of `Grasp` that its parser sets, `params` included.
`pcheckermngr` keeps the name of the requested collision checker. -/
structure GraspOptions (K B : Type) where
  strsavetraj : String
  bGetLinkCollisions : Bool
  bExecute : Bool
  bComputeStableContacts : Bool
  bComputeForceClosure : Bool
  bOutputFinal : Bool
  friction : K
  targetbody : Option B
  vtargetdirection : Vec3 K
  vtargetposition : Vec3 K
  ftargetroll : K
  fstandoff : K
  btransformrobot : Bool
  bonlycontacttarget : Bool
  btightgrasp : Bool
  fgraspingnoise : K
  ftranslationstepmult : K
  vavoidlinkgeometry : List String
  pcheckermngr : Option String

/-- The variables of `Grasp` before its parser loop; `params` is the freshly
constructed `GraspParameters`, of which the command overwrites four fields. -/
def Grasp_init {B : Type} (params : GraspOptions K B) : GraspOptions K B :=
  { params with
    strsavetraj := ""
    bGetLinkCollisions := false
    bExecute := true
    bComputeStableContacts := false
    bComputeForceClosure := false
    bOutputFinal := false
    friction := 0
    btransformrobot := true
    bonlycontacttarget := true
    btightgrasp := false
    vtargetdirection := ⟨0, 0, 1⟩
    pcheckermngr := none }

/-- The keyword chain of `Grasp` (lines 146-204). -/
def Grasp_keyword {B : Type} (slib : StreamLib K) (lib : RaveLib K) (env : EnvLib B)
    (cmd : String) (st : GraspOptions K B) (s : IStream) : KeywordResult (GraspOptions K B) :=
  if cmd = "body" ∨ cmd = "target" then
    let r := extract some "" s
    .handled { st with targetbody := env.GetKinBody r.1 } r.2
  else if cmd = "bodyid" then
    let r := extract slib.toInt 0 s
    .handled { st with targetbody := env.GetBodyFromEnvironmentId r.1 } r.2
  else if cmd = "direction" then
    let rx := extract slib.toReal st.vtargetdirection.x s
    let ry := extract slib.toReal st.vtargetdirection.y rx.2
    let rz := extract slib.toReal st.vtargetdirection.z ry.2
    .handled { st with vtargetdirection := Vec3.normalize3 lib.RaveSqrt ⟨rx.1, ry.1, rz.1⟩ } rz.2
  else if cmd = "avoidlink" then
    let r := extract some "" s
    .handled { st with vavoidlinkgeometry := st.vavoidlinkgeometry ++ [r.1] } r.2
  else if cmd = "notrans" then .handled { st with btransformrobot := false } s
  else if cmd = "transformrobot" then
    let r := extract slib.toBool st.btransformrobot s
    .handled { st with btransformrobot := r.1 } r.2
  else if cmd = "onlycontacttarget" then
    let r := extract slib.toBool st.bonlycontacttarget s
    .handled { st with bonlycontacttarget := r.1 } r.2
  else if cmd = "tightgrasp" then
    let r := extract slib.toBool st.btightgrasp s
    .handled { st with btightgrasp := r.1 } r.2
  else if cmd = "execute" then
    let r := extract slib.toBool st.bExecute s
    .handled { st with bExecute := r.1 } r.2
  else if cmd = "writetraj" then
    let r := extract some st.strsavetraj s
    .handled { st with strsavetraj := r.1 } r.2
  else if cmd = "outputfinal" then
    let r := extract slib.toBool st.bOutputFinal s
    .handled { st with bOutputFinal := r.1 } r.2
  else if cmd = "graspingnoise" then
    let r := extract slib.toReal st.fgraspingnoise s
    .handled { st with fgraspingnoise := r.1 } r.2
  else if cmd = "roll" then
    let r := extract slib.toReal st.ftargetroll s
    .handled { st with ftargetroll := r.1 } r.2
  else if cmd = "centeroffset" ∨ cmd = "position" then
    let rx := extract slib.toReal st.vtargetposition.x s
    let ry := extract slib.toReal st.vtargetposition.y rx.2
    let rz := extract slib.toReal st.vtargetposition.z ry.2
    .handled { st with vtargetposition := ⟨rx.1, ry.1, rz.1⟩ } rz.2
  else if cmd = "standoff" then
    let r := extract slib.toReal st.fstandoff s
    .handled { st with fstandoff := r.1 } r.2
  else if cmd = "friction" then
    let r := extract slib.toReal st.friction s
    .handled { st with friction := r.1 } r.2
  else if cmd = "getlinkcollisions" then .handled { st with bGetLinkCollisions := true } s
  else if cmd = "stablecontacts" then
    let r := extract slib.toBool st.bComputeStableContacts s
    .handled { st with bComputeStableContacts := r.1 } r.2
  else if cmd = "forceclosure" then
    let r := extract slib.toBool st.bComputeForceClosure s
    .handled { st with bComputeForceClosure := r.1 } r.2
  else if cmd = "collision" then
    let r := extract some "" s
    .handled { st with pcheckermngr := some r.1 } r.2
  else if cmd = "translationstepmult" then
    let r := extract slib.toReal st.ftranslationstepmult s
    .handled { st with ftranslationstepmult := r.1 } r.2
  else .unrecognized

/-- The command `Grasp`: the parser loop, and then the rest of the command
(from line 212 on: planner, contacts, output), which runs on the environment
and is passed as `work`. -/
def Grasp {B : Type} (slib : StreamLib K) (lib : RaveLib K) (env : EnvLib B)
    (params : GraspOptions K B)
    (work : GraspOptions K B → Except CommandError Bool × List (Out K)) (sinput : IStream) :
    Except CommandError Bool × List (Out K) :=
  match commandLoop (Grasp_keyword slib lib env) sinput.tokens.length (Grasp_init params)
      sinput with
  | .failed => (.ok false, [])
  | .raised e => (.error e, [])
  | .parsed st => work st

/-- The local variables of `ComputeDistanceMap` that its parser sets. -/
structure DistanceMapOptions (K B : Type) where
  conewidth : K
  nDistMapSamples : Int
  targetbody : Option B
  vmapcenter : Vec3 K

/-- The keyword chain of `ComputeDistanceMap` (lines 320-333). -/
def ComputeDistanceMap_keyword {B : Type} (slib : StreamLib K) (env : EnvLib B) (cmd : String)
    (st : DistanceMapOptions K B) (s : IStream) : KeywordResult (DistanceMapOptions K B) :=
  if cmd = "conewidth" then
    let r := extract slib.toReal st.conewidth s
    .handled { st with conewidth := r.1 } r.2
  else if cmd = "mapsamples" then
    let r := extract slib.toInt st.nDistMapSamples s
    .handled { st with nDistMapSamples := r.1 } r.2
  else if cmd = "target" then
    let r := extract some "" s
    .handled { st with targetbody := env.GetKinBody r.1 } r.2
  else if cmd = "center" then
    let rx := extract slib.toReal st.vmapcenter.x s
    let ry := extract slib.toReal st.vmapcenter.y rx.2
    let rz := extract slib.toReal st.vmapcenter.z ry.2
    .handled { st with vmapcenter := ⟨rx.1, ry.1, rz.1⟩ } rz.2
  else .unrecognized

/-- The command `ComputeDistanceMap`: the parser loop, and then the rest of
the command (from line 341 on: sampling, distance map, output), which runs on
the environment and is passed as `work`. -/
def ComputeDistanceMap {B : Type} (slib : StreamLib K) (lib : RaveLib K) (env : EnvLib B)
    (work : DistanceMapOptions K B → Except CommandError Bool × List (Out K))
    (sinput : IStream) : Except CommandError Bool × List (Out K) :=
  match commandLoop (ComputeDistanceMap_keyword slib env) sinput.tokens.length
      ⟨1 / 4 * lib.PI, 60000, none, ⟨0, 0, 0⟩⟩ sinput with
  | .failed => (.ok false, [])
  | .raised e => (.error e, [])
  | .parsed st => work st

/-- The local variables of `GetStableContacts` that its parser sets. -/
structure StableContactsOptions (K : Type) where
  mu : K
  direction : Vec3 K
  bGetLinkCollisions : Bool

/-- The keyword chain of `GetStableContacts` (lines 373-385). -/
def GetStableContacts_keyword (slib : StreamLib K) (cmd : String)
    (st : StableContactsOptions K) (s : IStream) : KeywordResult (StableContactsOptions K) :=
  if cmd = "direction" then
    let rx := extract slib.toReal st.direction.x s
    let ry := extract slib.toReal st.direction.y rx.2
    let rz := extract slib.toReal st.direction.z ry.2
    .handled { st with direction := ⟨rx.1, ry.1, rz.1⟩ } rz.2
  else if cmd = "friction" then
    let r := extract slib.toReal st.mu s
    .handled { st with mu := r.1 } r.2
  else if cmd = "getlinkcollisions" then .handled { st with bGetLinkCollisions := true } s
  else .unrecognized

/-- The output loop of `GetStableContacts` (lines 395-401): position and
normal of every contact, the link index when requested, and a line end. -/
def contactLines (contacts : List (CONTACT K × Int)) (bGetLinkCollisions : Bool) :
    List (Out K) :=
  contacts.flatMap fun c =>
    [Out.real c.1.pos.x, Out.real c.1.pos.y, Out.real c.1.pos.z, Out.real c.1.norm.x,
      Out.real c.1.norm.y, Out.real c.1.norm.z]
      ++ (if bGetLinkCollisions then [Out.int c.2] else []) ++ [Out.endl]

/-- The part of `GetStableContacts` after the parser loop (lines 393-402),
for the options `st`: the filter `_GetStableContacts` is called on an empty
contact list with the parsed direction and friction; when it stops (at its
assertion `mu > 0` or at a range error) so does the command, and otherwise
the contacts are written and the command returns `true`. -/
def GetStableContacts_work {L : Type} [DecidableEq L] (lib : RaveLib K) (env : FilterEnv K L)
    (st : StableContactsOptions K) : Except CommandError Bool × List (Out K) :=
  match _GetStableContacts lib env [] st.direction st.mu with
  | .error e => (.error (.filter e), [])
  | .ok contacts => (.ok true, contactLines contacts st.bGetLinkCollisions)

/-- The command `GetStableContacts`: the parser loop, started with `mu = 0`,
the zero direction and `bGetLinkCollisions = false`, and then the call of
the filter and the output. -/
def GetStableContacts {L : Type} [DecidableEq L] (slib : StreamLib K) (lib : RaveLib K)
    (env : FilterEnv K L) (sinput : IStream) : Except CommandError Bool × List (Out K) :=
  match commandLoop (GetStableContacts_keyword slib) sinput.tokens.length
      ⟨0, ⟨0, 0, 0⟩, false⟩ sinput with
  | .failed => (.ok false, [])
  | .raised e => (.error e, [])
  | .parsed st => GetStableContacts_work lib env st

/-- The local variables of `ConvexHull` that its parser sets. -/
structure ConvexHullOptions (K : Type) where
  bReturnFaces : Bool
  bReturnPlanes : Bool
  bReturnTriangles : Bool
  dim : Int
  vpoints : List K

/-- The call `vpoints.resize(n)` for a count that is not negative. -/
def resize (vpoints : List K) (n : Nat) : List K :=
  vpoints.take n ++ List.replicate (n - vpoints.length) 0

/-- The loop `for(int i = 0; i < N*dim; ++i) sinput >> vpoints[i]`. -/
def readPoints (slib : StreamLib K) (n : Nat) (vpoints : List K) (s : IStream) :
    List K × IStream :=
  (List.range n).foldl
    (fun (acc : List K × IStream) i =>
      let r := extract slib.toReal (acc.1.getD i 0) acc.2
      (acc.1.set i r.1, r.2))
    (vpoints, s)

/-- The keyword chain of `ConvexHull` (lines 419-439).  The keyword
`returntriangles` is read into `bReturnFaces`. -/
def ConvexHull_keyword (slib : StreamLib K) (cmd : String) (st : ConvexHullOptions K)
    (s : IStream) : KeywordResult (ConvexHullOptions K) :=
  if cmd = "points" then
    let rN := extract slib.toInt 0 s
    let rdim := extract slib.toInt st.dim rN.2
    if rN.1 * rdim.1 < 0 then .raised .lengthError
    else
      let r := readPoints slib (rN.1 * rdim.1).toNat (resize st.vpoints (rN.1 * rdim.1).toNat)
        rdim.2
      .handled { st with dim := rdim.1, vpoints := r.1 } r.2
  else if cmd = "returnplanes" then
    let r := extract slib.toBool st.bReturnPlanes s
    .handled { st with bReturnPlanes := r.1 } r.2
  else if cmd = "returnfaces" then
    let r := extract slib.toBool st.bReturnFaces s
    .handled { st with bReturnFaces := r.1 } r.2
  else if cmd = "returntriangles" then
    let r := extract slib.toBool st.bReturnFaces s
    .handled { st with bReturnFaces := r.1 } r.2
  else .unrecognized

/-- The part of `ConvexHull` after the parser loop (lines 447-525), for the
options `st`: what the command returns or raises, and the output written
until then.  The command returns `false` when the volume `_ComputeConvexHull`
returns is zero.  Output of the triangles section written before an
exception is not kept. -/
def ConvexHull_work (lib : RaveLib K) (sortFn : List (K × Nat) → List (K × Nat))
    (qhull : Nat → Nat → List K → QhullResult K) (st : ConvexHullOptions K) :
    Except CommandError Bool × List (Out K) :=
  if st.dim ≤ 0 then (.error .invalidDimension, [])
  else
    match _ComputeConvexHull qhull st.vpoints (st.bReturnFaces || st.bReturnTriangles)
        st.dim.toNat with
    | .error e => (.error (.analysis e), [])
    | .ok (volume, vconvexplanes, vconvexfaces) =>
      if volume = 0 then (.ok false, [])
      else
        let out1 : List (Out K) :=
          if st.bReturnPlanes then
            Out.int ((vconvexplanes.length / (st.dim.toNat + 1) : Nat) : Int)
              :: vconvexplanes.map Out.real
          else []
        let out2 : List (Out K) :=
          if st.bReturnFaces then
            out1 ++ (vconvexfaces.getD []).map fun id => Out.int (id : Int)
          else out1
        if st.bReturnTriangles then
          if st.dim ≠ 3 then (.ok false, out2)
          else
            match ConvexHull_triangles lib sortFn st.vpoints vconvexplanes
                (vconvexfaces.getD []) with
            | .error e => (.error (.analysis e), out2)
            | .ok (numtriangles, tris) =>
              (.ok true, out2 ++ Out.int numtriangles :: tris.map fun id => Out.int (id : Int))
        else (.ok true, out2)

/-- The command `ConvexHull`. -/
def ConvexHull (slib : StreamLib K) (lib : RaveLib K)
    (sortFn : List (K × Nat) → List (K × Nat)) (qhull : Nat → Nat → List K → QhullResult K)
    (sinput : IStream) : Except CommandError Bool × List (Out K) :=
  match commandLoop (ConvexHull_keyword slib) sinput.tokens.length ⟨true, true, true, 0, []⟩
      sinput with
  | .failed => (.ok false, [])
  | .raised e => (.error e, [])
  | .parsed st => ConvexHull_work lib sortFn qhull st

/-! ## Distance map (`_ComputeDistanceMap`, lines 748-795) -/

/-- The record `RAY`: origin and direction. -/
structure RAY (K : Type) where
  pos : Vec3 K
  dir : Vec3 K
deriving DecidableEq, Repr

/-- The conversion `(int)x` of a floating-point number whose value is the
integer `z` to the 32-bit `int`: `z` itself when it lies in
`[-2^31, 2^31)`.  Outside this range the conversion is undefined in C++; the
model gives what the conversion instruction of the x86 processors gives,
`INT_MIN = -2^31`. -/
def castInt (z : Int) : Int := if -2 ^ 31 ≤ z ∧ z < 2 ^ 31 then z else -2 ^ 31

/-- The number `N` of rays `_ComputeDistanceMap` samples per contact: 1 when
`fTheta < 0.01`, and `(int)ceil(fTheta * (64/(PI/12)))` otherwise. -/
def distanceMapSamples [FloorRing K] (lib : RaveLib K) (fTheta : K) : Int :=
  if fTheta < 1 / 100 then 1 else castInt ⌈fTheta * (64 / (lib.PI / 12))⌉

/-- The seed of the local frame: `vright = Vector(1,0,0)`, with `vright.y = 1`
when `RaveFabs(norm.x) > 0.9`. -/
def frameSeed (norm : Vec3 K) : Vec3 K :=
  if |norm.x| > 9 / 10 then ⟨1, 1, 0⟩ else ⟨1, 0, 0⟩

/-- The vector `vright` before its normalization:
`vright -= norm * vright.dot3(norm)`. -/
def frameRight (norm : Vec3 K) : Vec3 K :=
  (frameSeed norm).sub (Vec3.smul ((frameSeed norm).dot3 norm) norm)

/-- The local frame of a contact normal (lines 767-773): `vright` after
`normalize3`, and `vup = norm.cross(vright)`. -/
def distanceMapFrame (lib : RaveLib K) (norm : Vec3 K) : Vec3 K × Vec3 K :=
  let vright := Vec3.normalize3 lib.RaveSqrt (frameRight norm)
  (vright, norm.cross vright)

/-- The ray of one sample (lines 778-783); `u1` and `u2` are the two values
`RaveRandomFloat()` returns. -/
def coneSample (lib : RaveLib K) (fCosTheta : K) (c : CONTACT K) (vright vup : Vec3 K)
    (u1 u2 : K) : RAY K :=
  let fAng := fCosTheta + (1 - fCosTheta) * u1
  let R := lib.RaveSqrt (1 - fAng * fAng)
  let U2 := 2 * lib.PI * u2
  ⟨c.pos,
    Vec3.smul 1000
      (((Vec3.smul fAng c.norm).add (Vec3.smul (R * lib.RaveCos U2) vright)).add
        (Vec3.smul (R * lib.RaveSin U2) vup))⟩

/-- The value of `fMinDist` after the first `n` iterations of the sampling
loop of one contact.  `CheckCollision r` is the ray query of the
environment, `some` of `_report->minDistance` when it returns `true`;
`rand k` is the value of the `k`-th call of `RaveRandomFloat()` and `start`
the number of calls made before the loop. -/
def sampleLoop (lib : RaveLib K) (CheckCollision : RAY K → Option K) (rand : Nat → K)
    (fCosTheta : K) (c : CONTACT K) (vright vup : Vec3 K) (start : Nat) : Nat → K
  | 0 => 2
  | j + 1 =>
    let fMinDist := sampleLoop lib CheckCollision rand fCosTheta c vright vup start j
    match CheckCollision
        (coneSample lib fCosTheta c vright vup (rand (start + 2 * j)) (rand (start + 2 * j + 1)))
      with
    | some minDistance => if minDistance < fMinDist then minDistance else fMinDist
    | none => fMinDist

/-- The function `_ComputeDistanceMap`: the contacts with their new depths.
Every ray takes two random values, so the loop of contact `i` starts after
`2 N i` calls of `RaveRandomFloat()`. -/
def _ComputeDistanceMap [FloorRing K] (lib : RaveLib K) (CheckCollision : RAY K → Option K)
    (rand : Nat → K) (vpoints : List (CONTACT K)) (fTheta : K) : List (CONTACT K) :=
  let fCosTheta := lib.RaveCos fTheta
  let N := (distanceMapSamples lib fTheta).toNat
  vpoints.enum.map fun ic =>
    let frame := distanceMapFrame lib ic.2.norm
    { ic.2 with
      depth := sampleLoop lib CheckCollision rand fCosTheta ic.2 frame.1 frame.2
        (2 * N * ic.1) N }

/-! ## Stable-contact branch of the `Grasp` command (lines 245-249) -/

/-- The branch `if( bComputeStableContacts )` of `Grasp` (lines 245-249): the
direction is taken to the world frame by the transform of the target body,
`rotate b` standing for `b->GetTransform().rotate`, and the filter is called
with the parsed `friction` on an empty contact list. -/
def Grasp_stableContacts {B L : Type} [DecidableEq L] (lib : RaveLib K) (env : FilterEnv K L)
    (rotate : B → Vec3 K → Vec3 K) (st : GraspOptions K B) :
    Except FilterError (List (CONTACT K × Int)) :=
  let vworlddirection :=
    match st.targetbody with
    | none => st.vtargetdirection
    | some b => rotate b st.vtargetdirection
  _GetStableContacts lib env [] vworlddirection st.friction

/-! ## Deterministic sampling (`DeterministicallySample`, lines 560-587) -/

/-- The ray `r` of `DeterministicallySample` for the triangle whose indices
start at position `i` of `tri.indices`:
`r.dir = 0.33333f * (v0 + v1 + v2); r.dir.normalize3(); r.dir *= 1000;
r.pos = com - 10.0f*r.dir`.  The origin is computed from the direction
after its scaling by 1000. -/
def sampleRay (lib : RaveLib K) (tri : TRIMESH K) (com : Vec3 K) (i : Nat) : RAY K :=
  let dir0 := Vec3.smul (33333 / 100000)
    (((vertexAt tri.vertices (tri.indices.getD i 0)).add
        (vertexAt tri.vertices (tri.indices.getD (i + 1) 0))).add
      (vertexAt tri.vertices (tri.indices.getD (i + 2) 0)))
  let dir1 := Vec3.normalize3 lib.RaveSqrt dir0
  let dir2 := Vec3.smul 1000 dir1
  { pos := com.sub (Vec3.smul 10 dir2), dir := dir2 }

/-- The first `n` iterations (`i = 0, 3, ..., 3(n-1)`) of the loop of
`DeterministicallySample`.  `CheckCollision r` is
`GetEnv()->CheckCollision(r, pbody, _report)`: `none` when it returns
`false`, and the contacts of the report otherwise. -/
def deterministicLoop (lib : RaveLib K) (CheckCollision : RAY K → Option (List (CONTACT K)))
    (tri : TRIMESH K) (com : Vec3 K) :
    Nat → List (CONTACT K) → Except GraspError (List (CONTACT K))
  | 0, vpoints => .ok vpoints
  | n + 1, vpoints =>
    match deterministicLoop lib CheckCollision tri com n vpoints with
    | .error e => .error e
    | .ok vpoints1 =>
      match CheckCollision (sampleRay lib tri com (3 * n)) with
      | none => .ok vpoints1
      | some contacts =>
        match contacts[0]? with
        | none => .error .outOfRange
        | some c0 =>
          .ok (vpoints1 ++
            [{ pos := c0.pos.add (Vec3.smul (1 / 1000) c0.norm.neg), norm := c0.norm.neg,
               depth := 0 }])

/-- The function `DeterministicallySample`: the list `vpoints` after the
call.  The loop `for(i = 0; i < indices.size(); i += 3)` runs once for every
started triple of indices. -/
def DeterministicallySample (lib : RaveLib K)
    (CheckCollision : RAY K → Option (List (CONTACT K))) (vpoints : List (CONTACT K))
    (levels : Int) (graspcenter : Vec3 K) : Except GraspError (List (CONTACT K)) :=
  let tri := GenerateSphereTriangulation lib.RaveSqrt levels
  deterministicLoop lib CheckCollision tri graspcenter ((tri.indices.length + 2) / 3) vpoints

/-- The ray of one round of the loop of `SampleObject` (lines 538-545), from
the direction `dir` left by the previous round and the two random numbers
`u1`, `u2` of this round: the origin `r.pos = com - 10.0f*r.dir` is computed
before `r.dir *= 1000`. -/
def SampleObject_ray (lib : RaveLib K) (com dir : Vec3 K) (u1 u2 : K) : RAY K :=
  let z := 2 * u1 - 1
  let R := lib.RaveSqrt (1 - dir.x * dir.x)
  let U2 := 2 * lib.PI * u2
  let d : Vec3 K := ⟨R * lib.RaveCos U2, R * lib.RaveSin U2, z⟩
  { pos := com.sub (Vec3.smul 10 d), dir := Vec3.smul 1000 d }

/-! ## Ideal controller: construction, `Init`, `Reset`, `SendCommand` -/

/-- The operations of the log stream `flog` (a `std::ofstream`) that `Init`
and `Reset` call: `is_open()`, `close()`, and `openHeader f robot` for
`flog.open(filename)` followed by the output of the header line with the
name of the robot. -/
structure LogLib (R F : Type) where
  is_open : F → Bool
  close : F → F
  openHeader : F → R → F

/-- The constructor of `IdealController` (lines 21-26): `cmdid(0)`,
`_bPause(false)`, `_bIsDone(true)`, `fTime = 0`, `_fSpeed = 1`,
`_nControlTransformation = 0`; the other members are default-constructed:
null pointers, empty vectors, the default transform `t0` and the closed
stream `f0`. -/
def IdealController.construct {T R F : Type} (t0 : T) (f0 : F) : IdealController K T R F where
  _probot := none
  _fSpeed := 1
  _ptraj := none
  fTime := 0
  _vecdesired := []
  _tdesired := t0
  _dofindices := []
  _vlower := []
  _vupper := []
  _nControlTransformation := 0
  flog := f0
  cmdid := 0
  _bPause := false
  _bIsDone := true

/-- The method `_SetJointLimits`, also registered by `Init` as the callback
for a change of the joint limits of the robot. -/
def _SetJointLimits {T R F : Type} (lib : ControllerLib K T R F)
    (c : IdealController K T R F) : IdealController K T R F :=
  match c._probot with
  | some robot =>
    { c with _vlower := (lib.GetDOFLimits robot).1, _vupper := (lib.GetDOFLimits robot).2 }
  | none => c

/-- The method `Init(robot, dofindices, nControlTransformation)`; `robot` is
`none` for a null pointer. -/
def Init {T R F : Type} (lib : ControllerLib K T R F) (log : LogLib R F) (robot : Option R)
    (dofindices : List Int) (nControlTransformation : Int) (c : IdealController K T R F) :
    Except ControllerError Bool × IdealController K T R F :=
  let c1 := { c with _probot := robot
                     flog := if log.is_open c.flog then log.close c.flog else c.flog }
  let c2 :=
    match robot with
    | some r =>
      _SetJointLimits lib
        { c1 with flog := log.openHeader c1.flog r
                  _dofindices := dofindices
                  _nControlTransformation := nControlTransformation }
    | none => c1
  (.ok true, { c2 with _bPause := false })

/-- The method `Reset(options)`. -/
def Reset {T R F : Type} (log : LogLib R F) (_options : Int) (c : IdealController K T R F) :
    IdealController K T R F :=
  { c with _ptraj := none
           _vecdesired := []
           flog := if log.is_open c.flog then log.close c.flog else c.flog }

/-- The method `SendCommand(os, is)`: the command `pause` reads the flag
`_bPause` from the stream; a stream without a token and any other command
raise. -/
def SendCommand {T R F : Type} (slib : StreamLib K) (is : IStream)
    (c : IdealController K T R F) : Except ControllerError Bool × IdealController K T R F :=
  let r := extract some "" is
  if r.2.failbit then (.error .invalidArguments, c)
  else if tolower r.1 = "pause" then
    (.ok true, { c with _bPause := (extract slib.toBool c._bPause r.2).1 })
  else (.error .commandNotSupported, c)

/-! ## Auxiliary definitions used in the statements and proofs -/

/-- The offsets `b_i` of a flat plane array with `stride` entries per plane:
the last entry of every block. -/
def planeOffsets (stride : Nat) (planes : List K) : List K :=
  (List.range (planes.length / stride)).map fun i => planes.getD (stride * i + (stride - 1)) 0

/-- The facet test of `_AnalyzeContacts3D` on a list of offsets. -/
def scanOffsets : List K → K → Option K
  | [], m => some m
  | b :: bs, m => if b > 0 ∨ |b| < 1 / 10 ^ 15 then none else scanOffsets bs (min m (-b))

/-- The centroid of `N` points of dimension `dim` stored in a flat array. -/
def centroidOf (dim N : Nat) (vpoints : List K) : List K :=
  (List.range dim).map fun j => (∑ t ∈ Finset.range N, vpoints.getD (t * dim + j) 0) / (N : K)

/-- The block of plane `p` in a flat plane array of dimension `dim`: its
`dim` normal entries followed by its offset. -/
def planeBlock (dim : Nat) (planes : List K) (p : Nat) : List K :=
  (planes.drop (p * (dim + 1))).take (dim + 1)

/-- The product `n·m` of the normal of a plane block with a point `m`. -/
def normalDot (dim : Nat) (m block : List K) : K :=
  ∑ j ∈ Finset.range dim, block.getD j 0 * m.getD j 0

/-- The flat face array of a list of faces, as the facet loop of
`_ComputeConvexHull` builds it: the number of faces, then for every face its
vertex count followed by its vertex ids. -/
def encodeFaces (fs : List (List Nat)) : List Nat :=
  fs.length :: (fs.map fun f => f.length :: f).flatten

/-- The mean point of the vertices `ids` of one face. -/
def faceMean (vpoints : List K) (ids : List Nat) : Vec3 K :=
  let sum : Vec3 K :=
    ids.foldl (fun acc pointindex => acc.add (point3 vpoints pointindex)) ⟨0, 0, 0⟩
  ⟨sum.x / (ids.length : K), sum.y / (ids.length : K), sum.z / (ids.length : K)⟩

/-- The vertex at position `i` of a face, relative to the mean point of the
face. -/
def facePoint (vpoints : List K) (ids : List Nat) (i : Nat) : Vec3 K :=
  (point3 vpoints (ids.getD i 0)).sub (faceMean vpoints ids)

/-- The array `angles` of a face with vertex ids `ids` before sorting. -/
def faceAngles (lib : RaveLib K) (vpoints : List K) (plane : Vec3 K) (ids : List Nat) :
    List (K × Nat) :=
  (List.range ids.length).map fun i =>
    if i = 0 then (0, 0)
    else (angleOf lib plane (facePoint vpoints ids 0) (facePoint vpoints ids i), i)

/-- The fan triangles of a face with vertex ids `ids` for a sorted array
`angles`: triangle `t` joins the positions `angles[0]`, `angles[t+1]` and
`angles[t+2]`. -/
def fanTriangles (ids : List Nat) (angles : List (K × Nat)) : List Nat :=
  (List.range (angles.length - 2)).flatMap fun t =>
    [ids.getD (angles.getD 0 (0, 0)).2 0, ids.getD (angles.getD (t + 1) (0, 0)).2 0,
      ids.getD (angles.getD (t + 2) (0, 0)).2 0]

/-- The plane normal stored at `planeindex` of the flat plane array. -/
def planeAt (vconvexplanes : List K) (planeindex : Nat) : Vec3 K :=
  ⟨vconvexplanes.getD (planeindex + 0) 0, vconvexplanes.getD (planeindex + 1) 0,
    vconvexplanes.getD (planeindex + 2) 0⟩

/-- A sorting routine that meets `IsStdSort`: insertion sort by the first
component. -/
def stableSort (l : List (K × Nat)) : List (K × Nat) :=
  l.insertionSort fun a b => a.1 ≤ b.1

/-- The triple product `n · (a x b)`: the signed area spanned by `a` and `b`
as seen against the direction `n`. -/
def det3 (n a b : Vec3 K) : K := n.dot3 (a.cross b)

/-- The orientation `n · ((b - a) x (c - a))` of the triangle `(a, b, c)`
about `n`; it is positive when the triangle is counter-clockwise about `n`. -/
def orient3 (n a b c : Vec3 K) : K := det3 n (b.sub a) (c.sub a)

/-- The corners `Q 0, ..., Q (k-1)`, in any order, are the corners of a
strictly convex planar polygon whose plane has normal `n`: they lie in one
plane orthogonal to `n`, no three of them are collinear, and every corner is
the tail of an edge of the polygon that has all the remaining corners
strictly on its left when seen against `n`. -/
def IsStrictlyConvexFace (n : Vec3 K) (Q : Nat → Vec3 K) (k : Nat) : Prop :=
  (∀ i, i < k → ∀ j, j < k → n.dot3 ((Q i).sub (Q j)) = 0) ∧
  (∀ i j l, i < k → j < k → l < k → i ≠ j → i ≠ l → j ≠ l →
    orient3 n (Q i) (Q j) (Q l) ≠ 0) ∧
  (∀ i, i < k → ∃ i', i' < k ∧ i' ≠ i ∧
    ∀ j, j < k → j ≠ i → j ≠ i' → 0 < orient3 n (Q i) (Q i') (Q j))

/-- The angle in `[0, 2π)` of the planar vector with cosine part `c` and sine
part `s`: `atan2 (s, c)`, plus `2π` when negative. -/
noncomputable def ang (s c : ℝ) : ℝ :=
  if Complex.arg ⟨c, s⟩ < 0 then Complex.arg ⟨c, s⟩ + 2 * Real.pi else Complex.arg ⟨c, s⟩

/-- The scalar library over the reals: square root, sine, cosine, `atan2`
and `PI` are the mathematical ones; the quaternion routines return the
identity rotation. -/
noncomputable def realLib : RaveLib ℝ where
  RaveSqrt := Real.sqrt
  RaveSin := Real.sin
  RaveCos := Real.cos
  RaveAtan2 := fun y x => Complex.arg ⟨x, y⟩
  PI := Real.pi
  quatRotateDirection := fun _ _ => (1, 0, 0, 0)
  matrixFromQuat := fun _ => [1, 0, 0, 0, 0, 1, 0, 0, 0, 0, 1, 0]

/-- The triangle with vertex indices `a`, `b`, `c` is counter-clockwise as
seen from outside: `v_a · ((v_b - v_a) x (v_c - v_a))`. -/
def triOrient (vertices : List (Vec3 K)) (a b c : Nat) : K :=
  (vertexAt vertices a).dot3
    (((vertexAt vertices b).sub (vertexAt vertices a)).cross
      ((vertexAt vertices c).sub (vertexAt vertices a)))

/-- Every triangle of the index list refers to existing vertices and is
counter-clockwise as seen from outside. -/
def AllCCW (vertices : List (Vec3 K)) : List Nat → Prop
  | a :: b :: c :: rest =>
    (a < vertices.length ∧ b < vertices.length ∧ c < vertices.length ∧
      0 < triOrient vertices a b c) ∧ AllCCW vertices rest
  | [] => True
  | _ => False

/-- The invariant of a subdivision pass that concerns the vertices: the
vertices of `pcur` are a prefix of the new vertex list, and every entry of
the map points to an existing vertex, the normalized sum of the two end
points of its key. -/
def MidpointInv (sqrt : K → K) (pcur : List (Vec3 K)) (st : SubdivState K) : Prop :=
  (∃ extra, st.vertices = pcur ++ extra) ∧
  ∀ a b i, st.mapnewinds.lookup (a, b) = some i →
    i < st.vertices.length ∧
    vertexAt st.vertices i = Vec3.normalize3 sqrt ((vertexAt pcur a).add (vertexAt pcur b))

/-- The triangles of an index list: consecutive triples of indices. -/
def toTris : List Nat → List (Nat × Nat × Nat)
  | a :: b :: c :: rest => (a, b, c) :: toTris rest
  | _ => []

/-- The undirected edge between the vertices `a` and `b`. -/
def normEdge (a b : Nat) : Nat × Nat := (min a b, max a b)

/-- The three undirected edges of a triangle. -/
def triEdges (t : Nat × Nat × Nat) : Finset (Nat × Nat) :=
  {normEdge t.1 t.2.1, normEdge t.2.1 t.2.2, normEdge t.2.2 t.1}

/-- The set of undirected edges of a list of triangles. -/
def edgeSet (T : List (Nat × Nat × Nat)) : Finset (Nat × Nat) :=
  T.toFinset.biUnion triEdges

/-- The set of vertices of a triangle. -/
def vertexSet (t : Nat × Nat × Nat) : Finset Nat := {t.1, t.2.1, t.2.2}

/-- The midpoint index that a map assigns to the edge from `a` to `b`. -/
def idxOf (m : List ((Nat × Nat) × Nat)) (a b : Nat) : Nat := (m.lookup (a, b)).getD 0

/-- The twelve indices written for the triangle `t` when `idx` gives the
midpoint index of every edge. -/
def split12 (idx : Nat → Nat → Nat) (t : Nat × Nat × Nat) : List Nat :=
  [t.1, idx t.1 t.2.1, idx t.2.2 t.1,
   idx t.1 t.2.1, t.2.1, idx t.2.1 t.2.2,
   idx t.2.2 t.1, idx t.1 t.2.1, idx t.2.1 t.2.2,
   idx t.2.2 t.1, idx t.2.1 t.2.2, t.2.2]

/-- The four triangles that replace the triangle `t`. -/
def split4 (idx : Nat → Nat → Nat) (t : Nat × Nat × Nat) : List (Nat × Nat × Nat) :=
  [(t.1, idx t.1 t.2.1, idx t.2.2 t.1),
   (idx t.1 t.2.1, t.2.1, idx t.2.1 t.2.2),
   (idx t.2.2 t.1, idx t.1 t.2.1, idx t.2.1 t.2.2),
   (idx t.2.2 t.1, idx t.2.1 t.2.2, t.2.2)]

/-- The invariant of the midpoint map during a subdivision pass over a mesh
with `V` vertices, when `S` is the set of undirected edges met so far and `n`
the current number of vertices: one new vertex per edge of `S`; the keys of
the map are the two orderings of the edges of `S`; both orderings carry the
same index; the indices are those of the new vertices and different edges
carry different indices. -/
def EdgeInv (V : Nat) (S : Finset (Nat × Nat)) (n : Nat) (m : List ((Nat × Nat) × Nat)) :
    Prop :=
  n = V + S.card ∧
  (∀ a b, (m.lookup (a, b)).isSome ↔ normEdge a b ∈ S) ∧
  (∀ a b, m.lookup (a, b) = m.lookup (b, a)) ∧
  (∀ a b i, m.lookup (a, b) = some i → V ≤ i ∧ i < n) ∧
  (∀ a b a' b' i, m.lookup (a, b) = some i → m.lookup (a', b') = some i →
    normEdge a b = normEdge a' b')

/-- The half of the edge `e` between its smaller end point and its midpoint. -/
def half1 (idx : Nat → Nat → Nat) (e : Nat × Nat) : Nat × Nat := (e.1, idx e.1 e.2)

/-- The half of the edge `e` between its larger end point and its midpoint. -/
def half2 (idx : Nat → Nat → Nat) (e : Nat × Nat) : Nat × Nat := (e.2, idx e.1 e.2)

/-- The three edges between the midpoints of the edges of a triangle. -/
def innerEdges (idx : Nat → Nat → Nat) (t : Nat × Nat × Nat) : Finset (Nat × Nat) :=
  {normEdge (idx t.1 t.2.1) (idx t.2.1 t.2.2), normEdge (idx t.2.1 t.2.2) (idx t.2.2 t.1),
    normEdge (idx t.2.2 t.1) (idx t.1 t.2.1)}

/-- A triangle list over `V` vertices is well formed: every index is below
`V`, the three vertices of a triangle are different, and no two triangles
of the list have the same three vertices. -/
def WellFormedTris (V : Nat) (T : List (Nat × Nat × Nat)) : Prop :=
  (∀ t ∈ T, t.1 < V ∧ t.2.1 < V ∧ t.2.2 < V) ∧
  (∀ t ∈ T, t.1 ≠ t.2.1 ∧ t.2.1 ≠ t.2.2 ∧ t.2.2 ≠ t.1) ∧
  T.Pairwise fun t t' => vertexSet t ≠ vertexSet t'

/-- The midpoint indices `idx` of a subdivision pass over the triangles `T`
of a mesh with `V` vertices are well formed: symmetric, one of the
`|E|` indices after `V` for every edge of `T`, and different for different
edges. -/
def WellFormedIdx (V : Nat) (T : List (Nat × Nat × Nat)) (idx : Nat → Nat → Nat) : Prop :=
  (∀ a b, idx a b = idx b a) ∧
  (∀ a b, normEdge a b ∈ edgeSet T → V ≤ idx a b ∧ idx a b < V + (edgeSet T).card) ∧
  (∀ a b a' b', normEdge a b ∈ edgeSet T → normEdge a' b' ∈ edgeSet T →
    idx a b = idx a' b' → normEdge a b = normEdge a' b')

/-- The two end points of an undirected edge. -/
def endpoints (e : Nat × Nat) : Finset Nat := {e.1, e.2}

/-- The invariant of the sphere triangulation after `L` subdivision passes:
the index list consists of whole triangles, the triangle list is well
formed, and the numbers of vertices, triangles and undirected edges are
`10 * 4^L + 2`, `20 * 4^L` and `30 * 4^L`. -/
def MeshInv (L : Nat) (M : TRIMESH K) : Prop :=
  M.indices = (toTris M.indices).flatMap (fun t => [t.1, t.2.1, t.2.2]) ∧
  WellFormedTris M.vertices.length (toTris M.indices) ∧
  M.vertices.length = 10 * 4 ^ L + 2 ∧
  (toTris M.indices).length = 20 * 4 ^ L ∧
  (edgeSet (toTris M.indices)).card = 30 * 4 ^ L

/-- The condition under which the robot update `_SetDOFValues` of a
controller raises nothing: the robot is set, it has a link when the base is
not controlled, every controlled index is an index of the robot's value and
velocity arrays, and the limit array is no longer than the value array. -/
def RobotReady {T R F : Type} (lib : ControllerLib K T R F) (c : IdealController K T R F) :
    Prop :=
  ∃ robot, c._probot = some robot ∧
    (c._nControlTransformation = 0 → (lib.GetLinkVelocity robot).isSome = true) ∧
    (∀ it ∈ c._dofindices, 0 ≤ it ∧ it.toNat < (lib.GetDOFValues robot).length ∧
      it.toNat < (lib.GetDOFVelocities robot).length) ∧
    c._vlower.length ≤ (lib.GetDOFValues robot).length

/-- The rotation by the angle `θ` about the x-axis, applied to a vector. -/
noncomputable def rotateX (θ : ℝ) (v : Vec3 ℝ) : Vec3 ℝ :=
  ⟨v.x, Real.cos θ * v.y - Real.sin θ * v.z, Real.sin θ * v.y + Real.cos θ * v.z⟩

/-- The set of the points stored in a flat array of 6-D points: point `k`
has the coordinates `pts[6k], ..., pts[6k+5]`. -/
def pointSet6 (pts : List ℝ) : Set (Fin 6 → ℝ) :=
  {x | ∃ k, k < pts.length / 6 ∧ ∀ i : Fin 6, x i = pts.getD (6 * k + i.val) 0}

/-- The exact 6-D volume of the convex hull of the points of a flat array:
the Lebesgue measure of their convex hull in `ℝ⁶`. -/
noncomputable def hullVolume6 (pts : List ℝ) : ℝ :=
  (MeasureTheory.volume (convexHull ℝ (pointSet6 pts))).toReal

/-- The six reals `_AnalyzeContacts3D` stores for one contact. -/
def wrenchBlock (c : CONTACT K) : List K :=
  [c.norm.x, c.norm.y, c.norm.z, (c.pos.cross c.norm).x, (c.pos.cross c.norm).y,
    (c.pos.cross c.norm).z]

/-- The keywords the parser of `Grasp` recognizes. -/
def Grasp_keywords : List String :=
  ["body", "target", "bodyid", "direction", "avoidlink", "notrans", "transformrobot",
    "onlycontacttarget", "tightgrasp", "execute", "writetraj", "outputfinal", "graspingnoise",
    "roll", "centeroffset", "position", "standoff", "friction", "getlinkcollisions",
    "stablecontacts", "forceclosure", "collision", "translationstepmult"]

/-- The keywords the parser of `ComputeDistanceMap` recognizes. -/
def ComputeDistanceMap_keywords : List String := ["conewidth", "mapsamples", "target", "center"]

/-- The keywords the parser of `GetStableContacts` recognizes. -/
def GetStableContacts_keywords : List String := ["direction", "friction", "getlinkcollisions"]

/-- The keywords the parser of `ConvexHull` recognizes. -/
def ConvexHull_keywords : List String :=
  ["points", "returnplanes", "returnfaces", "returntriangles"]

/-- A keyword chain never puts tokens back: the stream it leaves is no longer
than the one it is given. -/
def KeywordShrinks {σ : Type} (keyword : String → σ → IStream → KeywordResult σ) : Prop :=
  ∀ cmd st s st1 s1, keyword cmd st s = .handled st1 s1 → s1.tokens.length ≤ s.tokens.length

/-- The vector `right` of the cone discretization for the contact `c`: the
first column of the frame `matrixFromQuat(quatRotateDirection((0,0,1), norm))`. -/
def coneRight (lib : RaveLib K) (c : CONTACT K) : Vec3 K :=
  let torient := lib.matrixFromQuat (lib.quatRotateDirection ⟨0, 0, 1⟩ c.norm)
  ⟨torient.getD 0 0, torient.getD 4 0, torient.getD 8 0⟩

/-- The vector `up` of the cone discretization for the contact `c`: the second
column of the same frame. -/
def coneUp (lib : RaveLib K) (c : CONTACT K) : Vec3 K :=
  let torient := lib.matrixFromQuat (lib.quatRotateDirection ⟨0, 0, 1⟩ c.norm)
  ⟨torient.getD 1 0, torient.getD 5 0, torient.getD 9 0⟩

/-- The `k`-th contact of the friction cone of `c` for `N` cone points:
the position of `c`, the normal
`normalize(n + mu sin(phi_k) right + mu cos(phi_k) up)` with
`phi_k = 2 PI k / N`, and depth 0. -/
def coneContact (lib : RaveLib K) (mu : K) (N : Nat) (c : CONTACT K) (k : Nat) : CONTACT K :=
  ⟨c.pos,
    Vec3.normalize3 lib.RaveSqrt
      ((c.norm.add (Vec3.smul (mu * lib.RaveSin (2 * lib.PI * (k : K) / (N : K)))
        (coneRight lib c))).add
        (Vec3.smul (mu * lib.RaveCos (2 * lib.PI * (k : K) / (N : K))) (coneUp lib c))),
    0⟩

/-- A 3 x 3 matrix, kept as its three rows. -/
structure Mat3 (K : Type) where
  r1 : Vec3 K
  r2 : Vec3 K
  r3 : Vec3 K

/-- The product of a matrix with a vector. -/
def Mat3.mulVec (R : Mat3 K) (v : Vec3 K) : Vec3 K := ⟨R.r1.dot3 v, R.r2.dot3 v, R.r3.dot3 v⟩

/-- The matrix is a rotation: it is orthogonal (its rows are orthonormal) and
its determinant is 1. -/
def IsRotation (R : Mat3 K) : Prop :=
  R.r1.dot3 R.r1 = 1 ∧ R.r2.dot3 R.r2 = 1 ∧ R.r3.dot3 R.r3 = 1 ∧
  R.r1.dot3 R.r2 = 0 ∧ R.r1.dot3 R.r3 = 0 ∧ R.r2.dot3 R.r3 = 0 ∧
  det3 R.r1 R.r2 R.r3 = 1

/-- The contact with its position and its normal rotated by `R`. -/
def rotateContact (R : Mat3 K) (c : CONTACT K) : CONTACT K :=
  ⟨R.mulVec c.pos, R.mulVec c.norm, c.depth⟩

/-- The rays `_ComputeDistanceMap` samples for the contact `c` at index `i`. -/
def distanceMapRays [FloorRing K] (lib : RaveLib K) (rand : Nat → K) (fTheta : K)
    (i : Nat) (c : CONTACT K) : List (RAY K) :=
  (List.range (distanceMapSamples lib fTheta).toNat).map fun j =>
    coneSample lib (lib.RaveCos fTheta) c (distanceMapFrame lib c.norm).1
      (distanceMapFrame lib c.norm).2
      (rand (2 * (distanceMapSamples lib fTheta).toNat * i + 2 * j))
      (rand (2 * (distanceMapSamples lib fTheta).toNat * i + 2 * j + 1))

/-- The product of the row-major `3 x DOF` Jacobian `J` with the vector
`closing`: component `j` is the sum over `k < DOF` of
`J[j*DOF + k] * closing[k]`. -/
def jacobianProduct (J closing : List K) (DOF : Nat) : Vec3 K :=
  ⟨∑ k ∈ Finset.range DOF, J.getD (0 * DOF + k) 0 * closing.getD k 0,
    ∑ k ∈ Finset.range DOF, J.getD (1 * DOF + k) 0 * closing.getD k 0,
    ∑ k ∈ Finset.range DOF, J.getD (2 * DOF + k) 0 * closing.getD k 0⟩

/-- The unit vector along the centroid of the triangle whose indices start at
position `i`: the normalized `0.33333 (v0 + v1 + v2)`. -/
def centroidDir (lib : RaveLib K) (tri : TRIMESH K) (i : Nat) : Vec3 K :=
  Vec3.normalize3 lib.RaveSqrt
    (Vec3.smul (33333 / 100000)
      (((vertexAt tri.vertices (tri.indices.getD i 0)).add
          (vertexAt tri.vertices (tri.indices.getD (i + 1) 0))).add
        (vertexAt tri.vertices (tri.indices.getD (i + 2) 0))))

/-- The rays that `DeterministicallySample` casts, in the order of the
loop. -/
def deterministicRays (lib : RaveLib K) (levels : Int) (graspcenter : Vec3 K) :
    List (RAY K) :=
  let tri := GenerateSphereTriangulation lib.RaveSqrt levels
  (List.range ((tri.indices.length + 2) / 3)).map
    (fun t => sampleRay lib tri graspcenter (3 * t))

/-- The states of the controller reachable from its construction by calls of
`Init`, `SetDesired`, `SetPath`, `Reset`, `SimulationStep` and `SendCommand`
with any arguments, and by the joint-limit callback; the state after a call
that raises or is rejected is the one the call leaves behind. -/
inductive Reachable {T R F : Type} (lib : ControllerLib K T R F) (log : LogLib R F)
    (slib : StreamLib K) (t0 : T) (f0 : F) : IdealController K T R F → Prop where
  | construct : Reachable lib log slib t0 f0 (IdealController.construct t0 f0)
  | init (robot : Option R) (dofindices : List Int) (nControlTransformation : Int)
      (c : IdealController K T R F) :
      Reachable lib log slib t0 f0 c →
      Reachable lib log slib t0 f0 (Init lib log robot dofindices nControlTransformation c).2
  | setDesired (values : List K) (trans : Option T) (c : IdealController K T R F) :
      Reachable lib log slib t0 f0 c →
      Reachable lib log slib t0 f0 (SetDesired lib values trans c).2
  | setPath (ptraj : Option (Trajectory K T)) (c : IdealController K T R F) :
      Reachable lib log slib t0 f0 c →
      Reachable lib log slib t0 f0 (SetPath lib ptraj c).2
  | reset (options : Int) (c : IdealController K T R F) :
      Reachable lib log slib t0 f0 c →
      Reachable lib log slib t0 f0 (Reset log options c)
  | simulationStep (fTimeElapsed : K) (c : IdealController K T R F) :
      Reachable lib log slib t0 f0 c →
      Reachable lib log slib t0 f0 (SimulationStep lib fTimeElapsed c).2
  | sendCommand (is : IStream) (c : IdealController K T R F) :
      Reachable lib log slib t0 f0 c →
      Reachable lib log slib t0 f0 (SendCommand slib is c).2
  | setJointLimits (c : IdealController K T R F) :
      Reachable lib log slib t0 f0 c →
      Reachable lib log slib t0 f0 (_SetJointLimits lib c)

/-- The plane of the facet `f` is a facet plane of the `N` points of
dimension `dim` stored in `points`: the kernel reports a normal of `dim`
entries and of unit length, and the plane passes through one of the points,
a vertex of the facet.  The orientation of the normal is left open. -/
def IsFacetPlane (dim N : Nat) (points : List K) (f : Facet K) : Prop :=
  ∃ nrm, f.normal = some nrm ∧ nrm.length = dim ∧
    (∑ j ∈ Finset.range dim, nrm.getD j 0 * nrm.getD j 0) = 1 ∧
    ∃ i, i < N ∧
      (∑ j ∈ Finset.range dim, nrm.getD j 0 * points.getD (dim * i + j) 0) + f.offset = 0

/-! ## Concrete inputs used by the witnesses -/

/-- Seven copies of the contact at the origin with normal `(0,0,1)`. -/
def exampleContacts : List (CONTACT ℚ) :=
  List.replicate 7 ⟨⟨0, 0, 0⟩, ⟨0, 0, 1⟩, 0⟩

/-- A hull kernel that reports exit code 0, volume 1 and the single facet
with normal `(1,0,0,0,0,0)` and offset `b`. -/
def exampleKernel (b : ℚ) : Nat → Nat → List ℚ → QhullResult ℚ :=
  fun _ _ _ => ⟨0, [⟨none, some [1, 0, 0, 0, 0, 0], b⟩], 1⟩

/-- The four corners of the square `[-3,-1] x [-1,1]` as a flat array of
planar points; their centroid is `(-2, 0)`. -/
def squarePoints : List ℚ := [-3, -1, -1, -1, -1, 1, -3, 1]

/-- A hull kernel that reports the four edge lines of the square
`[-3,-1] x [-1,1]`: the edges `x = -1`, `y = 1` and `y = -1` with outward
normals and the edge `x = -3` with its inward normal `(1,0)` and offset `3`. -/
def squareKernel : Nat → Nat → List ℚ → QhullResult ℚ :=
  fun _ _ _ =>
    ⟨0, [⟨none, some [1, 0], 3⟩, ⟨none, some [1, 0], 1⟩, ⟨none, some [0, 1], -1⟩,
      ⟨none, some [0, -1], -1⟩], 4⟩

/-- A stand-in for the scalar library over `ℚ`, used to instantiate
statements that hold for every implementation of the library routines. -/
def exampleLib : RaveLib ℚ where
  RaveSqrt := fun x => x
  RaveSin := fun _ => 0
  RaveCos := fun _ => 1
  RaveAtan2 := fun y _ => y
  PI := 3
  quatRotateDirection := fun _ _ => (1, 0, 0, 0)
  matrixFromQuat := fun _ => [1, 0, 0, 0, 0, 1, 0, 0, 0, 0, 1, 0]

/-- The six vertices of the regular octahedron, as a flat array of points. -/
def octahedronPoints : List ℚ :=
  [1, 0, 0, -1, 0, 0, 0, 1, 0, 0, -1, 0, 0, 0, 1, 0, 0, -1]

/-- The eight faces of the regular octahedron, by vertex ids. -/
def octahedronFaces : List (List Nat) :=
  [[0, 2, 4], [2, 1, 4], [1, 3, 4], [3, 0, 4], [2, 0, 5], [1, 2, 5], [3, 1, 5], [0, 3, 5]]

/-- The corners `(0,0,0)`, `(1,0,0)`, `(0,1,0)` of a triangle in the plane
`z = 0`, as a flat array of real points. -/
noncomputable def trianglePoints : List ℝ := [0, 0, 0, 1, 0, 0, 0, 1, 0]

/-- A robot kept as its arrays of joint values and joint velocities, with one
link at rest; the log stream is its `good` flag. -/
def exampleRobotLib : ControllerLib ℚ Unit (List ℚ × List ℚ) Bool where
  GetDOFValues := fun r => r.1
  GetDOFVelocities := fun r => r.2
  GetLinkVelocity := fun _ => some (⟨0, 0, 0⟩, ⟨0, 0, 0⟩)
  GetTransform := fun _ => ()
  GetDOFLimits := fun _ => ([], [])
  SetDOFValues := fun r v => (v, r.2)
  SetDOFValuesT := fun r v _ => (v, r.2)
  SetDOFVelocities := fun r v _ _ => (r.1, v)
  SetTransform := fun r _ => r
  good := fun f => f
  writeTrajectory := fun f _ _ => f

/-- An idle controller of the two joints of a two-joint robot, as `Init`
leaves it; `pause` sets the flag `_bPause`. -/
def exampleController (pause : Bool) : IdealController ℚ Unit (List ℚ × List ℚ) Bool where
  _probot := some ([0, 0], [0, 0])
  _fSpeed := 1
  _ptraj := none
  fTime := 0
  _vecdesired := []
  _tdesired := ()
  _dofindices := [0, 1]
  _vlower := []
  _vupper := []
  _nControlTransformation := 0
  flog := false
  cmdid := 0
  _bPause := pause
  _bIsDone := true

/-- A trajectory with `dof` joints and total duration 1 whose sample at time
`t` has the joint values `(t, t)`. -/
def exampleTrajectory (dof : Int) : Trajectory ℚ Unit where
  GetDOF := dof
  GetTotalDuration := 1
  SampleTrajectory := fun t => some ⟨[t, t], ()⟩

/-- The example controller after `SetPath` has accepted the example
trajectory of two joints: not paused, time 0, `done` cleared. -/
def followingController : IdealController ℚ Unit (List ℚ × List ℚ) Bool :=
  (SetPath exampleRobotLib (some (exampleTrajectory 2)) (exampleController false)).2

/-- Three contacts on the plane `z = 0` whose normals are all `(0,0,1)`. -/
def coplanarContacts : List (CONTACT ℚ) :=
  [⟨⟨0, 0, 0⟩, ⟨0, 0, 1⟩, 0⟩, ⟨⟨1, 0, 0⟩, ⟨0, 0, 1⟩, 0⟩, ⟨⟨0, 1, 0⟩, ⟨0, 0, 1⟩, 0⟩]

/-- The scalar library over the reals in which the frame of the normal
`(0,0,1)` is the identity and the frame of a normal pointing down is the
half turn about the x-axis. -/
noncomputable def antipodalLib : RaveLib ℝ where
  RaveSqrt := Real.sqrt
  RaveSin := Real.sin
  RaveCos := Real.cos
  RaveAtan2 := fun y x => Complex.arg ⟨x, y⟩
  PI := Real.pi
  quatRotateDirection := fun _ t => if t.z < 0 then (0, 1, 0, 0) else (1, 0, 0, 0)
  matrixFromQuat := fun q =>
    if q.1 = 0 then [1, 0, 0, 0, 0, -1, 0, 0, 0, 0, -1, 0]
    else [1, 0, 0, 0, 0, 1, 0, 0, 0, 0, 1, 0]

/-- Two contacts at the poles `(0,0,1)` and `(0,0,-1)` of the unit sphere with
the outward normals `(0,0,1)` and `(0,0,-1)`. -/
noncomputable def antipodalContacts : List (CONTACT ℝ) :=
  [⟨⟨0, 0, 1⟩, ⟨0, 0, 1⟩, 0⟩, ⟨⟨0, 0, -1⟩, ⟨0, 0, -1⟩, 0⟩]

/-- A hull kernel for a point set that lies in the hyperplane `x₅ = 0` of
`ℝ⁶`: it reports the two sides of that hyperplane as facets, with offset 0,
and the volume 0. -/
noncomputable def flatKernel : Nat → Nat → List ℝ → QhullResult ℝ :=
  fun _ _ _ =>
    ⟨0, [⟨none, some [0, 0, 0, 0, 0, 1], 0⟩, ⟨none, some [0, 0, 0, 0, 0, -1], 0⟩], 0⟩

/-- The value of a string of decimal digits, continuing from `n`. -/
def digitsToNat : List Char → Nat → Option Nat
  | [], n => some n
  | c :: cs, n => if c.isDigit then digitsToNat cs (10 * n + (c.toNat - 48)) else none

/-- The integer written by a token: decimal digits with an optional minus
sign in front. -/
def exampleToInt (t : String) : Option Int :=
  match t.data with
  | [] => none
  | '-' :: c :: cs => (digitsToNat (c :: cs) 0).map fun n => -(n : Int)
  | c :: cs => (digitsToNat (c :: cs) 0).map fun n => (n : Int)

/-- Conversions for streams of integer tokens: a flag is `0` or `1`, an
integer is a string of digits with an optional sign, and a real is read as
an integer. -/
def exampleStreamLib : StreamLib ℚ where
  toBool := fun t => if t = "0" then some false else if t = "1" then some true else none
  toInt := exampleToInt
  toReal := fun t => (exampleToInt t).map fun n => (n : ℚ)

/-- The corners `(0,0,0)`, `(3,0,0)`, `(0,4,0)`, `(0,0,1)` of a tetrahedron,
as a flat array of points. -/
def tetrahedronPoints : List ℚ := [0, 0, 0, 3, 0, 0, 0, 4, 0, 0, 0, 1]

/-- A hull kernel that reports the four faces of the tetrahedron of
`tetrahedronPoints` with their outward unit normals, and its volume 2. -/
def tetrahedronKernel : Nat → Nat → List ℚ → QhullResult ℚ :=
  fun _ _ _ =>
    ⟨0, [⟨some [0, 2, 1], some [0, 0, -1], 0⟩, ⟨some [0, 1, 3], some [0, -1, 0], 0⟩,
      ⟨some [0, 3, 2], some [-1, 0, 0], 0⟩,
      ⟨some [1, 2, 3], some [4 / 13, 3 / 13, 12 / 13], -(12 / 13)⟩], 2⟩

/-- A hull kernel that reports exit code 0, no facet and the volume 0. -/
def emptyKernel : Nat → Nat → List ℚ → QhullResult ℚ := fun _ _ _ => ⟨0, [], 0⟩

/-- The quarter turn about the z-axis. -/
def quarterTurn : Mat3 ℚ := ⟨⟨0, -1, 0⟩, ⟨1, 0, 0⟩, ⟨0, 0, 1⟩⟩

/-- A ray oracle in which every ray hits at the distance `1/2`. -/
def exampleRayOracle : RAY ℚ → Option ℚ := fun _ => some (1 / 2)

/-- A robot with three joints, two links and two manipulators: the first
closes the joints 0 and 1 with the directions 1 and -1, the second closes
the joint 1 with the direction 5.  Link 0 is the base; link 1 collides at
the origin with the normal `(0,0,1)`, and its Jacobian moves the contact
along the z-axis with the second joint. -/
def exampleFilterEnv : FilterEnv ℚ Nat where
  CheckCollisionRobot := true
  GetDOF := 3
  GetManipulators := [⟨[0, 1], [1, -1], 0⟩, ⟨[1], [5], 0⟩]
  GetActiveManipulator := none
  GetLinks := [0, 1]
  GetIndex := fun l => (l : Int)
  CheckCollisionLink := fun l => if l = 1 then some (1, [⟨⟨0, 0, 0⟩, ⟨0, 0, 1⟩, 0⟩]) else none
  CalculateJacobian := fun _ _ => [0, 0, 0, 0, 0, 0, 0, 1, 0]

/-- A log stream kept as its `is_open` flag. -/
def exampleLogLib : LogLib (List ℚ × List ℚ) Bool where
  is_open := fun f => f
  close := fun _ => false
  openHeader := fun _ _ => true

/-- The controller after construction, `Init` on a two-joint robot,
`SetDesired` of the setpoint `(1, 2)`, `SetPath` of the example trajectory
and one simulation step of a tenth of a second. -/
def exampleRun : IdealController ℚ Unit (List ℚ × List ℚ) Bool :=
  (SimulationStep exampleRobotLib (1 / 10)
    (SetPath exampleRobotLib (some (exampleTrajectory 2))
      (SetDesired exampleRobotLib [1, 2] none
        (Init exampleRobotLib exampleLogLib (some ([0, 0], [0, 0])) [0, 1] 0
          (IdealController.construct () false)).2).2).2).2

/-- A hull kernel that reports exit code 0, volume 1 and the single facet
plane with normal `(0,0,1,0,0,0)` and offset `-1`, which passes through the
wrench `(0,0,1,0,0,0)` of `exampleContacts`. -/
def facetKernel : Nat → Nat → List ℚ → QhullResult ℚ :=
  fun _ _ _ => ⟨0, [⟨none, some [0, 0, 1, 0, 0, 0], -1⟩], 1⟩

/-! # Theorems -/

/-! ## Lemmas on the vector kernel -/

theorem Vec3.lagrange (a b : Vec3 K) :
    (a.cross b).lengthsqr3 = a.lengthsqr3 * b.lengthsqr3 - a.dot3 b * a.dot3 b := by
  simp only [Vec3.cross, Vec3.lengthsqr3, Vec3.dot3]
  ring

theorem bstable_iff (n d : Vec3 K) (mu : K) :
    bstable n d mu = true ↔
      (0 < n.dot3 d ∧ (n.cross d).lengthsqr3 ≤ n.dot3 d * n.dot3 d * mu * mu) := by
  simp [bstable]

/-- For unit vectors the cone test reads `c > 0` and `1 - c^2 ≤ c^2 mu^2` with
`c` the cosine of the angle. -/
theorem bstable_unit_iff (n d : Vec3 K) (mu : K)
    (hn : n.lengthsqr3 = 1) (hd : d.lengthsqr3 = 1) :
    bstable n d mu = true ↔
      (0 < n.dot3 d ∧ 1 - n.dot3 d ^ 2 ≤ (mu * n.dot3 d) ^ 2) := by
  rw [bstable_iff, Vec3.lagrange, hn, hd]
  constructor
  · rintro ⟨h1, h2⟩
    exact ⟨h1, by nlinarith⟩
  · rintro ⟨h1, h2⟩
    exact ⟨h1, by nlinarith⟩

/-- The cosine of the angle between two unit vectors is at most one in
absolute value: `1 - c^2` is a squared length. -/
theorem one_sub_dot_sq_nonneg (n d : Vec3 K)
    (hn : n.lengthsqr3 = 1) (hd : d.lengthsqr3 = 1) : 0 ≤ 1 - n.dot3 d ^ 2 := by
  have h := Vec3.lagrange n d
  rw [hn, hd] at h
  have h2 : 0 ≤ (n.cross d).lengthsqr3 := by
    simp only [Vec3.lengthsqr3]
    nlinarith [mul_self_nonneg (n.cross d).x, mul_self_nonneg (n.cross d).y,
      mul_self_nonneg (n.cross d).z]
  nlinarith

/-- The angle `arccos c` is at most `arctan mu` exactly when
`1 - c^2 ≤ (mu c)^2`, for a cosine `0 < c` and a friction coefficient
`0 < mu`. -/
theorem arccos_le_arctan_iff (c mu : ℝ) (hc : 0 < c) (hc1 : 0 ≤ 1 - c ^ 2) (hmu : 0 < mu) :
    Real.arccos c ≤ Real.arctan mu ↔ 1 - c ^ 2 ≤ (mu * c) ^ 2 := by
  rw [Real.arccos_eq_arctan hc, Real.arctan_strictMono.le_iff_le, div_le_iff₀ hc]
  have hmc : 0 ≤ mu * c := (mul_pos hmu hc).le
  constructor
  · intro h
    have := Real.sq_sqrt hc1
    have h0 := Real.sqrt_nonneg (1 - c ^ 2)
    nlinarith
  · intro h
    exact Real.sqrt_le_iff.mpr ⟨hmc, h⟩

/-! ## C1: cone admissibility and the friction cone -/

/-- C1 (as amended): for unit vectors `n`, `d` and `mu > 0` the admissibility
test accepts exactly when `n·d > 0` and the angle between `n` and `d`,
`arccos (n·d)`, is at most `arctan mu`; the boundary of the cone is accepted. -/
theorem C1_bstable_iff_angle_le_arctan (n d : Vec3 ℝ) (mu : ℝ)
    (hn : n.lengthsqr3 = 1) (hd : d.lengthsqr3 = 1) (hmu : 0 < mu) :
    bstable n d mu = true ↔
      (0 < n.dot3 d ∧ Real.arccos (n.dot3 d) ≤ Real.arctan mu) := by
  rw [bstable_unit_iff n d mu hn hd]
  constructor
  · rintro ⟨h1, h2⟩
    exact ⟨h1, (arccos_le_arctan_iff _ _ h1 (one_sub_dot_sq_nonneg n d hn hd) hmu).mpr h2⟩
  · rintro ⟨h1, h2⟩
    exact ⟨h1, (arccos_le_arctan_iff _ _ h1 (one_sub_dot_sq_nonneg n d hn hd) hmu).mp h2⟩

/-- Witness for C1: the normal `(0,0,1)` against the closing velocity
`(0,3/5,4/5)` with `mu = 1`. -/
theorem C1_bstable_iff_angle_le_arctan_witness :
    bstable (⟨0, 0, 1⟩ : Vec3 ℝ) ⟨0, 3 / 5, 4 / 5⟩ 1 = true ↔
      (0 < Vec3.dot3 (⟨0, 0, 1⟩ : Vec3 ℝ) ⟨0, 3 / 5, 4 / 5⟩ ∧
        Real.arccos (Vec3.dot3 (⟨0, 0, 1⟩ : Vec3 ℝ) ⟨0, 3 / 5, 4 / 5⟩) ≤ Real.arctan 1) :=
  C1_bstable_iff_angle_le_arctan ⟨0, 0, 1⟩ ⟨0, 3 / 5, 4 / 5⟩ 1
    (by norm_num [Vec3.lengthsqr3]) (by norm_num [Vec3.lengthsqr3]) one_pos

/-- C1 counterexample: with `n = (0,0,1)`, `d = (0,3/5,4/5)` and `mu = 3/4`
(unit vectors, `mu > 0`) the test accepts although the angle between `n` and
`d` equals `arctan mu` and so is not strictly smaller. -/
theorem C1_counterexample :
    Vec3.lengthsqr3 (⟨0, 0, 1⟩ : Vec3 ℝ) = 1 ∧
    Vec3.lengthsqr3 (⟨0, 3 / 5, 4 / 5⟩ : Vec3 ℝ) = 1 ∧
    (0 : ℝ) < 3 / 4 ∧
    bstable (⟨0, 0, 1⟩ : Vec3 ℝ) ⟨0, 3 / 5, 4 / 5⟩ (3 / 4) = true ∧
    ¬ (0 < Vec3.dot3 (⟨0, 0, 1⟩ : Vec3 ℝ) ⟨0, 3 / 5, 4 / 5⟩ ∧
        Real.arccos (Vec3.dot3 (⟨0, 0, 1⟩ : Vec3 ℝ) ⟨0, 3 / 5, 4 / 5⟩) <
          Real.arctan (3 / 4)) := by
  have hdot : Vec3.dot3 (⟨0, 0, 1⟩ : Vec3 ℝ) ⟨0, 3 / 5, 4 / 5⟩ = 4 / 5 := by
    norm_num [Vec3.dot3]
  have hsq : √(1 - (4 / 5 : ℝ) ^ 2) = 3 / 5 := by
    rw [show (1 - (4 / 5 : ℝ) ^ 2) = (3 / 5) ^ 2 by norm_num]
    exact Real.sqrt_sq (by norm_num)
  have hacos : Real.arccos (4 / 5) = Real.arctan (3 / 4) := by
    rw [Real.arccos_eq_arctan (by norm_num), hsq]
    norm_num
  refine ⟨by norm_num [Vec3.lengthsqr3], by norm_num [Vec3.lengthsqr3], by norm_num, ?_, ?_⟩
  · rw [bstable_iff]
    norm_num [Vec3.dot3, Vec3.cross, Vec3.lengthsqr3]
  · rw [hdot, hacos]
    intro h
    exact lt_irrefl _ h.2

/-! ## The facet loop of `_AnalyzeContacts3D` -/

theorem mindistLoop_eq_scan (planes : List K) (F : Nat) (hlen : planes.length = 7 * F) :
    ∀ (n t : Nat) (m : K), t + n = F →
      mindistLoop planes (7 * t) m =
        .ok (scanOffsets ((List.range' t n).map fun i => planes.getD (7 * i + 6) 0) m) := by
  intro n
  induction n with
  | zero =>
    intro t m ht
    rw [mindistLoop]
    have : ¬ 7 * t < planes.length := by omega
    simp [this, scanOffsets]
  | succ n ih =>
    intro t m ht
    rw [mindistLoop]
    have h1 : 7 * t < planes.length := by omega
    have h2 : 7 * t + 6 < planes.length := by omega
    have h3 : planes[7 * t + 6]? = some (planes.getD (7 * t + 6) 0) := by
      rw [List.getD_eq_getElem _ _ h2, List.getElem?_eq_getElem h2]
    simp only [h1, if_true, h3, List.range'_succ, List.map_cons, scanOffsets]
    split
    · rfl
    · exact ih (t + 1) _ (by omega)

theorem scanOffsets_none_iff (bs : List K) (m : K) :
    scanOffsets bs m = none ↔ ∃ b ∈ bs, 0 < b ∨ |b| < 1 / 10 ^ 15 := by
  induction bs generalizing m with
  | nil => simp [scanOffsets]
  | cons b bs ih =>
    simp only [scanOffsets, List.mem_cons, exists_eq_or_imp]
    split
    · rename_i h; simpa using Or.inl h
    · rename_i h
      rw [ih]
      constructor
      · intro h'; exact Or.inr h'
      · rintro (h' | h')
        · exact absurd h' h
        · exact h'

theorem scanOffsets_some (bs : List K) (m d : K) (h : scanOffsets bs m = some d) :
    d ≤ m ∧ (∀ b ∈ bs, d ≤ -b) ∧ (d = m ∨ ∃ b ∈ bs, d = -b) := by
  induction bs generalizing m with
  | nil =>
    simp only [scanOffsets, Option.some.injEq] at h
    simp [h]
  | cons b bs ih =>
    simp only [scanOffsets] at h
    split at h
    · exact absurd h (by simp)
    · obtain ⟨h1, h2, h3⟩ := ih _ h
      refine ⟨le_trans h1 (min_le_left _ _), ?_, ?_⟩
      · intro c hc
        rcases List.mem_cons.mp hc with rfl | hc
        · exact le_trans h1 (min_le_right _ _)
        · exact h2 c hc
      · rcases h3 with h3 | ⟨c, hc, h3⟩
        · rcases min_choice m (-b) with hm | hm
          · left; rw [h3, hm]
          · right; exact ⟨b, List.mem_cons_self _ _, by rw [h3, hm]⟩
        · right; exact ⟨c, List.mem_cons_of_mem _ hc, h3⟩

/-! ## Shape of the plane array -/

theorem rawPlanes_foldl_length (dim : Nat) (facets : List (Facet K)) :
    ∀ (acc : List K) (A : Nat), acc.length = (dim + 1) * A →
      ∃ F, (facets.foldl
        (fun acc f =>
          match f.normal with
          | some nrm => acc ++ (List.range dim).map (fun i => nrm.getD i 0) ++ [f.offset]
          | none => acc) acc).length = (dim + 1) * F := by
  induction facets with
  | nil => intro acc A h; exact ⟨A, by simpa using h⟩
  | cons f fs ih =>
    intro acc A h
    simp only [List.foldl_cons]
    cases hn : f.normal with
    | none => exact ih acc A h
    | some nrm =>
      refine ih _ (A + 1) ?_
      simp [h]
      ring

theorem rawPlanes_length (dim : Nat) (facets : List (Facet K)) :
    ∃ F, (rawPlanes dim facets).length = (dim + 1) * F :=
  rawPlanes_foldl_length dim facets [] 0 (by simp)

theorem flipBlock_length (dim : Nat) (vmean block : List K) :
    (flipBlock dim vmean block).length = block.length := by
  unfold flipBlock
  split
  · simp only [List.length_append, List.length_map, List.length_take, List.length_drop]
    omega
  · rfl

theorem flipPlanes_length (dim : Nat) (vmean : List K) (planes : List K) :
    (flipPlanes dim vmean planes).length = planes.length := by
  induction planes using flipPlanes.induct dim vmean with
  | case1 => simp [flipPlanes]
  | case2 a l ih =>
    rw [flipPlanes, List.length_append, flipBlock_length, ih]
    simp only [List.length_take, List.length_drop, List.length_cons]
    omega

theorem computeConvexHull_planes_length (qhull : Nat → Nat → List K → QhullResult K)
    (vpoints : List K) (wantfaces : Bool) (dim : Nat) (V : K) (planes : List K)
    (faces : Option (List Nat))
    (h : _ComputeConvexHull qhull vpoints wantfaces dim = .ok (V, planes, faces)) :
    ∃ F, planes.length = (dim + 1) * F := by
  unfold _ComputeConvexHull at h
  simp only at h
  split at h
  · exact absurd h (by simp)
  · simp only [Except.ok.injEq, Prod.mk.injEq] at h
    obtain ⟨F, hF⟩ := rawPlanes_length (K := K) dim
      (qhull dim (vpoints.length / dim) vpoints).facets
    exact ⟨F, by rw [← h.2.1, flipPlanes_length, hF]⟩

/-! ## C3: the seven-wrench requirement -/

theorem vsincos_length (lib : RaveLib K) (N : Nat) : (vsincos lib N).length = N := by
  have h : ∀ (l : List Nat) (st : List (K × K) × K),
      (l.foldl (fun (st : List (K × K) × K) _ =>
        (st.1 ++ [(lib.RaveSin st.2, lib.RaveCos st.2)], st.2 + 2 * lib.PI / (N : K))) st).1.length
        = st.1.length + l.length := by
    intro l
    induction l with
    | nil => intro st; simp
    | cons a l ih =>
      intro st
      rw [List.foldl_cons, ih]
      simp only [List.length_append, List.length_cons, List.length_nil]
      omega
  unfold vsincos
  simp only
  rw [h]
  simp

theorem newcontacts_length (lib : RaveLib K) (contacts : List (CONTACT K)) (mu : K) (N : Nat) :
    (newcontacts lib contacts mu N).length = contacts.length * N := by
  unfold newcontacts
  generalize hf : (fun (acc : List (CONTACT K)) (c : CONTACT K) => _) = f
  have h : ∀ (l acc : List (CONTACT K)),
      (l.foldl f acc).length = acc.length + l.length * N := by
    intro l
    induction l with
    | nil => intro acc; simp
    | cons a l ih =>
      intro acc
      rw [List.foldl_cons, ih, ← hf]
      simp only [List.length_append, List.length_map, vsincos_length, List.length_cons]
      ring
  rw [h]
  simp

theorem analyzeContacts3D_error_iff (qhull : Nat → Nat → List K → QhullResult K)
    (contacts : List (CONTACT K)) :
    _AnalyzeContacts3D qhull contacts = .error .needSevenWrenches ↔ contacts.length < 7 := by
  unfold _AnalyzeContacts3D
  by_cases h : contacts.length < 7
  · simp [h]
  · simp only [h, if_false, iff_false]
    cases hh : _ComputeConvexHull qhull (wrenchPoints contacts) false 6 with
    | error e =>
      unfold _ComputeConvexHull at hh
      simp only at hh
      split at hh
      · simp only [Except.error.injEq] at hh
        subst hh
        simp
      · exact absurd hh (by simp)
    | ok r =>
      obtain ⟨V, planes, faces⟩ := r
      obtain ⟨F, hF⟩ := computeConvexHull_planes_length qhull _ _ _ _ _ _ hh
      have hloop := mindistLoop_eq_scan planes F (by omega) F 0 (10 ^ 30) (by omega)
      simp only [Nat.mul_zero] at hloop
      simp only [hloop]
      cases scanOffsets (List.map (fun i => planes.getD (7 * i + 6) 0) (List.range' 0 F))
        (10 ^ 30) <;> simp

/-- C3: for every kernel, the three-argument `_AnalyzeContacts3D` raises the
"need at least 7 contact wrenches" error exactly when fewer than seven
wrenches would be handed to the hull: `mu = 0` and fewer than seven
contacts, or `mu ≠ 0` and `|contacts| * Nconepoints < 7`.  The outcome does
not depend on the kernel, which is consulted only after the check. -/
theorem C3_need_seven_wrenches_iff (lib : RaveLib K)
    (qhull : Nat → Nat → List K → QhullResult K)
    (contacts : List (CONTACT K)) (mu : K) (Nconepoints : Nat) :
    _AnalyzeContacts3D_mu lib qhull contacts mu Nconepoints = .error .needSevenWrenches ↔
      ((mu = 0 ∧ contacts.length < 7) ∨ (mu ≠ 0 ∧ contacts.length * Nconepoints < 7)) := by
  unfold _AnalyzeContacts3D_mu
  by_cases hmu : mu = 0
  · simp [hmu, analyzeContacts3D_error_iff]
  · simp [hmu, analyzeContacts3D_error_iff, newcontacts_length]

/-! ## C4: orientation normalization of the hull planes -/

theorem foldl_add_eq_sum (f : Nat → K) (n : Nat) (a : K) :
    (List.range n).foldl (fun acc j => acc + f j) a = a + ∑ j ∈ Finset.range n, f j := by
  induction n with
  | zero => simp
  | succ n ih =>
    rw [List.range_succ, List.foldl_append, ih, Finset.sum_range_succ]
    simp [add_assoc]

theorem meandistOf_eq (dim : Nat) (m block : List K) :
    meandistOf dim m block = normalDot dim m block + block.getD dim 0 := by
  unfold meandistOf normalDot
  rw [foldl_add_eq_sum]
  simp

theorem vmeanOf_eq_centroid (dim N : Nat) (vpoints : List K) (hdim : 0 < dim)
    (hlen : vpoints.length = N * dim) : vmeanOf dim vpoints = centroidOf dim N vpoints := by
  unfold vmeanOf centroidOf forCount
  have h1 : vpoints.length / dim = N := by rw [hlen]; exact Nat.mul_div_cancel _ hdim
  have h2 : (vpoints.length + dim - 1) / dim = N := by
    rw [hlen]
    have : N * dim + dim - 1 = (dim - 1) + dim * N := by
      have : 1 ≤ dim := hdim
      rw [Nat.mul_comm]; omega
    rw [this, Nat.add_mul_div_left _ _ hdim, Nat.div_eq_of_lt (by omega)]
    simp
  simp only [h1, h2]
  apply List.map_congr_left
  intro j _
  rw [foldl_add_eq_sum]
  simp [div_eq_mul_inv]

theorem flipPlanes_block (dim : Nat) (vmean : List K) :
    ∀ (p : Nat) (planes : List K), (p + 1) * (dim + 1) ≤ planes.length →
      planeBlock dim (flipPlanes dim vmean planes) p
        = flipBlock dim vmean (planeBlock dim planes p) := by
  intro p
  induction p with
  | zero =>
    intro planes h
    cases planes with
    | nil => simp at h
    | cons a l =>
      rw [flipPlanes]
      unfold planeBlock
      simp only [Nat.zero_mul, List.drop_zero]
      rw [List.take_left']
      rw [flipBlock_length, List.length_take]
      simp only [Nat.zero_add, Nat.one_mul] at h
      omega
  | succ p ih =>
    intro planes h
    cases planes with
    | nil =>
      simp only [List.length_nil, Nat.le_zero_eq, Nat.mul_eq_zero] at h
      omega
    | cons a l =>
      have hlen : dim + 1 ≤ (a :: l).length := by
        have : (p + 1 + 1) * (dim + 1) = (p + 1) * (dim + 1) + (dim + 1) := by ring
        omega
      rw [flipPlanes]
      unfold planeBlock
      have e1 : (p + 1) * (dim + 1) = (dim + 1) + p * (dim + 1) := by ring
      have hb : (flipBlock dim vmean (List.take (dim + 1) (a :: l))).length = dim + 1 := by
        rw [flipBlock_length, List.length_take]; omega
      rw [e1, ← List.drop_drop (p * (dim + 1)) (dim + 1),
        ← List.drop_drop (p * (dim + 1)) (dim + 1), List.drop_left' hb]
      have := ih ((a :: l).drop (dim + 1)) (by
        rw [List.length_drop]
        have : (p + 1 + 1) * (dim + 1) = (p + 1) * (dim + 1) + (dim + 1) := by ring
        omega)
      unfold planeBlock at this
      exact this

theorem flipBlock_cases (dim : Nat) (m block : List K) (hlen : block.length = dim + 1) :
    (flipBlock dim m block).getD dim 0 = block.getD dim 0 ∧
    ((flipBlock dim m block).take dim = block.take dim ∨
      (flipBlock dim m block).take dim = (block.take dim).map fun v => -v) ∧
    (meandistOf dim m (flipBlock dim m block) ≤ 0 ↔
      block.getD dim 0 ≤ |normalDot dim m block|) := by
  unfold flipBlock
  by_cases h : meandistOf dim m block > 0
  · simp only [h, if_true]
    have hl : ((block.take dim).map fun v => -v).length = dim := by
      rw [List.length_map, List.length_take]; omega
    have hoff : (List.map (fun v => -v) (List.take dim block) ++ List.drop dim block).getD dim 0
        = block.getD dim 0 := by
      simp only [List.getD_eq_getElem?_getD]
      rw [List.getElem?_append_right (by omega), hl, List.getElem?_drop]
      simp
    have hdot : normalDot dim m (List.map (fun v => -v) (List.take dim block)
        ++ List.drop dim block) = - normalDot dim m block := by
      unfold normalDot
      rw [← Finset.sum_neg_distrib]
      apply Finset.sum_congr rfl
      intro j hj
      have hj' : j < dim := Finset.mem_range.mp hj
      simp only [List.getD_eq_getElem?_getD]
      rw [List.getElem?_append_left (by omega), List.getElem?_map,
        List.getElem?_take_of_lt hj']
      have hjl : j < block.length := by omega
      rw [List.getElem?_eq_getElem hjl]
      simp
    refine ⟨hoff, Or.inr ?_, ?_⟩
    · rw [List.take_left' hl]
    · rw [meandistOf_eq, hdot, hoff]
      rw [meandistOf_eq] at h
      constructor
      · intro h'
        exact le_trans (by linarith) (le_abs_self _)
      · intro h'
        rcases le_abs'.mp h' with h'' | h''
        · linarith
        · linarith
  · rw [if_neg h]
    refine ⟨rfl, Or.inl rfl, ?_⟩
    have h' : meandistOf dim m block ≤ 0 := not_lt.mp h
    simp only [h', true_iff]
    rw [meandistOf_eq] at h'
    exact le_trans (by linarith) (neg_le_abs _)

/-- C4 (as amended): for `N > 0` points of dimension `dim > 0` with centroid
`m` and any plane list of the kernel, the normalization of
`_ComputeConvexHull` keeps the number of plane entries and every offset `b`,
keeps or negates every normal, and an output plane `(n', b)` satisfies
`n'·m + b ≤ 0` exactly when the offset satisfies `b ≤ |n·m|`. -/
theorem C4_orientation_normalization (qhull : Nat → Nat → List K → QhullResult K)
    (vpoints : List K) (wantfaces : Bool) (dim N : Nat) (hdim : 0 < dim) (_hN : 0 < N)
    (hlen : vpoints.length = N * dim) (V : K) (planes : List K) (faces : Option (List Nat))
    (h : _ComputeConvexHull qhull vpoints wantfaces dim = .ok (V, planes, faces)) :
    planes.length = (rawPlanes dim (qhull dim N vpoints).facets).length ∧
    ∀ p, p < (rawPlanes dim (qhull dim N vpoints).facets).length / (dim + 1) →
      (planeBlock dim planes p).getD dim 0
        = (planeBlock dim (rawPlanes dim (qhull dim N vpoints).facets) p).getD dim 0 ∧
      ((planeBlock dim planes p).take dim
          = (planeBlock dim (rawPlanes dim (qhull dim N vpoints).facets) p).take dim ∨
        (planeBlock dim planes p).take dim
          = ((planeBlock dim (rawPlanes dim (qhull dim N vpoints).facets) p).take dim).map
              fun v => -v) ∧
      (normalDot dim (centroidOf dim N vpoints) (planeBlock dim planes p)
          + (planeBlock dim planes p).getD dim 0 ≤ 0 ↔
        (planeBlock dim (rawPlanes dim (qhull dim N vpoints).facets) p).getD dim 0
          ≤ |normalDot dim (centroidOf dim N vpoints)
              (planeBlock dim (rawPlanes dim (qhull dim N vpoints).facets) p)|) := by
  have hq : vpoints.length / dim = N := by rw [hlen]; exact Nat.mul_div_cancel _ hdim
  unfold _ComputeConvexHull at h
  simp only [hq] at h
  split at h
  · exact absurd h (by simp)
  · simp only [Except.ok.injEq, Prod.mk.injEq] at h
    obtain ⟨-, hp, -⟩ := h
    rw [vmeanOf_eq_centroid dim N vpoints hdim hlen] at hp
    subst hp
    refine ⟨flipPlanes_length _ _ _, ?_⟩
    intro p hp
    have hle : (p + 1) * (dim + 1) ≤ (rawPlanes dim (qhull dim N vpoints).facets).length := by
      have := Nat.div_mul_le_self (rawPlanes dim (qhull dim N vpoints).facets).length (dim + 1)
      have h2 : (p + 1) * (dim + 1)
          ≤ (rawPlanes dim (qhull dim N vpoints).facets).length / (dim + 1) * (dim + 1) :=
        Nat.mul_le_mul_right _ hp
      omega
    rw [flipPlanes_block dim _ p _ hle]
    have hbl : (planeBlock dim (rawPlanes dim (qhull dim N vpoints).facets) p).length
        = dim + 1 := by
      unfold planeBlock
      rw [List.length_take, List.length_drop]
      have : (p + 1) * (dim + 1) = p * (dim + 1) + (dim + 1) := by ring
      omega
    have := flipBlock_cases dim (centroidOf dim N vpoints) _ hbl
    rw [meandistOf_eq] at this
    exact this

theorem squareKernel_hull :
    _ComputeConvexHull squareKernel squarePoints false 2
      = .ok (4, [-1, 0, 3, 1, 0, 1, 0, 1, -1, 0, -1, -1], none) := by
  have hm : vmeanOf 2 squarePoints = [-2, 0] := by
    simp [vmeanOf, squarePoints, forCount, List.range_succ]
    norm_num
  simp [_ComputeConvexHull, squareKernel, rawPlanes, hm, List.range_succ]
  simp [flipPlanes, flipBlock, meandistOf, List.range_succ]
  norm_num

/-- Witness for C4: the square `[-3,-1] x [-1,1]` with the kernel
`squareKernel`. -/
theorem C4_orientation_normalization_witness :
    ([-1, 0, 3, 1, 0, 1, 0, 1, -1, 0, -1, -1] : List ℚ).length
      = (rawPlanes 2 (squareKernel 2 4 squarePoints).facets).length ∧
    ∀ p, p < (rawPlanes 2 (squareKernel 2 4 squarePoints).facets).length / (2 + 1) →
      (planeBlock 2 ([-1, 0, 3, 1, 0, 1, 0, 1, -1, 0, -1, -1] : List ℚ) p).getD 2 0
        = (planeBlock 2 (rawPlanes 2 (squareKernel 2 4 squarePoints).facets) p).getD 2 0 ∧
      ((planeBlock 2 ([-1, 0, 3, 1, 0, 1, 0, 1, -1, 0, -1, -1] : List ℚ) p).take 2
          = (planeBlock 2 (rawPlanes 2 (squareKernel 2 4 squarePoints).facets) p).take 2 ∨
        (planeBlock 2 ([-1, 0, 3, 1, 0, 1, 0, 1, -1, 0, -1, -1] : List ℚ) p).take 2
          = ((planeBlock 2 (rawPlanes 2 (squareKernel 2 4 squarePoints).facets) p).take 2).map
              fun v => -v) ∧
      (normalDot 2 (centroidOf 2 4 squarePoints)
            (planeBlock 2 ([-1, 0, 3, 1, 0, 1, 0, 1, -1, 0, -1, -1] : List ℚ) p)
          + (planeBlock 2 ([-1, 0, 3, 1, 0, 1, 0, 1, -1, 0, -1, -1] : List ℚ) p).getD 2 0 ≤ 0 ↔
        (planeBlock 2 (rawPlanes 2 (squareKernel 2 4 squarePoints).facets) p).getD 2 0
          ≤ |normalDot 2 (centroidOf 2 4 squarePoints)
              (planeBlock 2 (rawPlanes 2 (squareKernel 2 4 squarePoints).facets) p)|) :=
  C4_orientation_normalization squareKernel squarePoints false 2 4 (by decide) (by decide)
    (by simp [squarePoints]) 4 _ none squareKernel_hull

/-- C4 counterexample: for the four corners of the square `[-3,-1] x [-1,1]`
(centroid `(-2,0)`) and the kernel plane `n = (1,0)`, `b = 3` of the edge
`x = -3`, the normalization outputs the plane `n = (-1,0)`, `b = 3`, for which
`n·m + b = 5 > 0`. -/
theorem C4_counterexample :
    _ComputeConvexHull squareKernel squarePoints false 2
      = .ok (4, [-1, 0, 3, 1, 0, 1, 0, 1, -1, 0, -1, -1], none) ∧
    centroidOf 2 4 squarePoints = [-2, 0] ∧
    planeBlock 2 ([-1, 0, 3, 1, 0, 1, 0, 1, -1, 0, -1, -1] : List ℚ) 0 = [-1, 0, 3] ∧
    ¬ (normalDot 2 ([-2, 0] : List ℚ) [-1, 0, 3] + ([-1, 0, 3] : List ℚ).getD 2 0 ≤ 0) := by
  refine ⟨squareKernel_hull, ?_, ?_, ?_⟩
  · simp [centroidOf, squarePoints, List.range_succ, Finset.sum_range_succ]
    norm_num
  · simp [planeBlock]
  · simp [normalDot, Finset.sum_range_succ]
    norm_num

/-! ## The triangulation of one face on a well-formed face array -/

theorem vecAt_face (pre ids post : List Nat) (i : Nat) (hi : i < ids.length) :
    vecAt (pre ++ ids.length :: ids ++ post) (pre.length + i + 1) = .ok (ids.getD i 0) := by
  unfold vecAt
  have h1 : (pre ++ ids.length :: ids ++ post)[pre.length + i + 1]? = ids[i]? := by
    rw [List.append_assoc, List.getElem?_append_right (by omega)]
    have : pre.length + i + 1 - pre.length = i + 1 := by omega
    rw [this, List.cons_append, List.getElem?_cons_succ, List.getElem?_append_left hi]
  rw [h1, List.getElem?_eq_getElem hi, List.getD_eq_getElem _ _ hi]

theorem vecAt_face' (pre ids post : List Nat) (i : Nat) (hi : i < ids.length) :
    vecAt (pre ++ ids.length :: ids ++ post) (pre.length + 1 + i) = .ok (ids.getD i 0) := by
  have := vecAt_face pre ids post i hi
  rwa [show pre.length + i + 1 = pre.length + 1 + i by omega] at this

theorem sumPoints_face (vpoints : List K) (pre ids post : List Nat) :
    ∀ n, n ≤ ids.length →
      sumPoints vpoints (pre ++ ids.length :: ids ++ post) pre.length n
        = .ok ((ids.take n).foldl (fun acc pointindex => acc.add (point3 vpoints pointindex))
            ⟨0, 0, 0⟩) := by
  intro n
  induction n with
  | zero => intro _; simp [sumPoints]
  | succ n ih =>
    intro hn
    have hn' : n < ids.length := by omega
    rw [sumPoints, ih (by omega), vecAt_face pre ids post n hn']
    simp only
    rw [List.take_succ, List.foldl_append, List.getElem?_eq_getElem hn',
      List.getD_eq_getElem _ _ hn']
    simp

theorem anglesLoop_face (lib : RaveLib K) (vpoints : List K) (pre ids post : List Nat)
    (plane : Vec3 K) :
    ∀ n, n ≤ ids.length →
      anglesLoop lib vpoints (pre ++ ids.length :: ids ++ post) pre.length plane
          (faceMean vpoints ids) (facePoint vpoints ids 0) n
        = .ok ((List.range n).map fun i =>
            if i = 0 then (0, 0)
            else (angleOf lib plane (facePoint vpoints ids 0) (facePoint vpoints ids i), i)) := by
  intro n
  induction n with
  | zero => intro _; simp [anglesLoop]
  | succ n ih =>
    intro hn
    have hn' : n < ids.length := by omega
    rw [anglesLoop, ih (by omega)]
    simp only
    by_cases h0 : n = 0
    · subst h0
      rfl
    · rw [if_neg h0, vecAt_face pre ids post n hn']
      simp only [List.range_succ, List.map_append, List.map_cons, List.map_nil, if_neg h0]
      rfl

theorem emitLoop_face (pre ids post : List Nat) (angles : List (K × Nat))
    (hpos : ∀ j, (angles.getD j (0, 0)).2 < ids.length) :
    ∀ n, emitLoop (pre ++ ids.length :: ids ++ post) pre.length angles n
        = .ok ((List.range n).flatMap fun t =>
            [ids.getD (angles.getD 0 (0, 0)).2 0, ids.getD (angles.getD (t + 1) (0, 0)).2 0,
              ids.getD (angles.getD (t + 2) (0, 0)).2 0]) := by
  intro n
  induction n with
  | zero => simp [emitLoop]
  | succ n ih =>
    rw [emitLoop, ih]
    simp only
    rw [vecAt_face' pre ids post _ (hpos 0), vecAt_face' pre ids post _ (hpos (n + 1)),
      vecAt_face' pre ids post _ (hpos (n + 2))]
    simp [List.range_succ]

theorem faceAngles_length (lib : RaveLib K) (vpoints : List K) (plane : Vec3 K)
    (ids : List Nat) : (faceAngles lib vpoints plane ids).length = ids.length := by
  simp [faceAngles]

theorem faceAngles_snd (lib : RaveLib K) (vpoints : List K) (plane : Vec3 K)
    (ids : List Nat) :
    (faceAngles lib vpoints plane ids).map Prod.snd = List.range ids.length := by
  unfold faceAngles
  rw [List.map_map]
  conv_rhs => rw [← List.map_id (List.range ids.length)]
  apply List.map_congr_left
  intro i _
  by_cases h : i = 0
  · simp [h]
  · simp [h]

/-- The second components of a sorted angle array are the positions
`0, ..., k-1` of the face in some order. -/
theorem sorted_snd_perm (lib : RaveLib K) (sortFn : List (K × Nat) → List (K × Nat))
    (hsort : IsStdSort sortFn) (vpoints : List K) (plane : Vec3 K) (ids : List Nat) :
    ((sortFn (faceAngles lib vpoints plane ids)).map Prod.snd).Perm (List.range ids.length) := by
  rw [← faceAngles_snd lib vpoints plane ids]
  exact (hsort _).1.map _

theorem sorted_length (lib : RaveLib K) (sortFn : List (K × Nat) → List (K × Nat))
    (hsort : IsStdSort sortFn) (vpoints : List K) (plane : Vec3 K) (ids : List Nat) :
    (sortFn (faceAngles lib vpoints plane ids)).length = ids.length := by
  rw [(hsort _).1.length_eq, faceAngles_length]

theorem sorted_pos_lt (lib : RaveLib K) (sortFn : List (K × Nat) → List (K × Nat))
    (hsort : IsStdSort sortFn) (vpoints : List K) (plane : Vec3 K) (ids : List Nat)
    (hk : 0 < ids.length) (j : Nat) :
    ((sortFn (faceAngles lib vpoints plane ids)).getD j (0, 0)).2 < ids.length := by
  by_cases hj : j < (sortFn (faceAngles lib vpoints plane ids)).length
  · rw [List.getD_eq_getElem _ _ hj]
    have hmem : (sortFn (faceAngles lib vpoints plane ids))[j].2
        ∈ (sortFn (faceAngles lib vpoints plane ids)).map Prod.snd :=
      List.mem_map.mpr ⟨_, List.getElem_mem hj, rfl⟩
    have := (sorted_snd_perm lib sortFn hsort vpoints plane ids).mem_iff.mp hmem
    exact List.mem_range.mp this
  · rw [List.getD_eq_default _ _ (by omega)]
    exact hk

theorem triangulateFace_face (lib : RaveLib K) (sortFn : List (K × Nat) → List (K × Nat))
    (hsort : IsStdSort sortFn) (vpoints vconvexplanes : List K) (pre ids post : List Nat)
    (planeindex : Nat) (hk : 0 < ids.length) :
    triangulateFace lib sortFn vpoints vconvexplanes (pre ++ ids.length :: ids ++ post)
        pre.length planeindex ids.length
      = .ok (fanTriangles ids
          (sortFn (faceAngles lib vpoints (planeAt vconvexplanes planeindex) ids))) := by
  unfold triangulateFace
  rw [sumPoints_face vpoints pre ids post ids.length le_rfl, List.take_length]
  simp only
  have h0 := vecAt_face' pre ids post 0 hk
  simp only [Nat.add_zero] at h0
  rw [h0]
  simp only
  have hmean : (⟨(ids.foldl (fun (acc : Vec3 K) pointindex => acc.add (point3 vpoints pointindex))
        (⟨0, 0, 0⟩ : Vec3 K)).x / (ids.length : K),
      (ids.foldl (fun (acc : Vec3 K) pointindex => acc.add (point3 vpoints pointindex))
        (⟨0, 0, 0⟩ : Vec3 K)).y / (ids.length : K),
      (ids.foldl (fun (acc : Vec3 K) pointindex => acc.add (point3 vpoints pointindex))
        (⟨0, 0, 0⟩ : Vec3 K)).z / (ids.length : K)⟩ : Vec3 K) = faceMean vpoints ids := rfl
  rw [hmean]
  have hp0 : (point3 vpoints (ids.getD 0 0)).sub (faceMean vpoints ids)
      = facePoint vpoints ids 0 := rfl
  rw [hp0]
  have hpl : (⟨vconvexplanes.getD (planeindex + 0) 0, vconvexplanes.getD (planeindex + 1) 0,
      vconvexplanes.getD (planeindex + 2) 0⟩ : Vec3 K) = planeAt vconvexplanes planeindex := rfl
  rw [hpl, anglesLoop_face lib vpoints pre ids post _ ids.length le_rfl]
  simp only
  have hfa : ((List.range ids.length).map fun i =>
      if i = 0 then ((0 : K), 0)
      else (angleOf lib (planeAt vconvexplanes planeindex) (facePoint vpoints ids 0)
        (facePoint vpoints ids i), i))
      = faceAngles lib vpoints (planeAt vconvexplanes planeindex) ids := rfl
  rw [hfa, emitLoop_face pre ids post _
    (sorted_pos_lt lib sortFn hsort vpoints (planeAt vconvexplanes planeindex) ids hk)]
  rfl

theorem flatMap3_length {α : Type} (a b c : Nat → α) (n : Nat) :
    ((List.range n).flatMap fun t => [a t, b t, c t]).length = 3 * n := by
  induction n with
  | zero => simp
  | succ n ih =>
    rw [List.range_succ, List.flatMap_append, List.length_append, ih]
    simp
    omega

theorem flatMap3_getD {α : Type} (a b c : Nat → α) (d : α) (n t : Nat) (ht : t < n) :
    ((List.range n).flatMap fun t => [a t, b t, c t]).getD (3 * t) d = a t ∧
    ((List.range n).flatMap fun t => [a t, b t, c t]).getD (3 * t + 1) d = b t ∧
    ((List.range n).flatMap fun t => [a t, b t, c t]).getD (3 * t + 2) d = c t := by
  induction n with
  | zero => omega
  | succ n ih =>
    rw [List.range_succ, List.flatMap_append]
    simp only [List.getD_eq_getElem?_getD] at ih ⊢
    by_cases h : t < n
    · have hl := flatMap3_length a b c n
      rw [List.getElem?_append_left (by omega), List.getElem?_append_left (by omega),
        List.getElem?_append_left (by omega)]
      exact ih h
    · have htn : t = n := by omega
      subst htn
      have hl := flatMap3_length a b c t
      rw [List.getElem?_append_right (by omega), List.getElem?_append_right (by omega),
        List.getElem?_append_right (by omega), hl]
      simp

theorem sorted_pos_inj (lib : RaveLib K) (sortFn : List (K × Nat) → List (K × Nat))
    (hsort : IsStdSort sortFn) (vpoints : List K) (plane : Vec3 K) (ids : List Nat)
    (i j : Nat) (hi : i < ids.length) (hj : j < ids.length)
    (h : ((sortFn (faceAngles lib vpoints plane ids)).getD i (0, 0)).2
      = ((sortFn (faceAngles lib vpoints plane ids)).getD j (0, 0)).2) : i = j := by
  have hlen := sorted_length lib sortFn hsort vpoints plane ids
  have hnd : ((sortFn (faceAngles lib vpoints plane ids)).map Prod.snd).Nodup :=
    (sorted_snd_perm lib sortFn hsort vpoints plane ids).nodup_iff.mpr (List.nodup_range _)
  have hi0 : i < (sortFn (faceAngles lib vpoints plane ids)).length := by omega
  have hj0 : j < (sortFn (faceAngles lib vpoints plane ids)).length := by omega
  rw [List.getD_eq_getElem _ _ hi0, List.getD_eq_getElem _ _ hj0] at h
  have hi' : i < ((sortFn (faceAngles lib vpoints plane ids)).map Prod.snd).length := by
    rw [List.length_map]; omega
  have hj' : j < ((sortFn (faceAngles lib vpoints plane ids)).map Prod.snd).length := by
    rw [List.length_map]; omega
  have : ((sortFn (faceAngles lib vpoints plane ids)).map Prod.snd)[i]
      = ((sortFn (faceAngles lib vpoints plane ids)).map Prod.snd)[j] := by
    rw [List.getElem_map, List.getElem_map]
    exact h
  exact (hnd.getElem_inj_iff).mp this

/-! ## C8: triangles use the ids of their own face -/

/-- C8: in a face array that holds a face with `k ≥ 3` vertex ids `ids`
(after any earlier entries `pre` and before any later entries `post`), for
every result of `std::sort` the triangulator succeeds on that face and emits
`k - 2` triangles, each made of the ids found at three pairwise different
positions of `ids`. -/
theorem C8_triangles_from_own_face (lib : RaveLib K)
    (sortFn : List (K × Nat) → List (K × Nat)) (hsort : IsStdSort sortFn)
    (vpoints vconvexplanes : List K) (pre ids post : List Nat) (planeindex : Nat)
    (hk : 3 ≤ ids.length) :
    ∃ tris,
      triangulateFace lib sortFn vpoints vconvexplanes (pre ++ ids.length :: ids ++ post)
        pre.length planeindex ids.length = .ok tris ∧
      tris.length = 3 * (ids.length - 2) ∧
      ∀ t, t < ids.length - 2 →
        ∃ p q r, p < ids.length ∧ q < ids.length ∧ r < ids.length ∧
          p ≠ q ∧ p ≠ r ∧ q ≠ r ∧
          tris.getD (3 * t) 0 = ids.getD p 0 ∧
          tris.getD (3 * t + 1) 0 = ids.getD q 0 ∧
          tris.getD (3 * t + 2) 0 = ids.getD r 0 := by
  have hk0 : 0 < ids.length := by omega
  have hlen := sorted_length lib sortFn hsort vpoints (planeAt vconvexplanes planeindex) ids
  refine ⟨_, triangulateFace_face lib sortFn hsort vpoints vconvexplanes pre ids post
    planeindex hk0, ?_, ?_⟩
  · unfold fanTriangles
    rw [flatMap3_length, hlen]
  · intro t ht
    have hpos := sorted_pos_lt lib sortFn hsort vpoints (planeAt vconvexplanes planeindex) ids hk0
    have hinj := sorted_pos_inj lib sortFn hsort vpoints (planeAt vconvexplanes planeindex) ids
    refine ⟨_, _, _, hpos 0, hpos (t + 1), hpos (t + 2), ?_, ?_, ?_, ?_⟩
    · intro h
      have := hinj 0 (t + 1) (by omega) (by omega) h
      omega
    · intro h
      have := hinj 0 (t + 2) (by omega) (by omega) h
      omega
    · intro h
      have := hinj (t + 1) (t + 2) (by omega) (by omega) h
      omega
    · unfold fanTriangles
      rw [hlen]
      exact flatMap3_getD _ _ _ 0 (ids.length - 2) t ht

theorem stableSort_isStdSort : IsStdSort (stableSort (K := K)) := by
  intro l
  refine ⟨List.perm_insertionSort _ l, ?_⟩
  haveI : IsTotal (K × Nat) (fun a b => a.1 ≤ b.1) := ⟨fun a b => le_total a.1 b.1⟩
  haveI : IsTrans (K × Nat) (fun a b => a.1 ≤ b.1) := ⟨fun _ _ _ h1 h2 => le_trans h1 h2⟩
  have h := List.sorted_insertionSort (fun (a b : K × Nat) => a.1 ≤ b.1) l
  unfold stableSort
  refine List.Pairwise.imp ?_ h
  intro a b hab
  simp [sort_pair_first, hab]

/-- Witness for C8: the face `[0, 2, 4]` of the octahedron, stored after the
face count. -/
theorem C8_triangles_from_own_face_witness :
    ∃ tris,
      triangulateFace exampleLib stableSort octahedronPoints [] ([8] ++ [0, 2, 4].length ::
        [0, 2, 4] ++ []) [8].length 0 [0, 2, 4].length = .ok tris ∧
      tris.length = 3 * ([0, 2, 4].length - 2) ∧
      ∀ t, t < [0, 2, 4].length - 2 →
        ∃ p q r, p < [0, 2, 4].length ∧ q < [0, 2, 4].length ∧ r < [0, 2, 4].length ∧
          p ≠ q ∧ p ≠ r ∧ q ≠ r ∧
          tris.getD (3 * t) 0 = [0, 2, 4].getD p 0 ∧
          tris.getD (3 * t + 1) 0 = [0, 2, 4].getD q 0 ∧
          tris.getD (3 * t + 2) 0 = [0, 2, 4].getD r 0 :=
  C8_triangles_from_own_face exampleLib stableSort stableSort_isStdSort octahedronPoints []
    [8] [0, 2, 4] [] 0 (by decide)

/-! ## C9: the triangle count -/

theorem rawFaces_foldl {R : Type} (facets : List (Facet R)) :
    ∀ gs : List (List Nat),
      facets.foldl
        (fun acc f =>
          match f.vertices with
          | some vs => (acc.set 0 (acc.getD 0 0 + 1)) ++ (vs.length :: vs)
          | none => acc)
        (encodeFaces gs)
      = encodeFaces (gs ++ facets.filterMap fun f => f.vertices) := by
  induction facets with
  | nil => intro gs; simp
  | cons f fs ih =>
    intro gs
    rw [List.foldl_cons]
    cases hv : f.vertices with
    | none =>
      simp only [List.filterMap_cons, hv]
      exact ih gs
    | some vs =>
      simp only [List.filterMap_cons, hv]
      have : (encodeFaces gs).set 0 ((encodeFaces gs).getD 0 0 + 1) ++ (vs.length :: vs)
          = encodeFaces (gs ++ [vs]) := by
        simp [encodeFaces]
      rw [this, ih]
      simp

/-- The face array built by `_ComputeConvexHull` is the flat encoding of the
vertex lists of the facets that have one. -/
theorem rawFaces_eq_encodeFaces {R : Type} (facets : List (Facet R)) :
    rawFaces facets = encodeFaces (facets.filterMap fun f => f.vertices) := by
  have := rawFaces_foldl facets []
  simpa [rawFaces, encodeFaces] using this

theorem numtrianglesLoop_faces (fs : List (List Nat)) :
    ∀ (pre : List Nat) (acc : Int),
      numtrianglesLoop (pre ++ (fs.map fun f => f.length :: f).flatten) pre.length acc
        = acc + (fs.map fun f => (f.length : Int) - 2).sum := by
  induction fs with
  | nil =>
    intro pre acc
    rw [numtrianglesLoop]
    simp
  | cons f fs ih =>
    intro pre acc
    rw [numtrianglesLoop]
    have hlt : pre.length < (pre ++ (List.map (fun f => f.length :: f) (f :: fs)).flatten).length := by
      simp
    have hget : (pre ++ (List.map (fun f => f.length :: f) (f :: fs)).flatten)[pre.length]
        = f.length := by
      have h1 : (pre ++ (List.map (fun f => f.length :: f) (f :: fs)).flatten)[pre.length]?
          = some f.length := by
        rw [List.getElem?_append_right (le_refl _)]
        simp
      have h2 := List.getElem?_eq_getElem hlt
      rw [h1] at h2
      exact (Option.some.inj h2).symm
    rw [dif_pos hlt, hget]
    have hsplit : pre ++ (List.map (fun f => f.length :: f) (f :: fs)).flatten
        = (pre ++ f.length :: f) ++ (fs.map fun f => f.length :: f).flatten := by
      simp
    have hlen : pre.length + f.length + 1 = (pre ++ f.length :: f).length := by
      simp; omega
    rw [hsplit, hlen, ih]
    simp only [List.map_cons, List.sum_cons]
    ring

theorem trianglesLoop_faces (lib : RaveLib K) (sortFn : List (K × Nat) → List (K × Nat))
    (hsort : IsStdSort sortFn) (vpoints vconvexplanes : List K) (fs : List (List Nat)) :
    (∀ f ∈ fs, 2 ≤ f.length) →
    ∀ (pre : List Nat) (planeindex : Nat) (out : List Nat),
      ∃ tris, trianglesLoop lib sortFn vpoints vconvexplanes
          (pre ++ (fs.map fun f => f.length :: f).flatten) pre.length planeindex out
          = .ok tris ∧
        tris.length = out.length + 3 * (fs.map fun f => f.length - 2).sum := by
  induction fs with
  | nil =>
    intro _ pre planeindex out
    rw [trianglesLoop]
    simp
  | cons f fs ih =>
    intro hfs pre planeindex out
    have hf : 2 ≤ f.length := hfs f (List.mem_cons_self _ _)
    rw [trianglesLoop]
    have hlt : pre.length < (pre ++ (List.map (fun f => f.length :: f) (f :: fs)).flatten).length := by
      simp
    have hget : (pre ++ (List.map (fun f => f.length :: f) (f :: fs)).flatten)[pre.length]
        = f.length := by
      have h1 : (pre ++ (List.map (fun f => f.length :: f) (f :: fs)).flatten)[pre.length]?
          = some f.length := by
        rw [List.getElem?_append_right (le_refl _)]
        simp
      have h2 := List.getElem?_eq_getElem hlt
      rw [h1] at h2
      exact (Option.some.inj h2).symm
    rw [dif_pos hlt, hget]
    have hsplit : pre ++ (List.map (fun f => f.length :: f) (f :: fs)).flatten
        = pre ++ f.length :: f ++ (fs.map fun f => f.length :: f).flatten := by
      simp
    rw [hsplit, triangulateFace_face lib sortFn hsort vpoints vconvexplanes pre f _ planeindex
      (by omega)]
    simp only
    have hlen : pre.length + f.length + 1 = (pre ++ f.length :: f).length := by
      simp; omega
    rw [hlen]
    obtain ⟨tris, h1, h2⟩ := ih (fun g hg => hfs g (List.mem_cons_of_mem _ hg))
      (pre ++ f.length :: f) (planeindex + (3 + 1))
      (out ++ fanTriangles f (sortFn (faceAngles lib vpoints (planeAt vconvexplanes planeindex) f)))
    refine ⟨tris, h1, ?_⟩
    rw [h2, List.length_append]
    unfold fanTriangles
    rw [flatMap3_length, sorted_length lib sortFn hsort]
    simp only [List.map_cons, List.sum_cons]
    ring

theorem sum_sub_two_cast (fs : List (List Nat)) (hfs : ∀ f ∈ fs, 2 ≤ f.length) :
    (((fs.map fun f => f.length - 2).sum : Nat) : Int)
      = (fs.map fun f => (f.length : Int) - 2).sum := by
  induction fs with
  | nil => simp
  | cons f fs ih =>
    have hf : 2 ≤ f.length := hfs f (List.mem_cons_self _ _)
    simp only [List.map_cons, List.sum_cons, Nat.cast_add]
    rw [ih (fun g hg => hfs g (List.mem_cons_of_mem _ hg))]
    omega

theorem sum_sub_two_of_three (fs : List (List Nat)) (hfs : ∀ f ∈ fs, f.length = 3) :
    (fs.map fun f => (f.length : Int) - 2).sum = (fs.length : Int) := by
  induction fs with
  | nil => simp
  | cons f fs ih =>
    have hf : f.length = 3 := hfs f (List.mem_cons_self _ _)
    simp only [List.map_cons, List.sum_cons, List.length_cons, Nat.cast_add, Nat.cast_one]
    rw [ih (fun g hg => hfs g (List.mem_cons_of_mem _ hg)), hf]
    push_cast
    ring

/-- C9: for a face array that encodes faces with at least two vertices each,
and every result of `std::sort`, the triangles section is written without
error; the count `T` at its head is the sum of `k_i - 2` over the faces and
it is followed by `3 T` vertex ids, i.e. exactly `T` triangles.  When every
face has three vertices `T` is the number of faces (8 for the octahedron). -/
theorem C9_triangle_count (lib : RaveLib K) (sortFn : List (K × Nat) → List (K × Nat))
    (hsort : IsStdSort sortFn) (vpoints vconvexplanes : List K) (fs : List (List Nat))
    (hfs : ∀ f ∈ fs, 2 ≤ f.length) :
    ∃ tris,
      ConvexHull_triangles lib sortFn vpoints vconvexplanes (encodeFaces fs)
        = .ok ((fs.map fun f => (f.length : Int) - 2).sum, tris) ∧
      (tris.length : Int) = 3 * (fs.map fun f => (f.length : Int) - 2).sum ∧
      ((∀ f ∈ fs, f.length = 3) →
        (fs.map fun f => (f.length : Int) - 2).sum = (fs.length : Int)) := by
  obtain ⟨tris, h1, h2⟩ := trianglesLoop_faces lib sortFn hsort vpoints vconvexplanes fs hfs
    [fs.length] 0 []
  have hn := numtrianglesLoop_faces fs [fs.length] 0
  simp only [List.length_singleton, List.singleton_append, zero_add] at h1 hn
  refine ⟨tris, ?_, ?_, sum_sub_two_of_three fs⟩
  · unfold ConvexHull_triangles encodeFaces
    rw [h1, hn]
  · rw [h2, ← sum_sub_two_cast fs hfs]
    simp

/-- Witness for C9: the eight triangular faces of the regular octahedron give
`T = 8` followed by 24 vertex ids. -/
theorem C9_triangle_count_witness :
    ∃ tris,
      ConvexHull_triangles exampleLib stableSort octahedronPoints [] (encodeFaces octahedronFaces)
        = .ok (8, tris) ∧ tris.length = 24 := by
  obtain ⟨tris, h1, h2, h3⟩ := C9_triangle_count exampleLib stableSort stableSort_isStdSort
    octahedronPoints [] octahedronFaces (by decide)
  have h8 : (octahedronFaces.map fun f => (f.length : Int) - 2).sum = 8 := by
    rw [h3 (by decide)]
    rfl
  rw [h8] at h1 h2
  exact ⟨tris, h1, by omega⟩

/-! ## C10: orientation of the fan triangles -/


theorem arg_lt_arg_of_cross_pos (z w : ℂ) (hz : z ≠ 0) (hw : w ≠ 0)
    (hrange : -Real.pi ≤ Complex.arg w - Complex.arg z)
    (hcross : 0 < z.re * w.im - z.im * w.re) : Complex.arg z < Complex.arg w := by
  by_contra hcon
  have hle : Complex.arg w - Complex.arg z ≤ 0 := by linarith [not_lt.mp hcon]
  have hsin : Real.sin (Complex.arg w - Complex.arg z) ≤ 0 :=
    Real.sin_nonpos_of_nonnpos_of_neg_pi_le hle hrange
  rw [Real.sin_sub, Complex.sin_arg, Complex.sin_arg, Complex.cos_arg hz, Complex.cos_arg hw]
    at hsin
  have hza : 0 < Complex.abs z := Complex.abs.pos hz
  have hwa : 0 < Complex.abs w := Complex.abs.pos hw
  have : w.im / Complex.abs w * (z.re / Complex.abs z) - w.re / Complex.abs w * (z.im / Complex.abs z)
      = (z.re * w.im - z.im * w.re) / (Complex.abs z * Complex.abs w) := by
    field_simp
    ring
  rw [this] at hsin
  have : 0 < (z.re * w.im - z.im * w.re) / (Complex.abs z * Complex.abs w) :=
    div_pos hcross (mul_pos hza hwa)
  linarith

theorem ang_pos (s c : ℝ) (h : ¬ (s = 0 ∧ 0 ≤ c)) : 0 < ang s c := by
  unfold ang
  split
  · have := Complex.neg_pi_lt_arg ⟨c, s⟩
    linarith [Real.pi_pos]
  · rename_i h1
    have h2 : 0 ≤ Complex.arg ⟨c, s⟩ := not_lt.mp h1
    rcases h2.lt_or_eq with h3 | h3
    · exact h3
    · exfalso
      have := (Complex.arg_eq_zero_iff (z := ⟨c, s⟩)).mp h3.symm
      exact h ⟨this.2, this.1⟩

theorem ang_lt_of_upper_lower (s1 c1 s2 c2 : ℝ) (h1 : 0 ≤ s1) (h2 : s2 < 0) :
    ang s1 c1 < ang s2 c2 := by
  unfold ang
  have a1 : ¬ Complex.arg ⟨c1, s1⟩ < 0 := by
    rw [Complex.arg_neg_iff]; simpa using h1
  have a2 : Complex.arg ⟨c2, s2⟩ < 0 := by
    rw [Complex.arg_neg_iff]; simpa using h2
  rw [if_neg a1, if_pos a2]
  have := Complex.arg_le_pi ⟨c1, s1⟩
  have := Complex.neg_pi_lt_arg ⟨c2, s2⟩
  linarith

theorem ang_lt_of_upper_cross (s1 c1 s2 c2 : ℝ) (h1 : 0 < s1) (h2 : 0 < s2)
    (hx : 0 < c1 * s2 - s1 * c2) : ang s1 c1 < ang s2 c2 := by
  unfold ang
  have a1 : ¬ Complex.arg ⟨c1, s1⟩ < 0 := by
    rw [Complex.arg_neg_iff]; simpa using h1.le
  have a2 : ¬ Complex.arg ⟨c2, s2⟩ < 0 := by
    rw [Complex.arg_neg_iff]; simpa using h2.le
  rw [if_neg a1, if_neg a2]
  have hz : (⟨c1, s1⟩ : ℂ) ≠ 0 := by
    intro h; have := congrArg Complex.im h; simp at this; linarith
  have hw : (⟨c2, s2⟩ : ℂ) ≠ 0 := by
    intro h; have := congrArg Complex.im h; simp at this; linarith
  apply arg_lt_arg_of_cross_pos _ _ hz hw
  · have := Complex.arg_le_pi ⟨c1, s1⟩
    linarith [not_lt.mp a2]
  · simpa using hx

theorem ang_lt_of_lower_cross (s1 c1 s2 c2 : ℝ) (h1 : s1 < 0) (h2 : s2 < 0)
    (hx : 0 < c1 * s2 - s1 * c2) : ang s1 c1 < ang s2 c2 := by
  unfold ang
  have a1 : Complex.arg ⟨c1, s1⟩ < 0 := by
    rw [Complex.arg_neg_iff]; simpa using h1
  have a2 : Complex.arg ⟨c2, s2⟩ < 0 := by
    rw [Complex.arg_neg_iff]; simpa using h2
  rw [if_pos a1, if_pos a2]
  have hz : (⟨c1, s1⟩ : ℂ) ≠ 0 := by
    intro h; have := congrArg Complex.im h; simp at this; linarith
  have hw : (⟨c2, s2⟩ : ℂ) ≠ 0 := by
    intro h; have := congrArg Complex.im h; simp at this; linarith
  have := arg_lt_arg_of_cross_pos _ _ hz hw (by
    have := Complex.neg_pi_lt_arg ⟨c2, s2⟩
    linarith) (by simpa using hx)
  linarith

theorem ang_lt_of_upper_pi (s1 c1 c2 : ℝ) (h1 : 0 < s1) (h2 : c2 < 0) :
    ang s1 c1 < ang 0 c2 := by
  unfold ang
  have a1 : ¬ Complex.arg ⟨c1, s1⟩ < 0 := by
    rw [Complex.arg_neg_iff]; simpa using h1.le
  have a2 : Complex.arg ⟨c2, 0⟩ = Real.pi := by
    rw [Complex.arg_eq_pi_iff]; exact ⟨h2, rfl⟩
  rw [if_neg a1, a2, if_neg (by linarith [Real.pi_pos])]
  have : Complex.arg ⟨c1, s1⟩ ≠ Real.pi := by
    intro h
    have := (Complex.arg_eq_pi_iff (z := ⟨c1, s1⟩)).mp h
    simp at this
    linarith
  exact lt_of_le_of_ne (Complex.arg_le_pi _) this

theorem orient3_self_left (n a b : Vec3 K) : orient3 n a b a = 0 := by
  simp only [orient3, det3, Vec3.dot3, Vec3.cross, Vec3.sub]; ring

theorem orient3_self_right (n a b : Vec3 K) : orient3 n a b b = 0 := by
  simp only [orient3, det3, Vec3.dot3, Vec3.cross, Vec3.sub]; ring

theorem orient3_eq_sum (n m a b c : Vec3 K) :
    orient3 n a b c = det3 n (a.sub m) (b.sub m) + det3 n (b.sub m) (c.sub m)
      + det3 n (c.sub m) (a.sub m) := by
  simp only [orient3, det3, Vec3.dot3, Vec3.cross, Vec3.sub]; ring

theorem orient3_swap (n a b c : Vec3 K) : orient3 n a c b = - orient3 n a b c := by
  simp only [orient3, det3, Vec3.dot3, Vec3.cross, Vec3.sub]; ring

theorem det3_swap (n a b : Vec3 K) : det3 n b a = - det3 n a b := by
  simp only [det3, Vec3.dot3, Vec3.cross]; ring

/-- The barycentric identity behind the convexity argument: for the affine
function `p ↦ orient3 n x x' p`, weighted by the three signed areas about
`m`. -/
theorem support_identity (n m x x' a b c : Vec3 K) :
    det3 n (a.sub m) (b.sub m) * orient3 n x x' c
      + det3 n (b.sub m) (c.sub m) * orient3 n x x' a
      + det3 n (c.sub m) (a.sub m) * orient3 n x x' b
      = orient3 n a b c * orient3 n x x' m := by
  simp only [orient3, det3, Vec3.dot3, Vec3.cross, Vec3.sub]; ring

/-- The cross term of two angles measured from `u` is `|u|^2` times the signed
area of the two vectors, up to a multiple of `n · u`. -/
theorem cross_identity (n u v w : Vec3 K) :
    u.dot3 v * det3 n u w - det3 n u v * u.dot3 w
      = u.lengthsqr3 * det3 n v w + n.dot3 u * (u.dot3 (w.cross v)) := by
  simp only [det3, Vec3.dot3, Vec3.cross, Vec3.lengthsqr3]; ring

theorem lengthsqr3_pos_of_det3_ne (n u v : Vec3 K) (h : det3 n u v ≠ 0) : 0 < u.lengthsqr3 := by
  by_contra hcon
  have h0 : u.lengthsqr3 = 0 := by
    have : 0 ≤ u.lengthsqr3 := by
      simp only [Vec3.lengthsqr3]; nlinarith [mul_self_nonneg u.x, mul_self_nonneg u.y, mul_self_nonneg u.z]
    linarith [not_lt.mp hcon]
  simp only [Vec3.lengthsqr3] at h0
  have hx : u.x = 0 := by nlinarith [mul_self_nonneg u.x, mul_self_nonneg u.y, mul_self_nonneg u.z]
  have hy : u.y = 0 := by nlinarith [mul_self_nonneg u.x, mul_self_nonneg u.y, mul_self_nonneg u.z]
  have hz : u.z = 0 := by nlinarith [mul_self_nonneg u.x, mul_self_nonneg u.y, mul_self_nonneg u.z]
  apply h
  simp only [det3, Vec3.dot3, Vec3.cross, hx, hy, hz]; ring

/-- The angles of two vectors `v`, `w` measured from `u` are in strict order
as soon as at most one of the three signed areas `[u,v]`, `[v,w]`, `[w,u]`
is non-positive. -/
theorem angle_order_core (n u v w : Vec3 ℝ) (hnu : n.dot3 u = 0)
    (h1 : ¬ (det3 n u v ≤ 0 ∧ det3 n v w ≤ 0))
    (h2 : ¬ (det3 n u v ≤ 0 ∧ det3 n w u ≤ 0))
    (h3 : ¬ (det3 n v w ≤ 0 ∧ det3 n w u ≤ 0)) :
    ang (det3 n u v) (u.dot3 v) < ang (det3 n u w) (u.dot3 w) := by
  have hX := cross_identity n u v w
  rw [hnu, zero_mul, add_zero] at hX
  have hsw : det3 n w u = - det3 n u w := det3_swap n u w
  rw [hsw] at h2 h3
  rcases lt_or_le 0 (det3 n u v) with hv | hv
  · rcases lt_or_le (det3 n u w) 0 with hw | hw
    · exact ang_lt_of_upper_lower _ _ _ _ hv.le hw
    · have hvw : 0 < det3 n v w := by
        by_contra hc
        exact h3 ⟨not_lt.mp hc, by linarith⟩
      have hu : 0 < u.lengthsqr3 := lengthsqr3_pos_of_det3_ne n u v hv.ne'
      have hXpos : 0 < u.dot3 v * det3 n u w - det3 n u v * u.dot3 w := by
        rw [hX]; exact mul_pos hu hvw
      rcases hw.lt_or_eq with hw' | hw'
      · exact ang_lt_of_upper_cross _ _ _ _ hv hw' hXpos
      · rw [← hw'] at hXpos ⊢
        have hc : u.dot3 w < 0 := by
          by_contra hc
          have := mul_nonneg hv.le (not_lt.mp hc)
          linarith
        exact ang_lt_of_upper_pi _ _ _ hv hc
  · have hvw : 0 < det3 n v w := by
      by_contra hc
      exact h1 ⟨hv, not_lt.mp hc⟩
    have hw : det3 n u w < 0 := by
      by_contra hc
      exact h2 ⟨hv, by linarith [not_lt.mp hc]⟩
    rcases hv.lt_or_eq with hv' | hv'
    · have hu : 0 < u.lengthsqr3 := lengthsqr3_pos_of_det3_ne n u w hw.ne
      have hXpos : 0 < u.dot3 v * det3 n u w - det3 n u v * u.dot3 w := by
        rw [hX]; exact mul_pos hu hvw
      exact ang_lt_of_lower_cross _ _ _ _ hv' hw hXpos
    · exact ang_lt_of_upper_lower _ _ _ _ hv'.ge hw

/-- A vector `v` whose angle from `u` is zero cannot be the second of three
vectors with at most one non-positive signed area. -/
theorem angle_pos_core_left (n u v w : Vec3 ℝ) (hnu : n.dot3 u = 0)
    (h1 : ¬ (det3 n u v ≤ 0 ∧ det3 n v w ≤ 0))
    (h2 : ¬ (det3 n u v ≤ 0 ∧ det3 n w u ≤ 0)) :
    0 < ang (det3 n u v) (u.dot3 v) := by
  apply ang_pos
  rintro ⟨hs, hc⟩
  have hX := cross_identity n u v w
  rw [hnu, zero_mul, add_zero, hs, zero_mul, sub_zero] at hX
  have hsw : det3 n w u = - det3 n u w := det3_swap n u w
  rw [hsw, hs] at h2
  rw [hs] at h1
  have hvw : 0 < det3 n v w := by
    by_contra hcon
    exact h1 ⟨le_refl _, not_lt.mp hcon⟩
  have hw : det3 n u w < 0 := by
    by_contra hcon
    exact h2 ⟨le_refl _, by linarith [not_lt.mp hcon]⟩
  have hu : 0 < u.lengthsqr3 := lengthsqr3_pos_of_det3_ne n u w hw.ne
  have : 0 < u.lengthsqr3 * det3 n v w := mul_pos hu hvw
  have : u.dot3 v * det3 n u w ≤ 0 := mul_nonpos_of_nonneg_of_nonpos hc hw.le
  linarith

/-- A vector `w` whose angle from `u` is zero cannot be the third of three
vectors with at most one non-positive signed area. -/
theorem angle_pos_core_right (n u v w : Vec3 ℝ) (hnu : n.dot3 u = 0)
    (h2 : ¬ (det3 n u v ≤ 0 ∧ det3 n w u ≤ 0))
    (h3 : ¬ (det3 n v w ≤ 0 ∧ det3 n w u ≤ 0)) :
    0 < ang (det3 n u w) (u.dot3 w) := by
  apply ang_pos
  rintro ⟨hs, hc⟩
  have hX := cross_identity n u v w
  rw [hnu, zero_mul, add_zero, hs, mul_zero, zero_sub] at hX
  have hsw : det3 n w u = - det3 n u w := det3_swap n u w
  rw [hsw, hs, neg_zero] at h2 h3
  have hv : 0 < det3 n u v := by
    by_contra hcon
    exact h2 ⟨not_lt.mp hcon, le_refl _⟩
  have hvw : 0 < det3 n v w := by
    by_contra hcon
    exact h3 ⟨not_lt.mp hcon, le_refl _⟩
  have hu : 0 < u.lengthsqr3 := lengthsqr3_pos_of_det3_ne n u v hv.ne'
  have : 0 < u.lengthsqr3 * det3 n v w := mul_pos hu hvw
  have : 0 ≤ det3 n u v * u.dot3 w := mul_nonneg hv.le hc
  linarith

/-- Three points `a`, `b`, `c` that turn left about `n`, each the tail of a
line that has the other two on its left or on it and the point `m` strictly
on its left: of the three signed areas about `m` at most one is
non-positive. -/
theorem amo_of_support (n m a b c a' b' c' : Vec3 ℝ) (hO : 0 < orient3 n a b c)
    (hab : 0 ≤ orient3 n a a' b) (hac : 0 ≤ orient3 n a a' c) (ham : 0 < orient3 n a a' m)
    (hba : 0 ≤ orient3 n b b' a) (hbc : 0 ≤ orient3 n b b' c) (hbm : 0 < orient3 n b b' m)
    (hca : 0 ≤ orient3 n c c' a) (hcb : 0 ≤ orient3 n c c' b) (hcm : 0 < orient3 n c c' m) :
    ¬ (det3 n (a.sub m) (b.sub m) ≤ 0 ∧ det3 n (b.sub m) (c.sub m) ≤ 0) ∧
    ¬ (det3 n (a.sub m) (b.sub m) ≤ 0 ∧ det3 n (c.sub m) (a.sub m) ≤ 0) ∧
    ¬ (det3 n (b.sub m) (c.sub m) ≤ 0 ∧ det3 n (c.sub m) (a.sub m) ≤ 0) := by
  have ia := support_identity n m a a' a b c
  have ib := support_identity n m b b' a b c
  have ic := support_identity n m c c' a b c
  rw [orient3_self_left] at ia ib ic
  have pa := mul_pos hO ham
  have pb := mul_pos hO hbm
  have pc := mul_pos hO hcm
  refine ⟨?_, ?_, ?_⟩
  · rintro ⟨h1, h2⟩
    have := mul_nonpos_of_nonpos_of_nonneg h1 hbc
    have := mul_nonpos_of_nonpos_of_nonneg h2 hba
    linarith
  · rintro ⟨h1, h2⟩
    have := mul_nonpos_of_nonpos_of_nonneg h1 hac
    have := mul_nonpos_of_nonpos_of_nonneg h2 hab
    linarith
  · rintro ⟨h1, h2⟩
    have := mul_nonpos_of_nonpos_of_nonneg h1 hca
    have := mul_nonpos_of_nonpos_of_nonneg h2 hcb
    linarith

/-- An affine function of the mean point is the mean of its values at the
points. -/
theorem mean_affine (Q : Nat → Vec3 ℝ) (k : Nat) (m : Vec3 ℝ)
    (hmx : (k : ℝ) * m.x = ∑ i ∈ Finset.range k, (Q i).x)
    (hmy : (k : ℝ) * m.y = ∑ i ∈ Finset.range k, (Q i).y)
    (hmz : (k : ℝ) * m.z = ∑ i ∈ Finset.range k, (Q i).z) (α β γ δ : ℝ) :
    (k : ℝ) * (α * m.x + β * m.y + γ * m.z + δ)
      = ∑ i ∈ Finset.range k, (α * (Q i).x + β * (Q i).y + γ * (Q i).z + δ) := by
  rw [Finset.sum_add_distrib, Finset.sum_add_distrib, Finset.sum_add_distrib,
    ← Finset.mul_sum, ← Finset.mul_sum, ← Finset.mul_sum, ← hmx, ← hmy, ← hmz,
    Finset.sum_const, Finset.card_range, nsmul_eq_mul]
  ring

theorem orient3_mean (n A B : Vec3 ℝ) (Q : Nat → Vec3 ℝ) (k : Nat) (m : Vec3 ℝ)
    (hmx : (k : ℝ) * m.x = ∑ i ∈ Finset.range k, (Q i).x)
    (hmy : (k : ℝ) * m.y = ∑ i ∈ Finset.range k, (Q i).y)
    (hmz : (k : ℝ) * m.z = ∑ i ∈ Finset.range k, (Q i).z) :
    (k : ℝ) * orient3 n A B m = ∑ i ∈ Finset.range k, orient3 n A B (Q i) := by
  have h := mean_affine Q k m hmx hmy hmz
    (n.y * (B.z - A.z) - n.z * (B.y - A.y))
    (n.z * (B.x - A.x) - n.x * (B.z - A.z))
    (n.x * (B.y - A.y) - n.y * (B.x - A.x))
    (-((n.y * (B.z - A.z) - n.z * (B.y - A.y)) * A.x
      + (n.z * (B.x - A.x) - n.x * (B.z - A.z)) * A.y
      + (n.x * (B.y - A.y) - n.y * (B.x - A.x)) * A.z))
  have e : ∀ p : Vec3 ℝ, orient3 n A B p
      = (n.y * (B.z - A.z) - n.z * (B.y - A.y)) * p.x
        + (n.z * (B.x - A.x) - n.x * (B.z - A.z)) * p.y
        + (n.x * (B.y - A.y) - n.y * (B.x - A.x)) * p.z
        + -((n.y * (B.z - A.z) - n.z * (B.y - A.y)) * A.x
          + (n.z * (B.x - A.x) - n.x * (B.z - A.z)) * A.y
          + (n.x * (B.y - A.y) - n.y * (B.x - A.x)) * A.z) := by
    intro p
    simp only [orient3, det3, Vec3.dot3, Vec3.cross, Vec3.sub]
    ring
  rw [e m, h]
  exact Finset.sum_congr rfl fun i _ => (e (Q i)).symm

theorem dot_sub_mean (n A : Vec3 ℝ) (Q : Nat → Vec3 ℝ) (k : Nat) (m : Vec3 ℝ)
    (hmx : (k : ℝ) * m.x = ∑ i ∈ Finset.range k, (Q i).x)
    (hmy : (k : ℝ) * m.y = ∑ i ∈ Finset.range k, (Q i).y)
    (hmz : (k : ℝ) * m.z = ∑ i ∈ Finset.range k, (Q i).z) :
    (k : ℝ) * n.dot3 (A.sub m) = ∑ i ∈ Finset.range k, n.dot3 (A.sub (Q i)) := by
  have h := mean_affine Q k m hmx hmy hmz (-n.x) (-n.y) (-n.z)
    (n.x * A.x + n.y * A.y + n.z * A.z)
  have e : ∀ p : Vec3 ℝ, n.dot3 (A.sub p)
      = -n.x * p.x + -n.y * p.y + -n.z * p.z + (n.x * A.x + n.y * A.y + n.z * A.z) := by
    intro p
    simp only [Vec3.dot3, Vec3.sub]
    ring
  rw [e m, h]
  exact Finset.sum_congr rfl fun i _ => (e (Q i)).symm

/-- In a strictly convex face every corner `x` has an edge `x → x'` with all
corners on its left or on it and the mean point strictly on its left. -/
theorem support_of_convex (n : Vec3 ℝ) (Q : Nat → Vec3 ℝ) (k : Nat) (m : Vec3 ℝ) (hk : 3 ≤ k)
    (hmx : (k : ℝ) * m.x = ∑ i ∈ Finset.range k, (Q i).x)
    (hmy : (k : ℝ) * m.y = ∑ i ∈ Finset.range k, (Q i).y)
    (hmz : (k : ℝ) * m.z = ∑ i ∈ Finset.range k, (Q i).z)
    (hconv : IsStrictlyConvexFace n Q k) (x : Nat) (hx : x < k) :
    ∃ x', (∀ y, y < k → 0 ≤ orient3 n (Q x) (Q x') (Q y)) ∧ 0 < orient3 n (Q x) (Q x') m := by
  obtain ⟨x', hx', hne, hleft⟩ := hconv.2.2 x hx
  have hall : ∀ y, y < k → 0 ≤ orient3 n (Q x) (Q x') (Q y) := by
    intro y hy
    by_cases h1 : y = x
    · rw [h1, orient3_self_left]
    · by_cases h2 : y = x'
      · rw [h2, orient3_self_right]
      · exact (hleft y hy h1 h2).le
  refine ⟨x', hall, ?_⟩
  have hsum := orient3_mean n (Q x) (Q x') Q k m hmx hmy hmz
  have hpos : 0 < ∑ i ∈ Finset.range k, orient3 n (Q x) (Q x') (Q i) := by
    apply Finset.sum_pos'
    · intro i hi
      exact hall i (Finset.mem_range.mp hi)
    · have hthird : ∃ j, j < k ∧ j ≠ x ∧ j ≠ x' := by
        by_cases h0 : 0 ≠ x ∧ 0 ≠ x'
        · exact ⟨0, by omega, h0.1, h0.2⟩
        · by_cases h1 : 1 ≠ x ∧ 1 ≠ x'
          · exact ⟨1, by omega, h1.1, h1.2⟩
          · exact ⟨2, by omega, by omega, by omega⟩
      obtain ⟨j, hj, hjx, hjx'⟩ := hthird
      exact ⟨j, Finset.mem_range.mpr hj, hleft j hj hjx hjx'⟩
  have hkpos : (0 : ℝ) < k := by exact_mod_cast (by omega : 0 < k)
  rw [← hsum] at hpos
  exact (mul_pos_iff_of_pos_left hkpos).mp hpos

theorem amo_of_convex (n : Vec3 ℝ) (Q : Nat → Vec3 ℝ) (k : Nat) (m : Vec3 ℝ) (hk : 3 ≤ k)
    (hmx : (k : ℝ) * m.x = ∑ i ∈ Finset.range k, (Q i).x)
    (hmy : (k : ℝ) * m.y = ∑ i ∈ Finset.range k, (Q i).y)
    (hmz : (k : ℝ) * m.z = ∑ i ∈ Finset.range k, (Q i).z)
    (hconv : IsStrictlyConvexFace n Q k) (a b c : Nat) (ha : a < k) (hb : b < k) (hc : c < k)
    (hO : 0 < orient3 n (Q a) (Q b) (Q c)) :
    ¬ (det3 n ((Q a).sub m) ((Q b).sub m) ≤ 0 ∧ det3 n ((Q b).sub m) ((Q c).sub m) ≤ 0) ∧
    ¬ (det3 n ((Q a).sub m) ((Q b).sub m) ≤ 0 ∧ det3 n ((Q c).sub m) ((Q a).sub m) ≤ 0) ∧
    ¬ (det3 n ((Q b).sub m) ((Q c).sub m) ≤ 0 ∧ det3 n ((Q c).sub m) ((Q a).sub m) ≤ 0) := by
  obtain ⟨a', ha1, ha2⟩ := support_of_convex n Q k m hk hmx hmy hmz hconv a ha
  obtain ⟨b', hb1, hb2⟩ := support_of_convex n Q k m hk hmx hmy hmz hconv b hb
  obtain ⟨c', hc1, hc2⟩ := support_of_convex n Q k m hk hmx hmy hmz hconv c hc
  exact amo_of_support n m (Q a) (Q b) (Q c) (Q a') (Q b') (Q c') hO
    (ha1 b hb) (ha1 c hc) ha2 (hb1 a ha) (hb1 c hc) hb2 (hc1 a ha) (hc1 b hb) hc2

/-- The geometric core of the fan triangulation: in a strictly convex face
with mean point `m`, every corner other than corner 0 has a positive angle
about `m` measured from corner 0, and two such corners whose angles are in
order form with corner 0 a triangle that is counter-clockwise about `n`. -/
theorem fan_core (n : Vec3 ℝ) (Q : Nat → Vec3 ℝ) (k : Nat) (m : Vec3 ℝ) (hk : 3 ≤ k)
    (hmx : (k : ℝ) * m.x = ∑ i ∈ Finset.range k, (Q i).x)
    (hmy : (k : ℝ) * m.y = ∑ i ∈ Finset.range k, (Q i).y)
    (hmz : (k : ℝ) * m.z = ∑ i ∈ Finset.range k, (Q i).z)
    (hconv : IsStrictlyConvexFace n Q k) :
    (∀ p, 0 < p → p < k →
      0 < ang (det3 n ((Q 0).sub m) ((Q p).sub m)) (((Q 0).sub m).dot3 ((Q p).sub m))) ∧
    (∀ p q, 0 < p → 0 < q → p < k → q < k → p ≠ q →
      ang (det3 n ((Q 0).sub m) ((Q p).sub m)) (((Q 0).sub m).dot3 ((Q p).sub m))
        ≤ ang (det3 n ((Q 0).sub m) ((Q q).sub m)) (((Q 0).sub m).dot3 ((Q q).sub m)) →
      0 < orient3 n (Q 0) (Q p) (Q q)) := by
  have hkpos : (0 : ℝ) < k := by exact_mod_cast (by omega : 0 < k)
  have hnu : n.dot3 ((Q 0).sub m) = 0 := by
    have h := dot_sub_mean n (Q 0) Q k m hmx hmy hmz
    have h0 : ∑ i ∈ Finset.range k, n.dot3 ((Q 0).sub (Q i)) = 0 :=
      Finset.sum_eq_zero fun i hi => hconv.1 0 (by omega) i (Finset.mem_range.mp hi)
    rw [h0] at h
    rcases mul_eq_zero.mp h with h | h
    · linarith
    · exact h
  constructor
  · intro p hp hpk
    have hthird : ∃ r, r < k ∧ r ≠ 0 ∧ r ≠ p := by
      by_cases h1 : 1 ≠ p
      · exact ⟨1, by omega, by omega, h1⟩
      · exact ⟨2, by omega, by omega, by omega⟩
    obtain ⟨r, hr, hr0, hrp⟩ := hthird
    have hne := hconv.2.1 0 p r (by omega) hpk hr (by omega) (Ne.symm hr0) (Ne.symm hrp)
    rcases lt_or_gt_of_ne hne with hlt | hgt
    · have hO : 0 < orient3 n (Q 0) (Q r) (Q p) := by
        rw [orient3_swap]; linarith
      obtain ⟨_, h2, h3⟩ := amo_of_convex n Q k m hk hmx hmy hmz hconv 0 r p (by omega) hr hpk hO
      exact angle_pos_core_right n _ _ _ hnu h2 h3
    · obtain ⟨h1, h2, _⟩ := amo_of_convex n Q k m hk hmx hmy hmz hconv 0 p r (by omega) hpk hr hgt
      exact angle_pos_core_left n _ _ _ hnu h1 h2
  · intro p q hp hq hpk hqk hpq hle
    have hne := hconv.2.1 0 p q (by omega) hpk hqk (by omega) (by omega) hpq
    rcases lt_or_gt_of_ne hne with hlt | hgt
    · exfalso
      have hO : 0 < orient3 n (Q 0) (Q q) (Q p) := by
        rw [orient3_swap]; linarith
      obtain ⟨h1, h2, h3⟩ := amo_of_convex n Q k m hk hmx hmy hmz hconv 0 q p (by omega) hqk hpk hO
      have := angle_order_core n _ _ _ hnu h1 h2 h3
      linarith
    · exact hgt

theorem list_sum_eq_sum_range (f : Nat → ℝ) (ids : List Nat) :
    (ids.map f).sum = ∑ i ∈ Finset.range ids.length, f (ids.getD i 0) := by
  induction ids with
  | nil => simp
  | cons a l ih =>
    rw [List.map_cons, List.sum_cons, List.length_cons, Finset.sum_range_succ', ih]
    simp [add_comm]

theorem foldl_add_components (vpoints : List ℝ) (ids : List Nat) :
    ∀ acc : Vec3 ℝ,
      (ids.foldl (fun (acc : Vec3 ℝ) pointindex => acc.add (point3 vpoints pointindex)) acc).x
          = acc.x + (ids.map fun id => (point3 vpoints id).x).sum ∧
      (ids.foldl (fun (acc : Vec3 ℝ) pointindex => acc.add (point3 vpoints pointindex)) acc).y
          = acc.y + (ids.map fun id => (point3 vpoints id).y).sum ∧
      (ids.foldl (fun (acc : Vec3 ℝ) pointindex => acc.add (point3 vpoints pointindex)) acc).z
          = acc.z + (ids.map fun id => (point3 vpoints id).z).sum := by
  induction ids with
  | nil => intro acc; simp
  | cons a l ih =>
    intro acc
    simp only [List.foldl_cons, List.map_cons, List.sum_cons]
    obtain ⟨h1, h2, h3⟩ := ih (acc.add (point3 vpoints a))
    rw [h1, h2, h3]
    simp only [Vec3.add]
    refine ⟨by ring, by ring, by ring⟩

/-- The mean point computed by the triangulator is the centroid of the
corners of the face. -/
theorem faceMean_sums (vpoints : List ℝ) (ids : List Nat) (hk : 0 < ids.length) :
    (ids.length : ℝ) * (faceMean vpoints ids).x
        = ∑ i ∈ Finset.range ids.length, (point3 vpoints (ids.getD i 0)).x ∧
    (ids.length : ℝ) * (faceMean vpoints ids).y
        = ∑ i ∈ Finset.range ids.length, (point3 vpoints (ids.getD i 0)).y ∧
    (ids.length : ℝ) * (faceMean vpoints ids).z
        = ∑ i ∈ Finset.range ids.length, (point3 vpoints (ids.getD i 0)).z := by
  have hkpos : (ids.length : ℝ) ≠ 0 := by exact_mod_cast hk.ne'
  obtain ⟨h1, h2, h3⟩ := foldl_add_components vpoints ids ⟨0, 0, 0⟩
  unfold faceMean
  simp only
  rw [h1, h2, h3, ← list_sum_eq_sum_range (fun id => (point3 vpoints id).x),
    ← list_sum_eq_sum_range (fun id => (point3 vpoints id).y),
    ← list_sum_eq_sum_range (fun id => (point3 vpoints id).z)]
  refine ⟨?_, ?_, ?_⟩ <;> field_simp

/-- With the mathematical `atan2` and `PI`, the angle the triangulator
assigns is the angle `ang` of the signed area and the dot product. -/
theorem angleOf_eq_ang (lib : RaveLib ℝ)
    (hatan : ∀ y x, lib.RaveAtan2 y x = Complex.arg ⟨x, y⟩) (hpi : lib.PI = Real.pi)
    (n u v : Vec3 ℝ) : angleOf lib n u v = ang (det3 n u v) (u.dot3 v) := by
  have hs : n.x * (u.y * v.z - u.z * v.y) + n.y * (u.z * v.x - u.x * v.z)
      + n.z * (u.x * v.y - u.y * v.x) = det3 n u v := by
    simp only [det3, Vec3.dot3, Vec3.cross]
  have hc : u.x * v.x + u.y * v.y + u.z * v.z = u.dot3 v := rfl
  unfold angleOf ang
  simp only [hatan, hpi, hs, hc]

/-- Every entry of the sorted angle array pairs a position of the face with
the angle the triangulator assigned to that position. -/
theorem sorted_entry (lib : RaveLib K) (sortFn : List (K × Nat) → List (K × Nat))
    (hsort : IsStdSort sortFn) (vpoints : List K) (plane : Vec3 K) (ids : List Nat)
    (j : Nat) (hj : j < ids.length) :
    ((sortFn (faceAngles lib vpoints plane ids)).getD j (0, 0)).1
      = if ((sortFn (faceAngles lib vpoints plane ids)).getD j (0, 0)).2 = 0 then 0
        else angleOf lib plane (facePoint vpoints ids 0)
          (facePoint vpoints ids ((sortFn (faceAngles lib vpoints plane ids)).getD j (0, 0)).2) := by
  have hlen := sorted_length lib sortFn hsort vpoints plane ids
  have hj' : j < (sortFn (faceAngles lib vpoints plane ids)).length := by omega
  rw [List.getD_eq_getElem _ _ hj']
  have hmem : (sortFn (faceAngles lib vpoints plane ids))[j] ∈ faceAngles lib vpoints plane ids :=
    (hsort _).1.mem_iff.mp (List.getElem_mem hj')
  generalize (sortFn (faceAngles lib vpoints plane ids))[j] = e at hmem ⊢
  unfold faceAngles at hmem
  obtain ⟨i, _, hi⟩ := List.mem_map.mp hmem
  subst hi
  by_cases h0 : i = 0
  · simp [h0]
  · simp [h0]

theorem sorted_le (lib : RaveLib K) (sortFn : List (K × Nat) → List (K × Nat))
    (hsort : IsStdSort sortFn) (vpoints : List K) (plane : Vec3 K) (ids : List Nat)
    (i j : Nat) (hij : i < j) (hj : j < ids.length) :
    ((sortFn (faceAngles lib vpoints plane ids)).getD i (0, 0)).1
      ≤ ((sortFn (faceAngles lib vpoints plane ids)).getD j (0, 0)).1 := by
  have hlen := sorted_length lib sortFn hsort vpoints plane ids
  have hi' : i < (sortFn (faceAngles lib vpoints plane ids)).length := by omega
  have hj' : j < (sortFn (faceAngles lib vpoints plane ids)).length := by omega
  rw [List.getD_eq_getElem _ _ hi', List.getD_eq_getElem _ _ hj']
  have h := List.pairwise_iff_getElem.mp (hsort (faceAngles lib vpoints plane ids)).2 i j hi' hj' hij
  simp only [sort_pair_first, decide_eq_false_iff_not, not_lt] at h
  exact h

theorem sorted_pos_surj (lib : RaveLib K) (sortFn : List (K × Nat) → List (K × Nat))
    (hsort : IsStdSort sortFn) (vpoints : List K) (plane : Vec3 K) (ids : List Nat)
    (p : Nat) (hp : p < ids.length) :
    ∃ j, j < ids.length ∧ ((sortFn (faceAngles lib vpoints plane ids)).getD j (0, 0)).2 = p := by
  have hlen := sorted_length lib sortFn hsort vpoints plane ids
  have hmem : p ∈ (sortFn (faceAngles lib vpoints plane ids)).map Prod.snd :=
    (sorted_snd_perm lib sortFn hsort vpoints plane ids).mem_iff.mpr (List.mem_range.mpr hp)
  obtain ⟨e, he, hep⟩ := List.mem_map.mp hmem
  obtain ⟨j, hj, hje⟩ := List.getElem_of_mem he
  refine ⟨j, by omega, ?_⟩
  rw [List.getD_eq_getElem _ _ hj, hje, hep]

/-- C10: for a face whose corners, in whatever order their ids are listed,
are the corners of a strictly convex planar polygon with plane normal `n`
(the plane stored for the face), and for the mathematical `atan2` and `PI`
and every result of `std::sort`, the triangulator emits `k - 2` triangles
and every emitted triangle `(a, b, c)` is counter-clockwise about `n`:
`n · ((p_b - p_a) x (p_c - p_a)) > 0`. -/
theorem C10_fan_triangles_ccw (lib : RaveLib ℝ)
    (hatan : ∀ y x, lib.RaveAtan2 y x = Complex.arg ⟨x, y⟩) (hpi : lib.PI = Real.pi)
    (sortFn : List (ℝ × Nat) → List (ℝ × Nat)) (hsort : IsStdSort sortFn)
    (vpoints vconvexplanes : List ℝ) (pre ids post : List Nat) (planeindex : Nat)
    (hk : 3 ≤ ids.length)
    (hconv : IsStrictlyConvexFace (planeAt vconvexplanes planeindex)
      (fun i => point3 vpoints (ids.getD i 0)) ids.length) :
    ∃ tris,
      triangulateFace lib sortFn vpoints vconvexplanes (pre ++ ids.length :: ids ++ post)
        pre.length planeindex ids.length = .ok tris ∧
      tris.length = 3 * (ids.length - 2) ∧
      ∀ t, t < ids.length - 2 →
        0 < orient3 (planeAt vconvexplanes planeindex)
          (point3 vpoints (tris.getD (3 * t) 0))
          (point3 vpoints (tris.getD (3 * t + 1) 0))
          (point3 vpoints (tris.getD (3 * t + 2) 0)) := by
  have hk0 : 0 < ids.length := by omega
  have hlen := sorted_length lib sortFn hsort vpoints (planeAt vconvexplanes planeindex) ids
  obtain ⟨hmx, hmy, hmz⟩ := faceMean_sums vpoints ids hk0
  obtain ⟨hpos, hord⟩ := fan_core (planeAt vconvexplanes planeindex)
    (fun i => point3 vpoints (ids.getD i 0)) ids.length (faceMean vpoints ids) hk hmx hmy hmz hconv
  have hinj := sorted_pos_inj lib sortFn hsort vpoints (planeAt vconvexplanes planeindex) ids
  have hlt := sorted_pos_lt lib sortFn hsort vpoints (planeAt vconvexplanes planeindex) ids hk0
  have hent := sorted_entry lib sortFn hsort vpoints (planeAt vconvexplanes planeindex) ids
  have hle := sorted_le lib sortFn hsort vpoints (planeAt vconvexplanes planeindex) ids
  -- the angle of a position other than 0, as stored in the sorted array
  have hang : ∀ j, j < ids.length →
      ((sortFn (faceAngles lib vpoints (planeAt vconvexplanes planeindex) ids)).getD j (0, 0)).2 ≠ 0 →
      ((sortFn (faceAngles lib vpoints (planeAt vconvexplanes planeindex) ids)).getD j (0, 0)).1
        = ang (det3 (planeAt vconvexplanes planeindex)
            ((point3 vpoints (ids.getD 0 0)).sub (faceMean vpoints ids))
            ((point3 vpoints (ids.getD ((sortFn (faceAngles lib vpoints
              (planeAt vconvexplanes planeindex) ids)).getD j (0, 0)).2 0)).sub
              (faceMean vpoints ids)))
          (((point3 vpoints (ids.getD 0 0)).sub (faceMean vpoints ids)).dot3
            ((point3 vpoints (ids.getD ((sortFn (faceAngles lib vpoints
              (planeAt vconvexplanes planeindex) ids)).getD j (0, 0)).2 0)).sub
              (faceMean vpoints ids))) := by
    intro j hj hne
    rw [hent j hj, if_neg hne, angleOf_eq_ang lib hatan hpi]
    rfl
  -- the first entry of the sorted array is position 0
  have hfirst : ((sortFn (faceAngles lib vpoints (planeAt vconvexplanes planeindex) ids)).getD
      0 (0, 0)).2 = 0 := by
    by_contra hne
    obtain ⟨j, hj, hj0⟩ := sorted_pos_surj lib sortFn hsort vpoints
      (planeAt vconvexplanes planeindex) ids 0 hk0
    have hj1 : 0 < j := by
      rcases Nat.eq_zero_or_pos j with h | h
      · rw [h] at hj0; exact absurd hj0 hne
      · exact h
    have h1 := hle 0 j hj1 hj
    rw [hent j hj, if_pos hj0, hang 0 hk0 hne] at h1
    have h2 := hpos _ (Nat.pos_of_ne_zero hne) (hlt 0)
    simp only at h2
    linarith
  refine ⟨_, triangulateFace_face lib sortFn hsort vpoints vconvexplanes pre ids post
    planeindex hk0, ?_, ?_⟩
  · unfold fanTriangles
    rw [flatMap3_length, hlen]
  · intro t ht
    have hget := flatMap3_getD
      (fun _ => ids.getD ((sortFn (faceAngles lib vpoints (planeAt vconvexplanes planeindex)
        ids)).getD 0 (0, 0)).2 0)
      (fun t => ids.getD ((sortFn (faceAngles lib vpoints (planeAt vconvexplanes planeindex)
        ids)).getD (t + 1) (0, 0)).2 0)
      (fun t => ids.getD ((sortFn (faceAngles lib vpoints (planeAt vconvexplanes planeindex)
        ids)).getD (t + 2) (0, 0)).2 0) 0 (ids.length - 2) t ht
    unfold fanTriangles
    rw [hlen, hget.1, hget.2.1, hget.2.2, hfirst]
    have hp0 : ((sortFn (faceAngles lib vpoints (planeAt vconvexplanes planeindex) ids)).getD
        (t + 1) (0, 0)).2 ≠ 0 := by
      intro h
      have := hinj (t + 1) 0 (by omega) hk0 (by rw [h, hfirst])
      omega
    have hq0 : ((sortFn (faceAngles lib vpoints (planeAt vconvexplanes planeindex) ids)).getD
        (t + 2) (0, 0)).2 ≠ 0 := by
      intro h
      have := hinj (t + 2) 0 (by omega) hk0 (by rw [h, hfirst])
      omega
    have hpq : ((sortFn (faceAngles lib vpoints (planeAt vconvexplanes planeindex) ids)).getD
        (t + 1) (0, 0)).2 ≠ ((sortFn (faceAngles lib vpoints (planeAt vconvexplanes planeindex)
          ids)).getD (t + 2) (0, 0)).2 := by
      intro h
      have := hinj (t + 1) (t + 2) (by omega) (by omega) h
      omega
    have h1 := hle (t + 1) (t + 2) (by omega) (by omega)
    rw [hang (t + 1) (by omega) hp0, hang (t + 2) (by omega) hq0] at h1
    exact hord _ _ (Nat.pos_of_ne_zero hp0) (Nat.pos_of_ne_zero hq0) (hlt _) (hlt _) hpq h1

theorem triangle_isStrictlyConvexFace :
    IsStrictlyConvexFace (planeAt ([0, 0, 1, 0] : List ℝ) 0)
      (fun i => point3 trianglePoints (([0, 1, 2] : List Nat).getD i 0)) ([0, 1, 2] : List Nat).length := by
  have hn : planeAt ([0, 0, 1, 0] : List ℝ) 0 = ⟨0, 0, 1⟩ := by simp [planeAt]
  have h0 : point3 trianglePoints 0 = ⟨0, 0, 0⟩ := by simp [point3, trianglePoints]
  have h1 : point3 trianglePoints 1 = ⟨1, 0, 0⟩ := by simp [point3, trianglePoints]
  have h2 : point3 trianglePoints 2 = ⟨0, 1, 0⟩ := by simp [point3, trianglePoints]
  rw [hn]
  refine ⟨?_, ?_, ?_⟩
  · intro i hi j hj
    simp only [List.length_cons, List.length_nil] at hi hj
    interval_cases i <;> interval_cases j <;>
      simp [h0, h1, h2, Vec3.dot3, Vec3.sub]
  · intro i j l hi hj hl hij hil hjl
    simp only [List.length_cons, List.length_nil] at hi hj hl
    interval_cases i <;> interval_cases j <;> interval_cases l <;>
      first
      | exact absurd rfl hij
      | exact absurd rfl hil
      | exact absurd rfl hjl
      | (simp [h0, h1, h2, orient3, det3, Vec3.dot3, Vec3.cross, Vec3.sub])
  · intro i hi
    simp only [List.length_cons, List.length_nil] at hi
    interval_cases i
    · refine ⟨1, by simp, by simp, ?_⟩
      intro j hj hj0 hj1
      simp only [List.length_cons, List.length_nil] at hj
      interval_cases j
      · exact absurd rfl hj0
      · exact absurd rfl hj1
      · simp [h0, h1, h2, orient3, det3, Vec3.dot3, Vec3.cross, Vec3.sub]
    · refine ⟨2, by simp, by simp, ?_⟩
      intro j hj hj0 hj1
      simp only [List.length_cons, List.length_nil] at hj
      interval_cases j
      · simp [h0, h1, h2, orient3, det3, Vec3.dot3, Vec3.cross, Vec3.sub]
      · exact absurd rfl hj0
      · exact absurd rfl hj1
    · refine ⟨0, by simp, by simp, ?_⟩
      intro j hj hj0 hj1
      simp only [List.length_cons, List.length_nil] at hj
      interval_cases j
      · exact absurd rfl hj1
      · simp [h0, h1, h2, orient3, det3, Vec3.dot3, Vec3.cross, Vec3.sub]
      · exact absurd rfl hj0

/-- Witness for C10: the triangle `(0,0,0)`, `(1,0,0)`, `(0,1,0)` in the plane
`z = 0` with normal `(0,0,1)`. -/
theorem C10_fan_triangles_ccw_witness :
    ∃ tris,
      triangulateFace realLib stableSort trianglePoints [0, 0, 1, 0]
        ([1] ++ ([0, 1, 2] : List Nat).length :: [0, 1, 2] ++ [])
        ([1] : List Nat).length 0 ([0, 1, 2] : List Nat).length = .ok tris ∧
      tris.length = 3 * (([0, 1, 2] : List Nat).length - 2) ∧
      ∀ t, t < ([0, 1, 2] : List Nat).length - 2 →
        0 < orient3 (planeAt ([0, 0, 1, 0] : List ℝ) 0)
          (point3 trianglePoints (tris.getD (3 * t) 0))
          (point3 trianglePoints (tris.getD (3 * t + 1) 0))
          (point3 trianglePoints (tris.getD (3 * t + 2) 0)) :=
  C10_fan_triangles_ccw realLib (fun _ _ => rfl) rfl stableSort stableSort_isStdSort
    trianglePoints [0, 0, 1, 0] [1] [0, 1, 2] [] 0 (by decide) triangle_isStrictlyConvexFace

/-! ## C5: the number of triangles of the sphere triangulation -/

theorem orientCCW_length (vertices : List (Vec3 K)) :
    ∀ (n : Nat) (l : List Nat), l.length = 3 * n → (orientCCW vertices l).length = 3 * n := by
  intro n
  induction n with
  | zero =>
    intro l hl
    have : l = [] := List.length_eq_zero.mp (by omega)
    subst this
    simp [orientCCW]
  | succ n ih =>
    intro l hl
    match l, hl with
    | a :: b :: c :: rest, hl =>
      have hr : rest.length = 3 * n := by simp at hl; omega
      rw [orientCCW, List.length_append, ih rest hr]
      split <;> simp <;> omega

theorem midpointIndex_indices (sqrt : K → K) (pcur : List (Vec3 K)) (st : SubdivState K)
    (a b : Nat) : (midpointIndex sqrt pcur st a b).1.indices = st.indices := by
  unfold midpointIndex
  split <;> rfl

theorem subdivideTriangle_indices_length (sqrt : K → K) (pcur : List (Vec3 K))
    (st : SubdivState K) (a b c : Nat) :
    (subdivideTriangle sqrt pcur st a b c).indices.length = st.indices.length + 12 := by
  unfold subdivideTriangle
  simp only [List.length_append, midpointIndex_indices]
  rfl

theorem subdivideLoop_indices_length (sqrt : K → K) (pcur : List (Vec3 K)) :
    ∀ (n : Nat) (l : List Nat) (st : SubdivState K), l.length = 3 * n →
      (subdivideLoop sqrt pcur l st).indices.length = st.indices.length + 12 * n := by
  intro n
  induction n with
  | zero =>
    intro l st hl
    have : l = [] := List.length_eq_zero.mp (by omega)
    subst this
    simp [subdivideLoop]
  | succ n ih =>
    intro l st hl
    match l, hl with
    | a :: b :: c :: rest, hl =>
      have hr : rest.length = 3 * n := by simp at hl; omega
      rw [subdivideLoop, ih rest _ hr, subdivideTriangle_indices_length]
      omega

theorem subdivide_indices_length (sqrt : K → K) (pcur : TRIMESH K) (n : Nat)
    (h : pcur.indices.length = 3 * n) :
    (subdivide sqrt pcur).indices.length = 3 * (4 * n) := by
  unfold subdivide
  simp only
  rw [subdivideLoop_indices_length sqrt pcur.vertices n pcur.indices _ h]
  simp
  omega

theorem iterate_indices_length (sqrt : K → K) (L : Nat) :
    ((subdivide sqrt)^[L] (icosahedron (K := K))).indices.length = 3 * (20 * 4 ^ L) := by
  induction L with
  | zero =>
    simp only [Function.iterate_zero, id_eq, icosahedron]
    exact orientCCW_length _ 20 icosahedronIndices rfl
  | succ L ih =>
    rw [Function.iterate_succ_apply', subdivide_indices_length sqrt _ _ ih]
    ring

/-- C5: for every `levels`, the index list of the mesh returned by
`GenerateSphereTriangulation` has length `60 * 4^L = 3 * (20 * 4^L)` with
`L = max levels 0`, i.e. the mesh has exactly `20 * 4^L` triangles; for
`levels ≤ 0` the mesh is the icosahedron with its twelve vertices and twenty
triangles. -/
theorem C5_triangle_count (sqrt : K → K) (levels : Int) :
    (GenerateSphereTriangulation sqrt levels).indices.length = 60 * 4 ^ levels.toNat ∧
    (GenerateSphereTriangulation sqrt levels).indices.length = 3 * (20 * 4 ^ levels.toNat) ∧
    (levels ≤ 0 →
      GenerateSphereTriangulation sqrt levels = icosahedron ∧
      (GenerateSphereTriangulation sqrt levels).vertices.length = 12 ∧
      (GenerateSphereTriangulation sqrt levels).indices.length = 3 * 20) := by
  have h := iterate_indices_length sqrt levels.toNat
  refine ⟨?_, h, ?_⟩
  · unfold GenerateSphereTriangulation
    rw [h]; ring
  · intro hle
    have h0 : levels.toNat = 0 := Int.toNat_eq_zero.mpr hle
    unfold GenerateSphereTriangulation
    rw [h0]
    simp only [Function.iterate_zero, id_eq]
    refine ⟨by first | rfl | trivial, ?_, ?_⟩
    · simp [icosahedron, icosahedronVertices]
    · exact orientCCW_length _ 20 icosahedronIndices rfl

/-! ## C7: orientation of the triangles of the sphere triangulation -/

theorem icosahedron_allCCW :
    AllCCW (icosahedronVertices (K := K))
      (orientCCW (icosahedronVertices (K := K)) icosahedronIndices) := by
  simp only [icosahedronIndices, orientCCW, AllCCW, triOrient, vertexAt, icosahedronVertices,
    List.getD_cons_zero, List.getD_cons_succ, Vec3.dot3, Vec3.cross, Vec3.sub,
    GTS_M_ICOSAHEDRON_X, GTS_M_ICOSAHEDRON_Y, GTS_M_ICOSAHEDRON_Z, List.length_cons,
    List.length_nil]
  norm_num [AllCCW, triOrient, vertexAt, Vec3.dot3, Vec3.cross, Vec3.sub]

theorem vertexAt_append_left (vs extra : List (Vec3 K)) (i : Nat) (hi : i < vs.length) :
    vertexAt (vs ++ extra) i = vertexAt vs i := by
  unfold vertexAt
  simp only [List.getD_eq_getElem?_getD]
  rw [List.getElem?_append_left hi]

theorem vertexAt_append_length (vs : List (Vec3 K)) (x : Vec3 K) :
    vertexAt (vs ++ [x]) vs.length = x := by
  unfold vertexAt
  simp [List.getD_eq_getElem?_getD]

theorem triOrient_append (vs extra : List (Vec3 K)) (a b c : Nat)
    (ha : a < vs.length) (hb : b < vs.length) (hc : c < vs.length) :
    triOrient (vs ++ extra) a b c = triOrient vs a b c := by
  unfold triOrient
  rw [vertexAt_append_left vs extra a ha, vertexAt_append_left vs extra b hb,
    vertexAt_append_left vs extra c hc]

theorem allCCW_append_vertices (vs extra : List (Vec3 K)) :
    ∀ l : List Nat, AllCCW vs l → AllCCW (vs ++ extra) l
  | a :: b :: c :: rest, h => by
    obtain ⟨⟨ha, hb, hc, ho⟩, hr⟩ := h
    refine ⟨⟨?_, ?_, ?_, ?_⟩, allCCW_append_vertices vs extra rest hr⟩
    · rw [List.length_append]; omega
    · rw [List.length_append]; omega
    · rw [List.length_append]; omega
    · rw [triOrient_append vs extra a b c ha hb hc]; exact ho
  | [], _ => trivial
  | [_], h => by simp [AllCCW] at h
  | [_, _], h => by simp [AllCCW] at h

theorem allCCW_append_indices (vs : List (Vec3 K)) :
    ∀ l l' : List Nat, AllCCW vs l → AllCCW vs l' → AllCCW vs (l ++ l')
  | a :: b :: c :: rest, l', h, h' => ⟨h.1, allCCW_append_indices vs rest l' h.2 h'⟩
  | [], _, _, h' => h'
  | [_], _, h, _ => by simp [AllCCW] at h
  | [_, _], _, h, _ => by simp [AllCCW] at h

theorem Vec3.add_comm' (a b : Vec3 K) : a.add b = b.add a := by
  simp only [Vec3.add, add_comm]

theorem midpointIndex_spec (sqrt : K → K) (pcur : List (Vec3 K)) (st : SubdivState K)
    (a b : Nat) (hinv : MidpointInv sqrt pcur st) :
    MidpointInv sqrt pcur (midpointIndex sqrt pcur st a b).1 ∧
    (∃ extra, (midpointIndex sqrt pcur st a b).1.vertices = st.vertices ++ extra) ∧
    (midpointIndex sqrt pcur st a b).2 < (midpointIndex sqrt pcur st a b).1.vertices.length ∧
    vertexAt (midpointIndex sqrt pcur st a b).1.vertices (midpointIndex sqrt pcur st a b).2
      = Vec3.normalize3 sqrt ((vertexAt pcur a).add (vertexAt pcur b)) := by
  unfold midpointIndex
  cases h : st.mapnewinds.lookup (a, b) with
  | some i =>
    simp only
    exact ⟨hinv, ⟨[], by simp⟩, (hinv.2 a b i h).1, (hinv.2 a b i h).2⟩
  | none =>
    simp only
    obtain ⟨⟨extra, hext⟩, hmap⟩ := hinv
    refine ⟨⟨⟨extra ++ [Vec3.normalize3 sqrt ((vertexAt pcur a).add (vertexAt pcur b))], ?_⟩, ?_⟩,
      ⟨_, rfl⟩, ?_, ?_⟩
    · rw [hext, List.append_assoc]
    · intro a' b' i hl
      rw [List.lookup_cons] at hl
      split at hl
      · rename_i heq
        have hk : (a', b') = (a, b) := by simpa using heq
        simp only [Option.some.injEq] at hl
        obtain ⟨ha, hb⟩ := Prod.mk.inj hk
        subst ha hb hl
        exact ⟨by simp, vertexAt_append_length _ _⟩
      · rw [List.lookup_cons] at hl
        split at hl
        · rename_i heq
          have hk : (a', b') = (b, a) := by simpa using heq
          simp only [Option.some.injEq] at hl
          obtain ⟨ha, hb⟩ := Prod.mk.inj hk
          subst ha hb hl
          refine ⟨by simp, ?_⟩
          rw [vertexAt_append_length, Vec3.add_comm']
        · obtain ⟨h1, h2⟩ := hmap a' b' i hl
          refine ⟨by rw [List.length_append]; omega, ?_⟩
          rw [vertexAt_append_left _ _ i h1]
          exact h2
    · simp
    · exact vertexAt_append_length _ _

theorem lengthsqr3_add_pos (a b c : Vec3 K)
    (h : 0 < a.dot3 ((b.sub a).cross (c.sub a))) : 0 < (a.add b).lengthsqr3 := by
  by_contra hcon
  have hnn : 0 ≤ (a.add b).lengthsqr3 := by
    simp only [Vec3.lengthsqr3]
    nlinarith [mul_self_nonneg (a.add b).x, mul_self_nonneg (a.add b).y,
      mul_self_nonneg (a.add b).z]
  have h0 : (a.add b).lengthsqr3 = 0 := le_antisymm (not_lt.mp hcon) hnn
  simp only [Vec3.lengthsqr3, Vec3.add] at h0
  have hx : a.x + b.x = 0 := by
    nlinarith [mul_self_nonneg (a.x + b.x), mul_self_nonneg (a.y + b.y),
      mul_self_nonneg (a.z + b.z)]
  have hy : a.y + b.y = 0 := by
    nlinarith [mul_self_nonneg (a.x + b.x), mul_self_nonneg (a.y + b.y),
      mul_self_nonneg (a.z + b.z)]
  have hz : a.z + b.z = 0 := by
    nlinarith [mul_self_nonneg (a.x + b.x), mul_self_nonneg (a.y + b.y),
      mul_self_nonneg (a.z + b.z)]
  have hbx : b.x = -a.x := by linarith
  have hby : b.y = -a.y := by linarith
  have hbz : b.z = -a.z := by linarith
  simp only [Vec3.dot3, Vec3.cross, Vec3.sub, hbx, hby, hbz] at h
  ring_nf at h
  exact lt_irrefl _ h

theorem tripleProduct_rotate (a b c : Vec3 K) :
    b.dot3 ((c.sub b).cross (a.sub b)) = a.dot3 ((b.sub a).cross (c.sub a)) := by
  simp only [Vec3.dot3, Vec3.cross, Vec3.sub]; ring

/-- The four triangles of the 1-to-4 split with scaled midpoints have the
orientation of the parent triangle, up to positive factors. -/
theorem split_orientations (a b c : Vec3 K) (s1 s2 s3 : K) :
    a.dot3 (((Vec3.smul s1 (a.add b)).sub a).cross ((Vec3.smul s3 (c.add a)).sub a))
      = s1 * s3 * a.dot3 ((b.sub a).cross (c.sub a)) ∧
    (Vec3.smul s1 (a.add b)).dot3
        ((b.sub (Vec3.smul s1 (a.add b))).cross
          ((Vec3.smul s2 (b.add c)).sub (Vec3.smul s1 (a.add b))))
      = s1 * s2 * a.dot3 ((b.sub a).cross (c.sub a)) ∧
    (Vec3.smul s3 (c.add a)).dot3
        (((Vec3.smul s1 (a.add b)).sub (Vec3.smul s3 (c.add a))).cross
          ((Vec3.smul s2 (b.add c)).sub (Vec3.smul s3 (c.add a))))
      = 2 * s1 * s2 * s3 * a.dot3 ((b.sub a).cross (c.sub a)) ∧
    (Vec3.smul s3 (c.add a)).dot3
        (((Vec3.smul s2 (b.add c)).sub (Vec3.smul s3 (c.add a))).cross
          (c.sub (Vec3.smul s3 (c.add a))))
      = s2 * s3 * a.dot3 ((b.sub a).cross (c.sub a)) := by
  refine ⟨?_, ?_, ?_, ?_⟩ <;>
    (simp only [Vec3.dot3, Vec3.cross, Vec3.sub, Vec3.smul, Vec3.add]; ring)

theorem subdivideTriangle_spec (sqrt : K → K) (hsqrt : ∀ x, 0 < x → 0 < sqrt x)
    (pcur : List (Vec3 K)) (st : SubdivState K) (a b c : Nat)
    (hinv : MidpointInv sqrt pcur st) (hccw : AllCCW st.vertices st.indices)
    (ha : a < pcur.length) (hb : b < pcur.length) (hc : c < pcur.length)
    (ho : 0 < triOrient pcur a b c) :
    MidpointInv sqrt pcur (subdivideTriangle sqrt pcur st a b c) ∧
    AllCCW (subdivideTriangle sqrt pcur st a b c).vertices
      (subdivideTriangle sqrt pcur st a b c).indices := by
  obtain ⟨hi0, ⟨e0, he0⟩, hlt0, hv0⟩ := midpointIndex_spec sqrt pcur st a b hinv
  obtain ⟨hi1, ⟨e1, he1⟩, hlt1, hv1⟩ :=
    midpointIndex_spec sqrt pcur (midpointIndex sqrt pcur st a b).1 b c hi0
  obtain ⟨hi2, ⟨e2, he2⟩, hlt2, hv2⟩ :=
    midpointIndex_spec sqrt pcur
      (midpointIndex sqrt pcur (midpointIndex sqrt pcur st a b).1 b c).1 c a hi1
  unfold subdivideTriangle
  simp only
  generalize hr0 : midpointIndex sqrt pcur st a b = r0 at *
  generalize hr1 : midpointIndex sqrt pcur r0.1 b c = r1 at *
  generalize hr2 : midpointIndex sqrt pcur r1.1 c a = r2 at *
  have hind : r2.1.indices = st.indices := by
    rw [← hr2, midpointIndex_indices, ← hr1, midpointIndex_indices, ← hr0,
      midpointIndex_indices]
  obtain ⟨⟨ex, hex⟩, hmap⟩ := hi2
  refine ⟨⟨⟨ex, hex⟩, hmap⟩, ?_⟩
  -- positions of the six vertices in the final vertex list
  have hlen : pcur.length ≤ r2.1.vertices.length := by rw [hex, List.length_append]; omega
  have hA : vertexAt r2.1.vertices a = vertexAt pcur a := by
    rw [hex]; exact vertexAt_append_left _ _ _ ha
  have hB : vertexAt r2.1.vertices b = vertexAt pcur b := by
    rw [hex]; exact vertexAt_append_left _ _ _ hb
  have hC : vertexAt r2.1.vertices c = vertexAt pcur c := by
    rw [hex]; exact vertexAt_append_left _ _ _ hc
  have hlt1' : r1.2 < r2.1.vertices.length := by rw [he2, List.length_append]; omega
  have hlt0' : r0.2 < r2.1.vertices.length := by
    rw [he2, he1, List.length_append, List.length_append]; omega
  have hY : vertexAt r2.1.vertices r1.2
      = Vec3.normalize3 sqrt ((vertexAt pcur b).add (vertexAt pcur c)) := by
    rw [he2, vertexAt_append_left _ _ _ hlt1]; exact hv1
  have hX : vertexAt r2.1.vertices r0.2
      = Vec3.normalize3 sqrt ((vertexAt pcur a).add (vertexAt pcur b)) := by
    rw [he2, he1, List.append_assoc, vertexAt_append_left _ _ _ hlt0]; exact hv0
  have hZ : vertexAt r2.1.vertices r2.2
      = Vec3.normalize3 sqrt ((vertexAt pcur c).add (vertexAt pcur a)) := hv2
  -- the scale factors are positive
  unfold triOrient at ho
  have hs1 : 0 < 1 / sqrt ((vertexAt pcur a).add (vertexAt pcur b)).lengthsqr3 :=
    one_div_pos.mpr (hsqrt _ (lengthsqr3_add_pos _ _ _ ho))
  have hs2 : 0 < 1 / sqrt ((vertexAt pcur b).add (vertexAt pcur c)).lengthsqr3 :=
    one_div_pos.mpr (hsqrt _ (lengthsqr3_add_pos _ _ (vertexAt pcur a)
      (by rw [tripleProduct_rotate]; exact ho)))
  have hs3 : 0 < 1 / sqrt ((vertexAt pcur c).add (vertexAt pcur a)).lengthsqr3 :=
    one_div_pos.mpr (hsqrt _ (lengthsqr3_add_pos _ _ (vertexAt pcur b)
      (by rw [tripleProduct_rotate, tripleProduct_rotate]; exact ho)))
  obtain ⟨q1, q2, q3, q4⟩ := split_orientations (vertexAt pcur a) (vertexAt pcur b)
    (vertexAt pcur c) (1 / sqrt ((vertexAt pcur a).add (vertexAt pcur b)).lengthsqr3)
    (1 / sqrt ((vertexAt pcur b).add (vertexAt pcur c)).lengthsqr3)
    (1 / sqrt ((vertexAt pcur c).add (vertexAt pcur a)).lengthsqr3)
  rw [hind]
  apply allCCW_append_indices
  · have := allCCW_append_vertices st.vertices (e0 ++ e1 ++ e2) st.indices hccw
    rw [he2, he1, he0, List.append_assoc, List.append_assoc]
    rw [List.append_assoc] at this
    exact this
  · refine ⟨⟨by omega, hlt0', hlt2, ?_⟩, ⟨hlt0', by omega, hlt1', ?_⟩,
      ⟨hlt2, hlt0', hlt1', ?_⟩, ⟨hlt2, hlt1', by omega, ?_⟩, trivial⟩
    · unfold triOrient
      rw [hA, hX, hZ]
      unfold Vec3.normalize3
      rw [q1]
      exact mul_pos (mul_pos hs1 hs3) ho
    · unfold triOrient
      rw [hB, hX, hY]
      unfold Vec3.normalize3
      rw [q2]
      exact mul_pos (mul_pos hs1 hs2) ho
    · unfold triOrient
      rw [hX, hY, hZ]
      unfold Vec3.normalize3
      rw [q3]
      exact mul_pos (mul_pos (mul_pos (mul_pos two_pos hs1) hs2) hs3) ho
    · unfold triOrient
      rw [hC, hY, hZ]
      unfold Vec3.normalize3
      rw [q4]
      exact mul_pos (mul_pos hs2 hs3) ho

theorem subdivideLoop_spec (sqrt : K → K) (hsqrt : ∀ x, 0 < x → 0 < sqrt x)
    (pcur : List (Vec3 K)) :
    ∀ (l : List Nat) (st : SubdivState K), MidpointInv sqrt pcur st →
      AllCCW st.vertices st.indices → AllCCW pcur l →
      MidpointInv sqrt pcur (subdivideLoop sqrt pcur l st) ∧
      AllCCW (subdivideLoop sqrt pcur l st).vertices (subdivideLoop sqrt pcur l st).indices
  | a :: b :: c :: rest, st, hinv, hccw, hl => by
    obtain ⟨⟨ha, hb, hc, ho⟩, hr⟩ := hl
    obtain ⟨h1, h2⟩ := subdivideTriangle_spec sqrt hsqrt pcur st a b c hinv hccw ha hb hc ho
    rw [subdivideLoop]
    exact subdivideLoop_spec sqrt hsqrt pcur rest _ h1 h2 hr
  | [], st, hinv, hccw, _ => by
    rw [subdivideLoop]
    · exact ⟨hinv, hccw⟩
    · intro a b c rest h; exact absurd h (by simp)
  | [_], _, _, _, hl => by simp [AllCCW] at hl
  | [_, _], _, _, _, hl => by simp [AllCCW] at hl

theorem subdivide_allCCW (sqrt : K → K) (hsqrt : ∀ x, 0 < x → 0 < sqrt x) (pcur : TRIMESH K)
    (h : AllCCW pcur.vertices pcur.indices) :
    AllCCW (subdivide sqrt pcur).vertices (subdivide sqrt pcur).indices := by
  unfold subdivide
  simp only
  refine (subdivideLoop_spec sqrt hsqrt pcur.vertices pcur.indices _ ?_ ?_ h).2
  · exact ⟨⟨[], by simp⟩, fun a b i hl => by simp [List.lookup] at hl⟩
  · trivial

theorem iterate_allCCW (sqrt : K → K) (hsqrt : ∀ x, 0 < x → 0 < sqrt x) (L : Nat) :
    AllCCW ((subdivide sqrt)^[L] (icosahedron (K := K))).vertices
      ((subdivide sqrt)^[L] (icosahedron (K := K))).indices := by
  induction L with
  | zero => exact icosahedron_allCCW
  | succ L ih =>
    rw [Function.iterate_succ_apply']
    exact subdivide_allCCW sqrt hsqrt _ ih

theorem allCCW_get (vs : List (Vec3 K)) :
    ∀ (l : List Nat), AllCCW vs l → ∀ t, 3 * t + 2 < l.length →
      l.getD (3 * t) 0 < vs.length ∧ l.getD (3 * t + 1) 0 < vs.length ∧
      l.getD (3 * t + 2) 0 < vs.length ∧
      0 < triOrient vs (l.getD (3 * t) 0) (l.getD (3 * t + 1) 0) (l.getD (3 * t + 2) 0)
  | a :: b :: c :: rest, h, t, ht => by
    cases t with
    | zero => simpa using h.1
    | succ t =>
      have hr := allCCW_get vs rest h.2 t (by simp at ht; omega)
      have e0 : 3 * (t + 1) = (3 * t) + 1 + 1 + 1 := by ring
      have e1 : 3 * (t + 1) + 1 = (3 * t + 1) + 1 + 1 + 1 := by ring
      have e2 : 3 * (t + 1) + 2 = (3 * t + 2) + 1 + 1 + 1 := by ring
      rw [e1, e2, e0]
      simpa using hr
  | [], _, t, ht => by simp at ht
  | [_], h, _, _ => by simp [AllCCW] at h
  | [_, _], h, _, _ => by simp [AllCCW] at h

/-- C7: when the square root routine is positive on positive numbers, for
every `levels` (in particular for the levels 0 to 4) every triangle
`(a, b, c)` of the mesh returned by `GenerateSphereTriangulation` refers to
existing vertices and satisfies `v_a · ((v_b - v_a) x (v_c - v_a)) > 0`. -/
theorem C7_sphere_triangles_ccw (sqrt : K → K) (hsqrt : ∀ x, 0 < x → 0 < sqrt x)
    (levels : Int) (t : Nat) (ht : t < 20 * 4 ^ levels.toNat) :
    (GenerateSphereTriangulation sqrt levels).indices.getD (3 * t) 0
      < (GenerateSphereTriangulation sqrt levels).vertices.length ∧
    (GenerateSphereTriangulation sqrt levels).indices.getD (3 * t + 1) 0
      < (GenerateSphereTriangulation sqrt levels).vertices.length ∧
    (GenerateSphereTriangulation sqrt levels).indices.getD (3 * t + 2) 0
      < (GenerateSphereTriangulation sqrt levels).vertices.length ∧
    0 < (vertexAt (GenerateSphereTriangulation sqrt levels).vertices
          ((GenerateSphereTriangulation sqrt levels).indices.getD (3 * t) 0)).dot3
        (((vertexAt (GenerateSphereTriangulation sqrt levels).vertices
            ((GenerateSphereTriangulation sqrt levels).indices.getD (3 * t + 1) 0)).sub
          (vertexAt (GenerateSphereTriangulation sqrt levels).vertices
            ((GenerateSphereTriangulation sqrt levels).indices.getD (3 * t) 0))).cross
         ((vertexAt (GenerateSphereTriangulation sqrt levels).vertices
            ((GenerateSphereTriangulation sqrt levels).indices.getD (3 * t + 2) 0)).sub
          (vertexAt (GenerateSphereTriangulation sqrt levels).vertices
            ((GenerateSphereTriangulation sqrt levels).indices.getD (3 * t) 0)))) := by
  have hlen : (GenerateSphereTriangulation sqrt levels).indices.length
      = 3 * (20 * 4 ^ levels.toNat) := iterate_indices_length sqrt levels.toNat
  unfold GenerateSphereTriangulation at hlen ⊢
  exact allCCW_get _ _ (iterate_allCCW sqrt hsqrt levels.toNat) t (by rw [hlen]; omega)

/-- Witness for C7: the real square root, four subdivision levels and the
first triangle of the mesh. -/
theorem C7_sphere_triangles_ccw_witness :
    (GenerateSphereTriangulation Real.sqrt 4).indices.getD (3 * 0) 0
      < (GenerateSphereTriangulation Real.sqrt 4).vertices.length ∧
    (GenerateSphereTriangulation Real.sqrt 4).indices.getD (3 * 0 + 1) 0
      < (GenerateSphereTriangulation Real.sqrt 4).vertices.length ∧
    (GenerateSphereTriangulation Real.sqrt 4).indices.getD (3 * 0 + 2) 0
      < (GenerateSphereTriangulation Real.sqrt 4).vertices.length ∧
    0 < (vertexAt (GenerateSphereTriangulation Real.sqrt 4).vertices
          ((GenerateSphereTriangulation Real.sqrt 4).indices.getD (3 * 0) 0)).dot3
        (((vertexAt (GenerateSphereTriangulation Real.sqrt 4).vertices
            ((GenerateSphereTriangulation Real.sqrt 4).indices.getD (3 * 0 + 1) 0)).sub
          (vertexAt (GenerateSphereTriangulation Real.sqrt 4).vertices
            ((GenerateSphereTriangulation Real.sqrt 4).indices.getD (3 * 0) 0))).cross
         ((vertexAt (GenerateSphereTriangulation Real.sqrt 4).vertices
            ((GenerateSphereTriangulation Real.sqrt 4).indices.getD (3 * 0 + 2) 0)).sub
          (vertexAt (GenerateSphereTriangulation Real.sqrt 4).vertices
            ((GenerateSphereTriangulation Real.sqrt 4).indices.getD (3 * 0) 0)))) :=
  C7_sphere_triangles_ccw Real.sqrt (fun _ hx => Real.sqrt_pos.mpr hx) 4 0 (by norm_num)

/-! ## C6: the number of vertices of the sphere triangulation -/

theorem normEdge_comm (a b : Nat) : normEdge a b = normEdge b a := by
  simp only [normEdge, min_comm, max_comm]

theorem normEdge_eq_iff (a b a' b' : Nat) :
    normEdge a' b' = normEdge a b ↔ (a' = a ∧ b' = b) ∨ (a' = b ∧ b' = a) := by
  simp only [normEdge, Prod.mk.injEq]
  constructor
  · rintro ⟨h1, h2⟩
    rcases le_total a b with hab | hab <;> rcases le_total a' b' with hab' | hab' <;>
      simp only [min_eq_left, min_eq_right, max_eq_left, max_eq_right, hab, hab'] at h1 h2 <;>
      omega
  · rintro (⟨h1, h2⟩ | ⟨h1, h2⟩)
    · subst h1 h2; exact ⟨rfl, rfl⟩
    · subst h1 h2; exact ⟨min_comm _ _, max_comm _ _⟩

theorem lookup_cons_cons (m : List ((Nat × Nat) × Nat)) (a b n a' b' : Nat) :
    List.lookup (a', b') (((a, b), n) :: ((b, a), n) :: m)
      = if (a' = a ∧ b' = b) ∨ (a' = b ∧ b' = a) then some n else m.lookup (a', b') := by
  rw [List.lookup_cons]
  by_cases h1 : a' = a ∧ b' = b
  · have : ((a', b') == (a, b)) = true := by simp [h1.1, h1.2]
    simp [this, h1]
  · have h1' : ((a', b') == (a, b)) = false := by
      simpa using fun h => (not_and.mp h1) h
    rw [h1', List.lookup_cons]
    by_cases h2 : a' = b ∧ b' = a
    · have : ((a', b') == (b, a)) = true := by simp [h2.1, h2.2]
      simp [this, h2]
    · have h2' : ((a', b') == (b, a)) = false := by
        simpa using fun h => (not_and.mp h2) h
      simp [h2', h1, h2]

theorem midpointIndex_edgeInv (sqrt : K → K) (pcur : List (Vec3 K)) (st : SubdivState K)
    (a b V : Nat) (S : Finset (Nat × Nat))
    (hinv : EdgeInv V S st.vertices.length st.mapnewinds) :
    EdgeInv V (insert (normEdge a b) S) (midpointIndex sqrt pcur st a b).1.vertices.length
      (midpointIndex sqrt pcur st a b).1.mapnewinds ∧
    (midpointIndex sqrt pcur st a b).1.mapnewinds.lookup (a, b)
      = some (midpointIndex sqrt pcur st a b).2 ∧
    (∀ k i, st.mapnewinds.lookup k = some i →
      (midpointIndex sqrt pcur st a b).1.mapnewinds.lookup k = some i) := by
  obtain ⟨h1, h2, h3, h4, h5⟩ := hinv
  unfold midpointIndex
  cases h : st.mapnewinds.lookup (a, b) with
  | some i =>
    simp only
    have hmem : normEdge a b ∈ S := (h2 a b).mp (by rw [h]; rfl)
    rw [Finset.insert_eq_of_mem hmem]
    exact ⟨⟨h1, h2, h3, h4, h5⟩, h, fun _ _ hk => hk⟩
  | none =>
    simp only
    have hnmem : normEdge a b ∉ S := fun hm => by
      have := (h2 a b).mpr hm
      rw [h] at this
      exact absurd this (by simp)
    have hnone' : st.mapnewinds.lookup (b, a) = none := by rw [← h3 a b]; exact h
    refine ⟨⟨?_, ?_, ?_, ?_, ?_⟩, ?_, ?_⟩
    · rw [List.length_append, Finset.card_insert_of_not_mem hnmem, h1]
      simp
      omega
    · intro a' b'
      rw [lookup_cons_cons, Finset.mem_insert, normEdge_eq_iff]
      by_cases hc : (a' = a ∧ b' = b) ∨ (a' = b ∧ b' = a)
      · simp [hc]
      · rw [if_neg hc, h2 a' b']
        simp [hc]
    · intro a' b'
      rw [lookup_cons_cons, lookup_cons_cons, h3 a' b']
      by_cases hc : (a' = a ∧ b' = b) ∨ (a' = b ∧ b' = a)
      · have hc' : (b' = a ∧ a' = b) ∨ (b' = b ∧ a' = a) := by tauto
        rw [if_pos hc, if_pos hc']
      · have hc' : ¬ ((b' = a ∧ a' = b) ∨ (b' = b ∧ a' = a)) := by tauto
        rw [if_neg hc, if_neg hc']
    · intro a' b' i hl
      rw [lookup_cons_cons] at hl
      rw [List.length_append]
      split at hl
      · simp only [Option.some.injEq] at hl
        subst hl
        simp only [List.length_cons, List.length_nil]
        omega
      · have := h4 a' b' i hl
        omega
    · intro a1 b1 a2 b2 i hl1 hl2
      rw [lookup_cons_cons] at hl1 hl2
      split at hl1
      · rename_i hc1
        simp only [Option.some.injEq] at hl1
        split at hl2
        · rename_i hc2
          rw [(normEdge_eq_iff a b a1 b1).mpr hc1, (normEdge_eq_iff a b a2 b2).mpr hc2]
        · have := h4 a2 b2 i hl2
          omega
      · split at hl2
        · simp only [Option.some.injEq] at hl2
          have := h4 a1 b1 i hl1
          omega
        · exact h5 a1 b1 a2 b2 i hl1 hl2
    · rw [lookup_cons_cons]
      simp
    · intro k i hk
      obtain ⟨a', b'⟩ := k
      rw [lookup_cons_cons]
      split
      · rename_i hc
        rcases hc with ⟨rfl, rfl⟩ | ⟨rfl, rfl⟩
        · rw [h] at hk; exact absurd hk (by simp)
        · rw [hnone'] at hk; exact absurd hk (by simp)
      · exact hk

theorem edgeSet_append_singleton (Tp : List (Nat × Nat × Nat)) (t : Nat × Nat × Nat) :
    edgeSet (Tp ++ [t])
      = insert (normEdge t.2.2 t.1) (insert (normEdge t.2.1 t.2.2)
          (insert (normEdge t.1 t.2.1) (edgeSet Tp))) := by
  ext e
  simp only [edgeSet, Finset.mem_biUnion, List.mem_toFinset, List.mem_append,
    List.mem_singleton, Finset.mem_insert, triEdges]
  constructor
  · rintro ⟨t', ht' | ht', he⟩
    · exact Or.inr (Or.inr (Or.inr ⟨t', ht', he⟩))
    · subst ht'
      simp only [Finset.mem_insert, Finset.mem_singleton] at he
      tauto
  · rintro (h | h | h | ⟨t', ht', he⟩)
    · exact ⟨t, Or.inr rfl, by simp [h]⟩
    · exact ⟨t, Or.inr rfl, by simp [h]⟩
    · exact ⟨t, Or.inr rfl, by simp [h]⟩
    · exact ⟨t', Or.inl ht', he⟩

theorem mem_edgeSet_of_mem (T : List (Nat × Nat × Nat)) (t : Nat × Nat × Nat) (ht : t ∈ T) :
    normEdge t.1 t.2.1 ∈ edgeSet T ∧ normEdge t.2.1 t.2.2 ∈ edgeSet T ∧
    normEdge t.2.2 t.1 ∈ edgeSet T := by
  simp only [edgeSet, Finset.mem_biUnion, List.mem_toFinset, triEdges]
  exact ⟨⟨t, ht, by simp⟩, ⟨t, ht, by simp⟩, ⟨t, ht, by simp⟩⟩

theorem idxOf_eq_of_lookup (m : List ((Nat × Nat) × Nat)) (a b i : Nat)
    (h : m.lookup (a, b) = some i) : idxOf m a b = i := by
  simp [idxOf, h]

/-- Growing the map does not change the twelve indices of a triangle whose
edges are already keys. -/
theorem split12_congr (m m' : List ((Nat × Nat) × Nat)) (V n : Nat) (S : Finset (Nat × Nat))
    (hinv : EdgeInv V S n m) (hext : ∀ k i, m.lookup k = some i → m'.lookup k = some i)
    (t : Nat × Nat × Nat) (h1 : normEdge t.1 t.2.1 ∈ S) (h2 : normEdge t.2.1 t.2.2 ∈ S)
    (h3 : normEdge t.2.2 t.1 ∈ S) : split12 (idxOf m) t = split12 (idxOf m') t := by
  have key : ∀ a b, normEdge a b ∈ S → idxOf m a b = idxOf m' a b := by
    intro a b hab
    have hs := (hinv.2.1 a b).mpr hab
    obtain ⟨i, hi⟩ := Option.isSome_iff_exists.mp hs
    rw [idxOf_eq_of_lookup m a b i hi, idxOf_eq_of_lookup m' a b i (hext _ _ hi)]
  unfold split12
  rw [key _ _ h1, key _ _ h2, key _ _ h3]

theorem subdivideTriangle_edgeInv (sqrt : K → K) (pcur : List (Vec3 K)) (st : SubdivState K)
    (a b c V : Nat) (Tp : List (Nat × Nat × Nat))
    (hinv : EdgeInv V (edgeSet Tp) st.vertices.length st.mapnewinds)
    (hind : st.indices = Tp.flatMap (split12 (idxOf st.mapnewinds))) :
    EdgeInv V (edgeSet (Tp ++ [(a, b, c)]))
      (subdivideTriangle sqrt pcur st a b c).vertices.length
      (subdivideTriangle sqrt pcur st a b c).mapnewinds ∧
    (subdivideTriangle sqrt pcur st a b c).indices
      = (Tp ++ [(a, b, c)]).flatMap
          (split12 (idxOf (subdivideTriangle sqrt pcur st a b c).mapnewinds)) := by
  obtain ⟨i0, l0, e0⟩ := midpointIndex_edgeInv sqrt pcur st a b V _ hinv
  obtain ⟨i1, l1, e1⟩ :=
    midpointIndex_edgeInv sqrt pcur (midpointIndex sqrt pcur st a b).1 b c V _ i0
  obtain ⟨i2, l2, e2⟩ :=
    midpointIndex_edgeInv sqrt pcur
      (midpointIndex sqrt pcur (midpointIndex sqrt pcur st a b).1 b c).1 c a V _ i1
  unfold subdivideTriangle
  simp only
  generalize hr0 : midpointIndex sqrt pcur st a b = r0 at *
  generalize hr1 : midpointIndex sqrt pcur r0.1 b c = r1 at *
  generalize hr2 : midpointIndex sqrt pcur r1.1 c a = r2 at *
  have hindices : r2.1.indices = st.indices := by
    rw [← hr2, midpointIndex_indices, ← hr1, midpointIndex_indices, ← hr0,
      midpointIndex_indices]
  rw [edgeSet_append_singleton]
  refine ⟨i2, ?_⟩
  have hx : idxOf r2.1.mapnewinds a b = r0.2 :=
    idxOf_eq_of_lookup _ _ _ _ (e2 _ _ (e1 _ _ l0))
  have hy : idxOf r2.1.mapnewinds b c = r1.2 := idxOf_eq_of_lookup _ _ _ _ (e2 _ _ l1)
  have hz : idxOf r2.1.mapnewinds c a = r2.2 := idxOf_eq_of_lookup _ _ _ _ l2
  rw [List.flatMap_append, hindices, hind]
  congr 1
  · apply List.flatMap_congr
    intro t ht
    obtain ⟨m1, m2, m3⟩ := mem_edgeSet_of_mem Tp t ht
    exact split12_congr _ _ V _ _ hinv (fun k i hk => e2 _ _ (e1 _ _ (e0 _ _ hk))) t m1 m2 m3
  · simp [split12, hx, hy, hz]

theorem toTris_append (T : List (Nat × Nat × Nat)) :
    ∀ l : List Nat, toTris (T.flatMap (fun t => [t.1, t.2.1, t.2.2]) ++ l) = T ++ toTris l := by
  induction T with
  | nil => intro l; simp
  | cons t T ih =>
    intro l
    have h := ih l
    rw [List.flatMap_cons]
    show toTris (t.1 :: t.2.1 :: t.2.2 :: ((T.flatMap fun t => [t.1, t.2.1, t.2.2]) ++ l)) = _
    rw [toTris, h]
    rfl

theorem subdivideLoop_edgeInv (sqrt : K → K) (pcur : List (Vec3 K)) (V : Nat) :
    ∀ (l : List Nat) (st : SubdivState K) (Tp : List (Nat × Nat × Nat)),
      EdgeInv V (edgeSet Tp) st.vertices.length st.mapnewinds →
      st.indices = Tp.flatMap (split12 (idxOf st.mapnewinds)) →
      EdgeInv V (edgeSet (Tp ++ toTris l)) (subdivideLoop sqrt pcur l st).vertices.length
        (subdivideLoop sqrt pcur l st).mapnewinds ∧
      (subdivideLoop sqrt pcur l st).indices
        = (Tp ++ toTris l).flatMap (split12 (idxOf (subdivideLoop sqrt pcur l st).mapnewinds))
  | a :: b :: c :: rest, st, Tp, hinv, hind => by
    obtain ⟨h1, h2⟩ := subdivideTriangle_edgeInv sqrt pcur st a b c V Tp hinv hind
    have := subdivideLoop_edgeInv sqrt pcur V rest _ _ h1 h2
    rw [subdivideLoop, toTris]
    simpa using this
  | [], st, Tp, hinv, hind => by
    rw [subdivideLoop]
    · simpa [toTris] using And.intro hinv hind
    · intro a b c rest h; exact absurd h (by simp)
  | [x], st, Tp, hinv, hind => by
    rw [subdivideLoop]
    · simpa [toTris] using And.intro hinv hind
    · intro a b c rest h; exact absurd h (by simp)
  | [x, y], st, Tp, hinv, hind => by
    rw [subdivideLoop]
    · simpa [toTris] using And.intro hinv hind
    · intro a b c rest h; exact absurd h (by simp)

theorem toTris_flatMap_split12 (idx : Nat → Nat → Nat) (T : List (Nat × Nat × Nat)) :
    toTris (T.flatMap (split12 idx)) = T.flatMap (split4 idx) := by
  induction T with
  | nil => simp [toTris]
  | cons t T ih =>
    rw [List.flatMap_cons, List.flatMap_cons]
    show toTris (_ :: _ :: _ :: _ :: _ :: _ :: _ :: _ :: _ :: _ :: _ :: _ :: (T.flatMap (split12 idx))) = _
    rw [toTris, toTris, toTris, toTris, ih]
    rfl

/-- One subdivision pass, seen as a function of the triangle list: there is
an assignment `idx` of midpoint indices, well formed for the triangles of
`pcur`, such that the pass adds one vertex per undirected edge and replaces
every triangle by its four sub-triangles. -/
theorem subdivide_char (sqrt : K → K) (pcur : TRIMESH K) :
    ∃ idx, WellFormedIdx pcur.vertices.length (toTris pcur.indices) idx ∧
      (subdivide sqrt pcur).vertices.length
        = pcur.vertices.length + (edgeSet (toTris pcur.indices)).card ∧
      (subdivide sqrt pcur).indices = (toTris pcur.indices).flatMap (split12 idx) := by
  have h0 : EdgeInv pcur.vertices.length (edgeSet []) pcur.vertices.length [] := by
    refine ⟨by simp [edgeSet], ?_, ?_, ?_, ?_⟩
    · intro a b; simp [edgeSet, List.lookup]
    · intro a b; simp [List.lookup]
    · intro a b i h; simp [List.lookup] at h
    · intro a b a' b' i h; simp [List.lookup] at h
  obtain ⟨⟨h1, h2, h3, h4, h5⟩, hind⟩ := subdivideLoop_edgeInv sqrt pcur.vertices
    pcur.vertices.length pcur.indices
    { vertices := pcur.vertices, indices := [], mapnewinds := [] } [] h0 (by simp)
  simp only [List.nil_append] at h1 h2 h4 hind
  refine ⟨idxOf (subdivideLoop sqrt pcur.vertices pcur.indices
    { vertices := pcur.vertices, indices := [], mapnewinds := [] }).mapnewinds,
    ⟨?_, ?_, ?_⟩, h1, hind⟩
  · intro a b
    unfold idxOf
    rw [h3 a b]
  · intro a b hab
    obtain ⟨i, hi⟩ := Option.isSome_iff_exists.mp ((h2 a b).mpr hab)
    rw [idxOf_eq_of_lookup _ _ _ _ hi, ← h1]
    exact h4 a b i hi
  · intro a b a' b' hab hab' heq
    obtain ⟨i, hi⟩ := Option.isSome_iff_exists.mp ((h2 a b).mpr hab)
    obtain ⟨i', hi'⟩ := Option.isSome_iff_exists.mp ((h2 a' b').mpr hab')
    rw [idxOf_eq_of_lookup _ _ _ _ hi, idxOf_eq_of_lookup _ _ _ _ hi'] at heq
    subst heq
    exact h5 a b a' b' i hi hi'

theorem normEdge_of_lt (a b : Nat) (h : a < b) : normEdge a b = (a, b) := by
  simp [normEdge, min_eq_left h.le, max_eq_right h.le]

theorem normEdge_of_gt (a b : Nat) (h : b < a) : normEdge a b = (b, a) := by
  simp [normEdge, min_eq_right h.le, max_eq_left h.le]

theorem halves_iff (idx : Nat → Nat → Nat) (hsymm : ∀ a b, idx a b = idx b a) (a b : Nat)
    (p : Nat × Nat) :
    (p = half1 idx (normEdge a b) ∨ p = half2 idx (normEdge a b)) ↔
      (p = (a, idx a b) ∨ p = (b, idx a b)) := by
  rcases le_total a b with h | h
  · simp only [half1, half2, normEdge, min_eq_left h, max_eq_right h]
  · simp only [half1, half2, normEdge, min_eq_right h, max_eq_left h, hsymm b a]
    tauto

/-- The edges of the four sub-triangles of a triangle: the two halves of each
of its edges and the three edges between the midpoints. -/
theorem mem_edgeSet_split4 (idx : Nat → Nat → Nat) (hsymm : ∀ a b, idx a b = idx b a)
    (V : Nat) (t : Nat × Nat × Nat) (ha : t.1 < V) (hb : t.2.1 < V) (hc : t.2.2 < V)
    (hx : V ≤ idx t.1 t.2.1) (hy : V ≤ idx t.2.1 t.2.2) (hz : V ≤ idx t.2.2 t.1)
    (p : Nat × Nat) :
    p ∈ edgeSet (split4 idx t) ↔
      (∃ e ∈ triEdges t, p = half1 idx e ∨ p = half2 idx e) ∨ p ∈ innerEdges idx t := by
  obtain ⟨a, b, c⟩ := t
  simp only at ha hb hc hx hy hz
  have e1 : normEdge a (idx a b) = (a, idx a b) := normEdge_of_lt _ _ (by omega)
  have e2 : normEdge (idx c a) a = (a, idx c a) := normEdge_of_gt _ _ (by omega)
  have e3 : normEdge (idx a b) b = (b, idx a b) := normEdge_of_gt _ _ (by omega)
  have e4 : normEdge b (idx b c) = (b, idx b c) := normEdge_of_lt _ _ (by omega)
  have e5 : normEdge (idx b c) c = (c, idx b c) := normEdge_of_gt _ _ (by omega)
  have e6 : normEdge c (idx c a) = (c, idx c a) := normEdge_of_lt _ _ (by omega)
  have h1 := halves_iff idx hsymm a b p
  have h2 := halves_iff idx hsymm b c p
  have h3 := halves_iff idx hsymm c a p
  simp only [edgeSet, split4, triEdges, innerEdges, List.toFinset_cons, List.toFinset_nil,
    Finset.mem_biUnion, Finset.mem_insert, Finset.mem_singleton, insert_emptyc_eq,
    exists_eq_or_imp, exists_eq_left, e1, e2, e3, e4, e5, e6,
    normEdge_comm (idx a b) (idx c a), normEdge_comm (idx b c) (idx a b),
    normEdge_comm (idx c a) (idx b c)]
  rw [h1, h2, h3]
  generalize (p = (a, idx a b)) = A1
  generalize (p = (b, idx a b)) = A2
  generalize (p = (b, idx b c)) = A3
  generalize (p = (c, idx b c)) = A4
  generalize (p = (c, idx c a)) = A5
  generalize (p = (a, idx c a)) = A6
  generalize (p = normEdge (idx c a) (idx a b)) = B1
  generalize (p = normEdge (idx a b) (idx b c)) = B2
  generalize (p = normEdge (idx b c) (idx c a)) = B3
  constructor
  · rintro ((h | h | h) | (h | h | h) | (h | h | h) | (h | h | h)) <;> simp only [h, true_or, or_true]
  · rintro (((h | h) | (h | h) | (h | h)) | (h | h | h)) <;> simp only [h, true_or, or_true]

theorem edge_props (V : Nat) (T : List (Nat × Nat × Nat)) (hT : WellFormedTris V T)
    (e : Nat × Nat) (he : e ∈ edgeSet T) :
    e.1 < e.2 ∧ e.2 < V ∧ normEdge e.1 e.2 = e := by
  simp only [edgeSet, Finset.mem_biUnion, List.mem_toFinset, triEdges, Finset.mem_insert,
    Finset.mem_singleton] at he
  obtain ⟨t, ht, he⟩ := he
  obtain ⟨h1, h2, h3⟩ := hT.1 t ht
  obtain ⟨d1, d2, d3⟩ := hT.2.1 t ht
  have key : ∀ p q : Nat, p ≠ q → p < V → q < V →
      (normEdge p q).1 < (normEdge p q).2 ∧ (normEdge p q).2 < V ∧
      normEdge (normEdge p q).1 (normEdge p q).2 = normEdge p q := by
    intro p q hpq hp hq
    rcases Nat.lt_or_gt_of_ne hpq with h | h
    · rw [normEdge_of_lt p q h]
      exact ⟨h, hq, normEdge_of_lt p q h⟩
    · rw [normEdge_of_gt p q h]
      exact ⟨h, hp, normEdge_of_lt q p h⟩
  rcases he with rfl | rfl | rfl
  · exact key _ _ d1 h1 h2
  · exact key _ _ d2 h2 h3
  · exact key _ _ d3 h3 h1

theorem mem_edgeSet_flatMap (T : List (Nat × Nat × Nat))
    (f : Nat × Nat × Nat → List (Nat × Nat × Nat)) (p : Nat × Nat) :
    p ∈ edgeSet (T.flatMap f) ↔ ∃ t ∈ T, p ∈ edgeSet (f t) := by
  simp only [edgeSet, Finset.mem_biUnion, List.mem_toFinset, List.mem_flatMap]
  constructor
  · rintro ⟨t', ⟨t, ht, ht'⟩, hp⟩
    exact ⟨t, ht, t', ht', hp⟩
  · rintro ⟨t, ht, t', ht', hp⟩
    exact ⟨t', ⟨t, ht, ht'⟩, hp⟩

/-- The edges of the subdivided mesh: the two halves of every edge of the
parent mesh and, for every triangle, the three edges between its
midpoints. -/
theorem edgeSet_subdivided (V : Nat) (T : List (Nat × Nat × Nat)) (idx : Nat → Nat → Nat)
    (hT : WellFormedTris V T) (hidx : WellFormedIdx V T idx) :
    edgeSet (T.flatMap (split4 idx))
      = ((edgeSet T).image (half1 idx) ∪ (edgeSet T).image (half2 idx))
          ∪ T.toFinset.biUnion (innerEdges idx) := by
  ext p
  rw [mem_edgeSet_flatMap]
  simp only [Finset.mem_union, Finset.mem_image, Finset.mem_biUnion, List.mem_toFinset]
  have hsplit : ∀ t ∈ T, (p ∈ edgeSet (split4 idx t) ↔
      (∃ e ∈ triEdges t, p = half1 idx e ∨ p = half2 idx e) ∨ p ∈ innerEdges idx t) := by
    intro t ht
    obtain ⟨h1, h2, h3⟩ := hT.1 t ht
    obtain ⟨m1, m2, m3⟩ := mem_edgeSet_of_mem T t ht
    exact mem_edgeSet_split4 idx hidx.1 V t h1 h2 h3 (hidx.2.1 _ _ m1).1 (hidx.2.1 _ _ m2).1
      (hidx.2.1 _ _ m3).1 p
  constructor
  · rintro ⟨t, ht, hp⟩
    rcases (hsplit t ht).mp hp with ⟨e, he, hpe⟩ | hin
    · have heT : e ∈ edgeSet T := by
        simp only [edgeSet, Finset.mem_biUnion, List.mem_toFinset]
        exact ⟨t, ht, he⟩
      rcases hpe with hpe | hpe
      · exact Or.inl (Or.inl ⟨e, heT, hpe.symm⟩)
      · exact Or.inl (Or.inr ⟨e, heT, hpe.symm⟩)
    · exact Or.inr ⟨t, ht, hin⟩
  · rintro ((⟨e, he, hpe⟩ | ⟨e, he, hpe⟩) | ⟨t, ht, hin⟩)
    · simp only [edgeSet, Finset.mem_biUnion, List.mem_toFinset] at he
      obtain ⟨t, ht, het⟩ := he
      exact ⟨t, ht, (hsplit t ht).mpr (Or.inl ⟨e, het, Or.inl hpe.symm⟩)⟩
    · simp only [edgeSet, Finset.mem_biUnion, List.mem_toFinset] at he
      obtain ⟨t, ht, het⟩ := he
      exact ⟨t, ht, (hsplit t ht).mpr (Or.inl ⟨e, het, Or.inr hpe.symm⟩)⟩
    · exact ⟨t, ht, (hsplit t ht).mpr (Or.inr hin)⟩

theorem idx_normEdge (idx : Nat → Nat → Nat) (hsymm : ∀ a b, idx a b = idx b a) (a b : Nat) :
    idx (normEdge a b).1 (normEdge a b).2 = idx a b := by
  rcases le_total a b with h | h
  · simp only [normEdge, min_eq_left h, max_eq_right h]
  · simp only [normEdge, min_eq_right h, max_eq_left h]
    exact hsymm b a

/-- The midpoint index of an edge of the mesh lies after the old vertices and
different edges have different midpoint indices. -/
theorem idx_edge (V : Nat) (T : List (Nat × Nat × Nat)) (idx : Nat → Nat → Nat)
    (hT : WellFormedTris V T) (hidx : WellFormedIdx V T idx) :
    (∀ e ∈ edgeSet T, V ≤ idx e.1 e.2 ∧ idx e.1 e.2 < V + (edgeSet T).card) ∧
    (∀ e ∈ edgeSet T, ∀ e' ∈ edgeSet T, idx e.1 e.2 = idx e'.1 e'.2 → e = e') := by
  constructor
  · intro e he
    have h := (edge_props V T hT e he).2.2
    exact hidx.2.1 e.1 e.2 (by rw [h]; exact he)
  · intro e he e' he' heq
    have h := (edge_props V T hT e he).2.2
    have h' := (edge_props V T hT e' he').2.2
    have := hidx.2.2 e.1 e.2 e'.1 e'.2 (by rw [h]; exact he) (by rw [h']; exact he') heq
    rw [h, h'] at this
    exact this

theorem card_boundary (V : Nat) (T : List (Nat × Nat × Nat)) (idx : Nat → Nat → Nat)
    (hT : WellFormedTris V T) (hidx : WellFormedIdx V T idx) :
    ((edgeSet T).image (half1 idx) ∪ (edgeSet T).image (half2 idx)).card
      = 2 * (edgeSet T).card := by
  obtain ⟨hrange, hinj⟩ := idx_edge V T idx hT hidx
  have c1 : ((edgeSet T).image (half1 idx)).card = (edgeSet T).card := by
    apply Finset.card_image_of_injOn
    intro e he e' he' heq
    simp only [half1, Prod.mk.injEq] at heq
    exact hinj e he e' he' heq.2
  have c2 : ((edgeSet T).image (half2 idx)).card = (edgeSet T).card := by
    apply Finset.card_image_of_injOn
    intro e he e' he' heq
    simp only [half2, Prod.mk.injEq] at heq
    exact hinj e he e' he' heq.2
  have hdisj : Disjoint ((edgeSet T).image (half1 idx)) ((edgeSet T).image (half2 idx)) := by
    rw [Finset.disjoint_left]
    intro p hp1 hp2
    obtain ⟨e, he, rfl⟩ := Finset.mem_image.mp hp1
    obtain ⟨e', he', heq⟩ := Finset.mem_image.mp hp2
    simp only [half1, half2, Prod.mk.injEq] at heq
    have hee : e' = e := hinj e' he' e he heq.2
    subst hee
    have := (edge_props V T hT e' he).1
    omega
  rw [Finset.card_union_of_disjoint hdisj, c1, c2]
  ring

theorem endpoints_normEdge (a b : Nat) : endpoints (normEdge a b) = {a, b} := by
  rcases le_total a b with h | h
  · simp only [endpoints, normEdge, min_eq_left h, max_eq_right h]
  · simp only [endpoints, normEdge, min_eq_right h, max_eq_left h]
    exact Finset.pair_comm b a

/-- Two different edges of a triangle cover its three vertices. -/
theorem endpoints_union (t : Nat × Nat × Nat) (e1 e2 : Nat × Nat) (h1 : e1 ∈ triEdges t)
    (h2 : e2 ∈ triEdges t) (hne : e1 ≠ e2) : endpoints e1 ∪ endpoints e2 = vertexSet t := by
  simp only [triEdges, Finset.mem_insert, Finset.mem_singleton] at h1 h2
  rcases h1 with rfl | rfl | rfl <;> rcases h2 with rfl | rfl | rfl <;>
    first
    | exact absurd rfl hne
    | (simp only [endpoints_normEdge, vertexSet]
       ext v
       simp only [Finset.mem_union, Finset.mem_insert, Finset.mem_singleton]
       tauto)

/-- Two triangles of a well formed list that have two different edges in
common are the same triangle. -/
theorem eq_of_two_common_edges (V : Nat) (T : List (Nat × Nat × Nat))
    (hT : WellFormedTris V T) (t t' : Nat × Nat × Nat) (ht : t ∈ T) (ht' : t' ∈ T)
    (e1 e2 : Nat × Nat) (hne : e1 ≠ e2) (h1 : e1 ∈ triEdges t) (h2 : e2 ∈ triEdges t)
    (h1' : e1 ∈ triEdges t') (h2' : e2 ∈ triEdges t') : t = t' := by
  by_contra hcon
  have hsym : Symmetric fun (t t' : Nat × Nat × Nat) => vertexSet t ≠ vertexSet t' :=
    fun _ _ h => Ne.symm h
  have := hT.2.2.forall hsym ht ht' hcon
  apply this
  rw [← endpoints_union t e1 e2 h1 h2 hne, ← endpoints_union t' e1 e2 h1' h2' hne]

theorem tri_edges_distinct (t : Nat × Nat × Nat)
    (hd : t.1 ≠ t.2.1 ∧ t.2.1 ≠ t.2.2 ∧ t.2.2 ≠ t.1) :
    normEdge t.1 t.2.1 ≠ normEdge t.2.1 t.2.2 ∧ normEdge t.2.1 t.2.2 ≠ normEdge t.2.2 t.1 ∧
    normEdge t.2.2 t.1 ≠ normEdge t.1 t.2.1 := by
  obtain ⟨h1, h2, h3⟩ := hd
  refine ⟨?_, ?_, ?_⟩ <;> (intro h; rw [normEdge_eq_iff] at h; omega)

theorem tri_edges_mem (t : Nat × Nat × Nat) :
    normEdge t.1 t.2.1 ∈ triEdges t ∧ normEdge t.2.1 t.2.2 ∈ triEdges t ∧
    normEdge t.2.2 t.1 ∈ triEdges t := by
  simp [triEdges]

/-- The three midpoint indices of a triangle of the mesh are new and
pairwise different. -/
theorem midpoints_distinct (V : Nat) (T : List (Nat × Nat × Nat)) (idx : Nat → Nat → Nat)
    (hidx : WellFormedIdx V T idx) (hT : WellFormedTris V T) (t : Nat × Nat × Nat)
    (ht : t ∈ T) :
    idx t.1 t.2.1 ≠ idx t.2.1 t.2.2 ∧ idx t.2.1 t.2.2 ≠ idx t.2.2 t.1 ∧
    idx t.2.2 t.1 ≠ idx t.1 t.2.1 ∧
    V ≤ idx t.1 t.2.1 ∧ V ≤ idx t.2.1 t.2.2 ∧ V ≤ idx t.2.2 t.1 ∧
    idx t.1 t.2.1 < V + (edgeSet T).card ∧ idx t.2.1 t.2.2 < V + (edgeSet T).card ∧
    idx t.2.2 t.1 < V + (edgeSet T).card := by
  obtain ⟨m1, m2, m3⟩ := mem_edgeSet_of_mem T t ht
  obtain ⟨d1, d2, d3⟩ := tri_edges_distinct t (hT.2.1 t ht)
  refine ⟨fun h => d1 (hidx.2.2 _ _ _ _ m1 m2 h), fun h => d2 (hidx.2.2 _ _ _ _ m2 m3 h),
    fun h => d3 (hidx.2.2 _ _ _ _ m3 m1 h), (hidx.2.1 _ _ m1).1, (hidx.2.1 _ _ m2).1,
    (hidx.2.1 _ _ m3).1, (hidx.2.1 _ _ m1).2, (hidx.2.1 _ _ m2).2, (hidx.2.1 _ _ m3).2⟩

theorem normEdge_ne_of_ne (x y z : Nat) (hxz : x ≠ z) (hyz : y ≠ z) (hxy : x ≠ y) :
    normEdge x y ≠ normEdge y z := by
  intro h
  rw [normEdge_eq_iff] at h
  omega

theorem card_innerEdges (V : Nat) (T : List (Nat × Nat × Nat)) (idx : Nat → Nat → Nat)
    (hidx : WellFormedIdx V T idx) (hT : WellFormedTris V T) (t : Nat × Nat × Nat)
    (ht : t ∈ T) : (innerEdges idx t).card = 3 := by
  obtain ⟨hxy, hyz, hzx, -⟩ := midpoints_distinct V T idx hidx hT t ht
  unfold innerEdges
  rw [Finset.card_insert_of_not_mem, Finset.card_insert_of_not_mem, Finset.card_singleton]
  · simp only [Finset.mem_singleton]
    exact normEdge_ne_of_ne _ _ _ (Ne.symm hxy) hzx hyz
  · simp only [Finset.mem_insert, Finset.mem_singleton, not_or]
    refine ⟨normEdge_ne_of_ne _ _ _ (Ne.symm hzx) hyz hxy, ?_⟩
    intro h
    rw [normEdge_comm (idx t.2.2 t.1)] at h
    rw [normEdge_eq_iff] at h
    omega

/-- Every edge between midpoints joins the midpoint indices of two different
edges of its triangle. -/
theorem innerEdges_mem (idx : Nat → Nat → Nat) (hsymm : ∀ a b, idx a b = idx b a)
    (t : Nat × Nat × Nat) (hd : t.1 ≠ t.2.1 ∧ t.2.1 ≠ t.2.2 ∧ t.2.2 ≠ t.1) (p : Nat × Nat)
    (hp : p ∈ innerEdges idx t) :
    ∃ e1 e2, e1 ∈ triEdges t ∧ e2 ∈ triEdges t ∧ e1 ≠ e2 ∧
      p = normEdge (idx e1.1 e1.2) (idx e2.1 e2.2) := by
  obtain ⟨d1, d2, d3⟩ := tri_edges_distinct t hd
  obtain ⟨m1, m2, m3⟩ := tri_edges_mem t
  simp only [innerEdges, Finset.mem_insert, Finset.mem_singleton] at hp
  rcases hp with rfl | rfl | rfl
  · exact ⟨_, _, m1, m2, d1, by rw [idx_normEdge idx hsymm, idx_normEdge idx hsymm]⟩
  · exact ⟨_, _, m2, m3, d2, by rw [idx_normEdge idx hsymm, idx_normEdge idx hsymm]⟩
  · exact ⟨_, _, m3, m1, d3, by rw [idx_normEdge idx hsymm, idx_normEdge idx hsymm]⟩

theorem mem_edgeSet_of_triEdges (T : List (Nat × Nat × Nat)) (t : Nat × Nat × Nat)
    (ht : t ∈ T) (e : Nat × Nat) (he : e ∈ triEdges t) : e ∈ edgeSet T := by
  simp only [edgeSet, Finset.mem_biUnion, List.mem_toFinset]
  exact ⟨t, ht, he⟩

theorem innerEdges_disjoint (V : Nat) (T : List (Nat × Nat × Nat)) (idx : Nat → Nat → Nat)
    (hidx : WellFormedIdx V T idx) (hT : WellFormedTris V T) (t t' : Nat × Nat × Nat)
    (ht : t ∈ T) (ht' : t' ∈ T) (hne : t ≠ t') :
    Disjoint (innerEdges idx t) (innerEdges idx t') := by
  obtain ⟨-, hinj⟩ := idx_edge V T idx hT hidx
  rw [Finset.disjoint_left]
  intro p hp hp'
  obtain ⟨e1, e2, h1, h2, hd, rfl⟩ := innerEdges_mem idx hidx.1 t (hT.2.1 t ht) p hp
  obtain ⟨f1, f2, g1, g2, -, heq⟩ := innerEdges_mem idx hidx.1 t' (hT.2.1 t' ht') _ hp'
  have E1 := mem_edgeSet_of_triEdges T t ht e1 h1
  have E2 := mem_edgeSet_of_triEdges T t ht e2 h2
  have F1 := mem_edgeSet_of_triEdges T t' ht' f1 g1
  have F2 := mem_edgeSet_of_triEdges T t' ht' f2 g2
  rw [normEdge_eq_iff] at heq
  apply hne
  rcases heq with ⟨q1, q2⟩ | ⟨q1, q2⟩
  · have r1 := hinj e1 E1 f1 F1 q1
    have r2 := hinj e2 E2 f2 F2 q2
    subst r1 r2
    exact eq_of_two_common_edges V T hT t t' ht ht' e1 e2 hd h1 h2 g1 g2
  · have r1 := hinj e1 E1 f2 F2 q1
    have r2 := hinj e2 E2 f1 F1 q2
    subst r1 r2
    exact eq_of_two_common_edges V T hT t t' ht ht' e1 e2 hd h1 h2 g2 g1

theorem wellFormed_nodup (V : Nat) (T : List (Nat × Nat × Nat)) (hT : WellFormedTris V T) :
    T.Nodup := by
  refine List.Pairwise.imp ?_ hT.2.2
  intro a b h hab
  exact h (by rw [hab])

theorem card_inner (V : Nat) (T : List (Nat × Nat × Nat)) (idx : Nat → Nat → Nat)
    (hidx : WellFormedIdx V T idx) (hT : WellFormedTris V T) :
    (T.toFinset.biUnion (innerEdges idx)).card = 3 * T.length := by
  rw [Finset.card_biUnion]
  · rw [Finset.sum_congr rfl (fun t ht =>
      card_innerEdges V T idx hidx hT t (List.mem_toFinset.mp ht))]
    rw [Finset.sum_const, List.toFinset_card_of_nodup (wellFormed_nodup V T hT)]
    simp
    ring
  · intro t ht t' ht' hne
    exact innerEdges_disjoint V T idx hidx hT t t' (List.mem_toFinset.mp ht)
      (List.mem_toFinset.mp ht') hne

/-- The subdivided mesh has two edges per edge and three more per triangle
of the parent mesh. -/
theorem card_edgeSet_subdivided (V : Nat) (T : List (Nat × Nat × Nat))
    (idx : Nat → Nat → Nat) (hT : WellFormedTris V T) (hidx : WellFormedIdx V T idx) :
    (edgeSet (T.flatMap (split4 idx))).card = 2 * (edgeSet T).card + 3 * T.length := by
  rw [edgeSet_subdivided V T idx hT hidx, Finset.card_union_of_disjoint,
    card_boundary V T idx hT hidx, card_inner V T idx hidx hT]
  obtain ⟨hrange, -⟩ := idx_edge V T idx hT hidx
  rw [Finset.disjoint_left]
  intro p hp hp'
  have hlt : p.1 < V := by
    rcases Finset.mem_union.mp hp with h | h
    · obtain ⟨e, he, rfl⟩ := Finset.mem_image.mp h
      have := edge_props V T hT e he
      simp only [half1]
      omega
    · obtain ⟨e, he, rfl⟩ := Finset.mem_image.mp h
      have := edge_props V T hT e he
      simp only [half2]
      omega
  obtain ⟨t, ht, hpt⟩ := Finset.mem_biUnion.mp hp'
  have ht' := List.mem_toFinset.mp ht
  obtain ⟨e1, e2, h1, h2, -, rfl⟩ := innerEdges_mem idx hidx.1 t (hT.2.1 t ht') p hpt
  have r1 := (hrange e1 (mem_edgeSet_of_triEdges T t ht' e1 h1)).1
  have r2 := (hrange e2 (mem_edgeSet_of_triEdges T t ht' e2 h2)).1
  simp only [normEdge] at hlt
  have := le_min r1 r2
  omega

/-- Every sub-triangle contains the midpoint indices of two different edges
of its parent, and each of its new vertices is the midpoint index of an edge
of its parent. -/
theorem split4_new_vertices (idx : Nat → Nat → Nat) (hsymm : ∀ a b, idx a b = idx b a)
    (V : Nat) (t : Nat × Nat × Nat) (hlt : t.1 < V ∧ t.2.1 < V ∧ t.2.2 < V)
    (hd : t.1 ≠ t.2.1 ∧ t.2.1 ≠ t.2.2 ∧ t.2.2 ≠ t.1) (s : Nat × Nat × Nat)
    (hs : s ∈ split4 idx t) :
    (∃ e1 e2, e1 ∈ triEdges t ∧ e2 ∈ triEdges t ∧ e1 ≠ e2 ∧
      idx e1.1 e1.2 ∈ vertexSet s ∧ idx e2.1 e2.2 ∈ vertexSet s) ∧
    (∀ v ∈ vertexSet s, V ≤ v → ∃ e ∈ triEdges t, v = idx e.1 e.2) := by
  obtain ⟨d1, d2, d3⟩ := tri_edges_distinct t hd
  obtain ⟨m1, m2, m3⟩ := tri_edges_mem t
  have i1 := idx_normEdge idx hsymm t.1 t.2.1
  have i2 := idx_normEdge idx hsymm t.2.1 t.2.2
  have i3 := idx_normEdge idx hsymm t.2.2 t.1
  obtain ⟨ha, hb, hc⟩ := hlt
  simp only [split4, List.mem_cons, List.mem_singleton, List.mem_nil_iff, or_false] at hs
  rcases hs with rfl | rfl | rfl | rfl
  · refine ⟨⟨_, _, m1, m3, Ne.symm d3, by rw [i1]; simp [vertexSet],
      by rw [i3]; simp [vertexSet]⟩, ?_⟩
    intro v hv hV
    simp only [vertexSet, Finset.mem_insert, Finset.mem_singleton] at hv
    rcases hv with rfl | rfl | rfl
    · omega
    · exact ⟨_, m1, i1.symm⟩
    · exact ⟨_, m3, i3.symm⟩
  · refine ⟨⟨_, _, m1, m2, d1, by rw [i1]; simp [vertexSet],
      by rw [i2]; simp [vertexSet]⟩, ?_⟩
    intro v hv hV
    simp only [vertexSet, Finset.mem_insert, Finset.mem_singleton] at hv
    rcases hv with rfl | rfl | rfl
    · exact ⟨_, m1, i1.symm⟩
    · omega
    · exact ⟨_, m2, i2.symm⟩
  · refine ⟨⟨_, _, m1, m2, d1, by rw [i1]; simp [vertexSet],
      by rw [i2]; simp [vertexSet]⟩, ?_⟩
    intro v hv hV
    simp only [vertexSet, Finset.mem_insert, Finset.mem_singleton] at hv
    rcases hv with rfl | rfl | rfl
    · exact ⟨_, m3, i3.symm⟩
    · exact ⟨_, m1, i1.symm⟩
    · exact ⟨_, m2, i2.symm⟩
  · refine ⟨⟨_, _, m3, m2, Ne.symm d2, by rw [i3]; simp [vertexSet],
      by rw [i2]; simp [vertexSet]⟩, ?_⟩
    intro v hv hV
    simp only [vertexSet, Finset.mem_insert, Finset.mem_singleton] at hv
    rcases hv with rfl | rfl | rfl
    · exact ⟨_, m3, i3.symm⟩
    · exact ⟨_, m2, i2.symm⟩
    · omega

theorem vertexSet_ne_of_not_mem (s s' : Nat × Nat × Nat) (v : Nat) (h : v ∈ vertexSet s)
    (h' : v ∉ vertexSet s') : vertexSet s ≠ vertexSet s' := by
  intro heq
  rw [heq] at h
  exact h' h

/-- The four sub-triangles of a triangle of the mesh have different vertex
sets. -/
theorem split4_pairwise (V : Nat) (T : List (Nat × Nat × Nat)) (idx : Nat → Nat → Nat)
    (hidx : WellFormedIdx V T idx) (hT : WellFormedTris V T) (t : Nat × Nat × Nat)
    (ht : t ∈ T) :
    (split4 idx t).Pairwise fun s s' => vertexSet s ≠ vertexSet s' := by
  obtain ⟨hxy, hyz, hzx, hx, hy, hz, -⟩ := midpoints_distinct V T idx hidx hT t ht
  obtain ⟨ha, hb, hc⟩ := hT.1 t ht
  obtain ⟨hab, hbc, hca⟩ := hT.2.1 t ht
  simp only [split4, List.pairwise_cons, List.mem_cons, List.mem_singleton, forall_eq_or_imp,
    forall_eq, List.not_mem_nil, false_implies, implies_true, List.Pairwise.nil, and_true]
  refine ⟨⟨?_, ?_, ?_⟩, ⟨?_, ?_⟩, ?_⟩
  · apply vertexSet_ne_of_not_mem _ _ t.1 (by simp [vertexSet])
    simp only [vertexSet, Finset.mem_insert, Finset.mem_singleton]; omega
  · apply vertexSet_ne_of_not_mem _ _ t.1 (by simp [vertexSet])
    simp only [vertexSet, Finset.mem_insert, Finset.mem_singleton]; omega
  · apply vertexSet_ne_of_not_mem _ _ t.1 (by simp [vertexSet])
    simp only [vertexSet, Finset.mem_insert, Finset.mem_singleton]; omega
  · apply vertexSet_ne_of_not_mem _ _ t.2.1 (by simp [vertexSet])
    simp only [vertexSet, Finset.mem_insert, Finset.mem_singleton]; omega
  · apply vertexSet_ne_of_not_mem _ _ t.2.1 (by simp [vertexSet])
    simp only [vertexSet, Finset.mem_insert, Finset.mem_singleton]; omega
  · apply Ne.symm
    apply vertexSet_ne_of_not_mem _ _ t.2.2 (by simp [vertexSet])
    simp only [vertexSet, Finset.mem_insert, Finset.mem_singleton]; omega

/-- The subdivided triangle list is well formed over the enlarged vertex
list. -/
theorem wellFormed_subdivided (V : Nat) (T : List (Nat × Nat × Nat)) (idx : Nat → Nat → Nat)
    (hT : WellFormedTris V T) (hidx : WellFormedIdx V T idx) :
    WellFormedTris (V + (edgeSet T).card) (T.flatMap (split4 idx)) := by
  obtain ⟨-, hinj⟩ := idx_edge V T idx hT hidx
  refine ⟨?_, ?_, ?_⟩
  · intro s hs
    obtain ⟨t, ht, hst⟩ := List.mem_flatMap.mp hs
    obtain ⟨-, -, -, -, -, -, hx, hy, hz⟩ := midpoints_distinct V T idx hidx hT t ht
    obtain ⟨ha, hb, hc⟩ := hT.1 t ht
    simp only [split4, List.mem_cons, List.mem_singleton, List.mem_nil_iff, or_false] at hst
    rcases hst with rfl | rfl | rfl | rfl <;> (simp only; omega)
  · intro s hs
    obtain ⟨t, ht, hst⟩ := List.mem_flatMap.mp hs
    obtain ⟨hxy, hyz, hzx, hx, hy, hz, -⟩ := midpoints_distinct V T idx hidx hT t ht
    obtain ⟨ha, hb, hc⟩ := hT.1 t ht
    simp only [split4, List.mem_cons, List.mem_singleton, List.mem_nil_iff, or_false] at hst
    rcases hst with rfl | rfl | rfl | rfl <;> (simp only; omega)
  · rw [List.pairwise_flatMap]
    refine ⟨fun t ht => split4_pairwise V T idx hidx hT t ht, ?_⟩
    refine List.Pairwise.imp_of_mem ?_ hT.2.2
    intro t t' ht ht' hne s hs s' hs' heq
    obtain ⟨⟨e1, e2, h1, h2, hd, v1, v2⟩, -⟩ :=
      split4_new_vertices idx hidx.1 V t (hT.1 t ht) (hT.2.1 t ht) s hs
    obtain ⟨-, hnew⟩ := split4_new_vertices idx hidx.1 V t' (hT.1 t' ht') (hT.2.1 t' ht') s' hs'
    obtain ⟨hrange, -⟩ := idx_edge V T idx hT hidx
    have E1 := mem_edgeSet_of_triEdges T t ht e1 h1
    have E2 := mem_edgeSet_of_triEdges T t ht e2 h2
    rw [heq] at v1 v2
    obtain ⟨f1, g1, q1⟩ := hnew _ v1 (hrange e1 E1).1
    obtain ⟨f2, g2, q2⟩ := hnew _ v2 (hrange e2 E2).1
    have r1 := hinj e1 E1 f1 (mem_edgeSet_of_triEdges T t' ht' f1 g1) q1
    have r2 := hinj e2 E2 f2 (mem_edgeSet_of_triEdges T t' ht' f2 g2) q2
    subst r1 r2
    have := eq_of_two_common_edges V T hT t t' ht ht' e1 e2 hd h1 h2 g1 g2
    exact hne (by rw [this])

theorem icosahedron_indices :
    (icosahedron (K := K)).indices
      = [0, 1, 2, 1, 3, 4, 3, 5, 6, 2, 4, 7, 6, 5, 8, 2, 7, 9, 5, 0, 8, 9, 7, 10, 1, 0, 5,
         10, 7, 11, 3, 1, 5, 6, 10, 11, 3, 6, 11, 9, 10, 8, 4, 3, 11, 6, 8, 10, 7, 4, 11,
         2, 1, 4, 8, 0, 9, 0, 2, 9] := by
  simp only [icosahedron, icosahedronIndices, orientCCW, vertexAt, icosahedronVertices,
    List.getD_cons_zero, List.getD_cons_succ, Vec3.dot3, Vec3.cross, Vec3.sub,
    GTS_M_ICOSAHEDRON_X, GTS_M_ICOSAHEDRON_Y, GTS_M_ICOSAHEDRON_Z]
  norm_num

theorem icosahedron_meshInv : MeshInv 0 (icosahedron (K := K)) := by
  unfold MeshInv
  rw [icosahedron_indices]
  have hv : (icosahedron (K := K)).vertices.length = 12 := by
    simp [icosahedron, icosahedronVertices]
  rw [hv]
  refine ⟨by simp [toTris], ⟨?_, ?_, ?_⟩, by norm_num, by simp [toTris], ?_⟩
  · simp only [toTris]
    decide
  · simp only [toTris]
    decide
  · simp only [toTris]
    decide
  · simp only [toTris]
    decide

theorem flatMap_split12_eq (idx : Nat → Nat → Nat) (T : List (Nat × Nat × Nat)) :
    T.flatMap (split12 idx)
      = (T.flatMap (split4 idx)).flatMap (fun t => [t.1, t.2.1, t.2.2]) := by
  induction T with
  | nil => rfl
  | cons t T ih =>
    rw [List.flatMap_cons, List.flatMap_cons, List.flatMap_append, ← ih]
    rfl

theorem length_flatMap_split4 (idx : Nat → Nat → Nat) (T : List (Nat × Nat × Nat)) :
    (T.flatMap (split4 idx)).length = 4 * T.length := by
  induction T with
  | nil => rfl
  | cons t T ih =>
    rw [List.flatMap_cons, List.length_append, ih]
    simp [split4]
    omega

/-- One subdivision pass takes the invariant of level `L` to that of level
`L + 1` and adds exactly one vertex per undirected edge. -/
theorem subdivide_meshInv (sqrt : K → K) (L : Nat) (M : TRIMESH K) (h : MeshInv L M) :
    MeshInv (L + 1) (subdivide sqrt M) ∧
    (subdivide sqrt M).vertices.length
      = M.vertices.length + (edgeSet (toTris M.indices)).card := by
  obtain ⟨hflat, hT, hV, hF, hE⟩ := h
  obtain ⟨idx, hidx, hv, hi⟩ := subdivide_char sqrt M
  have htris : toTris (subdivide sqrt M).indices = (toTris M.indices).flatMap (split4 idx) := by
    rw [hi, toTris_flatMap_split12]
  refine ⟨⟨?_, ?_, ?_, ?_, ?_⟩, hv⟩
  · rw [htris, ← flatMap_split12_eq]
    exact hi
  · rw [htris, hv]
    exact wellFormed_subdivided _ _ idx hT hidx
  · rw [hv, hV, hE]
    ring
  · rw [htris, length_flatMap_split4, hF]
    ring
  · rw [htris, card_edgeSet_subdivided _ _ idx hT hidx, hE, hF]
    ring

theorem iterate_meshInv (sqrt : K → K) (L : Nat) :
    MeshInv L ((subdivide sqrt)^[L] (icosahedron (K := K))) := by
  induction L with
  | zero => exact icosahedron_meshInv
  | succ L ih =>
    rw [Function.iterate_succ_apply']
    exact (subdivide_meshInv sqrt L _ ih).1

/-- C6: for every `levels`, with `L = max levels 0`, the mesh returned by
`GenerateSphereTriangulation` has exactly `10 * 4^L + 2 = 12 + 30 (4^L - 1)/3`
vertices, `30 * 4^L` undirected edges and `20 * 4^L` triangles, so that
`V - E + F = 2`; every triangle index is smaller than the number of
vertices; and one more subdivision pass adds exactly one vertex per
undirected edge of the mesh. -/
theorem C6_vertex_count (sqrt : K → K) (levels : Int) :
    (GenerateSphereTriangulation sqrt levels).vertices.length = 10 * 4 ^ levels.toNat + 2 ∧
    (GenerateSphereTriangulation sqrt levels).vertices.length
      = 12 + 30 * (4 ^ levels.toNat - 1) / 3 ∧
    (edgeSet (toTris (GenerateSphereTriangulation sqrt levels).indices)).card
      = 30 * 4 ^ levels.toNat ∧
    (toTris (GenerateSphereTriangulation sqrt levels).indices).length = 20 * 4 ^ levels.toNat ∧
    (GenerateSphereTriangulation sqrt levels).vertices.length
        + (toTris (GenerateSphereTriangulation sqrt levels).indices).length
      = (edgeSet (toTris (GenerateSphereTriangulation sqrt levels).indices)).card + 2 ∧
    (∀ i ∈ (GenerateSphereTriangulation sqrt levels).indices,
      i < (GenerateSphereTriangulation sqrt levels).vertices.length) ∧
    (subdivide sqrt (GenerateSphereTriangulation sqrt levels)).vertices.length
      = (GenerateSphereTriangulation sqrt levels).vertices.length
        + (edgeSet (toTris (GenerateSphereTriangulation sqrt levels).indices)).card := by
  have hinv := iterate_meshInv (K := K) sqrt levels.toNat
  have hstep := (subdivide_meshInv sqrt levels.toNat _ hinv).2
  obtain ⟨hflat, hT, hV, hF, hE⟩ := hinv
  unfold GenerateSphereTriangulation
  refine ⟨hV, ?_, hE, hF, ?_, ?_, hstep⟩
  · rw [hV]
    have h1 : 1 ≤ 4 ^ levels.toNat := Nat.one_le_two_pow.trans (by
      exact Nat.pow_le_pow_left (by norm_num) _)
    have h2 : 30 * (4 ^ levels.toNat - 1) = 3 * (10 * (4 ^ levels.toNat - 1)) := by ring
    rw [h2, Nat.mul_div_cancel_left _ (by norm_num : 0 < 3)]
    omega
  · rw [hV, hF, hE]
    ring
  · intro i hi
    rw [hflat] at hi
    obtain ⟨t, ht, hit⟩ := List.mem_flatMap.mp hi
    obtain ⟨h1, h2, h3⟩ := hT.1 t ht
    simp only [List.mem_cons, List.mem_singleton, List.mem_nil_iff, or_false] at hit
    rcases hit with rfl | rfl | rfl <;> assumption

/-! ## The ideal controller -/

theorem assignLoop_ok (values : List K) :
    ∀ (idx : List Int) (i : Nat) (curvalues curvel : List K),
      i + idx.length ≤ values.length →
      (∀ it ∈ idx, 0 ≤ it ∧ it.toNat < curvalues.length ∧ it.toNat < curvel.length) →
      ∃ cv cl, assignLoop values idx i curvalues curvel = .ok (cv, cl) ∧
        cv.length = curvalues.length
  | [], i, curvalues, curvel, _, _ => ⟨curvalues, curvel, rfl, rfl⟩
  | it :: rest, i, curvalues, curvel, hlen, hidx => by
    have hi : i < values.length := by simp at hlen; omega
    have hit := hidx it (List.mem_cons_self _ _)
    obtain ⟨cv, cl, h, hl⟩ := assignLoop_ok values rest (i + 1)
      (curvalues.set it.toNat values[i]) (curvel.set it.toNat 0)
      (by simp at hlen ⊢; omega)
      (fun j hj => by simpa using hidx j (List.mem_cons_of_mem _ hj))
    refine ⟨cv, cl, ?_, by simpa using hl⟩
    rw [assignLoop, List.getElem?_eq_getElem hi]
    simp only [hit, and_self, if_true]
    exact h

theorem checkLimits_ok {A : Type} (vlower curvalues : List A) (h : vlower.length ≤ curvalues.length) :
    _CheckLimits vlower curvalues = .ok () := by
  unfold _CheckLimits
  rw [if_pos]
  simp only [List.all_eq_true, List.mem_range, decide_eq_true_eq]
  intro i hi
  omega

theorem setDOFValues_ok {T R F : Type} (lib : ControllerLib K T R F) (values : List K)
    (c : IdealController K T R F) (hready : RobotReady lib c)
    (hlen : c._dofindices.length ≤ values.length) (hn : c._nControlTransformation = 0) :
    ∃ r, _SetDOFValues lib values c = .ok r := by
  obtain ⟨robot, hr, hlink, hidx, hlow⟩ := hready
  obtain ⟨cv, cl, h, hl⟩ := assignLoop_ok values c._dofindices 0 (lib.GetDOFValues robot)
    (lib.GetDOFVelocities robot) (by omega) hidx
  have hlk := hlink hn
  rw [Option.isSome_iff_exists] at hlk
  obtain ⟨⟨lv, av⟩, hlv⟩ := hlk
  unfold _SetDOFValues
  simp only [hr, hlv, h, checkLimits_ok c._vlower cv (by omega)]
  exact ⟨_, rfl⟩

theorem setDOFValuesT_ok {T R F : Type} (lib : ControllerLib K T R F) (values : List K) (t : T)
    (c : IdealController K T R F) (hready : RobotReady lib c)
    (hlen : c._dofindices.length ≤ values.length) :
    ∃ r, _SetDOFValuesT lib values t c = .ok r := by
  obtain ⟨robot, hr, _, hidx, hlow⟩ := hready
  obtain ⟨cv, cl, h, hl⟩ := assignLoop_ok values c._dofindices 0 (lib.GetDOFValues robot)
    (lib.GetDOFVelocities robot) (by omega) hidx
  unfold _SetDOFValuesT
  simp only [hr, h, checkLimits_ok c._vlower cv (by omega)]
  exact ⟨_, rfl⟩

theorem setDOFValues_ne_error {T R F : Type} (lib : ControllerLib K T R F) (values : List K)
    (c : IdealController K T R F) (e : ControllerError)
    (hs : _SetDOFValues lib values c = .error e) (hready : RobotReady lib c)
    (hlen : c._dofindices.length ≤ values.length) (hn : c._nControlTransformation = 0) :
    False := by
  obtain ⟨r, hr⟩ := setDOFValues_ok lib values c hready hlen hn
  rw [hs] at hr
  cases hr

theorem setDOFValuesT_ne_error {T R F : Type} (lib : ControllerLib K T R F) (values : List K)
    (t : T) (c : IdealController K T R F) (e : ControllerError)
    (hs : _SetDOFValuesT lib values t c = .error e) (hready : RobotReady lib c)
    (hlen : c._dofindices.length ≤ values.length) : False := by
  obtain ⟨r, hr⟩ := setDOFValuesT_ok lib values t c hready hlen
  rw [hs] at hr
  cases hr

/-! ## C11: `SetDesired` -/

/-- C11, the claim as stated fails: on a paused controller whose setpoint is
empty and whose flag `done` is set, `SetDesired` with two values for the two
controlled joints returns `true` but stores no setpoint and leaves `done`
set. -/
theorem C11_counterexample :
    ([1, 2] : List ℚ).length = (exampleController true)._dofindices.length ∧
    (SetDesired exampleRobotLib [1, 2] none (exampleController true)).1 = .ok true ∧
    (SetDesired exampleRobotLib [1, 2] none (exampleController true)).2._vecdesired = [] ∧
    (SetDesired exampleRobotLib [1, 2] none (exampleController true)).2._bIsDone = true := by
  refine ⟨rfl, rfl, rfl, rfl⟩

/-- C11, amended: for every controller state and every `values` with
`len(values) == len(dofindices)`, after `SetDesired(values, T)` the
controller time is 0 and no trajectory is set.  On a paused controller the
call returns `true` and leaves the setpoint and `done` as they were.  On a
controller that is not paused, a call that returns has stored `values` as
the setpoint and cleared `done`, and the call does return `true` whenever
the robot update has its indices in range. -/
theorem C11_SetDesired_postcondition {T R F : Type} (lib : ControllerLib K T R F)
    (values : List K) (trans : Option T) (c : IdealController K T R F)
    (hlen : values.length = c._dofindices.length) :
    (SetDesired lib values trans c).2.fTime = 0 ∧
    (SetDesired lib values trans c).2._ptraj = none ∧
    (c._bPause = true →
      (SetDesired lib values trans c).1 = .ok true ∧
      (SetDesired lib values trans c).2._vecdesired = c._vecdesired ∧
      (SetDesired lib values trans c).2._bIsDone = c._bIsDone) ∧
    (c._bPause = false → (SetDesired lib values trans c).1 = .ok true →
      (SetDesired lib values trans c).2._vecdesired = values ∧
      (SetDesired lib values trans c).2._bIsDone = false) ∧
    (c._bPause = false → RobotReady lib c →
      (SetDesired lib values trans c).1 = .ok true) := by
  obtain ⟨probot, speed, traj, time, vd, td, idx, vl, vu, nct, fl, cid, pause, done⟩ := c
  simp only at hlen
  unfold SetDesired
  simp only [ne_eq, hlen, not_true_eq_false, if_false]
  cases pause
  · simp only [if_true, Bool.false_eq_true, false_implies, true_implies, true_and]
    cases probot with
    | none =>
      simp only [reduceCtorEq, false_implies, and_true, true_and]
      rintro ⟨robot, hrobot, -⟩
      cases hrobot
    | some robot =>
      by_cases hn : nct = 0
      · subst hn
        simp only [not_true_eq_false, if_false]
        split
        · rename_i e hs
          simp only [reduceCtorEq, false_implies, and_true, true_and]
          intro hready
          exact setDOFValues_ne_error lib values _ e hs hready (le_of_eq hlen.symm) rfl
        · simp
      · simp only [hn, not_false_eq_true, if_true]
        split
        · rename_i e hs
          simp only [reduceCtorEq, false_implies, and_true, true_and]
          intro hready
          exact setDOFValuesT_ne_error lib values _ _ e hs hready (le_of_eq hlen.symm)
        · simp
  · simp

/-- Witness for C11: the idle controller of the example stores the setpoint
`(1, 2)`, clears `done` and resets its time. -/
theorem C11_SetDesired_postcondition_witness :
    (SetDesired exampleRobotLib [1, 2] none (exampleController false)).2.fTime = 0 ∧
    (SetDesired exampleRobotLib [1, 2] none (exampleController false)).1 = .ok true ∧
    (SetDesired exampleRobotLib [1, 2] none (exampleController false)).2._vecdesired = [1, 2] ∧
    (SetDesired exampleRobotLib [1, 2] none (exampleController false)).2._bIsDone = false := by
  have h := C11_SetDesired_postcondition exampleRobotLib [1, 2] none (exampleController false) rfl
  have hready : RobotReady exampleRobotLib (exampleController false) :=
    ⟨([0, 0], [0, 0]), rfl, fun _ => rfl, by decide, by decide⟩
  have hok := h.2.2.2.2 rfl hready
  exact ⟨h.1, hok, h.2.2.2.1 rfl hok⟩

/-! ## C12: `SetPath` -/

/-- C12: for every controller state and every trajectory `ptraj` that is null
or has `GetDOF() == len(dofindices)`: on a paused controller `SetPath`
returns `false` and no trajectory is stored afterwards; on a controller that
is not paused it returns `true`, and afterwards the stored trajectory is
`ptraj`, the time is 0, `done` tells whether `ptraj` is null and the
setpoint is empty. -/
theorem C12_SetPath_postcondition {T R F : Type} (lib : ControllerLib K T R F)
    (ptraj : Option (Trajectory K T)) (c : IdealController K T R F)
    (hdof : ∀ t, ptraj = some t → t.GetDOF = (c._dofindices.length : Int)) :
    (c._bPause = true →
      (SetPath lib ptraj c).1 = .ok false ∧ (SetPath lib ptraj c).2._ptraj = none) ∧
    (c._bPause = false →
      (SetPath lib ptraj c).1 = .ok true ∧
      (SetPath lib ptraj c).2._ptraj = ptraj ∧
      (SetPath lib ptraj c).2.fTime = 0 ∧
      (SetPath lib ptraj c).2._bIsDone = ptraj.isNone ∧
      (SetPath lib ptraj c).2._vecdesired = []) := by
  unfold SetPath
  cases hp : c._bPause
  · simp only [Bool.false_eq_true, if_false, false_implies, true_implies, true_and]
    cases ptraj with
    | none => simp
    | some t =>
      simp only [ne_eq, hdof t rfl, not_true_eq_false, if_false]
      split <;> simp
  · simp

/-- Witness for C12: the idle controller of the example accepts a trajectory
of two joints, and the paused one rejects it. -/
theorem C12_SetPath_postcondition_witness :
    (SetPath exampleRobotLib (some (exampleTrajectory 2)) (exampleController false)).1
      = .ok true ∧
    (SetPath exampleRobotLib (some (exampleTrajectory 2)) (exampleController false)).2._bIsDone
      = false ∧
    (SetPath exampleRobotLib (some (exampleTrajectory 2)) (exampleController true)).1
      = .ok false := by
  have h1 := C12_SetPath_postcondition exampleRobotLib (some (exampleTrajectory 2))
    (exampleController false) (by intro t ht; cases ht; rfl)
  have h2 := C12_SetPath_postcondition exampleRobotLib (some (exampleTrajectory 2))
    (exampleController true) (by intro t ht; cases ht; rfl)
  exact ⟨(h1.2 rfl).1, (h1.2 rfl).2.2.2.1, (h2.1 rfl).1⟩

/-! ## C13: the dimension checks -/

theorem assignLoop_error (values : List K) :
    ∀ (idx : List Int) (i : Nat) (curvalues curvel : List K) (e : ControllerError),
      assignLoop values idx i curvalues curvel = .error e → e = .outOfRange
  | [], _, _, _, e, h => by simp [assignLoop] at h
  | it :: rest, i, curvalues, curvel, e, h => by
    rw [assignLoop] at h
    split at h
    · cases h
      rfl
    · split at h
      · exact assignLoop_error values rest _ _ _ e h
      · cases h
        rfl

theorem checkLimits_error {A : Type} (vlower curvalues : List A) (e : ControllerError)
    (h : _CheckLimits vlower curvalues = .error e) : e = .outOfRange := by
  unfold _CheckLimits at h
  split at h
  · cases h
  · cases h
    rfl

theorem setDOFValues_error {T R F : Type} (lib : ControllerLib K T R F) (values : List K)
    (c : IdealController K T R F) (e : ControllerError)
    (h : _SetDOFValues lib values c = .error e) : e ≠ .invalidArguments := by
  unfold _SetDOFValues at h
  split at h
  · cases h
    decide
  · split at h
    · cases h
      decide
    · split at h
      · rename_i e2 h2
        cases h
        rw [assignLoop_error values _ _ _ _ _ h2]
        decide
      · split at h
        · rename_i e2 h2
          cases h
          rw [checkLimits_error _ _ _ h2]
          decide
        · cases h

theorem setDOFValuesT_error {T R F : Type} (lib : ControllerLib K T R F) (values : List K)
    (t : T) (c : IdealController K T R F) (e : ControllerError)
    (h : _SetDOFValuesT lib values t c = .error e) : e ≠ .invalidArguments := by
  unfold _SetDOFValuesT at h
  split at h
  · cases h
    decide
  · split at h
    · rename_i e2 h2
      cases h
      rw [assignLoop_error values _ _ _ _ _ h2]
      decide
    · split at h
      · rename_i e2 h2
        cases h
        rw [checkLimits_error _ _ _ h2]
        decide
      · cases h

theorem setDesired_error {T R F : Type} (lib : ControllerLib K T R F) (values : List K)
    (trans : Option T) (c : IdealController K T R F)
    (hlen : values.length = c._dofindices.length) :
    (SetDesired lib values trans c).1 ≠ .error .invalidArguments := by
  unfold SetDesired
  rw [if_neg (not_not.mpr hlen)]
  simp only
  split
  · split
    · simp
    · split
      · split
        · rename_i e hs
          intro h
          cases h
          exact setDOFValuesT_error lib _ _ _ _ hs rfl
        · simp
      · split
        · rename_i e hs
          intro h
          cases h
          exact setDOFValues_error lib _ _ _ hs rfl
        · simp
  · simp

/-- C13, the claim as stated fails: on a paused controller of two joints,
`SetPath` with a trajectory of three joints raises nothing; it returns
`false`. -/
theorem C13_counterexample :
    (exampleTrajectory 3).GetDOF ≠ ((exampleController true)._dofindices.length : Int) ∧
    (SetPath exampleRobotLib (some (exampleTrajectory 3)) (exampleController true)).1
      = .ok false := by
  refine ⟨by decide, rfl⟩

/-- C13, amended: in every controller state `SetDesired(values)` raises the
invalid-arguments exception iff `len(values) != len(dofindices)`, and then
leaves the controller unchanged.  `SetPath(traj)` raises iff the controller
is not paused and `traj` is non-null with `traj.DOF != len(dofindices)`; what
it raises is the invalid-arguments exception and the controller is left
unchanged.  On a paused controller `SetPath` raises nothing and returns
`false`, whatever the DOF count. -/
theorem C13_dimension_checks {T R F : Type} (lib : ControllerLib K T R F)
    (values : List K) (trans : Option T) (ptraj : Option (Trajectory K T))
    (c : IdealController K T R F) :
    ((SetDesired lib values trans c).1 = .error .invalidArguments ↔
      values.length ≠ c._dofindices.length) ∧
    (values.length ≠ c._dofindices.length → (SetDesired lib values trans c).2 = c) ∧
    ((∃ e, (SetPath lib ptraj c).1 = .error e) ↔
      c._bPause = false ∧ ∃ t, ptraj = some t ∧ t.GetDOF ≠ (c._dofindices.length : Int)) ∧
    (∀ e, (SetPath lib ptraj c).1 = .error e →
      e = .invalidArguments ∧ (SetPath lib ptraj c).2 = c) ∧
    (c._bPause = true → (SetPath lib ptraj c).1 = .ok false) := by
  refine ⟨?_, ?_, ?_, ?_, ?_⟩
  · constructor
    · intro h hlen
      exact setDesired_error lib values trans c hlen h
    · intro h
      unfold SetDesired
      rw [if_pos h]
  · intro h
    unfold SetDesired
    rw [if_pos h]
  · unfold SetPath
    cases hp : c._bPause
    · simp only [Bool.false_eq_true, if_false, true_and]
      cases ptraj with
      | none => simp
      | some t =>
        by_cases hd : t.GetDOF = (c._dofindices.length : Int)
        · simp only [ne_eq, hd, not_true_eq_false, if_false]
          split <;> simp [hd]
        · simp [hd]
    · simp
  · intro e
    unfold SetPath
    cases hp : c._bPause
    · simp only [Bool.false_eq_true, if_false]
      cases ptraj with
      | none => simp
      | some t =>
        by_cases hd : t.GetDOF = (c._dofindices.length : Int)
        · simp only [ne_eq, hd, not_true_eq_false, if_false]
          split <;> simp
        · simp only [ne_eq, hd, not_false_eq_true, if_true]
          intro h
          cases h
          exact ⟨rfl, trivial⟩
    · simp
  · intro hp
    unfold SetPath
    rw [if_pos hp]

/-! ## C14: the time of `SimulationStep` -/

theorem simulationStep_traj_spec {T R F : Type} (lib : ControllerLib K T R F) (dt : K)
    (c : IdealController K T R F) (traj : Trajectory K T) (tp : TPOINT K T)
    (htraj : c._ptraj = some traj) (hsample : traj.SampleTrajectory c.fTime = some tp) :
    (∃ e, SimulationStep_traj lib dt c = (.error e, c)) ∨
    (∃ c1, SimulationStep_traj lib dt c = (.ok false, c1) ∧
      c1.fTime = min c.fTime traj.GetTotalDuration + c._fSpeed * dt ∧
      (c1._bIsDone = true ↔ c._bIsDone = true ∨ traj.GetTotalDuration < c.fTime) ∧
      c1._vecdesired = c._vecdesired) := by
  unfold SimulationStep_traj
  simp only [htraj, hsample]
  split
  · rename_i e _
    exact Or.inl ⟨e, rfl⟩
  · right
    refine ⟨_, rfl, ?_⟩
    by_cases h : traj.GetTotalDuration < c.fTime
    · simp [h, min_eq_right (le_of_lt h)]
    · simp [h, min_eq_left (not_lt.mp h)]

theorem simulationStep_desired_spec {T R F : Type} (lib : ControllerLib K T R F)
    (c : IdealController K T R F) :
    (SimulationStep_desired lib c).2.fTime = c.fTime ∧
    ((SimulationStep_desired lib c).1 = .ok () →
      ((SimulationStep_desired lib c).2._bIsDone = true ↔
        c._bIsDone = true ∨ c._vecdesired ≠ [])) := by
  unfold SimulationStep_desired
  by_cases h : c._vecdesired.length > 0
  · have hne : c._vecdesired ≠ [] := by
      intro h0
      rw [h0] at h
      simp at h
    simp only [h, if_true]
    split
    · simp
    · simp [hne]
  · have he : c._vecdesired = [] := by
      cases hv : c._vecdesired with
      | nil => rfl
      | cons a l => rw [hv] at h; simp at h
    simp [h, he]

/-- C14, the claim as stated fails: the example controller follows a
trajectory of total duration 1 at time 0 with speed 1; the step
`SimulationStep(5)` succeeds and leaves the time 5, which is past the
duration, and `done` still cleared. -/
theorem C14_counterexample :
    followingController._bPause = false ∧
    followingController._ptraj.map (fun t => t.GetTotalDuration) = some 1 ∧
    followingController.fTime = 0 ∧ followingController._fSpeed = 1 ∧
    (SimulationStep exampleRobotLib 5 followingController).1 = .ok () ∧
    (SimulationStep exampleRobotLib 5 followingController).2.fTime = 5 ∧
    (SimulationStep exampleRobotLib 5 followingController).2._bIsDone = false := by
  refine ⟨rfl, rfl, rfl, rfl, rfl, ?_, rfl⟩
  norm_num [SimulationStep, SimulationStep_traj, SimulationStep_desired, followingController,
    SetPath, exampleController, exampleTrajectory, exampleRobotLib, _SetDOFValues, assignLoop,
    _CheckLimits, Except.map]

/-- C14, amended: on a controller that is not paused and follows a trajectory
of total duration `D`, a `SimulationStep(dt)` whose trajectory sample
succeeds and whose robot update raises nothing first clamps the current time
to `D`, setting `done`, when the current time is past `D`, and then advances
the time by `speed * dt`.  So the new time is `min(fTime, D) + speed * dt`,
at most `D + speed * dt` and not below `min(fTime, D)` for `speed, dt >= 0`;
a step that starts at a time not past `D` advances without clamping and
without setting `done`, also when the advanced time exceeds `D`, and the
step that starts at a time past `D` sets `done`. -/
theorem C14_SimulationStep_time {T R F : Type} (lib : ControllerLib K T R F) (dt : K)
    (c : IdealController K T R F) (traj : Trajectory K T) (tp : TPOINT K T)
    (hpause : c._bPause = false) (htraj : c._ptraj = some traj)
    (hsample : traj.SampleTrajectory c.fTime = some tp)
    (hok : (SimulationStep lib dt c).1 = .ok ()) :
    (SimulationStep lib dt c).2.fTime
      = min c.fTime traj.GetTotalDuration + c._fSpeed * dt ∧
    ((SimulationStep lib dt c).2._bIsDone = true ↔
      c._bIsDone = true ∨ traj.GetTotalDuration < c.fTime ∨ c._vecdesired ≠ []) ∧
    (c.fTime ≤ traj.GetTotalDuration →
      (SimulationStep lib dt c).2.fTime = c.fTime + c._fSpeed * dt) ∧
    (traj.GetTotalDuration < c.fTime →
      (SimulationStep lib dt c).2.fTime = traj.GetTotalDuration + c._fSpeed * dt ∧
      (SimulationStep lib dt c).2._bIsDone = true) ∧
    (SimulationStep lib dt c).2.fTime ≤ traj.GetTotalDuration + c._fSpeed * dt ∧
    (0 ≤ c._fSpeed → 0 ≤ dt →
      min c.fTime traj.GetTotalDuration ≤ (SimulationStep lib dt c).2.fTime) := by
  have hstep : ∃ c1, SimulationStep lib dt c = SimulationStep_desired lib c1 ∧
      c1.fTime = min c.fTime traj.GetTotalDuration + c._fSpeed * dt ∧
      (c1._bIsDone = true ↔ c._bIsDone = true ∨ traj.GetTotalDuration < c.fTime) ∧
      c1._vecdesired = c._vecdesired := by
    rcases simulationStep_traj_spec lib dt c traj tp htraj hsample with ⟨e, he⟩ | ⟨c1, h1, h2⟩
    · exfalso
      unfold SimulationStep at hok
      rw [if_neg (by simp [hpause]), he] at hok
      cases hok
    · refine ⟨c1, ?_, h2⟩
      unfold SimulationStep
      rw [if_neg (by simp [hpause]), h1]
  obtain ⟨c1, hc1, htime, hdone, hvec⟩ := hstep
  rw [hc1] at hok ⊢
  obtain ⟨hd1, hd2⟩ := simulationStep_desired_spec lib c1
  have hd3 := hd2 hok
  rw [hd1, htime, hd3, hdone, hvec]
  refine ⟨rfl, ?_, ?_, ?_, ?_, ?_⟩
  · tauto
  · intro h
    rw [min_eq_left h]
  · intro h
    rw [min_eq_right (le_of_lt h)]
    exact ⟨rfl, Or.inl (Or.inr h)⟩
  · have := min_le_right c.fTime traj.GetTotalDuration
    linarith
  · intro hs hdt
    have := mul_nonneg hs hdt
    linarith

/-- Witness for C14: the step of the counterexample obeys the amended
statement, `min(0, 1) + 1 * 5 = 5`. -/
theorem C14_SimulationStep_time_witness :
    (SimulationStep exampleRobotLib 5 followingController).2.fTime = min 0 1 + 1 * 5 :=
  (C14_SimulationStep_time exampleRobotLib 5 followingController (exampleTrajectory 2)
    ⟨[0, 0], ()⟩ rfl rfl rfl rfl).1

/-! ## C18: fewer than seven contacts without friction -/

/-- C18, the claim as stated fails: for three contacts on the plane `z = 0`
with the common normal `(0,0,1)`, `_AnalyzeContacts3D(contacts, 0, 8)` raises
the seven-wrenches exception; it returns no analysis. -/
theorem C18_counterexample :
    _AnalyzeContacts3D_mu exampleLib (exampleKernel 0) coplanarContacts 0 8
      = .error .needSevenWrenches ∧
    _AnalyzeContacts3D_mu exampleLib (exampleKernel 0) coplanarContacts 0 8 ≠ .ok ⟨0, 0⟩ := by
  constructor
  · simp [_AnalyzeContacts3D_mu, _AnalyzeContacts3D, coplanarContacts]
  · simp [_AnalyzeContacts3D_mu, _AnalyzeContacts3D, coplanarContacts]

/-- C18, amended: for every three contacts (coplanar with parallel normals
or not), every hull kernel and every cone size, `_AnalyzeContacts3D` with
`mu = 0` raises the exception that at least seven contact wrenches are
needed; the force-closure part of the `Grasp` command catches it and writes
the analysis `{mindist: 0, volume: 0}`. -/
theorem C18_three_contacts_no_friction (lib : RaveLib K)
    (qhull : Nat → Nat → List K → QhullResult K) (c1 c2 c3 : CONTACT K) (l1 l2 l3 : Int)
    (Nconepoints : Nat) :
    _AnalyzeContacts3D_mu lib qhull [c1, c2, c3] 0 Nconepoints = .error .needSevenWrenches ∧
    Grasp_forceclosure lib qhull [(c1, l1), (c2, l2), (c3, l3)] 0 = .ok ⟨0, 0⟩ := by
  constructor
  · simp [_AnalyzeContacts3D_mu, _AnalyzeContacts3D]
  · simp [Grasp_forceclosure, _AnalyzeContacts3D_mu, _AnalyzeContacts3D]

/-! ## C20: the scenario of the stable-contact filter -/

theorem bstable_rotateX (θ : ℝ) :
    bstable (rotateX θ ⟨0, 0, 1⟩) ⟨0, 0, 1⟩ (1 / 2) = true ↔
      0 < Real.cos θ ∧ Real.sin θ ^ 2 ≤ Real.cos θ ^ 2 * (1 / 2) ^ 2 := by
  simp only [bstable, rotateX, Vec3.cross, Vec3.lengthsqr3, Vec3.dot3, Bool.and_eq_true,
    decide_eq_true_eq]
  constructor
  · rintro ⟨h1, h2⟩
    constructor
    · linarith
    · nlinarith
  · rintro ⟨h1, h2⟩
    constructor
    · linarith
    · nlinarith

theorem bstable_rotateX_pi_div_four :
    bstable (rotateX (Real.pi / 4) ⟨0, 0, 1⟩) ⟨0, 0, 1⟩ (1 / 2) = false := by
  rw [← Bool.not_eq_true, bstable_rotateX, Real.sin_pi_div_four, Real.cos_pi_div_four]
  rintro ⟨-, h⟩
  have h2 : (Real.sqrt 2 / 2) ^ 2 = 1 / 2 := by
    rw [div_pow, Real.sq_sqrt (by norm_num)]
    norm_num
  rw [h2] at h
  norm_num at h

/-- C20, the claim as stated fails: with closing direction `(0,0,1)` and
`mu = 0.5`, the normal `(0,0,1)` rotated by 45 degrees about the x-axis is
rejected. -/
theorem C20_counterexample :
    bstable (rotateX (Real.pi / 4) ⟨0, 0, 1⟩) ⟨0, 0, 1⟩ (1 / 2) = false :=
  bstable_rotateX_pi_div_four

/-- C20, amended: with closing velocity `(0,0,1)` and `mu = 0.5` the test
accepts the normal aligned with the closing direction, rejects it after a
rotation by 45 degrees about the x-axis and rejects it after a rotation by
70 degrees; a rotation by `θ` is accepted exactly when `cos θ > 0` and
`sin² θ ≤ cos² θ / 4`, i.e. up to the angle `arctan 0.5`, about 26.6
degrees. -/
theorem C20_stable_contact_scenario :
    bstable (⟨0, 0, 1⟩ : Vec3 ℝ) ⟨0, 0, 1⟩ (1 / 2) = true ∧
    bstable (rotateX (Real.pi / 4) ⟨0, 0, 1⟩) ⟨0, 0, 1⟩ (1 / 2) = false ∧
    bstable (rotateX (7 * Real.pi / 18) ⟨0, 0, 1⟩) ⟨0, 0, 1⟩ (1 / 2) = false ∧
    (∀ θ : ℝ, bstable (rotateX θ ⟨0, 0, 1⟩) ⟨0, 0, 1⟩ (1 / 2) = true ↔
      0 < Real.cos θ ∧ Real.sin θ ^ 2 ≤ Real.cos θ ^ 2 * (1 / 2) ^ 2) := by
  refine ⟨?_, bstable_rotateX_pi_div_four, ?_, bstable_rotateX⟩
  · simp [bstable, Vec3.cross, Vec3.lengthsqr3, Vec3.dot3]
  · rw [← Bool.not_eq_true, bstable_rotateX]
    rintro ⟨hpos, h⟩
    have hlt : Real.cos (7 * Real.pi / 18) < Real.cos (Real.pi / 4) :=
      Real.cos_lt_cos_of_nonneg_of_le_pi_div_two (by positivity)
        (by linarith [Real.pi_pos]) (by linarith [Real.pi_pos])
    rw [Real.cos_pi_div_four] at hlt
    have h2 : (Real.sqrt 2 / 2) ^ 2 = 1 / 2 := by
      rw [div_pow, Real.sq_sqrt (by norm_num)]
      norm_num
    have hsq : Real.cos (7 * Real.pi / 18) ^ 2 < 1 / 2 := by
      rw [← h2]
      exact pow_lt_pow_left₀ hlt (le_of_lt hpos) (by norm_num)
    have hone := Real.sin_sq_add_cos_sq (7 * Real.pi / 18)
    nlinarith

/-! ## The wrench points of `_AnalyzeContacts3D` -/

theorem wrenchPoints_eq_flatMap (contacts : List (CONTACT K)) :
    wrenchPoints contacts = contacts.flatMap wrenchBlock := by
  unfold wrenchPoints
  have h : ∀ (l : List (CONTACT K)) (acc : List K),
      l.foldl (fun acc c =>
        let v := c.pos.cross c.norm
        acc ++ [c.norm.x, c.norm.y, c.norm.z, v.x, v.y, v.z]) acc
        = acc ++ l.flatMap wrenchBlock := by
    intro l
    induction l with
    | nil => intro acc; simp
    | cons c l ih =>
      intro acc
      rw [List.foldl_cons, ih, List.flatMap_cons, ← List.append_assoc]
      rfl
  simpa using h contacts []

theorem wrenchPoints_length (contacts : List (CONTACT K)) :
    (wrenchPoints contacts).length = 6 * contacts.length := by
  rw [wrenchPoints_eq_flatMap]
  induction contacts with
  | nil => rfl
  | cons c l ih =>
    rw [List.flatMap_cons, List.length_append, ih]
    simp [wrenchBlock]
    omega

theorem wrenchPoints_getD (contacts : List (CONTACT K)) :
    ∀ (k : Nat) (hk : k < contacts.length) (j : Nat), j < 6 →
      (wrenchPoints contacts).getD (6 * k + j) 0 = (wrenchBlock contacts[k]).getD j 0 := by
  rw [wrenchPoints_eq_flatMap]
  induction contacts with
  | nil => intro k hk; simp at hk
  | cons c l ih =>
    intro k hk j hj
    rw [List.flatMap_cons]
    have hb : (wrenchBlock c).length = 6 := rfl
    cases k with
    | zero =>
      simp only [Nat.mul_zero, Nat.zero_add, List.getElem_cons_zero, List.getD_eq_getElem?_getD]
      rw [List.getElem?_append_left (by omega)]
    | succ k =>
      simp only [List.getElem_cons_succ, List.getD_eq_getElem?_getD]
      rw [List.getElem?_append_right (by omega), hb]
      have hidx : 6 * (k + 1) + j - 6 = 6 * k + j := by omega
      rw [hidx]
      have := ih k (by simpa using hk) j hj
      simpa [List.getD_eq_getElem?_getD] using this

theorem newcontacts_pos (lib : RaveLib K) (contacts : List (CONTACT K)) (mu : K) (N : Nat) :
    ∀ c ∈ newcontacts lib contacts mu N, ∃ c0 ∈ contacts, c.pos = c0.pos := by
  unfold newcontacts
  generalize hf : (fun (acc : List (CONTACT K)) (c : CONTACT K) => _) = f
  have h : ∀ (l acc : List (CONTACT K)),
      (∀ c ∈ acc, ∃ c0 ∈ contacts, c.pos = c0.pos) → (∀ c ∈ l, c ∈ contacts) →
      ∀ c ∈ l.foldl f acc, ∃ c0 ∈ contacts, c.pos = c0.pos := by
    intro l
    induction l with
    | nil => intro acc hacc _; simpa using hacc
    | cons a l ih =>
      intro acc hacc hl
      rw [List.foldl_cons]
      apply ih
      · rw [← hf]
        intro c hc
        simp only [List.mem_append, List.mem_map] at hc
        rcases hc with hc | ⟨sc, -, rfl⟩
        · exact hacc c hc
        · exact ⟨a, hl a (List.mem_cons_self _ _), rfl⟩
      · intro c hc
        exact hl c (List.mem_cons_of_mem _ hc)
  exact h contacts [] (by simp) (fun c hc => hc)

/-! ## C19: the antipodal two-finger grip -/

theorem volume_convexHull_flat (a : Fin 6 → ℝ) (ha : a ≠ 0) (S : Set (Fin 6 → ℝ))
    (hS : ∀ x ∈ S, ∑ i, a i * x i = 0) : MeasureTheory.volume (convexHull ℝ S) = 0 := by
  let f : (Fin 6 → ℝ) →ₗ[ℝ] ℝ :=
    { toFun := fun x => ∑ i, a i * x i
      map_add' := by intro x y; simp [mul_add, Finset.sum_add_distrib]
      map_smul' := by intro c x; simp [Finset.mul_sum, mul_left_comm] }
  have hsub : convexHull ℝ S ⊆ (LinearMap.ker f : Set (Fin 6 → ℝ)) := by
    apply convexHull_min
    · intro x hx
      exact hS x hx
    · exact (LinearMap.ker f).convex
  have hne : LinearMap.ker f ≠ ⊤ := by
    intro htop
    have hmem : a ∈ LinearMap.ker f := by rw [htop]; trivial
    have h0 : ∑ i, a i * a i = 0 := hmem
    apply ha
    funext i
    have := (Finset.sum_eq_zero_iff_of_nonneg (fun i _ => mul_self_nonneg (a i))).mp h0 i
      (Finset.mem_univ i)
    simpa using this
  exact MeasureTheory.measure_mono_null hsub
    (MeasureTheory.Measure.addHaar_submodule MeasureTheory.volume _ hne)

theorem antipodal_torque (p : Vec3 ℝ) (contacts : List (CONTACT ℝ))
    (hpos : ∀ c ∈ contacts, c.pos = p ∨ c.pos = p.neg) :
    ∀ k, k < contacts.length →
      p.x * (wrenchPoints contacts).getD (6 * k + 3) 0
        + p.y * (wrenchPoints contacts).getD (6 * k + 4) 0
        + p.z * (wrenchPoints contacts).getD (6 * k + 5) 0 = 0 := by
  intro k hk
  rw [wrenchPoints_getD contacts k hk 3 (by norm_num),
    wrenchPoints_getD contacts k hk 4 (by norm_num),
    wrenchPoints_getD contacts k hk 5 (by norm_num)]
  simp only [wrenchBlock, List.getD_cons_succ, List.getD_cons_zero, Vec3.cross]
  rcases hpos contacts[k] (List.getElem_mem _) with h | h
  · rw [h]; ring
  · rw [h]; simp only [Vec3.neg]; ring

theorem hullVolume6_antipodal (p : Vec3 ℝ) (hp : p.lengthsqr3 = 1) (contacts : List (CONTACT ℝ))
    (hpos : ∀ c ∈ contacts, c.pos = p ∨ c.pos = p.neg) :
    hullVolume6 (wrenchPoints contacts) = 0 := by
  unfold hullVolume6
  rw [volume_convexHull_flat ![0, 0, 0, p.x, p.y, p.z]]
  · rfl
  · intro h0
    have hx : p.x = 0 := by simpa using congrFun h0 3
    have hy : p.y = 0 := by simpa using congrFun h0 4
    have hz : p.z = 0 := by simpa using congrFun h0 5
    simp [Vec3.lengthsqr3, hx, hy, hz] at hp
  · rintro x ⟨k, hk, hx⟩
    rw [wrenchPoints_length, Nat.mul_div_cancel_left _ (by norm_num : 0 < 6)] at hk
    have ht := antipodal_torque p contacts hpos k hk
    simp only [Fin.sum_univ_six, hx]
    simpa using ht

theorem analyzeContacts3D_volume (qhull : Nat → Nat → List K → QhullResult K)
    (contacts : List (CONTACT K)) (r : GRASPANALYSIS K)
    (h : _AnalyzeContacts3D qhull contacts = .ok r) :
    r.volume = (qhull 6 contacts.length (wrenchPoints contacts)).totvol := by
  unfold _AnalyzeContacts3D at h
  split at h
  · cases h
  · unfold _ComputeConvexHull at h
    rw [wrenchPoints_length, Nat.mul_div_cancel_left _ (by norm_num : 0 < 6)] at h
    simp only at h
    split at h
    · cases h
    · rename_i V planes faces hh
      split at hh
      · cases hh
      · simp only [Except.ok.injEq, Prod.mk.injEq] at hh
        split at h
        · cases h
        · cases h
          exact hh.1.symm
        · cases h
          exact hh.1.symm

theorem flatKernel_analysis (contacts : List (CONTACT ℝ)) (h7 : 7 ≤ contacts.length) :
    _AnalyzeContacts3D flatKernel contacts = .ok ⟨0, 0⟩ := by
  have hlen : ¬ contacts.length < 7 := by omega
  have hb := (flipBlock_cases 6 (vmeanOf 6 (wrenchPoints contacts))
    [0, 0, 0, 0, 0, 1, (0 : ℝ)] rfl).1
  have hbl := flipBlock_length 6 (vmeanOf 6 (wrenchPoints contacts)) [0, 0, 0, 0, 0, 1, (0 : ℝ)]
  have hloop : mindistLoop (flipPlanes 6 (vmeanOf 6 (wrenchPoints contacts))
      [0, 0, 0, 0, 0, 1, 0, 0, 0, 0, 0, 0, -1, 0]) 0 (10 ^ 30) = .ok none := by
    rw [mindistLoop]
    rw [if_pos (by rw [flipPlanes_length]; simp)]
    have h6 : (flipPlanes 6 (vmeanOf 6 (wrenchPoints contacts))
        [0, 0, 0, 0, 0, 1, 0, 0, 0, 0, 0, 0, -1, 0])[0 + 6]? = some 0 := by
      rw [flipPlanes]
      simp only [List.take_succ_cons, List.take_zero, Nat.zero_add]
      rw [List.getElem?_append_left (by rw [hbl]; simp)]
      rw [List.getD_eq_getElem?_getD] at hb
      have hlt : 6 < (flipBlock 6 (vmeanOf 6 (wrenchPoints contacts))
          [0, 0, 0, 0, 0, 1, (0 : ℝ)]).length := by rw [hbl]; simp
      rw [List.getElem?_eq_getElem hlt] at hb ⊢
      simpa using hb
    rw [h6]
    simp
  simp only [_AnalyzeContacts3D, hlen, if_false, _ComputeConvexHull, flatKernel, ne_eq,
    not_true_eq_false, rawPlanes, List.foldl_cons, List.foldl_nil, List.range_succ,
    List.range_zero, List.nil_append, List.map_cons, List.map_nil, List.getD_cons_succ,
    List.getD_cons_zero, List.cons_append, Bool.false_eq_true]
  rw [hloop]

/-- C19, the claim as stated fails: for the contacts at the poles of the unit
sphere with outward normals, `mu = 0.5` and eight cone points, every one of
the sixteen wrench points has a zero last coordinate (no torque about the
axis through the contacts), so the wrench hull is flat; a hull service that
reports the two sides of the hyperplane as facets and the exact volume 0
makes the analysis `{mindist: 0, volume: 0}`. -/
theorem C19_counterexample :
    (∀ k, k < 16 →
      (wrenchPoints (newcontacts antipodalLib antipodalContacts (1 / 2) 8)).getD (6 * k + 5) 0
        = 0) ∧
    (flatKernel 6 16 (wrenchPoints (newcontacts antipodalLib antipodalContacts (1 / 2) 8))).totvol
      = hullVolume6 (wrenchPoints (newcontacts antipodalLib antipodalContacts (1 / 2) 8)) ∧
    _AnalyzeContacts3D_mu antipodalLib flatKernel antipodalContacts (1 / 2) 8 = .ok ⟨0, 0⟩ := by
  have hpos : ∀ c ∈ newcontacts antipodalLib antipodalContacts (1 / 2) 8,
      c.pos = (⟨0, 0, 1⟩ : Vec3 ℝ) ∨ c.pos = (⟨0, 0, 1⟩ : Vec3 ℝ).neg := by
    intro c hc
    obtain ⟨c0, hc0, h⟩ := newcontacts_pos antipodalLib antipodalContacts (1 / 2) 8 c hc
    rw [h]
    simp only [antipodalContacts, List.mem_cons, List.mem_singleton, List.not_mem_nil,
      or_false] at hc0
    rcases hc0 with rfl | rfl
    · exact Or.inl rfl
    · right
      simp [Vec3.neg]
  have hlen : (newcontacts antipodalLib antipodalContacts (1 / 2) 8).length = 16 := by
    rw [newcontacts_length]
    rfl
  refine ⟨?_, ?_, ?_⟩
  · intro k hk
    have := antipodal_torque ⟨0, 0, 1⟩ _ hpos k (by rw [hlen]; exact hk)
    simpa using this
  · rw [hullVolume6_antipodal ⟨0, 0, 1⟩ (by simp [Vec3.lengthsqr3]) _ hpos]
    rfl
  · unfold _AnalyzeContacts3D_mu
    rw [if_neg (by norm_num)]
    exact flatKernel_analysis _ (by rw [hlen]; norm_num)

/-- C19, amended: for two contacts at antipodal points `p`, `-p` of the unit
sphere (with opposing normals or any others), `mu = 0.5` and `N_cone = 8`,
the cone discretization builds 16 contacts, so `_AnalyzeContacts3D` does not
raise the seven-wrenches exception; every wrench point has zero torque about
the axis `p`, so the 16 points lie in a hyperplane of `ℝ⁶` and the exact 6-D
volume of their convex hull is 0; hence for every hull service that returns
that exact volume the result has `volume = 0`, never `volume > 0`. -/
theorem C19_antipodal_grip (lib : RaveLib ℝ) (qhull : Nat → Nat → List ℝ → QhullResult ℝ)
    (p n1 n2 : Vec3 ℝ) (d1 d2 : ℝ) (hp : p.lengthsqr3 = 1) :
    (newcontacts lib [⟨p, n1, d1⟩, ⟨p.neg, n2, d2⟩] (1 / 2) 8).length = 16 ∧
    _AnalyzeContacts3D_mu lib qhull [⟨p, n1, d1⟩, ⟨p.neg, n2, d2⟩] (1 / 2) 8
      ≠ .error .needSevenWrenches ∧
    (∀ k, k < 16 →
      p.x * (wrenchPoints (newcontacts lib [⟨p, n1, d1⟩, ⟨p.neg, n2, d2⟩] (1 / 2) 8)).getD
          (6 * k + 3) 0
        + p.y * (wrenchPoints (newcontacts lib [⟨p, n1, d1⟩, ⟨p.neg, n2, d2⟩] (1 / 2) 8)).getD
          (6 * k + 4) 0
        + p.z * (wrenchPoints (newcontacts lib [⟨p, n1, d1⟩, ⟨p.neg, n2, d2⟩] (1 / 2) 8)).getD
          (6 * k + 5) 0 = 0) ∧
    hullVolume6 (wrenchPoints (newcontacts lib [⟨p, n1, d1⟩, ⟨p.neg, n2, d2⟩] (1 / 2) 8)) = 0 ∧
    (∀ r, _AnalyzeContacts3D_mu lib qhull [⟨p, n1, d1⟩, ⟨p.neg, n2, d2⟩] (1 / 2) 8 = .ok r →
      (qhull 6 16 (wrenchPoints (newcontacts lib [⟨p, n1, d1⟩, ⟨p.neg, n2, d2⟩] (1 / 2) 8))).totvol
        = hullVolume6
            (wrenchPoints (newcontacts lib [⟨p, n1, d1⟩, ⟨p.neg, n2, d2⟩] (1 / 2) 8)) →
      r.volume = 0) := by
  have hpos : ∀ c ∈ newcontacts lib [⟨p, n1, d1⟩, ⟨p.neg, n2, d2⟩] (1 / 2) 8,
      c.pos = p ∨ c.pos = p.neg := by
    intro c hc
    obtain ⟨c0, hc0, h⟩ := newcontacts_pos lib _ (1 / 2) 8 c hc
    rw [h]
    simp only [List.mem_cons, List.mem_singleton, List.not_mem_nil, or_false] at hc0
    rcases hc0 with rfl | rfl
    · exact Or.inl rfl
    · exact Or.inr rfl
  have hlen : (newcontacts lib [⟨p, n1, d1⟩, ⟨p.neg, n2, d2⟩] (1 / 2) 8).length = 16 := by
    rw [newcontacts_length]
    rfl
  have hvol := hullVolume6_antipodal p hp _ hpos
  have hmu : _AnalyzeContacts3D_mu lib qhull [⟨p, n1, d1⟩, ⟨p.neg, n2, d2⟩] (1 / 2) 8
      = _AnalyzeContacts3D qhull (newcontacts lib [⟨p, n1, d1⟩, ⟨p.neg, n2, d2⟩] (1 / 2) 8) := by
    unfold _AnalyzeContacts3D_mu
    rw [if_neg (by norm_num)]
  refine ⟨hlen, ?_, ?_, hvol, ?_⟩
  · rw [hmu, ne_eq, analyzeContacts3D_error_iff, hlen]
    norm_num
  · intro k hk
    exact antipodal_torque p _ hpos k (by rw [hlen]; exact hk)
  · intro r hr hexact
    rw [hmu] at hr
    rw [analyzeContacts3D_volume qhull _ r hr, hlen, hexact, hvol]

/-- Witness for C19: the contacts at the poles of the unit sphere with the
flat hull kernel, whose volume 0 is the exact one. -/
theorem C19_antipodal_grip_witness :
    (⟨0, 0, 1⟩ : Vec3 ℝ).lengthsqr3 = 1 ∧
    (newcontacts antipodalLib
      [⟨⟨0, 0, 1⟩, ⟨0, 0, 1⟩, 0⟩, ⟨(⟨0, 0, 1⟩ : Vec3 ℝ).neg, ⟨0, 0, -1⟩, 0⟩] (1 / 2) 8).length
        = 16 ∧
    hullVolume6 (wrenchPoints (newcontacts antipodalLib
      [⟨⟨0, 0, 1⟩, ⟨0, 0, 1⟩, 0⟩, ⟨(⟨0, 0, 1⟩ : Vec3 ℝ).neg, ⟨0, 0, -1⟩, 0⟩] (1 / 2) 8)) = 0 := by
  have h := C19_antipodal_grip antipodalLib flatKernel ⟨0, 0, 1⟩ ⟨0, 0, 1⟩ ⟨0, 0, -1⟩ 0 0
    (by simp [Vec3.lengthsqr3])
  exact ⟨by simp [Vec3.lengthsqr3], h.1, h.2.2.2.1⟩

/-! ## The command streams -/

theorem extract_ok {α : Type} (conv : String → Option α) (old : α) (t : String)
    (ts : List String) (v : α) (h : conv t = some v) :
    extract conv old ⟨t :: ts, false⟩ = (v, ⟨ts, false⟩) := by
  simp [extract, h]

theorem extract_reject {α : Type} (conv : String → Option α) (old : α) (t : String)
    (ts : List String) (h : conv t = none) :
    (extract conv old ⟨t :: ts, false⟩).2.failbit = true := by
  simp [extract, h]

theorem extract_empty {α : Type} (conv : String → Option α) (old : α) :
    (extract conv old ⟨[], false⟩).2.failbit = true := by
  simp [extract]

theorem extract_failed {α : Type} (conv : String → Option α) (old : α) (s : IStream)
    (h : s.failbit = true) : extract conv old s = (old, s) := by
  simp [extract, h]

theorem extract_length {α : Type} (conv : String → Option α) (old : α) (s : IStream) :
    (extract conv old s).2.tokens.length ≤ s.tokens.length := by
  unfold extract
  split
  · exact le_refl _
  · split
    · simp_all
    · rename_i t ts hts
      split
      · simp [hts]
      · exact le_refl _

theorem readPoints_length (slib : StreamLib K) (n : Nat) (vpoints : List K) (s : IStream) :
    (readPoints slib n vpoints s).2.tokens.length ≤ s.tokens.length := by
  unfold readPoints
  induction n with
  | zero => simp
  | succ n ih =>
    rw [List.range_succ, List.foldl_append]
    simp only [List.foldl_cons, List.foldl_nil]
    exact le_trans (extract_length _ _ _) ih

theorem commandLoop_parsed_of_eof {σ : Type}
    (keyword : String → σ → IStream → KeywordResult σ) (fuel : Nat) (st : σ) (s : IStream)
    (h : s.tokens = []) : commandLoop keyword fuel st s = .parsed st := by
  unfold commandLoop
  simp [IStream.eof, h]

theorem commandLoop_fuel {σ : Type} (keyword : String → σ → IStream → KeywordResult σ)
    (hk : KeywordShrinks keyword) :
    ∀ (fuel : Nat) (st : σ) (s : IStream), s.tokens.length ≤ fuel →
      commandLoop keyword fuel st s = commandLoop keyword s.tokens.length st s := by
  intro fuel
  induction fuel using Nat.strong_induction_on with
  | _ fuel ih =>
    intro st s hle
    obtain ⟨tokens, failbit⟩ := s
    cases tokens with
    | nil => rw [commandLoop_parsed_of_eof _ _ _ _ rfl, commandLoop_parsed_of_eof _ _ _ _ rfl]
    | cons t ts =>
      cases fuel with
      | zero => simp at hle
      | succ fuel =>
        simp only [List.length_cons] at hle ⊢
        cases failbit with
        | true =>
          unfold commandLoop
          simp [IStream.eof, extract]
        | false =>
          rw [commandLoop, commandLoop]
          simp only [IStream.eof, List.isEmpty_cons, Bool.false_eq_true, if_false,
            extract_ok some "" t ts t rfl]
          cases hkw : keyword (tolower t) st ⟨ts, false⟩ with
          | unrecognized => rfl
          | raised e => rfl
          | handled st1 s1 =>
            have hs1 : s1.tokens.length ≤ ts.length := hk _ _ _ _ _ hkw
            simp only
            split
            · rfl
            · rw [ih fuel (by omega) st1 s1 (by omega),
                ih ts.length (by omega) st1 s1 hs1]

theorem commandLoop_unrecognized {σ : Type}
    (keyword : String → σ → IStream → KeywordResult σ) (fuel : Nat) (st : σ) (u : String)
    (rest : List String) (h : keyword (tolower u) st ⟨rest, false⟩ = .unrecognized) :
    commandLoop keyword (fuel + 1) st ⟨u :: rest, false⟩ = .parsed st := by
  rw [commandLoop]
  simp only [IStream.eof, List.isEmpty_cons, Bool.false_eq_true, if_false,
    extract_ok some "" u rest u rfl, h]

theorem commandLoop_handled {σ : Type}
    (keyword : String → σ → IStream → KeywordResult σ) (fuel : Nat) (st st1 : σ) (u : String)
    (rest rest1 : List String)
    (h : keyword (tolower u) st ⟨rest, false⟩ = .handled st1 ⟨rest1, false⟩) :
    commandLoop keyword (fuel + 1) st ⟨u :: rest, false⟩
      = commandLoop keyword fuel st1 ⟨rest1, false⟩ := by
  rw [commandLoop]
  simp only [IStream.eof, List.isEmpty_cons, Bool.false_eq_true, if_false,
    extract_ok some "" u rest u rfl, h]

theorem commandLoop_handled_failed {σ : Type}
    (keyword : String → σ → IStream → KeywordResult σ) (fuel : Nat) (st st1 : σ) (u : String)
    (rest : List String) (s1 : IStream)
    (h : keyword (tolower u) st ⟨rest, false⟩ = .handled st1 s1) (hf : s1.failbit = true) :
    commandLoop keyword (fuel + 1) st ⟨u :: rest, false⟩ = .failed := by
  rw [commandLoop]
  simp only [IStream.eof, List.isEmpty_cons, Bool.false_eq_true, if_false,
    extract_ok some "" u rest u rfl, h, hf, if_true]

theorem Grasp_keyword_unrecognized {B : Type} (slib : StreamLib K) (lib : RaveLib K)
    (env : EnvLib B) (cmd : String) (st : GraspOptions K B) (s : IStream)
    (h : cmd ∉ Grasp_keywords) : Grasp_keyword slib lib env cmd st s = .unrecognized := by
  simp only [Grasp_keywords, List.mem_cons, List.mem_singleton, List.not_mem_nil, or_false,
    not_or] at h
  simp [Grasp_keyword, h]

theorem ComputeDistanceMap_keyword_unrecognized {A B : Type} (slib : StreamLib A)
    (env : EnvLib B) (cmd : String) (st : DistanceMapOptions A B) (s : IStream)
    (h : cmd ∉ ComputeDistanceMap_keywords) :
    ComputeDistanceMap_keyword slib env cmd st s = .unrecognized := by
  simp only [ComputeDistanceMap_keywords, List.mem_cons, List.mem_singleton, List.not_mem_nil,
    or_false, not_or] at h
  simp [ComputeDistanceMap_keyword, h]

theorem GetStableContacts_keyword_unrecognized {A : Type} (slib : StreamLib A) (cmd : String)
    (st : StableContactsOptions A) (s : IStream) (h : cmd ∉ GetStableContacts_keywords) :
    GetStableContacts_keyword slib cmd st s = .unrecognized := by
  simp only [GetStableContacts_keywords, List.mem_cons, List.mem_singleton, List.not_mem_nil,
    or_false, not_or] at h
  simp [GetStableContacts_keyword, h]

theorem ConvexHull_keyword_unrecognized (slib : StreamLib K) (cmd : String)
    (st : ConvexHullOptions K) (s : IStream) (h : cmd ∉ ConvexHull_keywords) :
    ConvexHull_keyword slib cmd st s = .unrecognized := by
  simp only [ConvexHull_keywords, List.mem_cons, List.mem_singleton, List.not_mem_nil,
    or_false, not_or] at h
  simp [ConvexHull_keyword, h]

theorem Grasp_keyword_shrinks {B : Type} (slib : StreamLib K) (lib : RaveLib K)
    (env : EnvLib B) : KeywordShrinks (Grasp_keyword slib lib env) := by
  intro cmd st s st1 s1 h
  unfold Grasp_keyword at h
  by_cases h0 : cmd = "body" ∨ cmd = "target"
  · rw [if_pos h0] at h
    cases h
    exact extract_length _ _ _
  rw [if_neg h0] at h
  by_cases h1 : cmd = "bodyid"
  · rw [if_pos h1] at h
    cases h
    exact extract_length _ _ _
  rw [if_neg h1] at h
  by_cases h2 : cmd = "direction"
  · rw [if_pos h2] at h
    cases h
    exact le_trans (extract_length _ _ _) (le_trans (extract_length _ _ _)
      (extract_length _ _ _))
  rw [if_neg h2] at h
  by_cases h3 : cmd = "avoidlink"
  · rw [if_pos h3] at h
    cases h
    exact extract_length _ _ _
  rw [if_neg h3] at h
  by_cases h4 : cmd = "notrans"
  · rw [if_pos h4] at h
    cases h
    exact le_refl _
  rw [if_neg h4] at h
  by_cases h5 : cmd = "transformrobot"
  · rw [if_pos h5] at h
    cases h
    exact extract_length _ _ _
  rw [if_neg h5] at h
  by_cases h6 : cmd = "onlycontacttarget"
  · rw [if_pos h6] at h
    cases h
    exact extract_length _ _ _
  rw [if_neg h6] at h
  by_cases h7 : cmd = "tightgrasp"
  · rw [if_pos h7] at h
    cases h
    exact extract_length _ _ _
  rw [if_neg h7] at h
  by_cases h8 : cmd = "execute"
  · rw [if_pos h8] at h
    cases h
    exact extract_length _ _ _
  rw [if_neg h8] at h
  by_cases h9 : cmd = "writetraj"
  · rw [if_pos h9] at h
    cases h
    exact extract_length _ _ _
  rw [if_neg h9] at h
  by_cases h10 : cmd = "outputfinal"
  · rw [if_pos h10] at h
    cases h
    exact extract_length _ _ _
  rw [if_neg h10] at h
  by_cases h11 : cmd = "graspingnoise"
  · rw [if_pos h11] at h
    cases h
    exact extract_length _ _ _
  rw [if_neg h11] at h
  by_cases h12 : cmd = "roll"
  · rw [if_pos h12] at h
    cases h
    exact extract_length _ _ _
  rw [if_neg h12] at h
  by_cases h13 : cmd = "centeroffset" ∨ cmd = "position"
  · rw [if_pos h13] at h
    cases h
    exact le_trans (extract_length _ _ _) (le_trans (extract_length _ _ _)
      (extract_length _ _ _))
  rw [if_neg h13] at h
  by_cases h14 : cmd = "standoff"
  · rw [if_pos h14] at h
    cases h
    exact extract_length _ _ _
  rw [if_neg h14] at h
  by_cases h15 : cmd = "friction"
  · rw [if_pos h15] at h
    cases h
    exact extract_length _ _ _
  rw [if_neg h15] at h
  by_cases h16 : cmd = "getlinkcollisions"
  · rw [if_pos h16] at h
    cases h
    exact le_refl _
  rw [if_neg h16] at h
  by_cases h17 : cmd = "stablecontacts"
  · rw [if_pos h17] at h
    cases h
    exact extract_length _ _ _
  rw [if_neg h17] at h
  by_cases h18 : cmd = "forceclosure"
  · rw [if_pos h18] at h
    cases h
    exact extract_length _ _ _
  rw [if_neg h18] at h
  by_cases h19 : cmd = "collision"
  · rw [if_pos h19] at h
    cases h
    exact extract_length _ _ _
  rw [if_neg h19] at h
  by_cases h20 : cmd = "translationstepmult"
  · rw [if_pos h20] at h
    cases h
    exact extract_length _ _ _
  rw [if_neg h20] at h
  cases h

theorem ComputeDistanceMap_keyword_shrinks {A B : Type} (slib : StreamLib A) (env : EnvLib B) :
    KeywordShrinks (ComputeDistanceMap_keyword slib env) := by
  intro cmd st s st1 s1 h
  unfold ComputeDistanceMap_keyword at h
  iterate 4
    split at h
    · cases h
      first
        | exact extract_length _ _ _
        | exact le_trans (extract_length _ _ _) (le_trans (extract_length _ _ _)
            (extract_length _ _ _))
  cases h

theorem GetStableContacts_keyword_shrinks {A : Type} (slib : StreamLib A) :
    KeywordShrinks (GetStableContacts_keyword slib) := by
  intro cmd st s st1 s1 h
  unfold GetStableContacts_keyword at h
  iterate 3
    split at h
    · cases h
      first
        | exact le_refl _
        | exact extract_length _ _ _
        | exact le_trans (extract_length _ _ _) (le_trans (extract_length _ _ _)
            (extract_length _ _ _))
  cases h

theorem ConvexHull_keyword_shrinks (slib : StreamLib K) :
    KeywordShrinks (ConvexHull_keyword slib) := by
  intro cmd st s st1 s1 h
  unfold ConvexHull_keyword at h
  split at h
  · simp only at h
    split at h
    · cases h
    · cases h
      exact le_trans (readPoints_length _ _ _ _) (le_trans (extract_length _ _ _)
        (extract_length _ _ _))
  iterate 3
    split at h
    · cases h
      exact extract_length _ _ _
  cases h

/-! ## C15: unrecognized keywords -/

/-- C15, the claim as stated fails: `GetStableContacts` on the stream
`friction 1 bogus`, whose last keyword it does not recognize, calls the
filter with the friction 1, returns `true` and writes the contact the filter
finds on the example robot. -/
theorem C15_counterexample :
    tolower "bogus" ∉ GetStableContacts_keywords ∧
    _GetStableContacts exampleLib exampleFilterEnv [] ⟨0, 0, 0⟩ 1
      = .ok [(⟨⟨0, 0, 0⟩, ⟨0, 0, 1⟩, 0⟩, 1)] ∧
    GetStableContacts exampleStreamLib exampleLib exampleFilterEnv
        ⟨["friction", "1", "bogus"], false⟩
      = (.ok true,
          [Out.real 0, Out.real 0, Out.real 0, Out.real 0, Out.real 0, Out.real 1, Out.endl]) := by
  have hf : _GetStableContacts exampleLib exampleFilterEnv [] ⟨0, 0, 0⟩ 1
      = .ok [(⟨⟨0, 0, 0⟩, ⟨0, 0, 1⟩, 0⟩, 1)] := by
    simp [_GetStableContacts, exampleFilterEnv, closingdirOf, manipLoop, closingLoop, linkLoop,
      contactLoop, deltaxyzOf, isBaseLink, jacobianRow, bstable, exampleLib, Vec3.normalize3,
      Vec3.smul, Vec3.lengthsqr3, Vec3.dot3, Vec3.cross, List.replicate]
    norm_num
  have hp : commandLoop (GetStableContacts_keyword exampleStreamLib) 3 ⟨0, ⟨0, 0, 0⟩, false⟩
      ⟨["friction", "1", "bogus"], false⟩ = .parsed ⟨1, ⟨0, 0, 0⟩, false⟩ := rfl
  refine ⟨by decide, hf, ?_⟩
  unfold GetStableContacts
  simp only [List.length_cons, List.length_nil, hp, GetStableContacts_work, hf]
  rfl

/-- C15, amended: in each of the four parsers (`Grasp`, `ComputeDistanceMap`,
`GetStableContacts`, `ConvexHull`), when the keyword read next is not one the
command recognizes, the loop is left with the options read so far, whatever
they are and whatever follows in the stream; the command does not return
failure there but goes on to its work with these options.  In particular a
stream that starts with such a keyword runs the work of the command on its
default options; for `GetStableContacts` this is the call of the filter with
the default friction 0, which stops at the assertion `mu > 0`. -/
theorem C15_unrecognized_keyword {B L : Type} [DecidableEq L] (slib : StreamLib K)
    (lib : RaveLib K) (env : EnvLib B) (fenv : FilterEnv K L)
    (sortFn : List (K × Nat) → List (K × Nat))
    (qhull : Nat → Nat → List K → QhullResult K) (u : String) (rest : List String) :
    (tolower u ∉ Grasp_keywords →
      (∀ fuel st, commandLoop (Grasp_keyword slib lib env) (fuel + 1) st ⟨u :: rest, false⟩
        = .parsed st) ∧
      ∀ params work, Grasp slib lib env params work ⟨u :: rest, false⟩
        = work (Grasp_init params)) ∧
    (tolower u ∉ ComputeDistanceMap_keywords →
      (∀ fuel st, commandLoop (ComputeDistanceMap_keyword slib env) (fuel + 1) st
        ⟨u :: rest, false⟩ = .parsed st) ∧
      ∀ work, ComputeDistanceMap slib lib env work ⟨u :: rest, false⟩
        = work ⟨1 / 4 * lib.PI, 60000, none, ⟨0, 0, 0⟩⟩) ∧
    (tolower u ∉ GetStableContacts_keywords →
      (∀ fuel st, commandLoop (GetStableContacts_keyword slib) (fuel + 1) st ⟨u :: rest, false⟩
        = .parsed st) ∧
      GetStableContacts slib lib fenv ⟨u :: rest, false⟩
        = GetStableContacts_work lib fenv ⟨0, ⟨0, 0, 0⟩, false⟩ ∧
      GetStableContacts slib lib fenv ⟨u :: rest, false⟩
        = (.error (.filter .assertion), [])) ∧
    (tolower u ∉ ConvexHull_keywords →
      (∀ fuel st, commandLoop (ConvexHull_keyword slib) (fuel + 1) st ⟨u :: rest, false⟩
        = .parsed st) ∧
      ConvexHull slib lib sortFn qhull ⟨u :: rest, false⟩
        = ConvexHull_work lib sortFn qhull ⟨true, true, true, 0, []⟩) := by
  refine ⟨fun h => ?_, fun h => ?_, fun h => ?_, fun h => ?_⟩
  · have hl : ∀ fuel st, commandLoop (Grasp_keyword slib lib env) (fuel + 1) st
        ⟨u :: rest, false⟩ = .parsed st := fun fuel st =>
      commandLoop_unrecognized _ fuel st u rest (Grasp_keyword_unrecognized slib lib env _ _ _ h)
    refine ⟨hl, fun params work => ?_⟩
    unfold Grasp
    simp only [List.length_cons, hl]
  · have hl : ∀ fuel st, commandLoop (ComputeDistanceMap_keyword slib env) (fuel + 1) st
        ⟨u :: rest, false⟩ = .parsed st := fun fuel st =>
      commandLoop_unrecognized _ fuel st u rest
        (ComputeDistanceMap_keyword_unrecognized slib env _ _ _ h)
    refine ⟨hl, fun work => ?_⟩
    unfold ComputeDistanceMap
    simp only [List.length_cons, hl]
  · have hl : ∀ fuel st, commandLoop (GetStableContacts_keyword slib) (fuel + 1) st
        ⟨u :: rest, false⟩ = .parsed st := fun fuel st =>
      commandLoop_unrecognized _ fuel st u rest
        (GetStableContacts_keyword_unrecognized slib _ _ _ h)
    have hw : GetStableContacts slib lib fenv ⟨u :: rest, false⟩
        = GetStableContacts_work lib fenv ⟨0, ⟨0, 0, 0⟩, false⟩ := by
      unfold GetStableContacts
      simp only [List.length_cons, hl]
    refine ⟨hl, hw, ?_⟩
    rw [hw]
    simp [GetStableContacts_work, _GetStableContacts]
  · have hl : ∀ fuel st, commandLoop (ConvexHull_keyword slib) (fuel + 1) st
        ⟨u :: rest, false⟩ = .parsed st := fun fuel st =>
      commandLoop_unrecognized _ fuel st u rest (ConvexHull_keyword_unrecognized slib _ _ _ h)
    refine ⟨hl, ?_⟩
    unfold ConvexHull
    simp only [List.length_cons, hl]

/-- Witness for C15: the keyword `bogus`, which none of the four commands
recognizes, in front of the stream `friction 1`: the friction is not read and
the filter is called with the default 0. -/
theorem C15_unrecognized_keyword_witness :
    tolower "bogus" ∉ GetStableContacts_keywords ∧
    GetStableContacts exampleStreamLib exampleLib exampleFilterEnv
        ⟨["bogus", "friction", "1"], false⟩
      = (.error (.filter .assertion), []) :=
  ⟨by decide,
    ((C15_unrecognized_keyword exampleStreamLib exampleLib (⟨fun _ => none, fun _ => none⟩ :
      EnvLib Unit) exampleFilterEnv stableSort squareKernel "bogus" ["friction", "1"]).2.2.1
        (by decide)).2.2⟩

/-! ## C16: the number of values after `points N dim` -/

theorem resize_length (vpoints : List K) (n : Nat) : (resize vpoints n).length = n := by
  unfold resize
  simp only [List.length_append, List.length_take, List.length_replicate]
  omega

theorem readPoints_take (slib : StreamLib K) (toks rest : List String) (xs v : List K)
    (hxs : toks.map slib.toReal = xs.map some) :
    ∀ k, k ≤ xs.length → k ≤ v.length →
      (List.range k).foldl
        (fun (acc : List K × IStream) i =>
          let r := extract slib.toReal (acc.1.getD i 0) acc.2
          (acc.1.set i r.1, r.2))
        (v, ⟨toks ++ rest, false⟩)
        = (xs.take k ++ v.drop k, ⟨toks.drop k ++ rest, false⟩) := by
  have hlen : toks.length = xs.length := by
    have := congrArg List.length hxs
    simpa using this
  intro k
  induction k with
  | zero => intro _ _; simp
  | succ k ih =>
    intro hk hv
    rw [List.range_succ, List.foldl_append, ih (by omega) (by omega)]
    have hkt : k < toks.length := by omega
    have hkx : k < xs.length := by omega
    have hconv : slib.toReal toks[k] = some xs[k] := by
      have h1 := congrArg (fun l => l[k]?) hxs
      simp only [List.getElem?_map, List.getElem?_eq_getElem hkt,
        List.getElem?_eq_getElem hkx, Option.map_some'] at h1
      exact Option.some.inj h1
    have hdrop : toks.drop k = toks[k] :: toks.drop (k + 1) := List.drop_eq_getElem_cons hkt
    simp only [List.foldl_cons, List.foldl_nil, hdrop, List.cons_append]
    rw [extract_ok slib.toReal _ toks[k] _ xs[k] hconv]
    simp only [Prod.mk.injEq, and_true]
    have htl : (xs.take k).length = k := by rw [List.length_take]; omega
    have hvd : v.drop k = v[k] :: v.drop (k + 1) := List.drop_eq_getElem_cons (by omega)
    rw [hvd, List.set_append_right _ _ (by omega), htl, Nat.sub_self, List.set_cons_zero,
      List.take_succ, List.getElem?_eq_getElem hkx]
    simp only [Option.toList_some, List.append_assoc, List.singleton_append]

theorem readPoints_ok (slib : StreamLib K) (toks rest : List String) (xs v : List K)
    (hxs : toks.map slib.toReal = xs.map some) (hv : v.length = xs.length) :
    readPoints slib xs.length v ⟨toks ++ rest, false⟩ = (xs, ⟨rest, false⟩) := by
  have hlen : toks.length = xs.length := by
    have := congrArg List.length hxs
    simpa using this
  unfold readPoints
  rw [readPoints_take slib toks rest xs v hxs xs.length (le_refl _) (by omega)]
  rw [List.take_length, ← hv, List.drop_length, hv, ← hlen, List.drop_length]
  simp

theorem readPoints_failed_stays (slib : StreamLib K) (l : List Nat) :
    ∀ acc : List K × IStream, acc.2.failbit = true →
      (l.foldl
        (fun (acc : List K × IStream) i =>
          let r := extract slib.toReal (acc.1.getD i 0) acc.2
          (acc.1.set i r.1, r.2))
        acc).2.failbit = true := by
  induction l with
  | nil => intro acc h; exact h
  | cons i l ih =>
    intro acc h
    rw [List.foldl_cons]
    apply ih
    simp only
    rw [extract_failed _ _ _ h]
    exact h

theorem readPoints_too_few (slib : StreamLib K) (toks rest : List String) (xs v : List K)
    (n : Nat) (hxs : toks.map slib.toReal = xs.map some) (hn : xs.length < n)
    (hv : v.length = n)
    (hrest : rest = [] ∨ ∃ t r, rest = t :: r ∧ slib.toReal t = none) :
    (readPoints slib n v ⟨toks ++ rest, false⟩).2.failbit = true := by
  have hlen : toks.length = xs.length := by
    have := congrArg List.length hxs
    simpa using this
  unfold readPoints
  have hsplit : n = (xs.length + 1) + (n - xs.length - 1) := by omega
  rw [hsplit, List.range_add, List.foldl_append]
  apply readPoints_failed_stays
  rw [List.range_succ, List.foldl_append,
    readPoints_take slib toks rest xs v hxs xs.length (le_refl _) (by omega)]
  rw [← hlen, List.drop_length, List.nil_append]
  simp only [List.foldl_cons, List.foldl_nil]
  rcases hrest with rfl | ⟨t, r, rfl, ht⟩
  · exact extract_empty _ _
  · exact extract_reject _ _ _ _ ht

theorem ConvexHull_keyword_points (slib : StreamLib K) (st : ConvexHullOptions K)
    (tN tdim : String) (N dim : Int) (toks rest : List String) (xs : List K)
    (hN : slib.toInt tN = some N) (hdim : slib.toInt tdim = some dim) (hpos : 0 ≤ N * dim)
    (hxs : toks.map slib.toReal = xs.map some) (hlen : xs.length = (N * dim).toNat) :
    ConvexHull_keyword slib "points" st ⟨tN :: tdim :: (toks ++ rest), false⟩
      = .handled { st with dim := dim, vpoints := xs } ⟨rest, false⟩ := by
  unfold ConvexHull_keyword
  simp only [if_true, extract_ok slib.toInt _ tN _ N hN, extract_ok slib.toInt _ tdim _ dim hdim,
    not_lt.mpr hpos, if_false]
  rw [← hlen, readPoints_ok slib toks rest xs _ hxs (resize_length _ _)]

theorem ConvexHull_keyword_points_too_few (slib : StreamLib K) (st : ConvexHullOptions K)
    (tN tdim : String) (N dim : Int) (toks rest : List String) (xs : List K)
    (hN : slib.toInt tN = some N) (hdim : slib.toInt tdim = some dim) (hpos : 0 ≤ N * dim)
    (hxs : toks.map slib.toReal = xs.map some) (hlen : xs.length < (N * dim).toNat)
    (hrest : rest = [] ∨ ∃ t r, rest = t :: r ∧ slib.toReal t = none) :
    ∃ st1 s1, ConvexHull_keyword slib "points" st ⟨tN :: tdim :: (toks ++ rest), false⟩
      = .handled st1 s1 ∧ s1.failbit = true := by
  unfold ConvexHull_keyword
  simp only [if_true, extract_ok slib.toInt _ tN _ N hN, extract_ok slib.toInt _ tdim _ dim hdim,
    not_lt.mpr hpos, if_false]
  exact ⟨_, _, rfl, readPoints_too_few slib toks rest xs _ _ hxs hlen (resize_length _ _) hrest⟩

theorem convexHull_surplus (slib : StreamLib K) (lib : RaveLib K)
    (sortFn : List (K × Nat) → List (K × Nat)) (qhull : Nat → Nat → List K → QhullResult K)
    (tN tdim : String) (N dim : Int) (toks rest : List String) (xs : List K)
    (hN : slib.toInt tN = some N) (hdim : slib.toInt tdim = some dim) (hpos : 0 ≤ N * dim)
    (hxs : toks.map slib.toReal = xs.map some) (hlen : xs.length = (N * dim).toNat)
    (extra : String) (hextra : tolower extra ∉ ConvexHull_keywords) :
    ConvexHull slib lib sortFn qhull ⟨"points" :: tN :: tdim :: (toks ++ extra :: rest), false⟩
      = ConvexHull_work lib sortFn qhull ⟨true, true, true, dim, xs⟩ := by
  unfold ConvexHull
  have hfuel : ("points" :: tN :: tdim :: (toks ++ extra :: rest)).length
      = (toks.length + rest.length + 2) + 1 + 1 := by
    simp only [List.length_cons, List.length_append]
    omega
  simp only [hfuel]
  rw [commandLoop_handled _ _ _ _ "points" _ _
    (ConvexHull_keyword_points slib _ tN tdim N dim toks (extra :: rest) xs hN hdim hpos hxs hlen)]
  rw [commandLoop_unrecognized _ _ _ extra rest
    (ConvexHull_keyword_unrecognized slib _ _ _ hextra)]

theorem convexHull_work_triangles (lib : RaveLib K) (sortFn : List (K × Nat) → List (K × Nat))
    (hsort : IsStdSort sortFn) (qhull : Nat → Nat → List K → QhullResult K) (f p : Bool)
    (vpoints : List K) (hexit : (qhull 3 (vpoints.length / 3) vpoints).exitcode = 0)
    (hvol : (qhull 3 (vpoints.length / 3) vpoints).totvol ≠ 0)
    (hfaces : ∀ vs ∈ (qhull 3 (vpoints.length / 3) vpoints).facets.filterMap
      (fun fc => fc.vertices), 2 ≤ vs.length) :
    (ConvexHull_work lib sortFn qhull ⟨f, p, true, 3, vpoints⟩).1 = .ok true := by
  obtain ⟨tris, h1, -⟩ := trianglesLoop_faces lib sortFn hsort vpoints
    (flipPlanes 3 (vmeanOf 3 vpoints)
      (rawPlanes 3 (qhull 3 (vpoints.length / 3) vpoints).facets))
    ((qhull 3 (vpoints.length / 3) vpoints).facets.filterMap fun fc => fc.vertices) hfaces
    [((qhull 3 (vpoints.length / 3) vpoints).facets.filterMap fun fc => fc.vertices).length]
    0 []
  simp only [List.length_singleton, List.singleton_append] at h1
  have htri : ∃ r, ConvexHull_triangles lib sortFn vpoints
      (flipPlanes 3 (vmeanOf 3 vpoints)
        (rawPlanes 3 (qhull 3 (vpoints.length / 3) vpoints).facets))
      (rawFaces (qhull 3 (vpoints.length / 3) vpoints).facets) = .ok r := by
    rw [rawFaces_eq_encodeFaces]
    unfold ConvexHull_triangles encodeFaces
    rw [h1]
    exact ⟨_, rfl⟩
  obtain ⟨r, hr⟩ := htri
  have h3 : (3 : Int).toNat = 3 := rfl
  simp only [ConvexHull_work, _ComputeConvexHull, h3, hexit, hvol, Bool.or_true, if_true,
    if_false, ne_eq, not_true_eq_false, Option.getD_some, hr]
  split
  · omega
  · simp

/-- C16, the claim as stated fails: on the stream `points 4 3` followed by the
twelve coordinates of a tetrahedron and one more value, the command computes
the hull of the first twelve values, writes its sections and returns
`true`. -/
theorem C16_counterexample :
    (ConvexHull exampleStreamLib exampleLib stableSort tetrahedronKernel
      ⟨["points", "4", "3", "0", "0", "0", "3", "0", "0", "0", "4", "0", "0", "0", "1", "7"],
        false⟩).1 = .ok true := by
  have h := convexHull_surplus exampleStreamLib exampleLib stableSort tetrahedronKernel
    "4" "3" 4 3 ["0", "0", "0", "3", "0", "0", "0", "4", "0", "0", "0", "1"] []
    tetrahedronPoints rfl rfl (by decide) (by decide) (by decide) "7" (by decide)
  simp only [List.cons_append, List.nil_append] at h
  rw [h]
  exact convexHull_work_triangles exampleLib stableSort stableSort_isStdSort tetrahedronKernel
    true true tetrahedronPoints rfl (by decide) (by decide)

/-- C16, amended: take a `ConvexHull` command `points N dim v...` with
`N * dim >= 0`.  When fewer than `N * dim` values follow `N dim` (the stream
ends, or a token that is not a number comes first), the parser returns
`false`: the command fails without computing a hull or writing output.
When `N * dim` values are followed by a further token that is no keyword (a
surplus value), the parser takes it for an unrecognized keyword and stops:
the command computes the hull of the first `N * dim` values. -/
theorem C16_points_count (slib : StreamLib K) (lib : RaveLib K)
    (sortFn : List (K × Nat) → List (K × Nat)) (qhull : Nat → Nat → List K → QhullResult K)
    (tN tdim : String) (N dim : Int) (toks rest : List String) (xs : List K)
    (hN : slib.toInt tN = some N) (hdim : slib.toInt tdim = some dim) (hpos : 0 ≤ N * dim)
    (hxs : toks.map slib.toReal = xs.map some) :
    (xs.length < (N * dim).toNat →
      (rest = [] ∨ ∃ t r, rest = t :: r ∧ slib.toReal t = none) →
      (∀ fuel st, commandLoop (ConvexHull_keyword slib) (fuel + 1) st
        ⟨"points" :: tN :: tdim :: (toks ++ rest), false⟩ = .failed) ∧
      ConvexHull slib lib sortFn qhull ⟨"points" :: tN :: tdim :: (toks ++ rest), false⟩
        = (.ok false, [])) ∧
    (xs.length = (N * dim).toNat → ∀ extra, tolower extra ∉ ConvexHull_keywords →
      ConvexHull slib lib sortFn qhull
          ⟨"points" :: tN :: tdim :: (toks ++ extra :: rest), false⟩
        = ConvexHull_work lib sortFn qhull ⟨true, true, true, dim, xs⟩) := by
  constructor
  · intro hlen hrest
    have hl : ∀ fuel st, commandLoop (ConvexHull_keyword slib) (fuel + 1) st
        ⟨"points" :: tN :: tdim :: (toks ++ rest), false⟩ = .failed := by
      intro fuel st
      obtain ⟨st1, s1, hk, hf⟩ := ConvexHull_keyword_points_too_few slib st tN tdim N dim toks
        rest xs hN hdim hpos hxs hlen hrest
      exact commandLoop_handled_failed _ fuel st st1 "points" _ s1 hk hf
    refine ⟨hl, ?_⟩
    unfold ConvexHull
    simp only [List.length_cons, hl]
  · intro hlen extra hextra
    exact convexHull_surplus slib lib sortFn qhull tN tdim N dim toks rest xs hN hdim hpos hxs
      hlen extra hextra

/-- Witness for C16: `points 2 3 1 2 3 returnplanes 1` supplies three of the
six values and is rejected without output. -/
theorem C16_points_count_witness :
    ConvexHull exampleStreamLib exampleLib stableSort tetrahedronKernel
        ⟨["points", "2", "3", "1", "2", "3", "returnplanes", "1"], false⟩
      = (.ok false, []) :=
  ((C16_points_count exampleStreamLib exampleLib stableSort tetrahedronKernel "2" "3" 2 3
    ["1", "2", "3"] ["returnplanes", "1"] [1, 2, 3] rfl rfl (by decide) (by decide)).1
    (by decide) (Or.inr ⟨"returnplanes", ["1"], rfl, by decide⟩)).2

/-! ## C17: the keyword `returntriangles` -/

theorem squareKernel_hull_faces :
    _ComputeConvexHull squareKernel squarePoints true 2
      = .ok (4, [-1, 0, 3, 1, 0, 1, 0, 1, -1, 0, -1, -1], some [0]) := by
  have hm : vmeanOf 2 squarePoints = [-2, 0] := by
    simp [vmeanOf, squarePoints, forCount, List.range_succ]
    norm_num
  simp [_ComputeConvexHull, squareKernel, rawPlanes, rawFaces, hm, List.range_succ]
  simp [flipPlanes, flipBlock, meandistOf, List.range_succ]
  norm_num

/-- C17, the code at the failing input: the keyword `returntriangles 0`
clears the flag `bReturnFaces` and leaves `bReturnTriangles` set, so on the
four corners of a square in dimension 2 the command writes the planes
section only (the count 4 and twelve reals), then finds `dim != 3` and
returns `false`. -/
theorem C17_returntriangles_sets_faces_flag :
    (∀ (st : ConvexHullOptions ℚ) (rest : List String),
      ConvexHull_keyword exampleStreamLib "returntriangles" st ⟨"0" :: rest, false⟩
        = .handled { st with bReturnFaces := false } ⟨rest, false⟩) ∧
    ConvexHull exampleStreamLib exampleLib stableSort squareKernel
        ⟨["points", "4", "2", "-3", "-1", "-1", "-1", "-1", "1", "-3", "1",
          "returntriangles", "0"], false⟩
      = (.ok false,
          [Out.int 4, Out.real (-1), Out.real 0, Out.real 3, Out.real 1, Out.real 0,
            Out.real 1, Out.real 0, Out.real 1, Out.real (-1), Out.real 0, Out.real (-1),
            Out.real (-1)]) := by
  constructor
  · intro st rest
    rfl
  · have hparse : commandLoop (ConvexHull_keyword exampleStreamLib) 13 ⟨true, true, true, 0, []⟩
        ⟨["points", "4", "2", "-3", "-1", "-1", "-1", "-1", "1", "-3", "1",
          "returntriangles", "0"], false⟩ = .parsed ⟨false, true, true, 2, squarePoints⟩ := by
      rfl
    unfold ConvexHull
    simp only [List.length_cons, List.length_nil]
    rw [hparse]
    simp [ConvexHull_work, squareKernel_hull_faces]

/-! ## C29: an empty plane list -/

/-- C29: when the hull service returns an empty plane list for at least
seven contacts, the facet loop of `_AnalyzeContacts3D` runs no iteration and
the analysis carries the initial value `1e30` of the running minimum, a
positive number, as `mindist`. -/
theorem C29_empty_plane_list (qhull : Nat → Nat → List K → QhullResult K)
    (contacts : List (CONTACT K)) (V : K) (faces : Option (List Nat))
    (hn : 7 ≤ contacts.length)
    (hhull : _ComputeConvexHull qhull (wrenchPoints contacts) false 6 = .ok (V, [], faces)) :
    _AnalyzeContacts3D qhull contacts = .ok ⟨10 ^ 30, V⟩ ∧ (0 : K) < 10 ^ 30 := by
  have hlen : ¬ contacts.length < 7 := by omega
  have hloop : mindistLoop ([] : List K) 0 (10 ^ 30) = .ok (some (10 ^ 30)) := by
    rw [mindistLoop]
    simp
  refine ⟨?_, by positivity⟩
  simp only [_AnalyzeContacts3D, hlen, if_false, hhull, hloop]

/-- Witness for C29: seven contacts and a kernel that reports no facet. -/
theorem C29_empty_plane_list_witness :
    _AnalyzeContacts3D emptyKernel exampleContacts = .ok ⟨10 ^ 30, 0⟩ ∧ (0 : ℚ) < 10 ^ 30 :=
  C29_empty_plane_list emptyKernel exampleContacts 0 none (by simp [exampleContacts])
    (by simp [_ComputeConvexHull, emptyKernel, rawPlanes, flipPlanes])

/-! ## C23: the cone discretization -/

theorem vsincos_eq_map (lib : RaveLib K) (N : Nat) :
    vsincos lib N = (List.range N).map fun (k : Nat) =>
      (lib.RaveSin (2 * lib.PI * (k : K) / (N : K)), lib.RaveCos (2 * lib.PI * (k : K) / (N : K))) := by
  unfold vsincos
  have h : ∀ n : Nat,
      (List.range n).foldl
        (fun (st : List (K × K) × K) _ =>
          (st.1 ++ [(lib.RaveSin st.2, lib.RaveCos st.2)], st.2 + 2 * lib.PI / (N : K)))
        ([], 0)
      = ((List.range n).map fun (k : Nat) =>
          (lib.RaveSin (2 * lib.PI * (k : K) / (N : K)),
            lib.RaveCos (2 * lib.PI * (k : K) / (N : K))),
        (n : K) * (2 * lib.PI / (N : K))) := by
    intro n
    induction n with
    | zero => simp
    | succ n ih =>
      rw [List.range_succ, List.foldl_append, ih]
      simp only [List.foldl_cons, List.foldl_nil, List.map_append, List.map_cons, List.map_nil,
        Prod.mk.injEq]
      refine ⟨?_, ?_⟩
      · have : (n : K) * (2 * lib.PI / (N : K)) = 2 * lib.PI * (n : K) / (N : K) := by ring
        rw [this]
      · push_cast
        ring
  simp only [h N]

theorem newcontacts_eq_flatMap (lib : RaveLib K) (contacts : List (CONTACT K)) (mu : K)
    (N : Nat) :
    newcontacts lib contacts mu N
      = contacts.flatMap fun c => (List.range N).map (coneContact lib mu N c) := by
  unfold newcontacts
  rw [vsincos_eq_map]
  have h : ∀ (l acc : List (CONTACT K)),
      l.foldl
        (fun acc c =>
          let torient := lib.matrixFromQuat (lib.quatRotateDirection ⟨0, 0, 1⟩ c.norm)
          let right : Vec3 K := ⟨torient.getD 0 0, torient.getD 4 0, torient.getD 8 0⟩
          let up : Vec3 K := ⟨torient.getD 1 0, torient.getD 5 0, torient.getD 9 0⟩
          acc ++ ((List.range N).map fun (k : Nat) =>
            (lib.RaveSin (2 * lib.PI * (k : K) / (N : K)),
              lib.RaveCos (2 * lib.PI * (k : K) / (N : K)))).map fun sc =>
            ⟨c.pos,
             Vec3.normalize3 lib.RaveSqrt
               ((c.norm.add (Vec3.smul (mu * sc.1) right)).add (Vec3.smul (mu * sc.2) up)),
             0⟩)
        acc
      = acc ++ l.flatMap fun c => (List.range N).map (coneContact lib mu N c) := by
    intro l
    induction l with
    | nil => intro acc; simp
    | cons c l ih =>
      intro acc
      rw [List.foldl_cons, ih, List.flatMap_cons, ← List.append_assoc]
      simp only [List.map_map]
      rfl
  simpa using h contacts []

theorem flatMap_block_getElem? {α β : Type} (f : α → List β) (N : Nat)
    (hf : ∀ a, (f a).length = N) :
    ∀ (l : List α) (i k : Nat) (hi : i < l.length), k < N →
      (l.flatMap f)[i * N + k]? = (f l[i])[k]? := by
  intro l
  induction l with
  | nil => intro i k hi; simp at hi
  | cons a l ih =>
    intro i k hi hk
    rw [List.flatMap_cons]
    cases i with
    | zero =>
      simp only [Nat.zero_mul, Nat.zero_add, List.getElem_cons_zero]
      rw [List.getElem?_append_left (by rw [hf]; exact hk)]
    | succ i =>
      have hge : (f a).length ≤ (i + 1) * N + k := by
        rw [hf, Nat.succ_mul]
        omega
      rw [List.getElem?_append_right hge, hf]
      have hidx : (i + 1) * N + k - N = i * N + k := by
        rw [Nat.succ_mul]
        omega
      rw [hidx, List.getElem_cons_succ]
      exact ih i k (by simpa using hi) hk

/-- C23: for every contact list of length `n`, every `mu` and every cone
size `N`, the cone discretization yields `n * N` contacts grouped in input
order, the `k`-th contact of group `i` having the position of contact `i`,
depth 0 and the normal
`normalize(n_i + mu sin(phi_k) right_i + mu cos(phi_k) up_i)` with
`phi_k = 2 PI k / N`; for `mu != 0` the analysis runs on this list and for
`mu == 0` on the contact list itself. -/
theorem C23_cone_discretization (lib : RaveLib K) (qhull : Nat → Nat → List K → QhullResult K)
    (contacts : List (CONTACT K)) (mu : K) (N : Nat) :
    (newcontacts lib contacts mu N).length = contacts.length * N ∧
    (∀ (i k : Nat) (hi : i < contacts.length), k < N →
      (newcontacts lib contacts mu N)[i * N + k]? = some (coneContact lib mu N contacts[i] k)) ∧
    (∀ (i k : Nat) (hi : i < contacts.length), k < N →
      (coneContact lib mu N contacts[i] k).pos = contacts[i].pos ∧
      (coneContact lib mu N contacts[i] k).depth = 0 ∧
      (coneContact lib mu N contacts[i] k).norm
        = Vec3.normalize3 lib.RaveSqrt
            ((contacts[i].norm.add
              (Vec3.smul (mu * lib.RaveSin (2 * lib.PI * (k : K) / (N : K)))
                (coneRight lib contacts[i]))).add
              (Vec3.smul (mu * lib.RaveCos (2 * lib.PI * (k : K) / (N : K)))
                (coneUp lib contacts[i])))) ∧
    (mu ≠ 0 → _AnalyzeContacts3D_mu lib qhull contacts mu N
      = _AnalyzeContacts3D qhull (newcontacts lib contacts mu N)) ∧
    (mu = 0 → _AnalyzeContacts3D_mu lib qhull contacts mu N
      = _AnalyzeContacts3D qhull contacts) := by
  refine ⟨newcontacts_length lib contacts mu N, ?_, ?_, ?_, ?_⟩
  · intro i k hi hk
    rw [newcontacts_eq_flatMap,
      flatMap_block_getElem? _ N (fun a => by simp) contacts i k hi hk]
    simp [hk]
  · intro i k hi hk
    exact ⟨rfl, rfl, rfl⟩
  · intro h
    unfold _AnalyzeContacts3D_mu
    rw [if_neg h]
  · intro h
    unfold _AnalyzeContacts3D_mu
    rw [if_pos h]

/-- Witness for C23: one contact, `mu = 1/2` and eight cone points give eight
contacts, analysed in place of the input. -/
theorem C23_cone_discretization_witness :
    (newcontacts exampleLib [⟨⟨0, 0, 0⟩, ⟨0, 0, 1⟩, 0⟩] (1 / 2) 8).length = 1 * 8 ∧
    _AnalyzeContacts3D_mu exampleLib emptyKernel [⟨⟨0, 0, 0⟩, ⟨0, 0, 1⟩, 0⟩] (1 / 2) 8
      = _AnalyzeContacts3D emptyKernel
          (newcontacts exampleLib [⟨⟨0, 0, 0⟩, ⟨0, 0, 1⟩, 0⟩] (1 / 2) 8) :=
  ⟨(C23_cone_discretization exampleLib emptyKernel [⟨⟨0, 0, 0⟩, ⟨0, 0, 1⟩, 0⟩] (1 / 2) 8).1,
    (C23_cone_discretization exampleLib emptyKernel [⟨⟨0, 0, 0⟩, ⟨0, 0, 1⟩, 0⟩] (1 / 2)
      8).2.2.2.1 (by norm_num)⟩

/-! ## C26: the wrench point cloud -/

theorem eq_zero_of_sq_add_sq_add_sq (a b c : K) (h : a * a + b * b + c * c = 0) :
    a = 0 ∧ b = 0 ∧ c = 0 := by
  have ha := mul_self_nonneg a
  have hb := mul_self_nonneg b
  have hc := mul_self_nonneg c
  refine ⟨?_, ?_, ?_⟩
  · exact mul_self_eq_zero.mp (le_antisymm (by linarith) ha)
  · exact mul_self_eq_zero.mp (le_antisymm (by linarith) hb)
  · exact mul_self_eq_zero.mp (le_antisymm (by linarith) hc)

theorem cross_eq_of_orthonormal (a b c : Vec3 K) (hb : b.dot3 b = 1) (hc : c.dot3 c = 1)
    (ha : a.dot3 a = 1) (hbc : b.dot3 c = 0) (hdet : det3 a b c = 1) : b.cross c = a := by
  have hsq : ((b.cross c).x - a.x) * ((b.cross c).x - a.x)
      + ((b.cross c).y - a.y) * ((b.cross c).y - a.y)
      + ((b.cross c).z - a.z) * ((b.cross c).z - a.z) = 0 := by
    simp only [Vec3.cross, Vec3.dot3, det3] at *
    linear_combination (c.x * c.x + c.y * c.y + c.z * c.z) * hb + hc
      - (b.x * c.x + b.y * c.y + b.z * c.z) * hbc - 2 * hdet + ha
  obtain ⟨hx, hy, hz⟩ := eq_zero_of_sq_add_sq_add_sq _ _ _ hsq
  cases a
  simp only [Vec3.cross] at hx hy hz ⊢
  congr 1 <;> linarith

theorem rotation_cross (R : Mat3 K) (hR : IsRotation R) (a b : Vec3 K) :
    (R.mulVec a).cross (R.mulVec b) = R.mulVec (a.cross b) := by
  obtain ⟨h11, h22, h33, h12, h13, h23, hdet⟩ := hR
  have e1 : R.r2.cross R.r3 = R.r1 := cross_eq_of_orthonormal _ _ _ h22 h33 h11 h23 hdet
  have e2 : R.r3.cross R.r1 = R.r2 :=
    cross_eq_of_orthonormal _ _ _ h33 h11 h22
      (by simp only [Vec3.dot3] at h13 ⊢; linarith)
      (by simp only [det3, Vec3.dot3, Vec3.cross] at hdet ⊢; linarith)
  have e3 : R.r1.cross R.r2 = R.r3 :=
    cross_eq_of_orthonormal _ _ _ h11 h22 h33 h12
      (by simp only [det3, Vec3.dot3, Vec3.cross] at hdet ⊢; linarith)
  have k1 : (R.r2.dot3 a) * (R.r3.dot3 b) - (R.r3.dot3 a) * (R.r2.dot3 b)
      = (R.r2.cross R.r3).dot3 (a.cross b) := by
    simp only [Vec3.dot3, Vec3.cross]; ring
  have k2 : (R.r3.dot3 a) * (R.r1.dot3 b) - (R.r1.dot3 a) * (R.r3.dot3 b)
      = (R.r3.cross R.r1).dot3 (a.cross b) := by
    simp only [Vec3.dot3, Vec3.cross]; ring
  have k3 : (R.r1.dot3 a) * (R.r2.dot3 b) - (R.r2.dot3 a) * (R.r1.dot3 b)
      = (R.r1.cross R.r2).dot3 (a.cross b) := by
    simp only [Vec3.dot3, Vec3.cross]; ring
  rw [e1] at k1
  rw [e2] at k2
  rw [e3] at k3
  unfold Mat3.mulVec
  rw [Vec3.cross]
  simp only [k1, k2, k3]

theorem wrenchBlock_rotate (R : Mat3 K) (hR : IsRotation R) (c : CONTACT K) :
    wrenchBlock (rotateContact R c)
      = [(R.mulVec c.norm).x, (R.mulVec c.norm).y, (R.mulVec c.norm).z,
          (R.mulVec (c.pos.cross c.norm)).x, (R.mulVec (c.pos.cross c.norm)).y,
          (R.mulVec (c.pos.cross c.norm)).z] := by
  unfold wrenchBlock rotateContact
  simp only [rotation_cross R hR]

theorem analyzeContacts3D_congr (qhull qhull2 : Nat → Nat → List K → QhullResult K)
    (contacts : List (CONTACT K))
    (h : qhull 6 contacts.length (wrenchPoints contacts)
      = qhull2 6 contacts.length (wrenchPoints contacts)) :
    _AnalyzeContacts3D qhull contacts = _AnalyzeContacts3D qhull2 contacts := by
  unfold _AnalyzeContacts3D _ComputeConvexHull
  rw [wrenchPoints_length, Nat.mul_div_cancel_left _ (by norm_num : 0 < 6), h]

/-- C26: for every list of `N ≥ 7` contacts, the point cloud of
`_AnalyzeContacts3D` has `6 N` reals, it is handed to the hull kernel as `N`
points of dimension 6 (the analysis depends on the kernel only through its
answer on these arguments), and its `i`-th block of six is
`(norm_i, pos_i x norm_i)`.  The map is equivariant under rotation: when a
rotation `R` is applied to every position and normal, block `i` becomes
`(R norm_i, R (pos_i x norm_i))`. -/
theorem C26_wrench_points (qhull qhull2 : Nat → Nat → List K → QhullResult K)
    (contacts : List (CONTACT K)) (R : Mat3 K) (hN : 7 ≤ contacts.length)
    (hR : IsRotation R) :
    (wrenchPoints contacts).length = 6 * contacts.length ∧
    (qhull 6 contacts.length (wrenchPoints contacts)
        = qhull2 6 contacts.length (wrenchPoints contacts) →
      _AnalyzeContacts3D qhull contacts = _AnalyzeContacts3D qhull2 contacts) ∧
    (∀ (i : Nat) (hi : i < contacts.length),
      ((List.range 6).map fun j => (wrenchPoints contacts).getD (6 * i + j) 0)
        = [contacts[i].norm.x, contacts[i].norm.y, contacts[i].norm.z,
            (contacts[i].pos.cross contacts[i].norm).x,
            (contacts[i].pos.cross contacts[i].norm).y,
            (contacts[i].pos.cross contacts[i].norm).z]) ∧
    (∀ (i : Nat) (hi : i < contacts.length),
      ((List.range 6).map fun j =>
          (wrenchPoints (contacts.map (rotateContact R))).getD (6 * i + j) 0)
        = [(R.mulVec contacts[i].norm).x, (R.mulVec contacts[i].norm).y,
            (R.mulVec contacts[i].norm).z,
            (R.mulVec (contacts[i].pos.cross contacts[i].norm)).x,
            (R.mulVec (contacts[i].pos.cross contacts[i].norm)).y,
            (R.mulVec (contacts[i].pos.cross contacts[i].norm)).z]) := by
  have _h7 := hN
  refine ⟨wrenchPoints_length contacts, analyzeContacts3D_congr qhull qhull2 contacts, ?_, ?_⟩
  · intro i hi
    simp only [List.range_succ, List.range_zero, List.nil_append, List.cons_append,
      List.map_cons, List.map_nil, Nat.add_zero]
    rw [← Nat.add_zero (6 * i), wrenchPoints_getD contacts i hi 0 (by norm_num),
      wrenchPoints_getD contacts i hi 1 (by norm_num),
      wrenchPoints_getD contacts i hi 2 (by norm_num),
      wrenchPoints_getD contacts i hi 3 (by norm_num),
      wrenchPoints_getD contacts i hi 4 (by norm_num),
      wrenchPoints_getD contacts i hi 5 (by norm_num)]
    rfl
  · intro i hi
    have hi2 : i < (contacts.map (rotateContact R)).length := by simpa using hi
    simp only [List.range_succ, List.range_zero, List.nil_append, List.cons_append,
      List.map_cons, List.map_nil, Nat.add_zero]
    rw [← Nat.add_zero (6 * i), wrenchPoints_getD _ i hi2 0 (by norm_num),
      wrenchPoints_getD _ i hi2 1 (by norm_num),
      wrenchPoints_getD _ i hi2 2 (by norm_num),
      wrenchPoints_getD _ i hi2 3 (by norm_num),
      wrenchPoints_getD _ i hi2 4 (by norm_num),
      wrenchPoints_getD _ i hi2 5 (by norm_num)]
    simp only [List.getElem_map, wrenchBlock_rotate R hR]
    rfl

/-- Witness for C26: seven contacts and the quarter turn about the z-axis. -/
theorem C26_wrench_points_witness :
    7 ≤ exampleContacts.length ∧ IsRotation quarterTurn ∧
    (wrenchPoints exampleContacts).length = 6 * exampleContacts.length :=
  ⟨by simp [exampleContacts], by simp [IsRotation, quarterTurn, Vec3.dot3, det3, Vec3.cross],
    (C26_wrench_points emptyKernel emptyKernel exampleContacts quarterTurn
      (by simp [exampleContacts])
      (by simp [IsRotation, quarterTurn, Vec3.dot3, det3, Vec3.cross])).1⟩

/-! ## C30: the local frame of the distance map -/

theorem frameRight_lengthsqr3 (n : Vec3 K) (hn : n.lengthsqr3 = 1) :
    (frameRight n).lengthsqr3
      = (frameSeed n).lengthsqr3 - (frameSeed n).dot3 n * (frameSeed n).dot3 n := by
  simp only [frameRight, Vec3.lengthsqr3, Vec3.sub, Vec3.smul, Vec3.dot3] at *
  linear_combination ((frameSeed n).x * n.x + (frameSeed n).y * n.y + (frameSeed n).z * n.z)
    * ((frameSeed n).x * n.x + (frameSeed n).y * n.y + (frameSeed n).z * n.z) * hn

theorem frameRight_pos (n : Vec3 K) (hn : n.lengthsqr3 = 1) : 0 < (frameRight n).lengthsqr3 := by
  rw [frameRight_lengthsqr3 n hn]
  have hy := mul_self_nonneg n.y
  have hz := mul_self_nonneg n.z
  have hx := mul_self_nonneg n.x
  simp only [Vec3.lengthsqr3] at hn
  unfold frameSeed
  split
  · rename_i h
    simp only [Vec3.lengthsqr3, Vec3.dot3]
    have hxx : 81 / 100 < n.x * n.x := by
      have := abs_mul_abs_self n.x
      nlinarith [abs_nonneg n.x]
    have hne : 0 < (n.x - n.y) * (n.x - n.y) := by
      have hyy : n.y * n.y < 19 / 100 := by linarith
      have : n.x - n.y ≠ 0 := by
        intro h0
        have : n.x = n.y := by linarith
        rw [this] at hxx
        linarith
      exact mul_self_pos.mpr this
    nlinarith
  · rename_i h
    simp only [Vec3.lengthsqr3, Vec3.dot3]
    have hle : |n.x| ≤ 9 / 10 := not_lt.mp h
    have hxx : n.x * n.x ≤ 81 / 100 := by
      have := abs_mul_abs_self n.x
      nlinarith [abs_nonneg n.x]
    nlinarith

theorem frameRight_dot (n : Vec3 K) (hn : n.lengthsqr3 = 1) : (frameRight n).dot3 n = 0 := by
  simp only [frameRight, Vec3.lengthsqr3, Vec3.sub, Vec3.smul, Vec3.dot3] at *
  linear_combination (-((frameSeed n).x * n.x + (frameSeed n).y * n.y + (frameSeed n).z * n.z))
    * hn

theorem normalize3_lengthsqr3 (sqrt : K → K) (v : Vec3 K) (hv : 0 < v.lengthsqr3)
    (hs : 0 < sqrt v.lengthsqr3 ∧ sqrt v.lengthsqr3 * sqrt v.lengthsqr3 = v.lengthsqr3) :
    (Vec3.normalize3 sqrt v).lengthsqr3 = 1 := by
  obtain ⟨hpos, hsq⟩ := hs
  have hne : sqrt v.lengthsqr3 ≠ 0 := ne_of_gt hpos
  have h : (Vec3.normalize3 sqrt v).lengthsqr3
      = v.lengthsqr3 / (sqrt v.lengthsqr3 * sqrt v.lengthsqr3) := by
    simp only [Vec3.normalize3, Vec3.smul, Vec3.lengthsqr3]
    field_simp
  rw [h, hsq]
  exact div_self (ne_of_gt hv)

/-- C30: for every unit contact normal `n` the seed vector of the local
frame has a non-zero component orthogonal to `n`, so `normalize3` divides by
a non-zero length; the resulting `vright` is a unit vector orthogonal to `n`,
and `(vright, vup = n x vright, n)` is a right-handed orthonormal frame.
The square root is any routine that returns the positive root of a positive
number. -/
theorem C30_distance_map_frame (lib : RaveLib K) (n : Vec3 K) (hn : n.lengthsqr3 = 1)
    (hsqrt : ∀ x, 0 < x → 0 < lib.RaveSqrt x ∧ lib.RaveSqrt x * lib.RaveSqrt x = x) :
    0 < (frameRight n).lengthsqr3 ∧
    lib.RaveSqrt (frameRight n).lengthsqr3 ≠ 0 ∧
    (distanceMapFrame lib n).1.lengthsqr3 = 1 ∧
    (distanceMapFrame lib n).1.dot3 n = 0 ∧
    (distanceMapFrame lib n).2.lengthsqr3 = 1 ∧
    (distanceMapFrame lib n).2.dot3 n = 0 ∧
    (distanceMapFrame lib n).1.dot3 (distanceMapFrame lib n).2 = 0 ∧
    (distanceMapFrame lib n).1.cross (distanceMapFrame lib n).2 = n := by
  have hpos := frameRight_pos n hn
  have hs := hsqrt _ hpos
  have hunit := normalize3_lengthsqr3 lib.RaveSqrt (frameRight n) hpos hs
  have hdot : (Vec3.normalize3 lib.RaveSqrt (frameRight n)).dot3 n = 0 := by
    have h := frameRight_dot n hn
    simp only [Vec3.normalize3, Vec3.smul, Vec3.dot3] at h ⊢
    linear_combination (1 / lib.RaveSqrt (frameRight n).lengthsqr3) * h
  simp only [distanceMapFrame]
  generalize Vec3.normalize3 lib.RaveSqrt (frameRight n) = r at hunit hdot
  refine ⟨hpos, ne_of_gt hs.1, hunit, hdot, ?_, ?_, ?_, ?_⟩
  · rw [Vec3.lagrange]
    have hd : n.dot3 r = 0 := by
      simp only [Vec3.dot3] at hdot ⊢
      linarith
    rw [hn, hunit, hd]
    ring
  · simp only [Vec3.dot3, Vec3.cross]
    ring
  · simp only [Vec3.dot3, Vec3.cross]
    ring
  · obtain ⟨nx, ny, nz⟩ := n
    obtain ⟨rx, ry, rz⟩ := r
    simp only [Vec3.lengthsqr3, Vec3.dot3, Vec3.cross] at hn hunit hdot ⊢
    congr 1
    · linear_combination nx * hunit - rx * hdot
    · linear_combination ny * hunit - ry * hdot
    · linear_combination nz * hunit - rz * hdot

/-- Witness for C30: the normal `(0,0,1)` with the real square root. -/
theorem C30_distance_map_frame_witness :
    (⟨0, 0, 1⟩ : Vec3 ℝ).lengthsqr3 = 1 ∧
    (distanceMapFrame realLib ⟨0, 0, 1⟩).1.lengthsqr3 = 1 ∧
    (distanceMapFrame realLib ⟨0, 0, 1⟩).1.cross (distanceMapFrame realLib ⟨0, 0, 1⟩).2
      = ⟨0, 0, 1⟩ := by
  have h := C30_distance_map_frame realLib ⟨0, 0, 1⟩ (by simp [Vec3.lengthsqr3])
    (fun x hx => ⟨Real.sqrt_pos.mpr hx, Real.mul_self_sqrt (le_of_lt hx)⟩)
  exact ⟨by simp [Vec3.lengthsqr3], h.2.2.1, h.2.2.2.2.2.2.2⟩

/-! ## C21: the distance map -/

theorem sampleLoop_eq_foldl (lib : RaveLib K) (CheckCollision : RAY K → Option K)
    (rand : Nat → K) (fCosTheta : K) (c : CONTACT K) (vright vup : Vec3 K) (start : Nat) :
    ∀ n, sampleLoop lib CheckCollision rand fCosTheta c vright vup start n
      = (((List.range n).map fun j =>
          coneSample lib fCosTheta c vright vup (rand (start + 2 * j))
            (rand (start + 2 * j + 1))).filterMap CheckCollision).foldl min 2 := by
  intro n
  induction n with
  | zero => simp [sampleLoop]
  | succ n ih =>
    rw [sampleLoop, ih, List.range_succ, List.map_append, List.filterMap_append,
      List.foldl_append]
    simp only [List.map_cons, List.map_nil]
    cases hd : CheckCollision (coneSample lib fCosTheta c vright vup (rand (start + 2 * n))
        (rand (start + 2 * n + 1))) with
    | none => simp [hd]
    | some d =>
      simp only [List.filterMap_cons, hd, List.filterMap_nil, List.foldl_cons, List.foldl_nil]
      split
      · rename_i hlt
        exact (min_eq_right (le_of_lt hlt)).symm
      · rename_i hlt
        exact (min_eq_left (not_lt.mp hlt)).symm

theorem foldl_min_bounds (ds : List K) (hds : ∀ d ∈ ds, 0 ≤ d) :
    ∀ m : K, 0 ≤ m → 0 ≤ ds.foldl min m ∧ ds.foldl min m ≤ m := by
  induction ds with
  | nil => intro m hm; exact ⟨hm, le_refl _⟩
  | cons d ds ih =>
    intro m hm
    rw [List.foldl_cons]
    have hd := hds d (List.mem_cons_self _ _)
    obtain ⟨h1, h2⟩ := ih (fun x hx => hds x (List.mem_cons_of_mem _ hx)) (min m d)
      (le_min hm hd)
    exact ⟨h1, le_trans h2 (min_le_left _ _)⟩

theorem castInt_of_fits (z : Int) (h1 : -2 ^ 31 ≤ z) (h2 : z < 2 ^ 31) : castInt z = z := by
  unfold castInt
  rw [if_pos ⟨h1, h2⟩]

theorem castInt_of_large (z : Int) (h : 2 ^ 31 ≤ z) : castInt z = -2 ^ 31 := by
  unfold castInt
  rw [if_neg]
  intro hz
  omega

theorem distanceMapSamples_pos [FloorRing K] (lib : RaveLib K) (fTheta : K)
    (hPI : 0 < lib.PI)
    (hfit : fTheta < 1 / 100 ∨ ⌈fTheta * (64 / (lib.PI / 12))⌉ < 2 ^ 31) :
    1 ≤ distanceMapSamples lib fTheta := by
  unfold distanceMapSamples
  split
  · exact le_refl _
  · rename_i h
    have ht : 0 < fTheta := lt_of_lt_of_le (by norm_num) (not_lt.mp h)
    have h1 : 1 ≤ ⌈fTheta * (64 / (lib.PI / 12))⌉ := by
      rw [Int.one_le_ceil_iff]
      positivity
    rcases hfit with hfit | hfit
    · exact absurd hfit h
    · rw [castInt_of_fits _ (by omega) hfit]
      exact h1

theorem distanceMapSamples_large [FloorRing K] (lib : RaveLib K) (fTheta : K)
    (hth : ¬ fTheta < 1 / 100) (hbig : 2 ^ 31 ≤ ⌈fTheta * (64 / (lib.PI / 12))⌉) :
    distanceMapSamples lib fTheta = -2 ^ 31 := by
  unfold distanceMapSamples
  rw [if_neg hth, castInt_of_large _ hbig]

/-- C21, the claim as stated fails: for the half-angle `1e7`, with the
mathematical `PI`, the value `ceil(fTheta * (64/(PI/12)))` is at least `2^31`
and does not fit the `int` `N`; `N` is `-2^31`, the loop `j < N` samples no
ray, and the depth of a contact is 2 whatever the rays would hit. -/
theorem C21_counterexample :
    distanceMapSamples realLib (10 ^ 7) = -2 ^ 31 ∧
    ¬ 1 ≤ distanceMapSamples realLib (10 ^ 7) ∧
    ∀ (CheckCollision : RAY ℝ → Option ℝ) (rand : Nat → ℝ) (c : CONTACT ℝ),
      distanceMapRays realLib rand (10 ^ 7) 0 c = [] ∧
      _ComputeDistanceMap realLib CheckCollision rand [c] (10 ^ 7) = [{ c with depth := 2 }] := by
  have hN : distanceMapSamples realLib (10 ^ 7) = -2 ^ 31 := by
    apply distanceMapSamples_large
    · norm_num
    · have h : (2 ^ 31 - 1 : Int) < ⌈(10 ^ 7 : ℝ) * (64 / (realLib.PI / 12))⌉ := by
        rw [Int.lt_ceil]
        have hpi : realLib.PI < 3.15 := Real.pi_lt_d2
        have hpos : 0 < realLib.PI := Real.pi_pos
        have hx : (10 ^ 7 : ℝ) * (64 / (realLib.PI / 12)) = 7680000000 / realLib.PI := by
          field_simp
          ring
        rw [hx, lt_div_iff₀ hpos]
        push_cast
        nlinarith
      omega
  refine ⟨hN, by rw [hN]; norm_num, ?_⟩
  intro CheckCollision rand c
  refine ⟨by simp [distanceMapRays, hN], ?_⟩
  simp [_ComputeDistanceMap, hN, List.enum, List.enumFrom, sampleLoop]

/-- C21 (as amended): for every contact list, cone half-angle and ray oracle
that reports non-negative minimum distances, `_ComputeDistanceMap` keeps the
number, the positions and the normals of the contacts and sets the depth of
each contact to the minimum of 2 and of the distances of its sampled rays
that hit; so every depth lies in `[0, 2]` and is 2 when no sampled ray hits.
The number of rays per contact is `N ≥ 1` when `fTheta < 0.01` or
`ceil(fTheta * (64/(PI/12)))` is below `2^31`; for a larger `fTheta` the
value does not fit the `int`, `N` is `-2^31` and no ray is sampled. -/
theorem C21_distance_map [FloorRing K] (lib : RaveLib K) (CheckCollision : RAY K → Option K)
    (rand : Nat → K) (vpoints : List (CONTACT K)) (fTheta : K)
    (hdist : ∀ r d, CheckCollision r = some d → 0 ≤ d) (hPI : 0 < lib.PI) :
    (_ComputeDistanceMap lib CheckCollision rand vpoints fTheta).length = vpoints.length ∧
    (fTheta < 1 / 100 ∨ ⌈fTheta * (64 / (lib.PI / 12))⌉ < 2 ^ 31 →
      1 ≤ distanceMapSamples lib fTheta) ∧
    (¬ fTheta < 1 / 100 → 2 ^ 31 ≤ ⌈fTheta * (64 / (lib.PI / 12))⌉ →
      distanceMapSamples lib fTheta = -2 ^ 31 ∧
      ∀ (i : Nat) (c : CONTACT K), distanceMapRays lib rand fTheta i c = []) ∧
    ∀ (i : Nat) (hi : i < vpoints.length),
      (distanceMapRays lib rand fTheta i vpoints[i]).length
        = (distanceMapSamples lib fTheta).toNat ∧
      ∃ c, (_ComputeDistanceMap lib CheckCollision rand vpoints fTheta)[i]? = some c ∧
        c.pos = vpoints[i].pos ∧ c.norm = vpoints[i].norm ∧
        c.depth = ((distanceMapRays lib rand fTheta i vpoints[i]).filterMap
          CheckCollision).foldl min 2 ∧
        0 ≤ c.depth ∧ c.depth ≤ 2 ∧
        ((∀ r ∈ distanceMapRays lib rand fTheta i vpoints[i], CheckCollision r = none) →
          c.depth = 2) := by
  refine ⟨by simp [_ComputeDistanceMap], distanceMapSamples_pos lib fTheta hPI, ?_, ?_⟩
  · intro hth hbig
    have hN := distanceMapSamples_large lib fTheta hth hbig
    refine ⟨hN, fun i c => ?_⟩
    simp [distanceMapRays, hN]
  intro i hi
  refine ⟨by simp [distanceMapRays], ?_⟩
  have hget : (_ComputeDistanceMap lib CheckCollision rand vpoints fTheta)[i]?
      = some { vpoints[i] with
          depth := sampleLoop lib CheckCollision rand (lib.RaveCos fTheta) vpoints[i]
            (distanceMapFrame lib vpoints[i].norm).1 (distanceMapFrame lib vpoints[i].norm).2
            (2 * (distanceMapSamples lib fTheta).toNat * i)
            (distanceMapSamples lib fTheta).toNat } := by
    simp [_ComputeDistanceMap, List.getElem?_enum, hi]
  refine ⟨_, hget, rfl, rfl, ?_⟩
  simp only
  rw [sampleLoop_eq_foldl]
  have hds : ∀ d ∈ (distanceMapRays lib rand fTheta i vpoints[i]).filterMap CheckCollision,
      0 ≤ d := by
    intro d hd
    rw [List.mem_filterMap] at hd
    obtain ⟨r, -, hr⟩ := hd
    exact hdist r d hr
  obtain ⟨h0, h2⟩ := foldl_min_bounds _ hds 2 (by norm_num)
  refine ⟨rfl, h0, h2, ?_⟩
  intro hnone
  have hnil : (distanceMapRays lib rand fTheta i vpoints[i]).filterMap CheckCollision = [] := by
    rw [List.filterMap_eq_nil_iff]
    exact hnone
  have hnil2 := hnil
  unfold distanceMapRays at hnil2
  rw [hnil2]
  rfl

/-- Witness for C21: one contact, the half-angle `1/2`, the constant `3` for
`PI` and an oracle in which every ray hits at the distance `1/2`; the value
`ceil(128) = 128` fits the `int`. -/
theorem C21_distance_map_witness :
    (_ComputeDistanceMap exampleLib exampleRayOracle (fun _ => 0) [⟨⟨0, 0, 0⟩, ⟨0, 0, 1⟩, 0⟩]
      (1 / 2)).length = 1 ∧
    1 ≤ distanceMapSamples exampleLib (1 / 2 : ℚ) :=
  ⟨(C21_distance_map exampleLib exampleRayOracle (fun _ => 0) [⟨⟨0, 0, 0⟩, ⟨0, 0, 1⟩, 0⟩]
      (1 / 2) (by intro r d h; simp [exampleRayOracle] at h; rw [← h]; norm_num)
      (by simp [exampleLib])).1,
    (C21_distance_map exampleLib exampleRayOracle (fun _ => 0) [⟨⟨0, 0, 0⟩, ⟨0, 0, 1⟩, 0⟩]
      (1 / 2) (by intro r d h; simp [exampleRayOracle] at h; rw [← h]; norm_num)
      (by simp [exampleLib])).2.1
      (Or.inr (by
        have h : ⌈(1 / 2 : ℚ) * (64 / (exampleLib.PI / 12))⌉ ≤ 128 := by
          rw [Int.ceil_le]
          simp [exampleLib]
          norm_num
        omega))⟩

/-! ## C24: the closing-direction vector -/

theorem closingLoop_spec (closing : List K) :
    ∀ (gs : List Nat) (i : Nat) (cd : List K), (∀ g ∈ gs, g < cd.length) →
      ∃ cd1, closingLoop closing gs i cd = .ok cd1 ∧ cd1.length = cd.length ∧
        (∀ p, p ∉ gs → cd1.getD p 0 = cd.getD p 0) ∧
        (∀ (k : Nat) (hk : k < gs.length),
          (∀ (k2 : Nat) (hk2 : k2 < gs.length), k < k2 → gs[k2] ≠ gs[k]) →
          cd1.getD gs[k] 0 = closing.getD (i + k) 0)
  | [], i, cd, _ => ⟨cd, rfl, rfl, fun _ _ => rfl, fun k hk => absurd hk (by simp)⟩
  | g :: rest, i, cd, h => by
    have hg : g < cd.length := h g (List.mem_cons_self _ _)
    obtain ⟨cd1, h1, h2, h3, h4⟩ := closingLoop_spec closing rest (i + 1)
      (cd.set g (closing.getD i 0))
      (fun x hx => by rw [List.length_set]; exact h x (List.mem_cons_of_mem _ hx))
    refine ⟨cd1, ?_, ?_, ?_, ?_⟩
    · rw [closingLoop, if_pos hg]
      exact h1
    · rw [h2, List.length_set]
    · intro p hp
      have hp1 : p ∉ rest := fun hx => hp (List.mem_cons_of_mem _ hx)
      have hp2 : g ≠ p := fun hx => hp (hx ▸ List.mem_cons_self _ _)
      rw [h3 p hp1]
      simp only [List.getD_eq_getElem?_getD, List.getElem?_set_ne hp2]
    · intro k hk hlast
      cases k with
      | zero =>
        have hnot : g ∉ rest := by
          intro hmem
          obtain ⟨j, hj, hjg⟩ := List.getElem_of_mem hmem
          exact hlast (j + 1) (by simpa using hj) (Nat.succ_pos j) (by simpa using hjg)
        simp only [List.getElem_cons_zero, Nat.add_zero]
        rw [h3 g hnot]
        simp only [List.getD_eq_getElem?_getD]
        rw [List.getElem?_set_self hg]
        rfl
      | succ k =>
        have hk1 : k < rest.length := by simpa using hk
        have := h4 k hk1
          (fun k2 hk2 hlt => by
            have := hlast (k2 + 1) (by simpa using hk2) (by omega)
            simpa using this)
        simp only [List.getElem_cons_succ]
        rw [this]
        congr 1
        omega

theorem manipLoop_spec {L : Type} :
    ∀ (ms : List (Manipulator K L)) (cd : List K),
      (∀ m ∈ ms, ∀ g ∈ m.GetGripperIndices, g < cd.length) →
      ∃ cd1, manipLoop ms cd = .ok cd1 ∧ cd1.length = cd.length ∧
        (∀ p, (∀ m ∈ ms, p ∉ m.GetGripperIndices) → cd1.getD p 0 = cd.getD p 0) ∧
        (∀ (a : Nat) (ha : a < ms.length) (k : Nat) (hk : k < ms[a].GetGripperIndices.length),
          (∀ (k2 : Nat) (hk2 : k2 < ms[a].GetGripperIndices.length), k < k2 →
            ms[a].GetGripperIndices[k2] ≠ ms[a].GetGripperIndices[k]) →
          (∀ (b : Nat) (hb : b < ms.length), a < b →
            ms[a].GetGripperIndices[k] ∉ ms[b].GetGripperIndices) →
          cd1.getD ms[a].GetGripperIndices[k] 0 = ms[a].GetClosingDirection.getD k 0)
  | [], cd, _ => ⟨cd, rfl, rfl, fun _ _ => rfl, fun a ha => absurd ha (by simp)⟩
  | m :: rest, cd, h => by
    obtain ⟨cd0, e1, e2, e3, e4⟩ := closingLoop_spec m.GetClosingDirection m.GetGripperIndices 0
      cd (h m (List.mem_cons_self _ _))
    obtain ⟨cd1, h1, h2, h3, h4⟩ := manipLoop_spec rest cd0
      (fun x hx g hg => by rw [e2]; exact h x (List.mem_cons_of_mem _ hx) g hg)
    refine ⟨cd1, ?_, ?_, ?_, ?_⟩
    · rw [manipLoop, e1]
      exact h1
    · rw [h2, e2]
    · intro p hp
      rw [h3 p (fun x hx => hp x (List.mem_cons_of_mem _ hx)),
        e3 p (hp m (List.mem_cons_self _ _))]
    · intro a ha k hk hlast hlater
      cases a with
      | zero =>
        simp only [List.getElem_cons_zero] at hk hlast hlater ⊢
        have hnot : ∀ x ∈ rest, m.GetGripperIndices[k] ∉ x.GetGripperIndices := by
          intro x hx
          obtain ⟨j, hj, hjx⟩ := List.getElem_of_mem hx
          have := hlater (j + 1) (by simpa using hj) (Nat.succ_pos j)
          simpa [hjx] using this
        rw [h3 _ hnot, e4 k hk hlast, Nat.zero_add]
      | succ a =>
        have ha1 : a < rest.length := by simpa using ha
        simp only [List.getElem_cons_succ] at hk hlast hlater ⊢
        exact h4 a ha1 k hk hlast
          (fun b hb hab => by
            have := hlater (b + 1) (by simpa using hb) (by omega)
            simpa using this)

/-- C24: for every robot whose manipulators' gripper indices are all smaller
than `DOF`, the closing-direction vector of the filter has length `DOF`; it
is 0 at every position that is no gripper index of any manipulator; and the
position `gripper_index[k]` of a manipulator holds its `ClosingDirection[k]`
whenever no later entry of the same manipulator and no later manipulator
writes the same position (a later write overrides an earlier one). -/
theorem C24_closing_direction {L : Type} (env : FilterEnv K L)
    (hidx : ∀ m ∈ env.GetManipulators, ∀ g ∈ m.GetGripperIndices, g < env.GetDOF) :
    ∃ closingdir, closingdirOf env = .ok closingdir ∧ closingdir.length = env.GetDOF ∧
      (∀ p, (∀ m ∈ env.GetManipulators, p ∉ m.GetGripperIndices) → closingdir.getD p 0 = 0) ∧
      (∀ (a : Nat) (ha : a < env.GetManipulators.length) (k : Nat)
        (hk : k < env.GetManipulators[a].GetGripperIndices.length)
        (hc : k < env.GetManipulators[a].GetClosingDirection.length),
        (∀ (k2 : Nat) (hk2 : k2 < env.GetManipulators[a].GetGripperIndices.length), k < k2 →
          env.GetManipulators[a].GetGripperIndices[k2]
            ≠ env.GetManipulators[a].GetGripperIndices[k]) →
        (∀ (b : Nat) (hb : b < env.GetManipulators.length), a < b →
          env.GetManipulators[a].GetGripperIndices[k]
            ∉ env.GetManipulators[b].GetGripperIndices) →
        closingdir.getD env.GetManipulators[a].GetGripperIndices[k] 0
          = env.GetManipulators[a].GetClosingDirection[k]) := by
  obtain ⟨cd1, h1, h2, h3, h4⟩ := manipLoop_spec env.GetManipulators
    (List.replicate env.GetDOF 0) (by simpa using hidx)
  refine ⟨cd1, h1, by simpa using h2, ?_, ?_⟩
  · intro p hp
    rw [h3 p hp]
    simp only [List.getD_eq_getElem?_getD, List.getElem?_replicate]
    split <;> rfl
  · intro a ha k hk hc hlast hlater
    rw [h4 a ha k hk hlast hlater, List.getD_eq_getElem _ _ hc]

/-- Witness for C24: the example robot; joint 0 holds the direction 1 of the
first manipulator, joint 1 the direction 5 of the second manipulator, which
overrides the first, and joint 2 holds 0. -/
theorem C24_closing_direction_witness :
    ∃ closingdir, closingdirOf exampleFilterEnv = .ok closingdir ∧ closingdir.length = 3 ∧
      closingdir.getD 0 0 = 1 ∧ closingdir.getD 1 0 = 5 ∧ closingdir.getD 2 0 = 0 := by
  obtain ⟨cd, h1, h2, h3, h4⟩ := C24_closing_direction exampleFilterEnv (by decide)
  refine ⟨cd, h1, h2, ?_, ?_, ?_⟩
  · exact h4 0 (by decide) 0 (by decide) (by decide) (by decide) (by decide)
  · exact h4 1 (by decide) 0 (by decide) (by decide) (by decide) (by decide)
  · exact h3 2 (by decide)

/-! ## C25: the closing velocity of a contact -/

theorem jacobianRow_eq_sum (J closing : List K) (DOF j : Nat)
    (hJ : (j + 1) * DOF ≤ J.length) :
    ∀ n, n ≤ DOF →
      jacobianRow J closing DOF j n
        = .ok (∑ k ∈ Finset.range n, J.getD (j * DOF + k) 0 * closing.getD k 0) := by
  intro n
  induction n with
  | zero => intro _; simp [jacobianRow]
  | succ n ih =>
    intro hn
    have hlt : j * DOF + n < J.length := by
      rw [Nat.succ_mul] at hJ
      omega
    rw [jacobianRow, ih (by omega), List.getElem?_eq_getElem hlt, Finset.sum_range_succ,
      List.getD_eq_getElem _ _ hlt]

theorem jacobianProduct_zero (J closing : List K) (DOF : Nat)
    (hz : ∀ k, closing.getD k 0 = 0) : jacobianProduct J closing DOF = ⟨0, 0, 0⟩ := by
  simp only [jacobianProduct, hz, mul_zero, Finset.sum_const_zero]

/-- C25: for a contact at `pos` on a link that is neither the first link of
the robot nor the base of the active manipulator, with a Jacobian of
`3 DOF` entries, the closing velocity that enters the admissibility test is
`normalize(J closing)`, component `j` of `J closing` being the sum over `k`
of `J[j DOF + k] closing[k]` started from zero, when its squared length is at
least `1e-7`, and `normalize(direction)` otherwise; on a base link it is
`normalize(direction)`; and when `closing` is all zeros it is
`normalize(direction)` on every link.  The contact loop tests each contact
against this vector. -/
theorem C25_closing_velocity {L : Type} [DecidableEq L] (lib : RaveLib K)
    (env : FilterEnv K L) (closingdir : List K) (direction : Vec3 K) (link : L) (pos : Vec3 K)
    (hJ : 3 * env.GetDOF ≤ (env.CalculateJacobian (env.GetIndex link) pos).length) :
    (isBaseLink env link = false →
      deltaxyzOf lib env closingdir direction link pos
        = .ok (Vec3.normalize3 lib.RaveSqrt
            (if (jacobianProduct (env.CalculateJacobian (env.GetIndex link) pos) closingdir
                  env.GetDOF).lengthsqr3 < 1 / 10 ^ 7 then direction
              else jacobianProduct (env.CalculateJacobian (env.GetIndex link) pos) closingdir
                env.GetDOF))) ∧
    (isBaseLink env link = true →
      deltaxyzOf lib env closingdir direction link pos
        = .ok (Vec3.normalize3 lib.RaveSqrt direction)) ∧
    ((∀ k, closingdir.getD k 0 = 0) →
      deltaxyzOf lib env closingdir direction link pos
        = .ok (Vec3.normalize3 lib.RaveSqrt direction)) ∧
    (∀ (mu : K) (plink1 : L) (c : CONTACT K) (contacts : List (CONTACT K × Int))
      (deltaxyz : Vec3 K), c.pos = pos →
      deltaxyzOf lib env closingdir direction link pos = .ok deltaxyz →
      contactLoop lib env closingdir direction mu link plink1 [c] contacts
        = .ok (if bstable (if plink1 ≠ link then c.norm.neg else c.norm) deltaxyz mu then
            contacts ++ [(if plink1 ≠ link then { c with norm := c.norm.neg } else c,
              env.GetIndex link)]
          else contacts)) := by
  have hrow : ∀ j, j < 3 →
      jacobianRow (env.CalculateJacobian (env.GetIndex link) pos) closingdir env.GetDOF j
        env.GetDOF
        = .ok (∑ k ∈ Finset.range env.GetDOF,
            (env.CalculateJacobian (env.GetIndex link) pos).getD (j * env.GetDOF + k) 0
              * closingdir.getD k 0) := by
    intro j hj
    apply jacobianRow_eq_sum _ _ _ _ _ _ (le_refl _)
    calc (j + 1) * env.GetDOF ≤ 3 * env.GetDOF := Nat.mul_le_mul_right _ (by omega)
      _ ≤ _ := hJ
  have hnonbase : isBaseLink env link = false →
      deltaxyzOf lib env closingdir direction link pos
        = .ok (Vec3.normalize3 lib.RaveSqrt
            (if (jacobianProduct (env.CalculateJacobian (env.GetIndex link) pos) closingdir
                  env.GetDOF).lengthsqr3 < 1 / 10 ^ 7 then direction
              else jacobianProduct (env.CalculateJacobian (env.GetIndex link) pos) closingdir
                env.GetDOF)) := by
    intro hb
    simp only [deltaxyzOf, hb, Bool.false_eq_true, if_false, hrow 0 (by norm_num),
      hrow 1 (by norm_num), hrow 2 (by norm_num)]
    rfl
  have hbase : isBaseLink env link = true →
      deltaxyzOf lib env closingdir direction link pos
        = .ok (Vec3.normalize3 lib.RaveSqrt direction) := by
    intro hb
    simp only [deltaxyzOf, hb, if_true, ite_self]
  refine ⟨hnonbase, hbase, ?_, ?_⟩
  · intro hz
    cases hb : isBaseLink env link with
    | true => exact hbase hb
    | false =>
      rw [hnonbase hb, jacobianProduct_zero _ _ _ hz]
      have : (⟨0, 0, 0⟩ : Vec3 K).lengthsqr3 < 1 / 10 ^ 7 := by
        simp only [Vec3.lengthsqr3]
        norm_num
      rw [if_pos this]
  · intro mu plink1 c contacts deltaxyz hpos hd
    subst hpos
    by_cases hp : plink1 ≠ link
    · simp only [contactLoop, hp, if_true, ne_eq, not_false_eq_true, hd]
    · simp only [contactLoop, hp, if_false, hd]

/-- Witness for C25: on the example robot the contact of link 1 at the origin
moves with `J closing = (0, 0, 5)`, and the base link 0 moves with the
direction. -/
theorem C25_closing_velocity_witness :
    deltaxyzOf exampleLib exampleFilterEnv [1, 5, 0] ⟨1, 0, 0⟩ 1 ⟨0, 0, 0⟩
      = .ok (Vec3.normalize3 exampleLib.RaveSqrt ⟨0, 0, 5⟩) ∧
    deltaxyzOf exampleLib exampleFilterEnv [1, 5, 0] ⟨1, 0, 0⟩ 0 ⟨0, 0, 0⟩
      = .ok (Vec3.normalize3 exampleLib.RaveSqrt ⟨1, 0, 0⟩) := by
  have h1 := C25_closing_velocity exampleLib exampleFilterEnv [1, 5, 0] ⟨1, 0, 0⟩ 1 ⟨0, 0, 0⟩
    (by decide)
  have h0 := C25_closing_velocity exampleLib exampleFilterEnv [1, 5, 0] ⟨1, 0, 0⟩ 0 ⟨0, 0, 0⟩
    (by decide)
  refine ⟨?_, h0.2.1 (by decide)⟩
  rw [h1.1 (by decide)]
  have hp : jacobianProduct (exampleFilterEnv.CalculateJacobian (exampleFilterEnv.GetIndex 1)
      ⟨0, 0, 0⟩) [1, 5, 0] exampleFilterEnv.GetDOF = ⟨0, 0, 5⟩ := by
    simp [jacobianProduct, exampleFilterEnv, Finset.sum_range_succ]
  rw [hp]
  have : ¬ ((⟨0, 0, 5⟩ : Vec3 ℚ).lengthsqr3 < 1 / 10 ^ 7) := by
    simp only [Vec3.lengthsqr3]
    norm_num
  rw [if_neg this]

/-! ## C22: the friction value that reaches the filter -/

/-- C22 (defect of the code): the friction value that the commands pass to
the filter is the parsed one, whose initial value is 0.  On the stream
`direction 0 0 1` the command `GetStableContacts` calls the filter with the
direction `(0,0,1)` and `mu = 0` and stops at its assertion; on the stream
`stablecontacts 1` the command `Grasp` reaches the rest of the command with
`bComputeStableContacts` set and `friction = 0`; and the filter called with
`mu = 0` stops at its assertion `mu > 0`, on every robot and direction. -/
theorem C22_friction_default :
    (∀ (L : Type) [DecidableEq L] (lib : RaveLib ℚ) (env : FilterEnv ℚ L),
      GetStableContacts exampleStreamLib lib env ⟨["direction", "0", "0", "1"], false⟩
          = GetStableContacts_work lib env ⟨0, ⟨0, 0, 1⟩, false⟩ ∧
        GetStableContacts exampleStreamLib lib env ⟨["direction", "0", "0", "1"], false⟩
          = (.error (.filter .assertion), [])) ∧
    (∀ (B : Type) (lib : RaveLib ℚ) (env : EnvLib B) (params : GraspOptions ℚ B)
      (work : GraspOptions ℚ B → Except CommandError Bool × List (Out ℚ)),
      Grasp exampleStreamLib lib env params work ⟨["stablecontacts", "1"], false⟩
        = work { Grasp_init params with bComputeStableContacts := true }) ∧
    (∀ (B : Type) (params : GraspOptions ℚ B),
      ({ Grasp_init params with bComputeStableContacts := true } : GraspOptions ℚ B).friction
        = 0) ∧
    (∀ (L : Type) [DecidableEq L] (lib : RaveLib ℚ) (env : FilterEnv ℚ L)
      (contacts : List (CONTACT ℚ × Int)) (direction : Vec3 ℚ),
      _GetStableContacts lib env contacts direction 0 = .error .assertion) ∧
    (∀ (B L : Type) [DecidableEq L] (lib : RaveLib ℚ) (env : FilterEnv ℚ L)
      (rotate : B → Vec3 ℚ → Vec3 ℚ) (params : GraspOptions ℚ B),
      Grasp_stableContacts lib env rotate
          { Grasp_init params with bComputeStableContacts := true }
        = .error .assertion) := by
  refine ⟨?_, fun B lib env params work => rfl, fun B params => rfl, ?_, ?_⟩
  · intro L _ lib env
    have hw : GetStableContacts exampleStreamLib lib env ⟨["direction", "0", "0", "1"], false⟩
        = GetStableContacts_work lib env ⟨0, ⟨0, 0, 1⟩, false⟩ := rfl
    refine ⟨hw, ?_⟩
    rw [hw]
    simp [GetStableContacts_work, _GetStableContacts]
  · intro L _ lib env contacts direction
    simp [_GetStableContacts]
  · intro B L _ lib env rotate params
    simp [Grasp_stableContacts, _GetStableContacts, Grasp_init]

/-! ## C27: the rays of `DeterministicallySample` -/

/-- When the collision query finds nothing, the loop of
`DeterministicallySample` leaves the list of points as it was. -/
theorem deterministicLoop_none (lib : RaveLib K) (tri : TRIMESH K) (com : Vec3 K)
    (vpoints : List (CONTACT K)) :
    ∀ n, deterministicLoop lib (fun _ => none) tri com n vpoints = .ok vpoints := by
  intro n
  induction n with
  | zero => rfl
  | succ n ih => simp only [deterministicLoop, ih]

/-- When every ray hits with the same report, every round of the loop appends
the flipped and extruded first contact of the report. -/
theorem deterministicLoop_hit (lib : RaveLib K) (tri : TRIMESH K) (com : Vec3 K)
    (c0 : CONTACT K) (rest vpoints : List (CONTACT K)) :
    ∀ n, deterministicLoop lib (fun _ => some (c0 :: rest)) tri com n vpoints
      = .ok (vpoints ++ List.replicate n
          { pos := c0.pos.add (Vec3.smul (1 / 1000) c0.norm.neg), norm := c0.norm.neg,
            depth := 0 }) := by
  intro n
  induction n with
  | zero => simp [deterministicLoop]
  | succ n ih =>
    simp only [deterministicLoop, ih, List.getElem?_cons_zero, List.append_assoc]
    rw [List.replicate_succ']

theorem deterministicRays_length (lib : RaveLib K) (levels : Int) (graspcenter : Vec3 K) :
    (deterministicRays lib levels graspcenter).length = 20 * 4 ^ levels.toNat := by
  simp only [deterministicRays, List.length_map, List.length_range,
    GenerateSphereTriangulation, iterate_indices_length]
  omega

theorem sampleRay_first_dir (lib : RaveLib K) (vs : List (Vec3 K)) (a b c : Nat)
    (rest : List Nat) (com : Vec3 K) :
    (sampleRay lib ⟨vs, orientCCW vs (a :: b :: c :: rest)⟩ com 0).dir
        = Vec3.smul 1000 (Vec3.normalize3 lib.RaveSqrt (Vec3.smul (33333 / 100000)
            (((vertexAt vs a).add (vertexAt vs b)).add (vertexAt vs c)))) ∨
    (sampleRay lib ⟨vs, orientCCW vs (a :: b :: c :: rest)⟩ com 0).dir
        = Vec3.smul 1000 (Vec3.normalize3 lib.RaveSqrt (Vec3.smul (33333 / 100000)
            (((vertexAt vs b).add (vertexAt vs a)).add (vertexAt vs c)))) := by
  simp only [orientCCW]
  split_ifs
  · right
    simp [sampleRay]
  · left
    simp [sampleRay]

theorem sampleRay_icosahedron_x (com : Vec3 ℝ) :
    0 < (sampleRay realLib (GenerateSphereTriangulation Real.sqrt 0) com 0).dir.x := by
  have htri : GenerateSphereTriangulation Real.sqrt 0 = (icosahedron : TRIMESH ℝ) := by
    simp only [GenerateSphereTriangulation, Int.toNat_zero, Function.iterate_zero, id_eq]
  have hidx : icosahedronIndices = 0 :: 1 :: 2 :: icosahedronIndices.drop 3 := by decide
  have hico : (icosahedron : TRIMESH ℝ)
      = ⟨icosahedronVertices, orientCCW (icosahedronVertices : List (Vec3 ℝ))
          (0 :: 1 :: 2 :: icosahedronIndices.drop 3)⟩ := by
    rw [← hidx]
    rfl
  rw [htri, hico]
  have hpos : ∀ v : Vec3 ℝ, 0 < v.x →
      0 < (Vec3.smul 1000 (Vec3.normalize3 Real.sqrt v)).x := by
    intro v hv
    simp only [Vec3.smul, Vec3.normalize3]
    have hl : 0 < v.lengthsqr3 := by
      simp only [Vec3.lengthsqr3]
      nlinarith [mul_self_nonneg v.y, mul_self_nonneg v.z, mul_pos hv hv]
    have hs : 0 < Real.sqrt v.lengthsqr3 := Real.sqrt_pos.mpr hl
    positivity
  rcases sampleRay_first_dir realLib (icosahedronVertices : List (Vec3 ℝ)) 0 1 2
      (icosahedronIndices.drop 3) com with h | h <;>
    rw [h] <;> apply hpos <;>
    simp only [vertexAt, icosahedronVertices, List.getD_cons_zero, List.getD_cons_succ,
      Vec3.add, Vec3.smul, GTS_M_ICOSAHEDRON_X, GTS_M_ICOSAHEDRON_Y, GTS_M_ICOSAHEDRON_Z] <;>
    norm_num

/-- C27 (defect of the code): in `DeterministicallySample` the ray of every
triangle has the direction `1000 u` and the origin
`center - 10 (1000 u) = center - 10000 u`, with `u` the normalized centroid
direction, because the origin is computed after the direction has been
scaled; the point `origin + t dir` is `center + (1000 t - 10000) u`, which is
`center - 9990 u` at `t = 0.01` and the center at `t = 10`.  In `SampleObject`
the origin is computed before the scaling and is `center - 10 d` for the
direction `1000 d`.  The number of rays is `20 * 4^levels`.  On the
icosahedron (`levels = 0`) with exact square roots the point `origin + t dir`
of the first ray is the center only for `t = 10`. -/
theorem C27_ray_origin :
    (∀ (lib : RaveLib K) (tri : TRIMESH K) (com : Vec3 K) (i : Nat),
      (sampleRay lib tri com i).dir = Vec3.smul 1000 (centroidDir lib tri i) ∧
      (sampleRay lib tri com i).pos = com.sub (Vec3.smul 10000 (centroidDir lib tri i)) ∧
      (∀ t : K, (sampleRay lib tri com i).pos.add (Vec3.smul t (sampleRay lib tri com i).dir)
        = com.add (Vec3.smul (1000 * t - 10000) (centroidDir lib tri i))) ∧
      (sampleRay lib tri com i).pos.add (Vec3.smul (1 / 100) (sampleRay lib tri com i).dir)
        = com.sub (Vec3.smul 9990 (centroidDir lib tri i)) ∧
      (sampleRay lib tri com i).pos.add (Vec3.smul 10 (sampleRay lib tri com i).dir) = com) ∧
    (∀ (lib : RaveLib K) (com dir : Vec3 K) (u1 u2 : K),
      (SampleObject_ray lib com dir u1 u2).pos.add
          (Vec3.smul (1 / 100) (SampleObject_ray lib com dir u1 u2).dir) = com) ∧
    (∀ (lib : RaveLib K) (levels : Int) (graspcenter : Vec3 K),
      (deterministicRays lib levels graspcenter).length = 20 * 4 ^ levels.toNat ∧
      DeterministicallySample lib (fun _ => none) [] levels graspcenter = .ok [] ∧
      ∀ c0 : CONTACT K,
        (DeterministicallySample lib (fun _ => some [c0]) [] levels graspcenter).map
          List.length = .ok (20 * 4 ^ levels.toNat)) ∧
    (∀ (com : Vec3 ℝ) (t : ℝ),
      (sampleRay realLib (GenerateSphereTriangulation Real.sqrt 0) com 0).pos.add
          (Vec3.smul t (sampleRay realLib (GenerateSphereTriangulation Real.sqrt 0) com 0).dir)
        = com ↔ t = 10) := by
  refine ⟨?_, ?_, ?_, ?_⟩
  · intro lib tri com i
    refine ⟨rfl, ?_, ?_, ?_, ?_⟩
    · simp only [sampleRay, centroidDir, Vec3.sub, Vec3.smul]
      congr 1 <;> ring
    · intro t
      simp only [sampleRay, centroidDir, Vec3.sub, Vec3.smul, Vec3.add]
      congr 1 <;> ring
    · simp only [sampleRay, centroidDir, Vec3.sub, Vec3.smul, Vec3.add]
      congr 1 <;> ring
    · obtain ⟨x, y, z⟩ := com
      simp only [sampleRay, Vec3.sub, Vec3.smul, Vec3.add]
      congr 1 <;> ring
  · intro lib com dir u1 u2
    obtain ⟨x, y, z⟩ := com
    simp only [SampleObject_ray, Vec3.sub, Vec3.smul, Vec3.add]
    congr 1 <;> ring
  · intro lib levels graspcenter
    have hn : ((GenerateSphereTriangulation lib.RaveSqrt levels).indices.length + 2) / 3
        = 20 * 4 ^ levels.toNat := by
      simp only [GenerateSphereTriangulation, iterate_indices_length]
      omega
    refine ⟨deterministicRays_length lib levels graspcenter, ?_, ?_⟩
    · simp only [DeterministicallySample]
      exact deterministicLoop_none lib _ graspcenter [] _
    · intro c0
      simp only [DeterministicallySample, hn]
      rw [deterministicLoop_hit lib _ graspcenter c0 [] []]
      simp [Except.map]
  · intro com t
    have hx := sampleRay_icosahedron_x com
    generalize GenerateSphereTriangulation Real.sqrt 0 = tri at hx
    have hpos : (sampleRay realLib tri com 0).pos
        = com.sub (Vec3.smul 10 (sampleRay realLib tri com 0).dir) := rfl
    rw [hpos]
    generalize (sampleRay realLib tri com 0).dir = d at hx
    obtain ⟨x, y, z⟩ := com
    obtain ⟨dx, dy, dz⟩ := d
    simp only [Vec3.sub, Vec3.smul, Vec3.add, Vec3.mk.injEq]
    constructor
    · rintro ⟨h1, -, -⟩
      have h : (t - 10) * dx = 0 := by linarith
      rcases mul_eq_zero.mp h with h | h
      · linarith
      · exact absurd h (ne_of_gt hx)
    · intro h
      subst h
      refine ⟨by ring, by ring, by ring⟩

/-! ## C28: a trajectory and a setpoint are never both set -/

theorem setJointLimits_fields {A T R F : Type} (lib : ControllerLib A T R F)
    (c : IdealController A T R F) :
    (_SetJointLimits lib c)._ptraj = c._ptraj ∧
    (_SetJointLimits lib c)._vecdesired = c._vecdesired := by
  unfold _SetJointLimits
  cases c._probot <;> exact ⟨rfl, rfl⟩

theorem Init_fields {A T R F : Type} (lib : ControllerLib A T R F) (log : LogLib R F)
    (robot : Option R) (dofindices : List Int) (n : Int) (c : IdealController A T R F) :
    (Init lib log robot dofindices n c).2._ptraj = c._ptraj ∧
    (Init lib log robot dofindices n c).2._vecdesired = c._vecdesired := by
  cases robot with
  | none => exact ⟨rfl, rfl⟩
  | some r =>
    simp only [Init]
    exact setJointLimits_fields lib _

theorem SendCommand_fields {A T R F : Type} (slib : StreamLib A) (is : IStream)
    (c : IdealController A T R F) :
    (SendCommand slib is c).2._ptraj = c._ptraj ∧
    (SendCommand slib is c).2._vecdesired = c._vecdesired := by
  unfold SendCommand
  simp only
  split_ifs <;> exact ⟨rfl, rfl⟩

theorem SetDesired_ptraj {T R F : Type} (lib : ControllerLib K T R F) (values : List K)
    (trans : Option T) (c : IdealController K T R F) :
    (SetDesired lib values trans c).2._ptraj = c._ptraj ∧
        (SetDesired lib values trans c).2._vecdesired = c._vecdesired ∨
      (SetDesired lib values trans c).2._ptraj = none := by
  unfold SetDesired
  by_cases h1 : values.length ≠ c._dofindices.length
  · rw [if_pos h1]
    exact Or.inl ⟨rfl, rfl⟩
  · rw [if_neg h1]
    right
    simp only
    by_cases h2 : c._bPause = false
    · rw [if_pos h2]
      cases c._probot with
      | none => rfl
      | some robot =>
        simp only
        by_cases h3 : c._nControlTransformation ≠ 0
        · rw [if_pos h3]
          split <;> rfl
        · rw [if_neg h3]
          split <;> rfl
    · rw [if_neg h2]

theorem SetPath_ptraj {T R F : Type} (lib : ControllerLib K T R F)
    (ptraj : Option (Trajectory K T)) (c : IdealController K T R F) :
    (SetPath lib ptraj c).2._ptraj = c._ptraj ∧
        (SetPath lib ptraj c).2._vecdesired = c._vecdesired ∨
      (SetPath lib ptraj c).2._ptraj = none ∨ (SetPath lib ptraj c).2._vecdesired = [] := by
  unfold SetPath
  cases ptraj with
  | none =>
    simp only
    split_ifs <;> exact Or.inr (Or.inl rfl)
  | some t =>
    simp only
    split_ifs
    · exact Or.inr (Or.inl rfl)
    · exact Or.inl ⟨rfl, rfl⟩
    · exact Or.inr (Or.inr rfl)
    · exact Or.inr (Or.inr rfl)

theorem SimulationStep_traj_fields {T R F : Type} (lib : ControllerLib K T R F)
    (fTimeElapsed : K) (c : IdealController K T R F) :
    (SimulationStep_traj lib fTimeElapsed c).2._ptraj = c._ptraj ∧
    (SimulationStep_traj lib fTimeElapsed c).2._vecdesired = c._vecdesired := by
  unfold SimulationStep_traj
  cases hp : c._ptraj with
  | none => exact ⟨by first | rfl | exact hp, rfl⟩
  | some traj =>
    simp only
    cases traj.SampleTrajectory c.fTime with
    | none => exact ⟨by first | rfl | exact hp, rfl⟩
    | some tp =>
      simp only
      split
      · exact ⟨by first | rfl | exact hp, rfl⟩
      · split_ifs <;> exact ⟨rfl, rfl⟩

theorem SimulationStep_desired_fields {T R F : Type} (lib : ControllerLib K T R F)
    (c : IdealController K T R F) :
    (SimulationStep_desired lib c).2._ptraj = c._ptraj ∧
    (SimulationStep_desired lib c).2._vecdesired = c._vecdesired := by
  unfold SimulationStep_desired
  split_ifs
  · simp only
    split <;> exact ⟨rfl, rfl⟩
  · simp only
    split <;> exact ⟨rfl, rfl⟩
  · exact ⟨rfl, rfl⟩

theorem SimulationStep_fields {T R F : Type} (lib : ControllerLib K T R F)
    (fTimeElapsed : K) (c : IdealController K T R F) :
    (SimulationStep lib fTimeElapsed c).2._ptraj = c._ptraj ∧
    (SimulationStep lib fTimeElapsed c).2._vecdesired = c._vecdesired := by
  have h1 := SimulationStep_traj_fields lib fTimeElapsed c
  unfold SimulationStep
  split_ifs
  · exact ⟨rfl, rfl⟩
  · rcases hs : SimulationStep_traj lib fTimeElapsed c with ⟨r, c1⟩
    rw [hs] at h1
    cases r with
    | error e => exact h1
    | ok b =>
      cases b with
      | true => exact h1
      | false =>
        have h2 := SimulationStep_desired_fields lib c1
        exact ⟨h2.1.trans h1.1, h2.2.trans h1.2⟩

/-- C28: in every state of the controller reachable from its construction by
any sequence of `Init`, `SetDesired`, `SetPath`, `Reset`, `SimulationStep`
and `SendCommand` calls (the state a raising or rejected call leaves behind
included), the trajectory is null or the setpoint is empty. -/
theorem C28_trajectory_or_setpoint {T R F : Type} (lib : ControllerLib K T R F)
    (log : LogLib R F) (slib : StreamLib K) (t0 : T) (f0 : F) (c : IdealController K T R F)
    (h : Reachable lib log slib t0 f0 c) : c._ptraj = none ∨ c._vecdesired = [] := by
  induction h with
  | construct => exact Or.inl rfl
  | init robot dofindices n c _ ih =>
    obtain ⟨h1, h2⟩ := Init_fields lib log robot dofindices n c
    rw [h1, h2]
    exact ih
  | setDesired values trans c _ ih =>
    rcases SetDesired_ptraj lib values trans c with ⟨h1, h2⟩ | h
    · rw [h1, h2]
      exact ih
    · exact Or.inl h
  | setPath ptraj c _ ih =>
    rcases SetPath_ptraj lib ptraj c with ⟨h1, h2⟩ | h
    · rw [h1, h2]
      exact ih
    · exact h
  | reset options c _ _ => exact Or.inl rfl
  | simulationStep fTimeElapsed c _ ih =>
    obtain ⟨h1, h2⟩ := SimulationStep_fields lib fTimeElapsed c
    rw [h1, h2]
    exact ih
  | sendCommand is c _ ih =>
    obtain ⟨h1, h2⟩ := SendCommand_fields slib is c
    rw [h1, h2]
    exact ih
  | setJointLimits c _ ih =>
    obtain ⟨h1, h2⟩ := setJointLimits_fields lib c
    rw [h1, h2]
    exact ih

/-- Witness for C28: the example run is reachable, it follows a trajectory,
and its setpoint is empty. -/
theorem C28_trajectory_or_setpoint_witness :
    Reachable exampleRobotLib exampleLogLib exampleStreamLib () false exampleRun ∧
    exampleRun._ptraj.isSome = true ∧
    (exampleRun._ptraj = none ∨ exampleRun._vecdesired = []) :=
  have h : Reachable exampleRobotLib exampleLogLib exampleStreamLib () false exampleRun :=
    Reachable.simulationStep _ _
      (Reachable.setPath _ _
        (Reachable.setDesired _ _ _
          (Reachable.init _ _ _ _ Reachable.construct)))
  ⟨h, rfl, C28_trajectory_or_setpoint exampleRobotLib exampleLogLib exampleStreamLib () false
    exampleRun h⟩

/-! ## C2: the origin-inside test -/

/-- The result of `_AnalyzeContacts3D` in terms of the offsets of the plane
array the hull service returns: the running minimum starts at `1e30`. -/
theorem analyzeContacts3D_offsets (qhull : Nat → Nat → List K → QhullResult K)
    (contacts : List (CONTACT K)) (V : K) (planes : List K) (faces : Option (List Nat))
    (hn : 7 ≤ contacts.length)
    (hhull : _ComputeConvexHull qhull (wrenchPoints contacts) false 6 = .ok (V, planes, faces)) :
    ∃ r, _AnalyzeContacts3D qhull contacts = .ok r ∧ r.volume = V ∧
      ((∃ b ∈ planeOffsets 7 planes, 0 < b ∨ |b| < 1 / 10 ^ 15) → r.mindist = 0) ∧
      ((∀ b ∈ planeOffsets 7 planes, ¬ (0 < b ∨ |b| < 1 / 10 ^ 15)) →
        r.mindist ≤ 10 ^ 30 ∧ (∀ b ∈ planeOffsets 7 planes, r.mindist ≤ -b) ∧
        (r.mindist = 10 ^ 30 ∨ ∃ b ∈ planeOffsets 7 planes, r.mindist = -b)) ∧
      (0 < r.mindist ↔ ∀ b ∈ planeOffsets 7 planes, b ≤ -(1 / 10 ^ 15)) := by
  obtain ⟨F, hF⟩ := computeConvexHull_planes_length qhull _ _ _ _ _ _ hhull
  have hF7 : planes.length = 7 * F := by omega
  have hloop := mindistLoop_eq_scan planes F hF7 F 0 (10 ^ 30) (by omega)
  have hoffs : ((List.range' 0 F).map fun i => planes.getD (7 * i + 6) 0)
      = planeOffsets 7 planes := by
    unfold planeOffsets
    rw [hF7, Nat.mul_div_cancel_left _ (by norm_num : 0 < 7), List.range_eq_range']
  rw [hoffs] at hloop
  have hnot : ¬ contacts.length < 7 := by omega
  have key : ∀ b : K, ¬ (0 < b ∨ |b| < 1 / 10 ^ 15) → b ≤ -(1 / 10 ^ 15) := by
    intro b hb
    push_neg at hb
    have h2 := hb.2
    rw [abs_of_nonpos hb.1] at h2
    linarith
  have heps : (0 : K) < 1 / 10 ^ 15 := by positivity
  cases hs : scanOffsets (planeOffsets 7 planes) (10 ^ 30) with
  | none =>
    rw [hs] at hloop
    have hbad := (scanOffsets_none_iff _ _).mp hs
    refine ⟨⟨0, V⟩, ?_, rfl, fun _ => rfl, ?_, ?_⟩
    · simp [_AnalyzeContacts3D, hnot, hhull, hloop]
    · intro hall
      obtain ⟨b, hb, hbad⟩ := hbad
      exact absurd hbad (hall b hb)
    · simp only [lt_self_iff_false, false_iff]
      intro hall
      obtain ⟨b, hb, hbad⟩ := hbad
      have := hall b hb
      rcases hbad with hbad | hbad
      · linarith
      · rw [abs_of_nonpos (by linarith)] at hbad
        linarith
  | some d =>
    rw [hs] at hloop
    have hgood : ∀ b ∈ planeOffsets 7 planes, ¬ (0 < b ∨ |b| < 1 / 10 ^ 15) := by
      intro b hb hbad
      have := (scanOffsets_none_iff (planeOffsets 7 planes) (10 ^ 30)).mpr ⟨b, hb, hbad⟩
      rw [hs] at this
      exact absurd this (by simp)
    obtain ⟨h1, h2, h3⟩ := scanOffsets_some _ _ _ hs
    refine ⟨⟨d, V⟩, ?_, rfl, ?_, fun _ => ⟨h1, h2, h3⟩, ?_⟩
    · simp [_AnalyzeContacts3D, hnot, hhull, hloop]
    · rintro ⟨b, hb, hbad⟩
      exact absurd hbad (hgood b hb)
    · constructor
      · intro _ b hb
        exact key b (hgood b hb)
      · intro _
        rcases h3 with h3 | ⟨b, hb, h3⟩
        · simp only [h3]; positivity
        · have := key b (hgood b hb)
          simp only [h3]
          linarith

theorem planeOffsets_append_block (stride : Nat) (hs : 0 < stride) (block planes : List K)
    (hb : block.length = stride) :
    planeOffsets stride (block ++ planes)
      = block.getD (stride - 1) 0 :: planeOffsets stride planes := by
  unfold planeOffsets
  have hlen : (block ++ planes).length / stride = planes.length / stride + 1 := by
    rw [List.length_append, hb, Nat.add_comm, Nat.add_div_right _ hs]
  rw [hlen, List.range_succ_eq_map, List.map_cons, List.map_map]
  congr 1
  · simp only [Nat.mul_zero, Nat.zero_add, List.getD_eq_getElem?_getD]
    rw [List.getElem?_append_left (by omega)]
  · apply List.map_congr_left
    intro i _
    simp only [Function.comp, List.getD_eq_getElem?_getD]
    rw [List.getElem?_append_right (by rw [hb, Nat.mul_succ]; omega)]
    congr 2
    rw [hb, Nat.mul_succ]
    omega

theorem planeOffsets_short (stride : Nat) (planes : List K) (h : planes.length < stride) :
    planeOffsets stride planes = [] := by
  unfold planeOffsets
  rw [Nat.div_eq_of_lt h]
  rfl

theorem planeOffsets_flipPlanes (dim : Nat) (vmean : List K) (planes : List K) :
    planeOffsets (dim + 1) (flipPlanes dim vmean planes) = planeOffsets (dim + 1) planes := by
  induction planes using flipPlanes.induct dim vmean with
  | case1 => simp [flipPlanes]
  | case2 a l ih =>
    by_cases hlen : dim + 1 ≤ (a :: l).length
    · have hb : ((a :: l).take (dim + 1)).length = dim + 1 := by
        rw [List.length_take]
        omega
      rw [flipPlanes, planeOffsets_append_block (dim + 1) (by omega) _ _
        (by rw [flipBlock_length, hb]), ih]
      conv_rhs => rw [← List.take_append_drop (dim + 1) (a :: l)]
      rw [planeOffsets_append_block (dim + 1) (by omega) _ _ hb]
      congr 1
      exact (flipBlock_cases dim vmean _ hb).1
    · rw [planeOffsets_short _ _ (by rw [flipPlanes_length]; omega),
        planeOffsets_short _ _ (by omega)]

theorem rawPlanes_eq_flatMap (dim : Nat) (facets : List (Facet K)) :
    rawPlanes dim facets
      = facets.flatMap fun f =>
          match f.normal with
          | some nrm => (List.range dim).map (fun i => nrm.getD i 0) ++ [f.offset]
          | none => [] := by
  unfold rawPlanes
  have h : ∀ (fs : List (Facet K)) (acc : List K),
      fs.foldl
        (fun acc f =>
          match f.normal with
          | some nrm => acc ++ (List.range dim).map (fun i => nrm.getD i 0) ++ [f.offset]
          | none => acc) acc
      = acc ++ fs.flatMap fun f =>
          match f.normal with
          | some nrm => (List.range dim).map (fun i => nrm.getD i 0) ++ [f.offset]
          | none => [] := by
    intro fs
    induction fs with
    | nil => intro acc; simp
    | cons f fs ih =>
      intro acc
      rw [List.foldl_cons, ih, List.flatMap_cons]
      cases f.normal <;> simp
  simpa using h facets []

theorem planeOffsets_rawPlanes (dim : Nat) (facets : List (Facet K))
    (hall : ∀ f ∈ facets, ∃ nrm, f.normal = some nrm) :
    planeOffsets (dim + 1) (rawPlanes dim facets) = facets.map fun f => f.offset := by
  rw [rawPlanes_eq_flatMap]
  induction facets with
  | nil => simp [planeOffsets]
  | cons f fs ih =>
    obtain ⟨nrm, hnrm⟩ := hall f (List.mem_cons_self _ _)
    rw [List.flatMap_cons, hnrm]
    simp only
    rw [planeOffsets_append_block (dim + 1) (by omega) _ _ (by simp),
      ih (fun g hg => hall g (List.mem_cons_of_mem _ hg)), List.map_cons]
    congr 1
    simp only [Nat.add_sub_cancel, List.getD_eq_getElem?_getD]
    rw [List.getElem?_append_right (by simp)]
    simp

/-- A plane with a unit normal through a point `w` has an offset `b` with
`-b = n·w`, which is at most `M` when `|w|^2 ≤ M^2`. -/
theorem neg_offset_le_of_unit (n w : Nat → K) (d : Nat) (b M : K) (hM : 0 ≤ M)
    (hunit : ∑ j ∈ Finset.range d, n j * n j = 1)
    (hw : ∑ j ∈ Finset.range d, w j * w j ≤ M ^ 2)
    (hon : (∑ j ∈ Finset.range d, n j * w j) + b = 0) : -b ≤ M := by
  have hcs := Finset.sum_mul_sq_le_sq_mul_sq (Finset.range d) n w
  simp only [pow_two] at hcs hw
  rw [hunit, one_mul] at hcs
  have hb : -b = ∑ j ∈ Finset.range d, n j * w j := by linarith
  rw [hb]
  by_contra hlt
  push_neg at hlt
  nlinarith

/-- C2: for at least seven contacts whose wrenches have length at most
`1e30`, and a hull service that returns exit code 0, the volume `V` and a
non-empty list of facet planes `(n_i, b_i)` of the wrenches (unit normals,
each plane through a wrench), `_AnalyzeContacts3D` returns an analysis of
volume `V`; its `mindist` is `0` if some offset `b_i` is positive or below
`1e-15` in absolute value, and otherwise it is the minimum of the `-b_i` (a
lower bound of all of them that one of them attains); it is positive exactly
when every `b_i ≤ -1e-15`. -/
theorem C2_analyze_mindist (qhull : Nat → Nat → List K → QhullResult K)
    (contacts : List (CONTACT K)) (facets : List (Facet K)) (V : K)
    (hn : 7 ≤ contacts.length)
    (hq : qhull 6 contacts.length (wrenchPoints contacts) = ⟨0, facets, V⟩)
    (hne : facets ≠ [])
    (hfacet : ∀ f ∈ facets, IsFacetPlane 6 contacts.length (wrenchPoints contacts) f)
    (hbound : ∀ c ∈ contacts,
      c.norm.lengthsqr3 + (c.pos.cross c.norm).lengthsqr3 ≤ (10 ^ 30) ^ 2) :
    ∃ r, _AnalyzeContacts3D qhull contacts = .ok r ∧ r.volume = V ∧
      ((∃ f ∈ facets, 0 < f.offset ∨ |f.offset| < 1 / 10 ^ 15) → r.mindist = 0) ∧
      ((∀ f ∈ facets, ¬ (0 < f.offset ∨ |f.offset| < 1 / 10 ^ 15)) →
        (∀ f ∈ facets, r.mindist ≤ -f.offset) ∧ ∃ f ∈ facets, r.mindist = -f.offset) ∧
      (0 < r.mindist ↔ ∀ f ∈ facets, f.offset ≤ -(1 / 10 ^ 15)) := by
  have hhull : _ComputeConvexHull qhull (wrenchPoints contacts) false 6
      = .ok (V, flipPlanes 6 (vmeanOf 6 (wrenchPoints contacts)) (rawPlanes 6 facets), none) := by
    unfold _ComputeConvexHull
    simp only [wrenchPoints_length, Nat.mul_div_cancel_left _ (by norm_num : 0 < 6), hq]
    simp
  have hoffs : planeOffsets 7 (flipPlanes 6 (vmeanOf 6 (wrenchPoints contacts))
      (rawPlanes 6 facets)) = facets.map fun f => f.offset := by
    rw [planeOffsets_flipPlanes 6, planeOffsets_rawPlanes 6 facets]
    intro f hf
    obtain ⟨nrm, h, -⟩ := hfacet f hf
    exact ⟨nrm, h⟩
  have hcap : ∀ f ∈ facets, -f.offset ≤ 10 ^ 30 := by
    intro f hf
    obtain ⟨nrm, -, -, hunit, i, hi, hon⟩ := hfacet f hf
    refine neg_offset_le_of_unit (fun j => nrm.getD j 0)
      (fun j => (wrenchPoints contacts).getD (6 * i + j) 0) 6 f.offset (10 ^ 30)
      (by positivity) hunit ?_ hon
    have hb := hbound contacts[i] (List.getElem_mem _)
    simp only [Finset.sum_range_succ, Finset.sum_range_zero, zero_add]
    rw [← Nat.add_zero (6 * i), wrenchPoints_getD contacts i hi 0 (by norm_num),
      wrenchPoints_getD contacts i hi 1 (by norm_num),
      wrenchPoints_getD contacts i hi 2 (by norm_num),
      wrenchPoints_getD contacts i hi 3 (by norm_num),
      wrenchPoints_getD contacts i hi 4 (by norm_num),
      wrenchPoints_getD contacts i hi 5 (by norm_num)]
    simp only [wrenchBlock, List.getD_cons_zero, List.getD_cons_succ]
    simp only [Vec3.lengthsqr3] at hb
    linarith
  obtain ⟨r, hr, hV, h0, hmin, hpos⟩ :=
    analyzeContacts3D_offsets qhull contacts V _ none hn hhull
  rw [hoffs] at h0 hmin hpos
  refine ⟨r, hr, hV, ?_, ?_, ?_⟩
  · rintro ⟨f, hf, hbad⟩
    exact h0 ⟨f.offset, List.mem_map.mpr ⟨f, hf, rfl⟩, hbad⟩
  · intro hall
    obtain ⟨-, hle, hatt⟩ := hmin (by
      intro b hb
      obtain ⟨f, hf, rfl⟩ := List.mem_map.mp hb
      exact hall f hf)
    have hle2 : ∀ f ∈ facets, r.mindist ≤ -f.offset :=
      fun f hf => hle f.offset (List.mem_map.mpr ⟨f, hf, rfl⟩)
    refine ⟨hle2, ?_⟩
    rcases hatt with h30 | ⟨b, hb, hbe⟩
    · obtain ⟨f, hf⟩ := List.exists_mem_of_ne_nil facets hne
      exact ⟨f, hf, le_antisymm (hle2 f hf) (by rw [h30]; exact hcap f hf)⟩
    · obtain ⟨f, hf, rfl⟩ := List.mem_map.mp hb
      exact ⟨f, hf, hbe⟩
  · rw [hpos]
    constructor
    · intro h f hf
      exact h f.offset (List.mem_map.mpr ⟨f, hf, rfl⟩)
    · intro h b hb
      obtain ⟨f, hf, rfl⟩ := List.mem_map.mp hb
      exact h f hf

/-- Witness for C2: seven contacts with the wrench `(0,0,1,0,0,0)` and a
kernel that reports the facet plane `x₃ = 1` through it; the analysis
returns the distance 1. -/
theorem C2_analyze_mindist_witness :
    ∃ r, _AnalyzeContacts3D facetKernel exampleContacts = .ok r ∧ r.volume = 1 ∧
      r.mindist = 1 ∧ 0 < r.mindist := by
  obtain ⟨r, hr, hV, -, hmin, hpos⟩ :=
    C2_analyze_mindist facetKernel exampleContacts [⟨none, some [0, 0, 1, 0, 0, 0], -1⟩] 1
      (by simp [exampleContacts]) rfl (by simp)
      (by
        intro f hf
        rw [List.mem_singleton] at hf
        subst hf
        refine ⟨[0, 0, 1, 0, 0, 0], rfl, rfl, by simp [Finset.sum_range_succ], 0,
          by simp [exampleContacts], ?_⟩
        simp [Finset.sum_range_succ, wrenchPoints, exampleContacts, List.replicate, Vec3.cross])
      (by
        intro c hc
        simp only [exampleContacts, List.mem_replicate] at hc
        rw [hc.2]
        simp only [Vec3.lengthsqr3, Vec3.cross]
        norm_num)
  have hall : ∀ f ∈ [(⟨none, some [0, 0, 1, 0, 0, 0], -1⟩ : Facet ℚ)],
      ¬ (0 < f.offset ∨ |f.offset| < 1 / 10 ^ 15) := by
    intro f hf
    rw [List.mem_singleton] at hf
    subst hf
    simp only [abs_neg, abs_one]
    norm_num
  obtain ⟨-, f, hf, hfe⟩ := hmin hall
  rw [List.mem_singleton] at hf
  subst hf
  have h1 : r.mindist = 1 := by simpa using hfe
  exact ⟨r, hr, hV, h1, by rw [h1]; norm_num⟩

end Grasper
